import Mathlib

/-!
# Scene identity registry, loading state machine and frame update of Urho3D

A shallow embedding of `Engine/Scene/Scene.cpp`.  Objects live in an explicit heap
indexed by their address; the scene is a record of its member variables, the log
and the events it has sent.  Every member function is a function on that record.
-/

namespace Urho3D

/-! ## Containers -/

/-- Address of an object; `0` is the null pointer. -/
abbrev Ptr := Nat

/-- The container `HashMap<unsigned, T*>` as an association list, in insertion order. -/
abbrev HashMap := List (Nat × Ptr)

/-- The lookup `HashMap::Find`: `none` stands for the iterator `End()`. -/
def HashMap.Find : HashMap → Nat → Option Ptr
  | [], _ => none
  | (k, v) :: rest, key => if k = key then some v else HashMap.Find rest key

/-- The test `HashMap::Contains`. -/
def HashMap.Contains (m : HashMap) (key : Nat) : Bool :=
  (HashMap.Find m key).isSome

/-- The assignment `map[key] = value`: overwrite the entry of `key`, or append a new one. -/
def HashMap.Assign : HashMap → Nat → Ptr → HashMap
  | [], key, value => [(key, value)]
  | (k, v) :: rest, key, value =>
    if k = key then (k, value) :: rest else (k, v) :: HashMap.Assign rest key value

/-- The removal `HashMap::Erase(key)`. -/
def HashMap.Erase (m : HashMap) (key : Nat) : HashMap :=
  m.filter (fun e => decide (e.1 ≠ key))

/-- The container `HashSet<unsigned>` as a list without order significance. -/
abbrev HashSet := List Nat

/-- The insertion `HashSet::Insert`: a key already present is not added again. -/
def HashSet.Insert (s : HashSet) (key : Nat) : HashSet :=
  if key ∈ s then s else s ++ [key]

/-! ## Declarations of headers that are not among the sources -/

/-- The ID range constants of `Node.h`, and the ID a node carries after `ResetScene`
as a function of the ID it carried before. -/
structure NodeDecl where
  FIRST_REPLICATED_ID : Nat
  LAST_REPLICATED_ID : Nat
  FIRST_LOCAL_ID : Nat
  LAST_LOCAL_ID : Nat
  resetID : Nat → Nat

/-- The enumeration `CreateMode`. -/
inductive CreateMode where
  | REPLICATED
  | LOCAL
deriving DecidableEq, Repr

/-- A 32-bit float, kept as its bit pattern. -/
abbrev F32 := Nat

/-- The float operations used by `Scene.cpp`, left uninterpreted. -/
structure FloatOps where
  zero : F32
  one : F32
  two : F32
  neg : F32 → F32
  add : F32 → F32 → F32
  sub : F32 → F32 → F32
  mul : F32 → F32 → F32
  div : F32 → F32 → F32
  powf : F32 → F32 → F32
  Clamp : F32 → F32 → F32 → F32
  ofUnsigned : Nat → F32

/-! ## Objects -/

/-- The members of `Node` that the scene reads and writes. -/
structure Node where
  id_ : Nat
  scene_ : Ptr
deriving DecidableEq, Repr

/-- The members of `Component` (`Component.h`) that the scene reads and writes. -/
structure Component where
  node_ : Ptr
  id_ : Nat
deriving DecidableEq, Repr

/-- A component as it is serialised: its type tag and its attribute blob. -/
structure ComponentData where
  type : Nat
  attributes : List Nat
deriving DecidableEq, Repr

/-- The types of attribute values that the model of the stream distinguishes: 32-bit
values (integers, floats as bit patterns) and byte buffers (strings, buffers). -/
inductive VariantType where
  | VAR_INT
  | VAR_BUFFER
deriving DecidableEq, Repr

/-- An attribute value. -/
inductive Variant where
  | int (value : Nat)
  | buffer (bytes : List Nat)
deriving DecidableEq, Repr

/-- The type of an attribute value. -/
def Variant.type : Variant → VariantType
  | Variant.int _ => VariantType.VAR_INT
  | Variant.buffer _ => VariantType.VAR_BUFFER

/-- A node with the subtree it owns: ID, name, transform (position, rotation and
scale as ten 32-bit words), attribute set, owned components and owned children. -/
inductive NodeData where
  | mk (id : Nat) (name : List Nat) (transform : List Nat) (attributes : List Variant)
      (components : List ComponentData) (children : List NodeData)

/-- A stream that is read (`Deserializer`, `File`): name, checksum and the bytes not yet read. -/
structure Deserializer where
  name_ : String
  checksum_ : Nat
  data : List Nat
deriving DecidableEq, Repr

/-- A file opened for reading. -/
abbrev File := Deserializer

/-- An element of a structured-text document: name, integer attributes, child elements. -/
inductive XMLNode where
  | mk (name : String) (attrs : List (String × Int)) (children : List XMLNode)

/-- A handle `XMLElement`: the element pointed at followed by its later siblings;
the empty list is the null element `XMLElement::EMPTY`. -/
abbrev XMLElement := List XMLNode

/-- A parsed document `XMLFile`, given by its root element. -/
abbrev XMLFile := XMLNode

/-- The table of `SceneResolver`: old serialised ID to live object, for nodes and components. -/
structure SceneResolver where
  nodes_ : HashMap
  components_ : HashMap
deriving DecidableEq, Repr

/-- The record `AsyncProgress` of `Scene`. -/
structure AsyncProgress where
  file_ : Option File
  xmlFile_ : Option XMLFile
  xmlElement_ : XMLElement
  loadedNodes_ : Nat
  totalNodes_ : Nat

/-- Logging levels of `Log.h`. -/
def LOG_INFO : Nat := 1

/-- Level of a warning in `Log.h`. -/
def LOG_WARNING : Nat := 2

/-- Level of an error in `Log.h`. -/
def LOG_ERROR : Nat := 3

/-- The events `Scene.cpp` sends, with their parameters. -/
inductive Event where
  | E_SCENEUPDATE (scene : Ptr) (timeStep : F32)
  | E_SCENESUBSYSTEMUPDATE (scene : Ptr) (timeStep : F32)
  | E_UPDATESMOOTHING (constant : F32) (squaredSnapThreshold : F32)
  | E_SCENEPOSTUPDATE (scene : Ptr) (timeStep : F32)
  | E_ASYNCLOADPROGRESS (scene : Ptr) (progress : F32) (loadedNodes : Nat) (totalNodes : Nat)
  | E_ASYNCLOADFINISHED (scene : Ptr)
deriving DecidableEq, Repr

/-- An event as a subscriber receives it: the event and the elapsed time of the scene
at the moment of sending. -/
structure SentEvent where
  event : Event
  elapsedTime : F32
deriving DecidableEq, Repr

/-- A call of `Node::PrepareNetworkUpdate` or of `Component::PrepareNetworkUpdate`, with the
object it is made on. -/
inductive PrepareCall where
  | Node (node : Ptr)
  | Component (component : Ptr)
deriving DecidableEq, Repr

/-- The state of a `Scene`: the heap of nodes and components, the member variables,
the log written and the events sent so far.  Two more lists record calls made on other
objects: `markedDirty` the calls of `OnMarkedDirty`, each with the component and the node
passed, and `prepared` the calls of `PrepareNetworkUpdate` on nodes and components. -/
structure Scene where
  self : Ptr
  nodeHeap : Ptr → Node
  componentHeap : Ptr → Component
  graph : NodeData
  replicatedNodes_ : HashMap
  localNodes_ : HashMap
  replicatedComponents_ : HashMap
  localComponents_ : HashMap
  replicatedNodeID_ : Nat
  replicatedComponentID_ : Nat
  localNodeID_ : Nat
  localComponentID_ : Nat
  resolver_ : SceneResolver
  fileName_ : String
  checksum_ : Nat
  timeScale_ : F32
  elapsedTime_ : F32
  smoothingConstant_ : F32
  snapThreshold_ : F32
  active_ : Bool
  asyncLoading_ : Bool
  threadedUpdate_ : Bool
  asyncProgress_ : AsyncProgress
  networkUpdateNodes_ : HashSet
  networkUpdateComponents_ : HashSet
  networkState_ : Option (List HashSet)
  delayedDirtyComponents_ : List Ptr
  markedDirty : List (Ptr × Ptr)
  prepared : List PrepareCall
  log : List (Nat × String)
  events : List SentEvent

/-! ## Setters of `Node` and `Component` -/

/-- The setter `Node::SetID`. -/
def Node.SetID (s : Scene) (node : Ptr) (id : Nat) : Scene :=
  { s with nodeHeap := Function.update s.nodeHeap node { (s.nodeHeap node) with id_ := id } }

/-- The setter `Node::SetScene`. -/
def Node.SetScene (s : Scene) (node : Ptr) (scene : Ptr) : Scene :=
  { s with nodeHeap := Function.update s.nodeHeap node { (s.nodeHeap node) with scene_ := scene } }

/-- Modelled from the spec: `Node::ResetScene` (`Node.cpp` is not among the sources).  The
earlier object has its scene-membership forcibly cleared; what becomes of its ID is not
said and is taken from `NodeDecl.resetID`. -/
def Node.ResetScene (d : NodeDecl) (s : Scene) (node : Ptr) : Scene :=
  { s with
    nodeHeap := Function.update s.nodeHeap node
      { id_ := d.resetID (s.nodeHeap node).id_, scene_ := 0 } }

/-- The setter `Component::SetID`. -/
def Component.SetID (s : Scene) (component : Ptr) (id : Nat) : Scene :=
  { s with
    componentHeap :=
      Function.update s.componentHeap component { (s.componentHeap component) with id_ := id } }

/-- The call `WriteToLog(context_, level, message)`. -/
def WriteToLog (s : Scene) (level : Nat) (message : String) : Scene :=
  { s with log := s.log ++ [(level, message)] }

/-- The call `SendEvent(eventType, eventData)`. -/
def SendEvent (s : Scene) (e : Event) : Scene :=
  { s with events := s.events ++ [{ event := e, elapsedTime := s.elapsedTime_ }] }

/-! ## Identity registry -/

/-- The lookup `Scene::GetNode`; the null pointer when the ID is not registered. -/
def Scene.GetNode (d : NodeDecl) (s : Scene) (id : Nat) : Ptr :=
  if id < d.FIRST_LOCAL_ID then
    match HashMap.Find s.replicatedNodes_ id with
    | some p => p
    | none => 0
  else
    match HashMap.Find s.localNodes_ id with
    | some p => p
    | none => 0

/-- The lookup `Scene::GetComponent`; the null pointer when the ID is not registered. -/
def Scene.GetComponent (d : NodeDecl) (s : Scene) (id : Nat) : Ptr :=
  if id < d.FIRST_LOCAL_ID then
    match HashMap.Find s.replicatedComponents_ id with
    | some p => p
    | none => 0
  else
    match HashMap.Find s.localComponents_ id with
    | some p => p
    | none => 0

/-- One of the four search loops of `GetFreeNodeID` and `GetFreeComponentID`, which differ
in the map, the cursor and the bounds only.  `fuel` bounds the number of times the cursor
is advanced; `none` means the loop has not returned within that bound.  The cursor is a
32-bit unsigned. -/
def freeIDLoop (first last : Nat) (map : HashMap) : Nat → Nat → Option Nat
  | fuel, cursor =>
    if !HashMap.Contains map cursor then some cursor
    else match fuel with
      | 0 => none
      | fuel + 1 =>
        freeIDLoop first last map fuel (if cursor ≠ last then (cursor + 1) % 2 ^ 32 else first)

/-- The allocator `Scene::GetFreeNodeID`: the returned ID and the scene with its cursor moved. -/
def Scene.GetFreeNodeID (d : NodeDecl) (fuel : Nat) (s : Scene) (mode : CreateMode) :
    Option (Nat × Scene) :=
  if mode = CreateMode.REPLICATED then
    (freeIDLoop d.FIRST_REPLICATED_ID d.LAST_REPLICATED_ID s.replicatedNodes_ fuel
      s.replicatedNodeID_).map (fun id => (id, { s with replicatedNodeID_ := id }))
  else
    (freeIDLoop d.FIRST_LOCAL_ID d.LAST_LOCAL_ID s.localNodes_ fuel
      s.localNodeID_).map (fun id => (id, { s with localNodeID_ := id }))

/-- The allocator `Scene::GetFreeComponentID`. -/
def Scene.GetFreeComponentID (d : NodeDecl) (fuel : Nat) (s : Scene) (mode : CreateMode) :
    Option (Nat × Scene) :=
  if mode = CreateMode.REPLICATED then
    (freeIDLoop d.FIRST_REPLICATED_ID d.LAST_REPLICATED_ID s.replicatedComponents_ fuel
      s.replicatedComponentID_).map (fun id => (id, { s with replicatedComponentID_ := id }))
  else
    (freeIDLoop d.FIRST_LOCAL_ID d.LAST_LOCAL_ID s.localComponents_ fuel
      s.localComponentID_).map (fun id => (id, { s with localComponentID_ := id }))

/-- The member `Scene::MarkNetworkUpdate(Node*)`. -/
def Scene.MarkNetworkUpdate (s : Scene) (node : Ptr) : Scene :=
  { s with
    networkUpdateNodes_ :=
      if node ≠ 0 then HashSet.Insert s.networkUpdateNodes_ (s.nodeHeap node).id_
      else s.networkUpdateNodes_ }

/-- The member `Scene::MarkNetworkUpdate(Component*)`. -/
def Scene.MarkNetworkUpdateComponent (s : Scene) (component : Ptr) : Scene :=
  { s with
    networkUpdateComponents_ :=
      if component ≠ 0 then
        HashSet.Insert s.networkUpdateComponents_ (s.componentHeap component).id_
      else s.networkUpdateComponents_ }

/-- The member `Scene::MarkReplicationDirty`: `networkState_` is null (`none`) or holds, for
each replication state tracking the scene, the `dirtyNodes_` set of its scene state; the
ID is inserted into each of them when it is below `FIRST_LOCAL_ID`. -/
def Scene.MarkReplicationDirty (d : NodeDecl) (s : Scene) (node : Ptr) : Scene :=
  let id := (s.nodeHeap node).id_
  { s with
    networkState_ :=
      match s.networkState_ with
      | some states =>
        if id < d.FIRST_LOCAL_ID then
          some (states.map (fun dirtyNodes => HashSet.Insert dirtyNodes id))
        else some states
      | none => none }

/-- The text `String(id)` of an unsigned integer. -/
def String.ofUnsigned (id : Nat) : String := toString id

/-- The hook `Scene::NodeAdded`. -/
def Scene.NodeAdded (d : NodeDecl) (s : Scene) (node : Ptr) : Scene :=
  if node = 0 ∨ (s.nodeHeap node).scene_ ≠ 0 then s
  else
    let s := Node.SetScene s node s.self
    let id := (s.nodeHeap node).id_
    if id < d.FIRST_LOCAL_ID then
      let s := match HashMap.Find s.replicatedNodes_ id with
        | some other =>
          if other ≠ node then
            Node.ResetScene d
              (WriteToLog s LOG_WARNING ("Overwriting node with ID " ++ String.ofUnsigned id)) other
          else s
        | none => s
      let s := { s with replicatedNodes_ := HashMap.Assign s.replicatedNodes_ id node }
      let s := Scene.MarkNetworkUpdate s node
      Scene.MarkReplicationDirty d s node
    else
      let s := match HashMap.Find s.localNodes_ id with
        | some other =>
          if other ≠ node then
            Node.ResetScene d
              (WriteToLog s LOG_WARNING ("Overwriting node with ID " ++ String.ofUnsigned id)) other
          else s
        | none => s
      { s with localNodes_ := HashMap.Assign s.localNodes_ id node }

/-- The hook `Scene::NodeRemoved`. -/
def Scene.NodeRemoved (d : NodeDecl) (s : Scene) (node : Ptr) : Scene :=
  if node = 0 ∨ (s.nodeHeap node).scene_ ≠ s.self then s
  else
    let id := (s.nodeHeap node).id_
    let s :=
      if id < d.FIRST_LOCAL_ID then
        Scene.MarkReplicationDirty d
          { s with replicatedNodes_ := HashMap.Erase s.replicatedNodes_ id } node
      else
        { s with localNodes_ := HashMap.Erase s.localNodes_ id }
    let s := Node.SetID s node 0
    Node.SetScene s node 0

/-- The hook `Scene::ComponentAdded`. -/
def Scene.ComponentAdded (d : NodeDecl) (s : Scene) (component : Ptr) : Scene :=
  if component = 0 then s
  else
    let id := (s.componentHeap component).id_
    if id < d.FIRST_LOCAL_ID then
      let s := match HashMap.Find s.replicatedComponents_ id with
        | some other =>
          if other ≠ component then
            Component.SetID
              (WriteToLog s LOG_WARNING ("Overwriting component with ID " ++ String.ofUnsigned id))
              other 0
          else s
        | none => s
      { s with replicatedComponents_ := HashMap.Assign s.replicatedComponents_ id component }
    else
      let s := match HashMap.Find s.localComponents_ id with
        | some other =>
          if other ≠ component then
            Component.SetID
              (WriteToLog s LOG_WARNING ("Overwriting component with ID " ++ String.ofUnsigned id))
              other 0
          else s
        | none => s
      { s with localComponents_ := HashMap.Assign s.localComponents_ id component }

/-- The hook `Scene::ComponentRemoved`. -/
def Scene.ComponentRemoved (d : NodeDecl) (s : Scene) (component : Ptr) : Scene :=
  if component = 0 then s
  else
    let id := (s.componentHeap component).id_
    let s :=
      if id < d.FIRST_LOCAL_ID then
        { s with replicatedComponents_ := HashMap.Erase s.replicatedComponents_ id }
      else
        { s with localComponents_ := HashMap.Erase s.localComponents_ id }
    Component.SetID s component 0

/-- The float constants of the constructor: `1.0f`, `50.0f` (`DEFAULT_SMOOTHING_CONSTANT`)
and `5.0f` (`DEFAULT_SNAP_THRESHOLD`) as bit patterns. -/
def FLOAT_ONE : F32 := 0x3F800000

/-- The constant `DEFAULT_SMOOTHING_CONSTANT`. -/
def DEFAULT_SMOOTHING_CONSTANT : F32 := 0x42480000

/-- The constant `DEFAULT_SNAP_THRESHOLD`. -/
def DEFAULT_SNAP_THRESHOLD : F32 := 0x40A00000

/-- The node a `Node` constructor leaves behind: no ID, no scene. -/
def Node.constructed : Node := { id_ := 0, scene_ := 0 }

/-- The subtree of a newly constructed node: nothing owned, identity transform. -/
def NodeData.constructed : NodeData :=
  NodeData.mk 0 [] [0, 0, 0, FLOAT_ONE, 0, 0, 0, FLOAT_ONE, FLOAT_ONE, FLOAT_ONE] [] [] []

/-- The member initialisers of `Scene::Scene`, for the scene object at address `self`
in a heap where that object has just been constructed as a `Node`. -/
def Scene.initialised (d : NodeDecl) (self : Ptr) (nodeHeap : Ptr → Node)
    (componentHeap : Ptr → Component) : Scene :=
  { self := self
    nodeHeap := Function.update nodeHeap self Node.constructed
    componentHeap := componentHeap
    graph := NodeData.constructed
    replicatedNodes_ := []
    localNodes_ := []
    replicatedComponents_ := []
    localComponents_ := []
    replicatedNodeID_ := d.FIRST_REPLICATED_ID
    replicatedComponentID_ := d.FIRST_REPLICATED_ID
    localNodeID_ := d.FIRST_LOCAL_ID
    localComponentID_ := d.FIRST_LOCAL_ID
    resolver_ := { nodes_ := [], components_ := [] }
    fileName_ := ""
    checksum_ := 0
    timeScale_ := FLOAT_ONE
    elapsedTime_ := 0
    smoothingConstant_ := DEFAULT_SMOOTHING_CONSTANT
    snapThreshold_ := DEFAULT_SNAP_THRESHOLD
    active_ := true
    asyncLoading_ := false
    threadedUpdate_ := false
    asyncProgress_ :=
      { file_ := none, xmlFile_ := none, xmlElement_ := [], loadedNodes_ := 0, totalNodes_ := 0 }
    networkUpdateNodes_ := []
    networkUpdateComponents_ := []
    networkState_ := none
    delayedDirtyComponents_ := []
    markedDirty := []
    prepared := []
    log := []
    events := [] }

/-- The constructor `Scene::Scene`: after the initialisers the scene takes a free
replicated ID for itself and registers itself with `NodeAdded`. -/
def Scene.construct (d : NodeDecl) (fuel : Nat) (self : Ptr) (nodeHeap : Ptr → Node)
    (componentHeap : Ptr → Component) : Option Scene :=
  match Scene.GetFreeNodeID d fuel (Scene.initialised d self nodeHeap componentHeap)
      CreateMode.REPLICATED with
  | some (id, s) => some (Scene.NodeAdded d (Node.SetID s self id) self)
  | none => none

/-- A call of one of the two node hooks of the registry. -/
inductive RegistryCall where
  | NodeAdded (node : Ptr)
  | NodeRemoved (node : Ptr)
deriving DecidableEq, Repr

/-- The scene after a sequence of `NodeAdded` and `NodeRemoved` calls. -/
def Scene.applyCalls (d : NodeDecl) : Scene → List RegistryCall → Scene
  | s, [] => s
  | s, RegistryCall.NodeAdded node :: rest => Scene.applyCalls d (Scene.NodeAdded d s node) rest
  | s, RegistryCall.NodeRemoved node :: rest => Scene.applyCalls d (Scene.NodeRemoved d s node) rest

/-! ## Streams and documents -/

/-- A stream that is written (`Serializer`): the name when the stream is also a
`Deserializer` (a `File`), the bytes written so far and the number of bytes that can
still be written. -/
structure Serializer where
  name_ : Option String
  data : List Nat
  space : Nat
deriving DecidableEq, Repr

/-- Modelled from the spec: `Serializer::Write` (`Serializer.h` is not among the sources).
The bytes are appended when they fit; otherwise nothing is written and the write fails. -/
def Serializer.Write (dest : Serializer) (bytes : List Nat) : Bool × Serializer :=
  if bytes.length ≤ dest.space then
    (true, { dest with data := dest.data ++ bytes, space := dest.space - bytes.length })
  else (false, dest)

/-- The four bytes of a format tag: the first four characters, padded with blanks. -/
def fileIDBytes (value : String) : List Nat :=
  ((value.toList.map (fun (c : Char) => c.toNat % 256)) ++ [32, 32, 32, 32]).take 4

/-- Modelled from the spec: `Serializer::WriteFileID`, which writes the 4-byte format tag. -/
def Serializer.WriteFileID (dest : Serializer) (value : String) : Bool × Serializer :=
  Serializer.Write dest (fileIDBytes value)

/-- Modelled from the spec: `Deserializer::ReadFileID` (`Deserializer.h` is not among the
sources), which reads the 4-byte format tag; a stream that ends early yields a shorter tag. -/
def Deserializer.ReadFileID (source : Deserializer) : String × Deserializer :=
  (String.mk ((source.data.take 4).map Char.ofNat), { source with data := source.data.drop 4 })

/-- The byte at an index of a stream, 0 past its end. -/
def byteAt (data : List Nat) (i : Nat) : Nat := (data.getD i 0) % 256

/-- Modelled from the spec: `Deserializer::ReadUInt`, a 32-bit unsigned in little-endian order. -/
def Deserializer.ReadUInt (source : Deserializer) : Nat × Deserializer :=
  (byteAt source.data 0 + 256 * byteAt source.data 1 + 65536 * byteAt source.data 2
      + 16777216 * byteAt source.data 3,
    { source with data := source.data.drop 4 })

/-- The loop of `ReadVLE`: seven bits a byte, lowest group first, the high bit of a byte
announcing another byte. -/
def readVLELoop : List Nat → Nat × List Nat
  | [] => (0, [])
  | b :: rest =>
    if b % 256 < 128 then (b % 256, rest)
    else ((b % 128) + 128 * (readVLELoop rest).1, (readVLELoop rest).2)

/-- Modelled from the spec: `Deserializer::ReadVLE`, a variable-length-encoded count, kept
to 32 bits. -/
def Deserializer.ReadVLE (source : Deserializer) : Nat × Deserializer :=
  ((readVLELoop source.data).1 % 2 ^ 32, { source with data := (readVLELoop source.data).2 })

/-- The name of an element. -/
def XMLNode.name : XMLNode → String
  | XMLNode.mk name _ _ => name

/-- The integer attributes of an element. -/
def XMLNode.attrs : XMLNode → List (String × Int)
  | XMLNode.mk _ attrs _ => attrs

/-- The child elements of an element. -/
def XMLNode.children : XMLNode → List XMLNode
  | XMLNode.mk _ _ children => children

/-- Modelled from the spec: `XMLElement::GetChild(name)` (`XMLElement.h` is not among the
sources): the first child element of that name, or the null element. -/
def XMLElement.GetChild (e : XMLElement) (name : String) : XMLElement :=
  match e with
  | [] => []
  | n :: _ => n.children.dropWhile (fun (c : XMLNode) => decide (c.name ≠ name))

/-- Modelled from the spec: `XMLElement::GetNext(name)`: the next sibling of that name. -/
def XMLElement.GetNext (e : XMLElement) (name : String) : XMLElement :=
  match e with
  | [] => []
  | _ :: rest => rest.dropWhile (fun (c : XMLNode) => decide (c.name ≠ name))

/-- The value of an integer attribute in an attribute list, 0 when it is absent. -/
def lookupInt : List (String × Int) → String → Int
  | [], _ => 0
  | (k, v) :: rest, name => if k = name then v else lookupInt rest name

/-- Modelled from the spec: `XMLElement::GetInt(name)`. -/
def XMLElement.GetInt (e : XMLElement) (name : String) : Int :=
  match e with
  | [] => 0
  | n :: _ => lookupInt n.attrs name

/-- Conversion of an `int` to `unsigned`. -/
def toUnsigned (v : Int) : Nat := (v % 2 ^ 32).toNat

/-- Modelled from the spec: `SceneResolver::Reset`, which empties the table. -/
def SceneResolver.Reset (_r : SceneResolver) : SceneResolver :=
  { nodes_ := [], components_ := [] }

/-- Modelled from the spec: `SceneResolver::AddNode`, which maps an old ID to a live node. -/
def SceneResolver.AddNode (r : SceneResolver) (oldID : Nat) (node : Ptr) : SceneResolver :=
  { r with nodes_ := HashMap.Assign r.nodes_ oldID node }

/-! ## The binary form of a node -/

/-- The four bytes of a 32-bit unsigned, lowest first. -/
def encUInt (v : Nat) : List Nat :=
  [v % 256, v / 256 % 256, v / 65536 % 256, v / 16777216 % 256]

/-- Reading a 32-bit unsigned; `none` when the stream ends early. -/
def decUInt : List Nat → Option (Nat × List Nat)
  | b0 :: b1 :: b2 :: b3 :: rest => some (b0 + 256 * b1 + 65536 * b2 + 16777216 * b3, rest)
  | _ => none

/-- A variable-length-encoded count: seven bits a byte, lowest group first, the high bit
announcing another byte. -/
def encVLE (n : Nat) : List Nat :=
  if n < 128 then [n] else (n % 128 + 128) :: encVLE (n / 128)
termination_by n
decreasing_by omega

/-- Reading a variable-length-encoded count. -/
def decVLE : List Nat → Option (Nat × List Nat)
  | [] => none
  | b :: rest =>
    if b < 128 then some (b, rest)
    else match decVLE rest with
      | some (v, rest1) => some (b % 128 + 128 * v, rest1)
      | none => none

/-- A name, terminated by a zero byte. -/
def encString (name : List Nat) : List Nat := name ++ [0]

/-- Reading a zero-terminated name. -/
def decString : List Nat → Option (List Nat × List Nat)
  | [] => none
  | b :: rest =>
    if b = 0 then some ([], rest)
    else match decString rest with
      | some (name, rest1) => some (b :: name, rest1)
      | none => none

/-- A length-prefixed blob. -/
def encBuffer (bytes : List Nat) : List Nat := encVLE bytes.length ++ bytes

/-- Reading a length-prefixed blob. -/
def decBuffer (data : List Nat) : Option (List Nat × List Nat) :=
  match decVLE data with
  | some (n, rest) => if n ≤ rest.length then some (rest.take n, rest.drop n) else none
  | none => none

/-- An attribute value in the stream. -/
def encVariant : Variant → List Nat
  | Variant.int v => encUInt v
  | Variant.buffer b => encBuffer b

/-- Reading an attribute value of the type the schema gives. -/
def decVariant : VariantType → List Nat → Option (Variant × List Nat)
  | VariantType.VAR_INT, data =>
    match decUInt data with
    | some (v, rest) => some (Variant.int v, rest)
    | none => none
  | VariantType.VAR_BUFFER, data =>
    match decBuffer data with
    | some (b, rest) => some (Variant.buffer b, rest)
    | none => none

/-- The items of a list in the stream, one after the other. -/
def encList {α : Type} (enc : α → List Nat) : List α → List Nat
  | [] => []
  | x :: xs => enc x ++ encList enc xs

/-- Reading a given number of items. -/
def decList {α : Type} (dec : List Nat → Option (α × List Nat)) :
    Nat → List Nat → Option (List α × List Nat)
  | 0, data => some ([], data)
  | n + 1, data =>
    match dec data with
    | none => none
    | some (x, rest) =>
      match decList dec n rest with
      | none => none
      | some (xs, rest1) => some (x :: xs, rest1)

/-- Reading an attribute set, driven by the schema. -/
def decAttributes : List VariantType → List Nat → Option (List Variant × List Nat)
  | [], data => some ([], data)
  | ty :: schema, data =>
    match decVariant ty data with
    | none => none
    | some (v, rest) =>
      match decAttributes schema rest with
      | none => none
      | some (vs, rest1) => some (v :: vs, rest1)

/-- A component in the stream: type tag and attribute blob, length-prefixed. -/
def encComponent (c : ComponentData) : List Nat :=
  encBuffer (encUInt c.type ++ c.attributes)

/-- Reading a component. -/
def decComponent (data : List Nat) : Option (ComponentData × List Nat) :=
  match decBuffer data with
  | none => none
  | some (body, rest) =>
    match decUInt body with
    | none => none
    | some (type, attributes) => some ({ type := type, attributes := attributes }, rest)

mutual
/-- Modelled from the spec: the bytes `Node::Save` writes (`Node.cpp` is not among the
sources): ID, name, transform, attribute set, then the owned components, each one a
length-prefixed type tag and attribute blob, then recursively the owned children. -/
def encNode : NodeData → List Nat
  | NodeData.mk id name transform attributes components children =>
    encUInt id ++ encString name ++ encList encUInt transform ++ encList encVariant attributes
      ++ encVLE components.length ++ encList encComponent components
      ++ encVLE children.length ++ encNodes children
/-- The bytes of a list of nodes. -/
def encNodes : List NodeData → List Nat
  | [] => []
  | n :: rest => encNode n ++ encNodes rest
end

/-- Modelled from the spec: what `Node::Load` reads, in the order `Node::Save` writes it;
`none` when the stream ends early.  `fuel` bounds the nesting depth of the nodes read. -/
def decNode (schema : List VariantType) : Nat → List Nat → Option (NodeData × List Nat)
  | 0, _ => none
  | fuel + 1, data =>
    match decUInt data with
    | none => none
    | some (id, data) =>
    match decString data with
    | none => none
    | some (name, data) =>
    match decList decUInt 10 data with
    | none => none
    | some (transform, data) =>
    match decAttributes schema data with
    | none => none
    | some (attributes, data) =>
    match decVLE data with
    | none => none
    | some (numComponents, data) =>
    match decList decComponent numComponents data with
    | none => none
    | some (components, data) =>
    match decVLE data with
    | none => none
    | some (numChildren, data) =>
    match decList (decNode schema fuel) numChildren data with
    | none => none
    | some (children, data) =>
      some (NodeData.mk id name transform attributes components children, data)

mutual
/-- The nesting depth of a node. -/
def NodeData.depth : NodeData → Nat
  | NodeData.mk _ _ _ _ _ children => NodeData.depths children + 1
/-- The largest nesting depth in a list of nodes. -/
def NodeData.depths : List NodeData → Nat
  | [] => 0
  | n :: rest => max (NodeData.depth n) (NodeData.depths rest)
end

/-- An attribute value fits its machine type. -/
def Variant.WF : Variant → Prop
  | Variant.int v => v < 2 ^ 32
  | Variant.buffer _ => True

mutual
/-- A graph as the program can hold it: IDs, transform words, 32-bit attribute values and
type tags fit 32 bits, a name holds no zero byte, the transform has ten words and the
attribute set has the types of the schema. -/
def NodeData.WF (schema : List VariantType) : NodeData → Prop
  | NodeData.mk id name transform attributes components children =>
    id < 2 ^ 32 ∧ (∀ b ∈ name, b ≠ 0) ∧ transform.length = 10 ∧ (∀ w ∈ transform, w < 2 ^ 32) ∧
    attributes.map Variant.type = schema ∧ (∀ v ∈ attributes, v.WF) ∧
    (∀ c ∈ components, c.type < 2 ^ 32) ∧ NodeData.WFs schema children
/-- Every node of a list is well formed. -/
def NodeData.WFs (schema : List VariantType) : List NodeData → Prop
  | [] => True
  | n :: rest => NodeData.WF schema n ∧ NodeData.WFs schema rest
end

/-- What the model of the node stream leaves open: the attribute schema of a node, and the
graph a load that fails leaves behind, given the graph before and the bytes offered. -/
structure NodeCodec where
  schema : List VariantType
  failedGraph : NodeData → List Nat → NodeData

/-! ## Collaborators -/

/-- The members of `Node`, `SceneResolver` and `XMLFile` that `Scene.cpp` calls and whose code
is not among the sources, as functions on the state of the scene.
`Load` is `Node::Load(Deserializer&)`, `LoadXML` is `Node::LoadXML(const XMLElement&)`,
`Save` is `Node::Save(Serializer&)`, `LoadRoot` is `Node::Load(source, resolver, false)` on
the scene, `LoadXMLRoot` its XML counterpart, `ChildLoad` and `ChildLoadXML` are
`Node::Load(source, resolver)` and `Node::LoadXML(source, resolver)` on a child,
`Resolve` is `SceneResolver::Resolve` on `resolver_` and `xmlLoad` is `XMLFile::Load`. -/
structure NodeOps where
  Load : Deserializer → Scene → Bool × Deserializer × Scene
  LoadXML : XMLElement → Scene → Bool × Scene
  Save : Serializer → Scene → Bool × Serializer × Scene
  LoadRoot : Deserializer → Scene → Bool × Deserializer × Scene
  LoadXMLRoot : XMLElement → Scene → Bool × Scene
  CreateChild : Nat → CreateMode → Scene → Ptr × Scene
  ChildLoad : Ptr → Deserializer → Scene → Bool × Deserializer × Scene
  ChildLoadXML : Ptr → XMLElement → Scene → Bool × Scene
  RemoveAllChildren : Scene → Scene
  RemoveAllComponents : Scene → Scene
  ApplyAttributes : Scene → Scene
  Resolve : Scene → Scene
  xmlLoad : Deserializer → Option (XMLFile × Deserializer)

/-- Every collaborator called during an asynchronous update leaves the observation `f` of
the scene as it found it. -/
def NodeOps.AsyncKeeps {α : Type} (ops : NodeOps) (f : Scene → α) : Prop :=
  (∀ id mode s, f (ops.CreateChild id mode s).2 = f s) ∧
  (∀ node file s, f (ops.ChildLoad node file s).2.2 = f s) ∧
  (∀ node e s, f (ops.ChildLoadXML node e s).2 = f s) ∧
  (∀ s, f (ops.Resolve s) = f s) ∧
  (∀ s, f (ops.ApplyAttributes s) = f s)

/-- Modelled from the spec: `Node::Save(Serializer&)` on the scene (`Node.cpp` is not among
the sources) writes the bytes of the graph the scene owns. -/
def Node.Save (dest : Serializer) (s : Scene) : Bool × Serializer × Scene :=
  ((Serializer.Write dest (encNode s.graph)).1, (Serializer.Write dest (encNode s.graph)).2, s)

/-- Modelled from the spec: `Node::Load(Deserializer&)` on the scene replaces the graph the
scene owns by the one read from the source; a stream that ends early makes it fail.  The
registration of the nodes read with the identity registry is not part of this model. -/
def Node.Load (codec : NodeCodec) (source : Deserializer) (s : Scene) :
    Bool × Deserializer × Scene :=
  match decNode codec.schema source.data.length source.data with
  | some (graph, rest) => (true, { source with data := rest }, { s with graph := graph })
  | none => (false, source, { s with graph := codec.failedGraph s.graph source.data })

/-! ## Loading and saving -/

/-- The member `Scene::StopAsyncLoading`. -/
def Scene.StopAsyncLoading (s : Scene) : Scene :=
  { s with
    asyncLoading_ := false
    asyncProgress_ := { s.asyncProgress_ with file_ := none, xmlFile_ := none, xmlElement_ := [] }
    resolver_ := SceneResolver.Reset s.resolver_ }

/-- The member `Scene::FinishLoading`; `none` is the null source. -/
def Scene.FinishLoading (s : Scene) (source : Option Deserializer) : Scene :=
  match source with
  | some src => { s with fileName_ := src.name_, checksum_ := src.checksum_ }
  | none => s

/-- The member `Scene::Clear`. -/
def Scene.Clear (d : NodeDecl) (ops : NodeOps) (s : Scene) : Scene :=
  let s := Scene.StopAsyncLoading s
  let s := ops.RemoveAllChildren s
  let s := ops.RemoveAllComponents s
  { s with
    fileName_ := ""
    checksum_ := 0
    replicatedNodeID_ := d.FIRST_REPLICATED_ID
    replicatedComponentID_ := d.FIRST_REPLICATED_ID
    localNodeID_ := d.FIRST_LOCAL_ID
    localComponentID_ := d.FIRST_LOCAL_ID }

/-- The member `Scene::Load(Deserializer&)`: the returned flag and the scene afterwards. -/
def Scene.Load (ops : NodeOps) (s : Scene) (source : Deserializer) : Bool × Scene :=
  let s := Scene.StopAsyncLoading s
  let (fileID, source) := Deserializer.ReadFileID source
  if fileID ≠ "USCN" then
    (false, WriteToLog s LOG_ERROR (source.name_ ++ " is not a valid scene file"))
  else
    let s := WriteToLog s LOG_INFO ("Loading scene from " ++ source.name_)
    match ops.Load source s with
    | (true, source, s) => (true, Scene.FinishLoading s (some source))
    | (false, _, s) => (false, s)

/-- The member `Scene::Save(Serializer&)`. -/
def Scene.Save (ops : NodeOps) (s : Scene) (dest : Serializer) : Bool × Serializer × Scene :=
  match Serializer.WriteFileID dest "USCN" with
  | (false, dest) =>
    (false, dest, WriteToLog s LOG_ERROR "Could not save scene, writing to stream failed")
  | (true, dest) =>
    let s := match dest.name_ with
      | some name => WriteToLog s LOG_INFO ("Saving scene to " ++ name)
      | none => s
    ops.Save dest s

/-- The member `Scene::LoadXML(const XMLElement&)`. -/
def Scene.LoadXMLElement (ops : NodeOps) (s : Scene) (source : XMLElement) : Bool × Scene :=
  let s := Scene.StopAsyncLoading s
  match ops.LoadXML source s with
  | (true, s) => (true, Scene.FinishLoading s none)
  | (false, s) => (false, s)

/-- The member `Scene::LoadXML(Deserializer&)`. -/
def Scene.LoadXML (ops : NodeOps) (s : Scene) (source : Deserializer) : Bool × Scene :=
  let s := Scene.StopAsyncLoading s
  match ops.xmlLoad source with
  | none => (false, s)
  | some (xml, source) =>
    let s := WriteToLog s LOG_INFO ("Loading scene from " ++ source.name_)
    match ops.LoadXML [xml] s with
    | (true, s) => (true, Scene.FinishLoading s (some source))
    | (false, s) => (false, s)

/-- The member `Scene::LoadAsync(File*)`; `none` is the null file. -/
def Scene.LoadAsync (d : NodeDecl) (ops : NodeOps) (s : Scene) (file : Option File) :
    Bool × Scene :=
  match file with
  | none => (false, WriteToLog s LOG_ERROR "Null file for async loading")
  | some file =>
    let s := Scene.StopAsyncLoading s
    let (fileID, file) := Deserializer.ReadFileID file
    if fileID ≠ "USCN" then
      (false, WriteToLog s LOG_ERROR (file.name_ ++ " is not a valid scene file"))
    else
      let s := WriteToLog s LOG_INFO ("Loading scene from " ++ file.name_)
      let s := Scene.Clear d ops s
      let (nodeID, file) := Deserializer.ReadUInt file
      let s := { s with resolver_ := SceneResolver.AddNode s.resolver_ nodeID s.self }
      match ops.LoadRoot file s with
      | (false, _, s) => (false, s)
      | (true, file, s) =>
        let (total, file) := Deserializer.ReadVLE file
        (true,
          { s with
            asyncLoading_ := true
            asyncProgress_ :=
              { s.asyncProgress_ with
                file_ := some file, loadedNodes_ := 0, totalNodes_ := total } })

/-- The counting loop of `LoadAsyncXML`: one is added to `totalNodes_` (a 32-bit unsigned)
for the element and each later sibling named `node`. -/
def countChildNodes : XMLElement → Nat → Nat
  | [], total => total
  | e :: rest, total =>
    countChildNodes (XMLElement.GetNext (e :: rest) "node") ((total + 1) % 2 ^ 32)
termination_by e => e.length
decreasing_by
  simp only [XMLElement.GetNext, List.length_cons]
  exact Nat.lt_succ_of_le (List.Sublist.length_le (List.dropWhile_sublist _))

/-- The member `Scene::LoadAsyncXML(File*)`. -/
def Scene.LoadAsyncXML (d : NodeDecl) (ops : NodeOps) (s : Scene) (file : Option File) :
    Bool × Scene :=
  match file with
  | none => (false, WriteToLog s LOG_ERROR "Null file for async loading")
  | some file =>
    let s := Scene.StopAsyncLoading s
    match ops.xmlLoad file with
    | none => (false, s)
    | some (xml, file) =>
      let s := WriteToLog s LOG_INFO ("Loading scene from " ++ file.name_)
      let s := Scene.Clear d ops s
      let rootElement : XMLElement := [xml]
      let nodeID := toUnsigned (XMLElement.GetInt rootElement "id")
      let s := { s with resolver_ := SceneResolver.AddNode s.resolver_ nodeID s.self }
      match ops.LoadXMLRoot rootElement s with
      | (false, s) => (false, s)
      | (true, s) =>
        let childNodeElement := XMLElement.GetChild rootElement "node"
        (true,
          { s with
            asyncLoading_ := true
            asyncProgress_ :=
              { file_ := some file
                xmlFile_ := some xml
                xmlElement_ := childNodeElement
                loadedNodes_ := 0
                totalNodes_ := countChildNodes childNodeElement 0 } })

/-- The member `Scene::FinishAsyncLoading`. -/
def Scene.FinishAsyncLoading (ops : NodeOps) (s : Scene) : Scene :=
  let s := ops.Resolve s
  let s := ops.ApplyAttributes s
  let s := Scene.FinishLoading s s.asyncProgress_.file_
  let s := Scene.StopAsyncLoading s
  SendEvent s (Event.E_ASYNCLOADFINISHED s.self)

/-- The constant `ASYNC_LOAD_MAX_MSEC`, `(int)(1000.0f / ASYNC_LOAD_MIN_FPS)` with
`ASYNC_LOAD_MIN_FPS = 30`. -/
def ASYNC_LOAD_MAX_MSEC : Nat := 33

/-- The creation mode `nodeID < FIRST_LOCAL_ID ? REPLICATED : LOCAL`. -/
def createModeOf (d : NodeDecl) (nodeID : Nat) : CreateMode :=
  if nodeID < d.FIRST_LOCAL_ID then CreateMode.REPLICATED else CreateMode.LOCAL

/-- The body of the loop of `UpdateAsyncLoading` that reads one child node with its
sub-hierarchy, from the binary file or from the XML element; `none` when a null file
is dereferenced.  The file object advances with every read made through it. -/
def Scene.readAsyncChild (d : NodeDecl) (ops : NodeOps) (s : Scene) : Option Scene :=
  match s.asyncProgress_.xmlFile_ with
  | none =>
    match s.asyncProgress_.file_ with
    | none => none
    | some file =>
      let nodeID := (Deserializer.ReadUInt file).1
      let created := ops.CreateChild nodeID (createModeOf d nodeID) s
      let s1 : Scene :=
        { created.2 with
          resolver_ := SceneResolver.AddNode created.2.resolver_ nodeID created.1 }
      let loaded := ops.ChildLoad created.1 (Deserializer.ReadUInt file).2 s1
      some { loaded.2.2 with
        asyncProgress_ :=
          { loaded.2.2.asyncProgress_ with
            file_ := loaded.2.2.asyncProgress_.file_.map (fun _ => loaded.2.1) } }
  | some _ =>
    let nodeID := toUnsigned (XMLElement.GetInt s.asyncProgress_.xmlElement_ "id")
    let created := ops.CreateChild nodeID (createModeOf d nodeID) s
    let s1 : Scene :=
      { created.2 with
        resolver_ := SceneResolver.AddNode created.2.resolver_ nodeID created.1 }
    let loaded := ops.ChildLoadXML created.1 s1.asyncProgress_.xmlElement_ s1
    some { loaded.2 with
      asyncProgress_ :=
        { loaded.2.asyncProgress_ with
          xmlElement_ := XMLElement.GetNext loaded.2.asyncProgress_.xmlElement_ "node" } }

/-- The progress notification at the end of `UpdateAsyncLoading`. -/
def Scene.sendAsyncProgress (fl : FloatOps) (s : Scene) : Scene :=
  SendEvent s (Event.E_ASYNCLOADPROGRESS s.self
    (fl.div (fl.ofUnsigned s.asyncProgress_.loadedNodes_)
      (fl.ofUnsigned s.asyncProgress_.totalNodes_))
    s.asyncProgress_.loadedNodes_ s.asyncProgress_.totalNodes_)

/-- The member `Scene::UpdateAsyncLoading`.  `clock k` is the reading `GetMSec` of the load
timer after the `k`-th child node read by this call; `fuel` bounds the number of child nodes
read, and `none` means the loop has not returned within that bound or a null file was
dereferenced. -/
def Scene.UpdateAsyncLoadingFrom (d : NodeDecl) (ops : NodeOps) (fl : FloatOps)
    (clock : Nat → Nat) : Nat → Nat → Scene → Option Scene
  | fuel, k, s =>
    if s.asyncProgress_.loadedNodes_ ≥ s.asyncProgress_.totalNodes_ then
      some (Scene.FinishAsyncLoading ops s)
    else match fuel with
      | 0 => none
      | fuel + 1 =>
        match Scene.readAsyncChild d ops s with
        | none => none
        | some s =>
          let s := { s with
            asyncProgress_ :=
              { s.asyncProgress_ with
                loadedNodes_ := (s.asyncProgress_.loadedNodes_ + 1) % 2 ^ 32 } }
          if clock k ≥ ASYNC_LOAD_MAX_MSEC then some (Scene.sendAsyncProgress fl s)
          else Scene.UpdateAsyncLoadingFrom d ops fl clock fuel (k + 1) s

/-- The member `Scene::UpdateAsyncLoading`, with a load timer just started. -/
def Scene.UpdateAsyncLoading (d : NodeDecl) (ops : NodeOps) (fl : FloatOps)
    (clock : Nat → Nat) (fuel : Nat) (s : Scene) : Option Scene :=
  Scene.UpdateAsyncLoadingFrom d ops fl clock fuel 0 s

/-- The member `Scene::Update`. -/
def Scene.Update (d : NodeDecl) (ops : NodeOps) (fl : FloatOps) (clock : Nat → Nat)
    (fuel : Nat) (s : Scene) (timeStep : F32) : Option Scene :=
  if s.asyncLoading_ then Scene.UpdateAsyncLoading d ops fl clock fuel s
  else
    let timeStep := fl.mul timeStep s.timeScale_
    let s := SendEvent s (Event.E_SCENEUPDATE s.self timeStep)
    let s := SendEvent s (Event.E_SCENESUBSYSTEMUPDATE s.self timeStep)
    let constant := fl.sub fl.one
      (fl.Clamp (fl.powf fl.two (fl.mul (fl.neg timeStep) s.smoothingConstant_)) fl.zero fl.one)
    let squaredSnapThreshold := fl.mul s.snapThreshold_ s.snapThreshold_
    let s := SendEvent s (Event.E_UPDATESMOOTHING constant squaredSnapThreshold)
    let s := SendEvent s (Event.E_SCENEPOSTUPDATE s.self timeStep)
    some { s with elapsedTime_ := fl.add s.elapsedTime_ timeStep }

/-- The live node map consulted for an ID: the replicated one below `FIRST_LOCAL_ID`,
the local one otherwise. -/
def Scene.nodeMapOf (d : NodeDecl) (s : Scene) (id : Nat) : HashMap :=
  if id < d.FIRST_LOCAL_ID then s.replicatedNodes_ else s.localNodes_

/-- The live component map consulted for an ID. -/
def Scene.componentMapOf (d : NodeDecl) (s : Scene) (id : Nat) : HashMap :=
  if id < d.FIRST_LOCAL_ID then s.replicatedComponents_ else s.localComponents_

/-- First ID of the range of a creation mode. -/
def NodeDecl.firstID (d : NodeDecl) : CreateMode → Nat
  | CreateMode.REPLICATED => d.FIRST_REPLICATED_ID
  | CreateMode.LOCAL => d.FIRST_LOCAL_ID

/-- Last ID of the range of a creation mode. -/
def NodeDecl.lastID (d : NodeDecl) : CreateMode → Nat
  | CreateMode.REPLICATED => d.LAST_REPLICATED_ID
  | CreateMode.LOCAL => d.LAST_LOCAL_ID

/-- The live node map of a creation mode. -/
def Scene.nodeMap (s : Scene) : CreateMode → HashMap
  | CreateMode.REPLICATED => s.replicatedNodes_
  | CreateMode.LOCAL => s.localNodes_

/-- The live component map of a creation mode. -/
def Scene.componentMap (s : Scene) : CreateMode → HashMap
  | CreateMode.REPLICATED => s.replicatedComponents_
  | CreateMode.LOCAL => s.localComponents_

/-- The node ID cursor of a creation mode. -/
def Scene.nodeCursor (s : Scene) : CreateMode → Nat
  | CreateMode.REPLICATED => s.replicatedNodeID_
  | CreateMode.LOCAL => s.localNodeID_

/-- The component ID cursor of a creation mode. -/
def Scene.componentCursor (s : Scene) : CreateMode → Nat
  | CreateMode.REPLICATED => s.replicatedComponentID_
  | CreateMode.LOCAL => s.localComponentID_

/-- The scene with the node ID cursor of a creation mode set, nothing else changed. -/
def Scene.withNodeCursor (s : Scene) : CreateMode → Nat → Scene
  | CreateMode.REPLICATED, id => { s with replicatedNodeID_ := id }
  | CreateMode.LOCAL, id => { s with localNodeID_ := id }

/-- The scene with the component ID cursor of a creation mode set, nothing else changed. -/
def Scene.withComponentCursor (s : Scene) : CreateMode → Nat → Scene
  | CreateMode.REPLICATED, id => { s with replicatedComponentID_ := id }
  | CreateMode.LOCAL, id => { s with localComponentID_ := id }

/-- Every node that is a member of the scene is the node registered under its ID. -/
def Scene.MembersRegistered (d : NodeDecl) (s : Scene) : Prop :=
  ∀ n : Ptr, n ≠ 0 → (s.nodeHeap n).scene_ = s.self →
    Scene.GetNode d s (s.nodeHeap n).id_ = n

/-- Every node registered in a live map belongs to a scene. -/
def Scene.RegisteredHaveScene (d : NodeDecl) (s : Scene) : Prop :=
  ∀ (k : Nat) (v : Ptr), HashMap.Find (Scene.nodeMapOf d s k) k = some v →
    (s.nodeHeap v).scene_ ≠ 0

/-- No two distinct members of the scene hold the same ID. -/
def Scene.UniqueIDs (s : Scene) : Prop :=
  ∀ a b : Ptr, a ≠ 0 → b ≠ 0 → a ≠ b → (s.nodeHeap a).scene_ = s.self →
    (s.nodeHeap b).scene_ = s.self → (s.nodeHeap a).id_ ≠ (s.nodeHeap b).id_

/-- A 32-bit ID space split at `2 ^ 24` into a replicated and a local range, with
`ResetScene` clearing the ID; used to evaluate the registry on concrete inputs. -/
def NodeDecl.sample : NodeDecl :=
  { FIRST_REPLICATED_ID := 1
    LAST_REPLICATED_ID := 0xFFFFFF
    FIRST_LOCAL_ID := 0x1000000
    LAST_LOCAL_ID := 0xFFFFFFFF
    resetID := fun _ => 0 }

/-- A heap of nodes that have just been constructed. -/
def Node.sampleHeap : Ptr → Node := fun _ => Node.constructed

/-- A heap of components without node and ID. -/
def Component.sampleHeap : Ptr → Component := fun _ => { node_ := 0, id_ := 0 }

/-- The scene at address 1 after its constructor, over the sample heaps. -/
def Scene.sample : Scene :=
  Scene.NodeAdded NodeDecl.sample
    (Node.SetID (Scene.initialised NodeDecl.sample 1 Node.sampleHeap Component.sampleHeap) 1 1) 1

/-- Collaborators that change nothing and succeed, node creation returning the address 9 and
no document ever parsing; used to evaluate the scene on concrete inputs. -/
def NodeOps.sample : NodeOps :=
  { Load := fun source s => (true, source, s)
    LoadXML := fun _ s => (true, s)
    Save := fun dest s => (true, dest, s)
    LoadRoot := fun source s => (true, source, s)
    LoadXMLRoot := fun _ s => (true, s)
    CreateChild := fun _ _ s => (9, s)
    ChildLoad := fun _ source s => (true, source, s)
    ChildLoadXML := fun _ _ s => (true, s)
    RemoveAllChildren := fun s => s
    RemoveAllComponents := fun s => s
    ApplyAttributes := fun s => s
    Resolve := fun s => s
    xmlLoad := fun _ => none }

/-- The sample scene with an asynchronous load of two child nodes in flight. -/
def Scene.sampleLoading : Scene :=
  { Scene.sample with
    asyncLoading_ := true
    asyncProgress_ :=
      { file_ := some { name_ := "scene.bin", checksum_ := 0, data := [7, 0, 0, 0, 8, 0, 0, 0] }
        xmlFile_ := none
        xmlElement_ := []
        loadedNodes_ := 0
        totalNodes_ := 2 }
    resolver_ := { nodes_ := [(1, 1)], components_ := [] } }

/-- A stream whose first four bytes are not the tag of a scene file. -/
def Deserializer.sampleBad : Deserializer :=
  { name_ := "bad.bin", checksum_ := 0, data := [85, 77, 68, 76, 1, 0, 0, 0] }

/-- A stream that starts with the tag `USCN`, the root ID 1 and a count of zero. -/
def Deserializer.sampleGood : Deserializer :=
  { name_ := "good.bin", checksum_ := 0, data := [85, 83, 67, 78, 1, 0, 0, 0, 0] }

/-- An event is one of the two notifications of asynchronous loading. -/
def Event.isAsyncLoad : Event → Bool
  | Event.E_ASYNCLOADPROGRESS _ _ _ _ => true
  | Event.E_ASYNCLOADFINISHED _ => true
  | _ => false

/-- What `UpdateAsyncLoading` needs of the progress record to run: the node counts are
consistent 32-bit values and a file is stored when no XML document is. -/
def Scene.AsyncProgressOk (s : Scene) : Prop :=
  s.asyncProgress_.loadedNodes_ ≤ s.asyncProgress_.totalNodes_ ∧
  s.asyncProgress_.totalNodes_ < 2 ^ 32 ∧
  (s.asyncProgress_.xmlFile_ = none → s.asyncProgress_.file_ ≠ none)

/-- The outcome of one call of `UpdateAsyncLoading` on the scene `s`: the total is kept, the
loaded count has not decreased and does not exceed the total, and either the load has been
finished, or at least one more node is loaded and the progress notification was the last
event sent, with a positive total and a loaded count between 1 and the total. -/
def Scene.AsyncStep (fl : FloatOps) (s s1 : Scene) : Prop :=
  s1.asyncProgress_.totalNodes_ = s.asyncProgress_.totalNodes_ ∧
  s.asyncProgress_.loadedNodes_ ≤ s1.asyncProgress_.loadedNodes_ ∧
  s1.asyncProgress_.loadedNodes_ ≤ s1.asyncProgress_.totalNodes_ ∧
  ((s1.asyncLoading_ = false ∧
      ∃ (t : List SentEvent) (p : Ptr) (e : F32),
        s1.events = t ++ [{ event := Event.E_ASYNCLOADFINISHED p, elapsedTime := e }]) ∨
    (s.asyncProgress_.loadedNodes_ + 1 ≤ s1.asyncProgress_.loadedNodes_ ∧
      0 < s1.asyncProgress_.totalNodes_ ∧ 1 ≤ s1.asyncProgress_.loadedNodes_ ∧
      0 < (s1.asyncProgress_.loadedNodes_ : ℚ) / (s1.asyncProgress_.totalNodes_ : ℚ) ∧
      (s1.asyncProgress_.loadedNodes_ : ℚ) / (s1.asyncProgress_.totalNodes_ : ℚ) ≤ 1 ∧
      s1.AsyncProgressOk ∧
      ∃ (t : List SentEvent) (e : F32),
        s1.events = t ++
          [{ event := Event.E_ASYNCLOADPROGRESS s1.self
               (fl.div (fl.ofUnsigned s1.asyncProgress_.loadedNodes_)
                 (fl.ofUnsigned s1.asyncProgress_.totalNodes_))
               s1.asyncProgress_.loadedNodes_ s1.asyncProgress_.totalNodes_,
             elapsedTime := e }]))

/-- Stand-ins for the float operations, on bit patterns; used to evaluate the scene on
concrete inputs. -/
def FloatOps.sample : FloatOps :=
  { zero := 0
    one := FLOAT_ONE
    two := 0x40000000
    neg := fun x => x
    add := fun x y => x + y
    sub := fun x y => x - y
    mul := fun x y => x * y
    div := fun x y => x / y
    powf := fun x _ => x
    Clamp := fun x lo hi => max lo (min x hi)
    ofUnsigned := fun n => n }

/-- A codec with a schema of one 32-bit attribute, a failed load leaving the graph as it
was; used to evaluate the node stream on concrete inputs. -/
def NodeCodec.sample : NodeCodec :=
  { schema := [VariantType.VAR_INT], failedGraph := fun graph _ => graph }

/-- The sample collaborators with `Node::Save` and `Node::Load` as modelled from the spec. -/
def NodeOps.sampleCodec : NodeOps :=
  { NodeOps.sample with Load := Node.Load NodeCodec.sample, Save := Node.Save }

/-- A graph of a root named `A` with one component and one child named `B`. -/
def NodeData.sample : NodeData :=
  NodeData.mk 1 [65] [0, 0, 0, FLOAT_ONE, 0, 0, 0, FLOAT_ONE, FLOAT_ONE, FLOAT_ONE]
    [Variant.int 7] [{ type := 300, attributes := [1, 2, 3] }]
    [NodeData.mk 2 [66] [0, 0, 0, FLOAT_ONE, 0, 0, 0, FLOAT_ONE, FLOAT_ONE, FLOAT_ONE]
      [Variant.int 8] [] []]

/-- An empty stream with room for 1000 bytes that is not a file. -/
def Serializer.sample : Serializer := { name_ := none, data := [], space := 1000 }

/-- Every node registered in a live map is a member of the scene and carries the ID it is
registered under. -/
def Scene.RegisteredAreMembers (d : NodeDecl) (s : Scene) : Prop :=
  ∀ (k : Nat) (v : Ptr), HashMap.Find (Scene.nodeMapOf d s k) k = some v →
    (s.nodeHeap v).scene_ = s.self ∧ (s.nodeHeap v).id_ = k

/-! ## The cursor of the ID search -/

/-- One advance of the cursor in the search loops: the next ID, or the first ID of the
range after the last one; the cursor is a 32-bit unsigned. -/
def advanceCursor (first last cursor : Nat) : Nat :=
  if cursor ≠ last then (cursor + 1) % 2 ^ 32 else first

/-- The cursor after a number of advances. -/
def cursorAfter (first last : Nat) (n : Nat) (cursor : Nat) : Nat :=
  (advanceCursor first last)^[n] cursor

/-- The sample scene after two allocations and one release: nodes 2 and 3 took the IDs 2
and 3 that `GetFreeNodeID` returned, then node 2 was removed, which frees ID 2. -/
def Scene.sampleReleased : Scene :=
  Scene.NodeRemoved NodeDecl.sample
    (Scene.NodeAdded NodeDecl.sample
      (Node.SetID
        ((Scene.NodeAdded NodeDecl.sample
          (Node.SetID (Scene.sample.withNodeCursor CreateMode.REPLICATED 2) 2 2)
          2).withNodeCursor CreateMode.REPLICATED 3) 3 3) 3) 2

/-- A replicated range of the two IDs 1 and 2 and a local range of the two IDs 3 and 4; used
to evaluate the search loops where a range is full. -/
def NodeDecl.tiny : NodeDecl :=
  { FIRST_REPLICATED_ID := 1
    LAST_REPLICATED_ID := 2
    FIRST_LOCAL_ID := 3
    LAST_LOCAL_ID := 4
    resetID := fun _ => 0 }

/-- The sample scene with only ID 2 registered and the replicated cursor on it. -/
def Scene.sampleWrap : Scene :=
  { Scene.sample with replicatedNodes_ := [(2, 2)], replicatedNodeID_ := 2 }

/-- The sample scene with both IDs of the tiny replicated range registered. -/
def Scene.sampleFull : Scene :=
  { Scene.sample with replicatedNodes_ := [(1, 1), (2, 2)], replicatedNodeID_ := 2 }

/-! ## Replication states -/

/-- The `dirtyNodes_` sets of the replication states that track the scene, in the order of
`replicationStates_`; there is none while `networkState_` is null. -/
def Scene.dirtyNodeSets (s : Scene) : List HashSet :=
  match s.networkState_ with
  | some states => states
  | none => []

/-- Modelled from the spec: `Node::AddReplicationState` (`Node.cpp` is not among the
sources).  The state joins the replication states that track the scene; the network state
is allocated when it was null. -/
def Node.AddReplicationState (s : Scene) (state : HashSet) : Scene :=
  { s with networkState_ := some (s.dirtyNodeSets ++ [state]) }

/-- The member `Scene::AddReplicationState`.  The argument is the `dirtyNodes_` set of the
scene state of `state` before the call; the result is the scene, which tracks the state as
its last one, and that set after the loop over `replicatedNodes_`. -/
def Scene.AddReplicationState (s : Scene) (state : HashSet) : Scene × HashSet :=
  let s := Node.AddReplicationState s state
  let dirtyNodes :=
    s.replicatedNodes_.foldl (fun dirtyNodes i => HashSet.Insert dirtyNodes i.1) state
  ({ s with networkState_ := s.networkState_.map (fun states => states.dropLast ++ [dirtyNodes]) },
    dirtyNodes)

/-- A call of one of the three members that reach the replication dirty sets. -/
inductive NetworkCall where
  | NodeAdded (node : Ptr)
  | NodeRemoved (node : Ptr)
  | MarkReplicationDirty (node : Ptr)
deriving DecidableEq, Repr

/-- The node a call is made for. -/
def NetworkCall.node : NetworkCall → Ptr
  | NetworkCall.NodeAdded node => node
  | NetworkCall.NodeRemoved node => node
  | NetworkCall.MarkReplicationDirty node => node

/-- The scene after one call. -/
def Scene.applyNetworkCall (d : NodeDecl) (s : Scene) : NetworkCall → Scene
  | NetworkCall.NodeAdded node => Scene.NodeAdded d s node
  | NetworkCall.NodeRemoved node => Scene.NodeRemoved d s node
  | NetworkCall.MarkReplicationDirty node => Scene.MarkReplicationDirty d s node

/-- The scene after a sequence of calls. -/
def Scene.applyNetworkCalls (d : NodeDecl) : Scene → List NetworkCall → Scene
  | s, [] => s
  | s, c :: rest => Scene.applyNetworkCalls d (Scene.applyNetworkCall d s c) rest

/-- Every call of the sequence is made for a node that carries a local ID when the call is
made. -/
def Scene.LocalCalls (d : NodeDecl) : Scene → List NetworkCall → Prop
  | _, [] => True
  | s, c :: rest =>
    d.FIRST_LOCAL_ID ≤ (s.nodeHeap c.node).id_ ∧
      Scene.LocalCalls d (Scene.applyNetworkCall d s c) rest

/-- The keys of the replicated node map are replicated IDs. -/
def Scene.ReplicatedKeys (d : NodeDecl) (s : Scene) : Prop :=
  ∀ id, HashMap.Contains s.replicatedNodes_ id = true → id < d.FIRST_LOCAL_ID

/-- A scene with two replication states tracking it, the first of which already has
ID 5 dirty. -/
def Scene.sampleTracked : Scene :=
  { Scene.sample with networkState_ := some [[5], []] }

/-! ## Network update and threaded update -/

/-- Members of other classes that the network and threaded updates call.
`Node::PrepareNetworkUpdate` and `Component::PrepareNetworkUpdate` are defined in `Node.cpp`
and `Component.cpp`, which are not among the sources; `Component::OnMarkedDirty(Node*)` is
virtual, empty in `Component.h` and overridden by component classes.  Each is a parameter:
the object it is called on, for `OnMarkedDirty` the node passed, and its effect on the
state. -/
structure NetworkOps where
  NodePrepareNetworkUpdate : Ptr → Scene → Scene
  ComponentPrepareNetworkUpdate : Ptr → Scene → Scene
  OnMarkedDirty : Ptr → Ptr → Scene → Scene

/-- The first loop of `Scene::PrepareNetworkUpdate`, over the IDs of `networkUpdateNodes_`.
Each call made is recorded in `prepared`, which the callee cannot write. -/
def Scene.prepareNodes (d : NodeDecl) (net : NetworkOps) : List Nat → Scene → Scene
  | [], s => s
  | id :: rest, s =>
    Scene.prepareNodes d net rest
      (if Scene.GetNode d s id ≠ 0 then
        { net.NodePrepareNetworkUpdate (Scene.GetNode d s id) s with
          prepared := s.prepared ++ [PrepareCall.Node (Scene.GetNode d s id)] }
      else s)

/-- The second loop of `Scene::PrepareNetworkUpdate`, over the IDs of
`networkUpdateComponents_`. -/
def Scene.prepareComponents (d : NodeDecl) (net : NetworkOps) : List Nat → Scene → Scene
  | [], s => s
  | id :: rest, s =>
    Scene.prepareComponents d net rest
      (if Scene.GetComponent d s id ≠ 0 then
        { net.ComponentPrepareNetworkUpdate (Scene.GetComponent d s id) s with
          prepared := s.prepared ++ [PrepareCall.Component (Scene.GetComponent d s id)] }
      else s)

/-- The member `Scene::PrepareNetworkUpdate`. -/
def Scene.PrepareNetworkUpdate (d : NodeDecl) (net : NetworkOps) (s : Scene) : Scene :=
  let s := Scene.prepareNodes d net s.networkUpdateNodes_ s
  let s := Scene.prepareComponents d net s.networkUpdateComponents_ s
  { s with networkUpdateNodes_ := [], networkUpdateComponents_ := [] }

/-- The two prepare steps keep the four maps of the registry, and the one of a node keeps
the set of components to update. -/
def NetworkOps.KeepsRegistry (net : NetworkOps) : Prop :=
  (∀ node s,
    (net.NodePrepareNetworkUpdate node s).replicatedNodes_ = s.replicatedNodes_ ∧
    (net.NodePrepareNetworkUpdate node s).localNodes_ = s.localNodes_ ∧
    (net.NodePrepareNetworkUpdate node s).replicatedComponents_ = s.replicatedComponents_ ∧
    (net.NodePrepareNetworkUpdate node s).localComponents_ = s.localComponents_ ∧
    (net.NodePrepareNetworkUpdate node s).networkUpdateComponents_ =
      s.networkUpdateComponents_) ∧
  (∀ component s,
    (net.ComponentPrepareNetworkUpdate component s).replicatedComponents_ =
      s.replicatedComponents_ ∧
    (net.ComponentPrepareNetworkUpdate component s).localComponents_ = s.localComponents_)

/-- The member `Scene::BeginThreadedUpdate`; `numThreads` is what
`WorkQueue::GetNumThreads` returns. -/
def Scene.BeginThreadedUpdate (s : Scene) (numThreads : Nat) : Scene :=
  { s with threadedUpdate_ := if numThreads ≠ 0 then true else s.threadedUpdate_ }

/-- The member `Scene::DelayedMarkedDirty`; calls are serialised by the scene mutex. -/
def Scene.DelayedMarkedDirty (s : Scene) (component : Ptr) : Scene :=
  { s with delayedDirtyComponents_ := s.delayedDirtyComponents_ ++ [component] }

/-- The loop of `Scene::EndThreadedUpdate` over the queue: `none` when a queued pointer is
null, which the loop dereferences.  Each call made is recorded in `markedDirty`, which the
callee cannot write. -/
def Scene.markDelayedDirty (net : NetworkOps) : List Ptr → Scene → Option Scene
  | [], s => some s
  | component :: rest, s =>
    if component = 0 then none
    else
      Scene.markDelayedDirty net rest
        { net.OnMarkedDirty component (s.componentHeap component).node_ s with
          markedDirty := s.markedDirty ++ [(component, (s.componentHeap component).node_)] }

/-- The member `Scene::EndThreadedUpdate`. -/
def Scene.EndThreadedUpdate (net : NetworkOps) (s : Scene) : Option Scene :=
  if !s.threadedUpdate_ then some s
  else if s.delayedDirtyComponents_ ≠ [] then
    (Scene.markDelayedDirty net s.delayedDirtyComponents_ { s with threadedUpdate_ := false }).map
      (fun s => { s with delayedDirtyComponents_ := [] })
  else some { s with threadedUpdate_ := false }

/-- Collaborators used to evaluate the network and threaded updates on concrete inputs:
preparing a node marks it dirty for replication, the other two change nothing. -/
def NetworkOps.sample : NetworkOps :=
  { NodePrepareNetworkUpdate := fun node s => Scene.MarkReplicationDirty NodeDecl.sample s node
    ComponentPrepareNetworkUpdate := fun _ s => s
    OnMarkedDirty := fun _ _ s => s }

/-- The tracked sample scene with component 4 registered under ID 3 and attached to node 1,
and with the IDs 1 and 7 and the IDs 8 and 3 awaiting the network update; no node has ID 7
and no component ID 8. -/
def Scene.sampleDirty : Scene :=
  { Scene.sampleTracked with
    componentHeap := Function.update Component.sampleHeap 4 { node_ := 1, id_ := 3 }
    replicatedComponents_ := [(3, 4)]
    networkUpdateNodes_ := [1, 7]
    networkUpdateComponents_ := [8, 3] }

/-! ## Progress of an asynchronous load -/

/-- The member `Scene::GetAsyncProgress` over any type of numbers: `one` is `1.0f`,
`ofUnsigned` the conversion `(float)` of an unsigned and `div` the division. -/
def Scene.GetAsyncProgressIn {α : Type} (one : α) (ofUnsigned : Nat → α) (div : α → α → α)
    (s : Scene) : α :=
  if s.asyncLoading_ = false ∨ s.asyncProgress_.totalNodes_ = 0 then one
  else div (ofUnsigned s.asyncProgress_.loadedNodes_) (ofUnsigned s.asyncProgress_.totalNodes_)

/-- The member `Scene::GetAsyncProgress` over the uninterpreted floats. -/
def Scene.GetAsyncProgress (fl : FloatOps) (s : Scene) : F32 :=
  Scene.GetAsyncProgressIn fl.one fl.ofUnsigned fl.div s

/-- The value of `GetAsyncProgress` in exact arithmetic. -/
def Scene.asyncProgressRatio (s : Scene) : ℚ :=
  Scene.GetAsyncProgressIn (1 : ℚ) (fun n => (n : ℚ)) (fun a b => a / b) s

/-- Every collaborator called by `LoadAsync`, `LoadAsyncXML` and `Clear` leaves the
observation `f` of the scene as it found it. -/
def NodeOps.LoadKeeps {α : Type} (ops : NodeOps) (f : Scene → α) : Prop :=
  (∀ s, f (ops.RemoveAllChildren s) = f s) ∧
  (∀ s, f (ops.RemoveAllComponents s) = f s) ∧
  (∀ file s, f (ops.LoadRoot file s).2.2 = f s) ∧
  (∀ e s, f (ops.LoadXMLRoot e s).2 = f s)

/-- A call of one of the members that start, advance or stop an asynchronous load;
`Update` comes with the readings of the load timer and the bound on the nodes read. -/
inductive AsyncCall where
  | LoadAsync (file : Option File)
  | LoadAsyncXML (file : Option File)
  | Update (clock : Nat → Nat) (fuel : Nat) (timeStep : F32)
  | StopAsyncLoading

/-- The scene after one such call. -/
def Scene.applyAsyncCall (d : NodeDecl) (ops : NodeOps) (fl : FloatOps) (s : Scene) :
    AsyncCall → Option Scene
  | AsyncCall.LoadAsync file => some (Scene.LoadAsync d ops s file).2
  | AsyncCall.LoadAsyncXML file => some (Scene.LoadAsyncXML d ops s file).2
  | AsyncCall.Update clock fuel timeStep => Scene.Update d ops fl clock fuel s timeStep
  | AsyncCall.StopAsyncLoading => some (Scene.StopAsyncLoading s)

/-- The scene after a sequence of such calls. -/
def Scene.applyAsyncCalls (d : NodeDecl) (ops : NodeOps) (fl : FloatOps) :
    Scene → List AsyncCall → Option Scene
  | s, [] => some s
  | s, c :: rest =>
    match Scene.applyAsyncCall d ops fl s c with
    | some s => Scene.applyAsyncCalls d ops fl s rest
    | none => none

/-- While a load is in flight the progress record is consistent. -/
def Scene.AsyncLoadingOk (s : Scene) : Prop :=
  s.asyncLoading_ = true → s.AsyncProgressOk

/-- The sample collaborators with a `Node::Load` and a `Node::LoadXML` of a child node that
fail, consuming nothing. -/
def NodeOps.sampleFailing : NodeOps :=
  { NodeOps.sample with
    ChildLoad := fun _ source s => (false, source, s)
    ChildLoadXML := fun _ _ s => (false, s) }

/-- The collaborators `ops` with the flag that `Node::Load` and `Node::LoadXML` of a child
node return replaced by `flag`. -/
def NodeOps.withChildLoadResult (ops : NodeOps) (flag : Bool) : NodeOps :=
  { ops with
    ChildLoad := fun node source s => (flag, (ops.ChildLoad node source s).2)
    ChildLoadXML := fun node e s => (flag, (ops.ChildLoadXML node e s).2) }

/-- Every component registered in a live map is registered under the ID it carries. -/
def Scene.ComponentsByID (d : NodeDecl) (s : Scene) : Prop :=
  ∀ (k : Nat) (v : Ptr), HashMap.Find (Scene.componentMapOf d s k) k = some v →
    (s.componentHeap v).id_ = k

/-- A call of one of the four hooks of the registry. -/
inductive HookCall where
  | NodeAdded (node : Ptr)
  | NodeRemoved (node : Ptr)
  | ComponentAdded (component : Ptr)
  | ComponentRemoved (component : Ptr)
deriving DecidableEq, Repr

/-- The scene after a sequence of calls of the hooks. -/
def Scene.applyHooks (d : NodeDecl) : Scene → List HookCall → Scene
  | s, [] => s
  | s, HookCall.NodeAdded node :: rest => Scene.applyHooks d (Scene.NodeAdded d s node) rest
  | s, HookCall.NodeRemoved node :: rest => Scene.applyHooks d (Scene.NodeRemoved d s node) rest
  | s, HookCall.ComponentAdded c :: rest => Scene.applyHooks d (Scene.ComponentAdded d s c) rest
  | s, HookCall.ComponentRemoved c :: rest =>
    Scene.applyHooks d (Scene.ComponentRemoved d s c) rest

/-- The tracked sample scene with component 4, which carries the replicated ID 3 and is
attached to node 1, not yet registered. -/
def Scene.sampleAttached : Scene :=
  { Scene.sampleTracked with
    componentHeap := Function.update Component.sampleHeap 4 { node_ := 1, id_ := 3 } }

/-! ## Collision shapes -/

/-- A vector of three floats (`Vector3`). -/
structure Vector3 where
  x_ : F32
  y_ : F32
  z_ : F32
deriving DecidableEq, Repr

/-- Modelled from the spec: `Vector3::Abs` (`Vector3.h` is not among the sources), the
absolute value of each component; `fabs` is the absolute value of a float, left
uninterpreted. -/
def Vector3.Abs (fabs : F32 → F32) (v : Vector3) : Vector3 :=
  { x_ := fabs v.x_, y_ := fabs v.y_, z_ := fabs v.z_ }

/-- The members of `CollisionShape` that attribute writes and `ApplyAttributes` touch, a
count of the calls of `CreateGeometry` made so far, and the log. -/
structure CollisionShape where
  physicsWorld_ : Ptr
  geometry_ : Ptr
  shapeType_ : Nat
  size_ : Vector3
  thickness_ : F32
  lodLevel_ : Nat
  phantom_ : Bool
  recreateGeometry_ : Bool
  createGeometryCalls : Nat
  log : List (Nat × String)

/-- An attribute of `CollisionShape` that is stored at a member (`ATTRIBUTE` and
`ENUM_ATTRIBUTE` in `RegisterObject`; `attr.offset_` is the offset of that member) together
with the value `src` to write.  The other attributes go through accessor functions. -/
inductive AttributeWrite where
  | ShapeType (src : Nat)
  | Size (src : Vector3)
  | LODLevel (src : Nat)
  | HullThickness (src : F32)
  | IsPhantom (src : Bool)
deriving DecidableEq, Repr

/-- The attribute is one of those whose change requires the geometry to be recreated. -/
def AttributeWrite.recreates : AttributeWrite → Bool
  | AttributeWrite.IsPhantom _ => false
  | _ => true

/-- Modelled from the spec: `Serializable::OnSetAttribute` (`Serializable.cpp` is not among
the sources) stores the value in the member of the attribute. -/
def Serializable.OnSetAttribute (c : CollisionShape) : AttributeWrite → CollisionShape
  | AttributeWrite.ShapeType src => { c with shapeType_ := src }
  | AttributeWrite.Size src => { c with size_ := src }
  | AttributeWrite.LODLevel src => { c with lodLevel_ := src }
  | AttributeWrite.HullThickness src => { c with thickness_ := src }
  | AttributeWrite.IsPhantom src => { c with phantom_ := src }

/-- The member `CollisionShape::OnSetAttribute`. -/
def CollisionShape.OnSetAttribute (fabs : F32 → F32) (c : CollisionShape)
    (attr : AttributeWrite) : CollisionShape :=
  match attr with
  | AttributeWrite.Size _ =>
    { Serializable.OnSetAttribute c attr with
      size_ := Vector3.Abs fabs (Serializable.OnSetAttribute c attr).size_
      recreateGeometry_ := true }
  | AttributeWrite.ShapeType _ =>
    { Serializable.OnSetAttribute c attr with recreateGeometry_ := true }
  | AttributeWrite.HullThickness _ =>
    { Serializable.OnSetAttribute c attr with recreateGeometry_ := true }
  | AttributeWrite.LODLevel _ =>
    { Serializable.OnSetAttribute c attr with recreateGeometry_ := true }
  | AttributeWrite.IsPhantom _ => Serializable.OnSetAttribute c attr

/-- The member `CollisionShape::CreateGeometry`.  Without a physics world it logs an error
and returns; otherwise `build` stands for the destruction of the old geometry, the creation
of the new one in the collision space, `UpdateTransform` and the mass update of the rigid
body, none of which writes `recreateGeometry_`.  Each call is counted. -/
def CollisionShape.CreateGeometry (build : CollisionShape → CollisionShape)
    (c : CollisionShape) : CollisionShape :=
  if c.physicsWorld_ = 0 then
    { c with
      log := c.log ++ [(LOG_ERROR, "Null physics world, can not create collision shape")]
      createGeometryCalls := c.createGeometryCalls + 1 }
  else
    { build c with
      recreateGeometry_ := c.recreateGeometry_
      createGeometryCalls := c.createGeometryCalls + 1 }

/-- The member `CollisionShape::ApplyAttributes`. -/
def CollisionShape.ApplyAttributes (build : CollisionShape → CollisionShape)
    (c : CollisionShape) : CollisionShape :=
  if c.recreateGeometry_ then
    { CollisionShape.CreateGeometry build c with recreateGeometry_ := false }
  else c

/-- A shape as its constructor leaves it, in the physics world at address 7. -/
def CollisionShape.sample : CollisionShape :=
  { physicsWorld_ := 7
    geometry_ := 0
    shapeType_ := 0
    size_ := { x_ := FLOAT_ONE, y_ := FLOAT_ONE, z_ := FLOAT_ONE }
    thickness_ := 0
    lodLevel_ := 0
    phantom_ := false
    recreateGeometry_ := false
    createGeometryCalls := 0
    log := [] }

/-- A stand-in for the creation of the geometry: the handle is the shape type plus 100. -/
def CollisionShape.sampleBuild (c : CollisionShape) : CollisionShape :=
  { c with geometry_ := c.shapeType_ + 100 }

/-! ## Script instances -/

/-- The number of inbuilt methods (`MAX_SCRIPT_METHODS` in `ScriptInstance.h`). -/
def MAX_SCRIPT_METHODS : Nat := 10

/-- Index of the method `void Start()`. -/
def METHOD_START : Nat := 0

/-- Index of the method `void Stop()`. -/
def METHOD_STOP : Nat := 1

/-- The members of a `ScriptInstance` that creation and release of the script object
touch, with the object map of the `Script` subsystem (`script_->GetObjectMap()`), and the
calls made on other objects: the methods executed, each with object and method, and the
script objects released. -/
structure ScriptInstance where
  self : Ptr
  scriptFile_ : Ptr
  scriptObject_ : Ptr
  className_ : String
  methods_ : List Ptr
  delayedMethodCalls_ : List Nat
  subscribedEvents : List Nat
  objectMap : HashMap
  executed : List (Ptr × Ptr)
  released : List Ptr
  log : List (Nat × String)

/-- Members of `ScriptFile` (`ScriptFile.cpp` is not among the sources): the object that
`CreateObject(className)` returns, null on failure, the function that `GetMethod` finds
for the inbuilt method of an index, null when the class has none, the name of the file,
and what the execution of a method does to the state. -/
structure ScriptFileOps where
  CreateObject : String → Ptr
  GetMethod : Ptr → Nat → Ptr
  GetName : String
  Execute : Ptr → Ptr → ScriptInstance → ScriptInstance

/-- The call `scriptFile_->Execute(object, method)`, recorded in `executed`, which the
script cannot write. -/
def ScriptInstance.Execute (ops : ScriptFileOps) (s : ScriptInstance) (object method : Ptr) :
    ScriptInstance :=
  { ops.Execute object method s with executed := s.executed ++ [(object, method)] }

/-- The member `ScriptInstance::ClearDelayedExecute`. -/
def ScriptInstance.ClearDelayedExecute (s : ScriptInstance) : ScriptInstance :=
  { s with delayedMethodCalls_ := [] }

/-- The member `ScriptInstance::ClearMethods`. -/
def ScriptInstance.ClearMethods (s : ScriptInstance) : ScriptInstance :=
  { s with methods_ := List.replicate MAX_SCRIPT_METHODS 0, delayedMethodCalls_ := [] }

/-- The loop of `ScriptInstance::GetSupportedMethods` that fills `methods_`; the
subscriptions to the update events that follow it are not part of this model. -/
def ScriptInstance.GetSupportedMethods (ops : ScriptFileOps) (s : ScriptInstance) :
    ScriptInstance :=
  { s with methods_ := (List.range MAX_SCRIPT_METHODS).map (ops.GetMethod s.scriptObject_) }

/-- Modelled from the spec: `Object::UnsubscribeFromAllEvents` (`Object.cpp` is not among
the sources). -/
def ScriptInstance.UnsubscribeFromAllEvents (s : ScriptInstance) : ScriptInstance :=
  { s with subscribedEvents := [] }

/-- The member `ScriptInstance::CreateObject()`. -/
def ScriptInstance.CreateObject (ops : ScriptFileOps) (s : ScriptInstance) : ScriptInstance :=
  if s.scriptFile_ = 0 ∨ s.className_ = "" then s
  else
    let s := { s with scriptObject_ := ops.CreateObject s.className_ }
    if s.scriptObject_ ≠ 0 then
      let s := { s with objectMap := HashMap.Assign s.objectMap s.scriptObject_ s.self }
      let s := ScriptInstance.ClearDelayedExecute s
      let s := ScriptInstance.GetSupportedMethods ops s
      if s.methods_.getD METHOD_START 0 ≠ 0 then
        ScriptInstance.Execute ops s s.scriptObject_ (s.methods_.getD METHOD_START 0)
      else s
    else
      { s with
        log := s.log ++ [(LOG_ERROR,
          "Failed to create object of class " ++ s.className_ ++ " from " ++ ops.GetName)] }

/-- The member `ScriptInstance::ReleaseObject`. -/
def ScriptInstance.ReleaseObject (ops : ScriptFileOps) (s : ScriptInstance) : ScriptInstance :=
  if s.scriptObject_ ≠ 0 then
    let s :=
      if s.methods_.getD METHOD_STOP 0 ≠ 0 then
        ScriptInstance.Execute ops s s.scriptObject_ (s.methods_.getD METHOD_STOP 0)
      else s
    let s := ScriptInstance.UnsubscribeFromAllEvents s
    let s := ScriptInstance.ClearMethods s
    let s := ScriptInstance.ClearDelayedExecute s
    let s := { s with released := s.released ++ [s.scriptObject_] }
    let s := { s with scriptObject_ := 0 }
    { s with objectMap := HashMap.Erase s.objectMap s.scriptObject_ }
  else s

/-- The lookup of `GetScriptContextInstance`: the instance registered for a script object,
null when there is none. -/
def GetScriptContextInstance (s : ScriptInstance) (object : Ptr) : Ptr :=
  match HashMap.Find s.objectMap object with
  | some found => found
  | none => 0

/-- A script file whose class `Mover` yields the object at address 40, with the methods
`Start` and `Stop` at the addresses 50 and 51, and whose scripts change nothing. -/
def ScriptFileOps.sample : ScriptFileOps :=
  { CreateObject := fun className => if className = "Mover" then 40 else 0
    GetMethod := fun _ index => if index < 2 then 50 + index else 0
    GetName := "Scripts/Mover.as"
    Execute := fun _ _ s => s }

/-- The script instance at address 30 as its constructor leaves it, with file and class
set; another instance, at address 31, is registered for the object at address 41. -/
def ScriptInstance.sample : ScriptInstance :=
  { self := 30
    scriptFile_ := 20
    scriptObject_ := 0
    className_ := "Mover"
    methods_ := List.replicate MAX_SCRIPT_METHODS 0
    delayedMethodCalls_ := []
    subscribedEvents := []
    objectMap := [(41, 31)]
    executed := []
    released := []
    log := [] }

/-! ## The class `String` -/

/-- Modelled from the spec: the constant `String::NPOS` (`String.h` is not among the
sources), the largest 32-bit unsigned. -/
def NPOS : Nat := 0xFFFFFFFF

/-- Modelled from the spec: the constant `String::MIN_CAPACITY` (`String.h` is not among
the sources). -/
def MIN_CAPACITY : Nat := 8

/-- An object of the class `String`, written `Str` because `String` is the type of the
texts of the model: the members `length_` and `capacity_`, 32-bit unsigneds, and the cells
of the buffer that `buffer_` points to.  A cell holds a character, or is indeterminate
(`none`) as in memory that `new char[]` has returned.  With capacity 0 the buffer is the
static `endZero`. -/
structure Str where
  length_ : Nat
  capacity_ : Nat
  buffer_ : List (Option Nat)
deriving DecidableEq, Repr

/-- The constructor `String()`. -/
def Str.empty : Str := { length_ := 0, capacity_ := 0, buffer_ := [some 0] }

/-- The read of `buffer_[index]` by a member that reads the characters of the string:
`none` when the index is not below `length_` or the cell is indeterminate. -/
def Str.charAt (s : Str) (index : Nat) : Option Nat :=
  if index < s.length_ then s.buffer_.getD index none else none

/-- The write `buffer_[index] = c`: `none` when the index is outside the allocated buffer,
which has `capacity_` cells. -/
def Str.setChar (s : Str) (index : Nat) (c : Nat) : Option Str :=
  if index < s.capacity_ then some { s with buffer_ := s.buffer_.set index (some c) }
  else none

/-- Modelled from the spec: `String::CopyChars(buffer_ + dest, src, count)` (`String.h` is
not among the sources) copies `count` cells; `src` holds the cells from the source pointer
to the end of its buffer.  `none` when a cell outside either buffer is touched. -/
def Str.CopyChars (s : Str) (dest : Nat) (src : List (Option Nat)) (count : Nat) :
    Option Str :=
  if count = 0 then some s
  else if dest + count ≤ s.capacity_ ∧ count ≤ src.length then
    some { s with
      buffer_ := s.buffer_.take dest ++ src.take count ++ s.buffer_.drop (dest + count) }
  else none

/-- Modelled from the spec: `String::MoveRange(dest, src, count)` (`String.h` is not among
the sources) moves `count` cells within the buffer, from index `src` to index `dest`, when
`count` is not 0.  `none` when a cell outside the buffer is touched. -/
def Str.MoveRange (s : Str) (dest src count : Nat) : Option Str :=
  if count = 0 then some s
  else if dest + count ≤ s.capacity_ ∧ src + count ≤ s.capacity_ then
    some { s with
      buffer_ := s.buffer_.take dest ++ (s.buffer_.drop src).take count ++
        s.buffer_.drop (dest + count) }
  else none

/-- The loop `while (capacity_ < newLength + 1) capacity_ += (capacity_ + 1) >> 1` of
`Resize`; `fuel` bounds the number of rounds. -/
def Str.grow : Nat → Nat → Nat → Option Nat
  | fuel, capacity, newLength =>
    if capacity < (newLength + 1) % 2 ^ 32 then
      match fuel with
      | 0 => none
      | fuel + 1 => Str.grow fuel ((capacity + (capacity + 1) / 2) % 2 ^ 32) newLength
    else some capacity

/-- The member `String::Resize`.  A new buffer consists of indeterminate cells.  The
capacity grows by at least one a round, so that `newLength + 1` rounds are enough unless
the capacity wraps. -/
def Str.Resize (s : Str) (newLength : Nat) : Option Str :=
  if newLength = s.length_ then some s
  else
    match
      (if s.capacity_ = 0 then
        some { s with
          capacity_ :=
            if (newLength + 1) % 2 ^ 32 < MIN_CAPACITY then MIN_CAPACITY
            else (newLength + 1) % 2 ^ 32
          buffer_ :=
            List.replicate
              (if (newLength + 1) % 2 ^ 32 < MIN_CAPACITY then MIN_CAPACITY
                else (newLength + 1) % 2 ^ 32) none }
      else if s.capacity_ < (newLength + 1) % 2 ^ 32 then
        match Str.grow (newLength + 1) s.capacity_ newLength with
        | some capacity =>
          Str.CopyChars { s with capacity_ := capacity, buffer_ := List.replicate capacity none }
            0 s.buffer_ s.length_
        | none => none
      else some s) with
    | some s => (Str.setChar s newLength 0).map (fun s => { s with length_ := newLength })
    | none => none

/-- Modelled from the spec: the constructor `String(const char*)` (`String.h` is not among
the sources): a string of the given characters. -/
def Str.ofChars (chars : List Nat) : Option Str :=
  match Str.Resize Str.empty chars.length with
  | some ret => Str.CopyChars ret 0 (chars.map some) ret.length_
  | none => none

/-- Modelled from the spec: the copy constructor `String(const String&)` (`String.h` is
not among the sources). -/
def Str.copy (s : Str) : Option Str :=
  match Str.Resize Str.empty s.length_ with
  | some ret => Str.CopyChars ret 0 s.buffer_ ret.length_
  | none => none

/-- The overload `String::Substring(unsigned pos)`. -/
def Str.SubstringFrom (s : Str) (pos : Nat) : Option Str :=
  if pos ≥ s.length_ then some Str.empty
  else
    match Str.Resize Str.empty (s.length_ - pos) with
    | some ret => Str.CopyChars ret 0 (s.buffer_.drop pos) ret.length_
    | none => none

/-- The overload `String::Substring(unsigned pos, unsigned length)`; the sum
`pos + length` is a 32-bit unsigned. -/
def Str.Substring (s : Str) (pos length : Nat) : Option Str :=
  if pos ≥ s.length_ then some Str.empty
  else
    match Str.Resize Str.empty
      (if (pos + length) % 2 ^ 32 > s.length_ then s.length_ - pos else length) with
    | some ret => Str.CopyChars ret 0 (s.buffer_.drop pos) ret.length_
    | none => none

/-- The first inner loop of `Split`, `while (start < length_)` with a break at the
separator; the first argument is the number `length_ - start` of rounds left. -/
def Str.scanTo (s : Str) (separator : Nat) : Nat → Nat → Option Nat
  | 0, start => some start
  | n + 1, start =>
    match s.charAt start with
    | some c => if c = separator then some start else Str.scanTo s separator n (start + 1)
    | none => none

/-- The second inner loop of `Split`, `while (end < length_)` with a break at a character
other than the separator. -/
def Str.scanPast (s : Str) (separator : Nat) : Nat → Nat → Option Nat
  | 0, stop => some stop
  | n + 1, stop =>
    match s.charAt stop with
    | some c => if c ≠ separator then some stop else Str.scanPast s separator n (stop + 1)
    | none => none

/-- The outer loop `while (pos < length_)` of `Split`; `fuel` bounds the number of
rounds. -/
def Str.splitFrom (s : Str) (separator : Nat) : Nat → Nat → List Str → Option (List Str)
  | fuel, pos, ret =>
    if pos < s.length_ then
      match fuel with
      | 0 => none
      | fuel + 1 =>
        match Str.scanTo s separator (s.length_ - pos) pos with
        | none => none
        | some start =>
          if start = s.length_ then
            (Str.SubstringFrom s pos).map (fun piece => ret ++ [piece])
          else
            match Str.scanPast s separator (s.length_ - start) start with
            | none => none
            | some stop =>
              match Str.Substring s pos (start - pos) with
              | none => none
              | some piece => Str.splitFrom s separator fuel stop (ret ++ [piece])
    else some ret

/-- The member `String::Split`.  Every round moves `pos` forward, so that `length_` rounds
are enough. -/
def Str.Split (s : Str) (separator : Nat) : Option (List Str) :=
  Str.splitFrom s separator s.length_ 0 []

/-- The inner loop `for (j = 1; j < str.length_; ++j)` of `Find`, run from the outer index
`i`: whether the loop ended with `found` set, and the outer index afterwards.  The first
numeric argument is the number `str.length_ - j` of rounds left. -/
def Str.findInner (s str : Str) (first i : Nat) : Nat → Nat → Nat → Option (Bool × Nat)
  | 0, _, _ => some (true, i)
  | n + 1, j, skip =>
    match s.charAt ((i + j) % 2 ^ 32), str.charAt j with
    | some c, some p =>
      if c ≠ p then
        some (false,
          if (if skip = NPOS ∧ c = first then (i + j - 1) % 2 ^ 32 else skip) ≠ NPOS then
            (if skip = NPOS ∧ c = first then (i + j - 1) % 2 ^ 32 else skip)
          else i)
      else
        Str.findInner s str first i n (j + 1)
          (if skip = NPOS ∧ c = first then (i + j - 1) % 2 ^ 32 else skip)
    | _, _ => none

/-- The outer loop `for (i = startPos; i <= length_ - str.length_; ++i)` of `Find`; `fuel`
bounds the number of rounds. -/
def Str.findFrom (s str : Str) (first : Nat) : Nat → Nat → Option Nat
  | fuel, i =>
    if i ≤ s.length_ - str.length_ then
      match fuel with
      | 0 => none
      | fuel + 1 =>
        match s.charAt i with
        | none => none
        | some c =>
          if c = first then
            match Str.findInner s str first i (str.length_ - 1) 1 NPOS with
            | none => none
            | some (true, i) => some i
            | some (false, i) => Str.findFrom s str first fuel ((i + 1) % 2 ^ 32)
          else Str.findFrom s str first fuel ((i + 1) % 2 ^ 32)
    else some NPOS

/-- The member `String::Find(const String&, unsigned)`.  Every round moves `i` forward, so
that `length_ + 1` rounds are enough. -/
def Str.Find (s str : Str) (startPos : Nat) : Option Nat :=
  if str.length_ = 0 ∨ str.length_ > s.length_ then some NPOS
  else
    match str.charAt 0 with
    | some first => Str.findFrom s str first (s.length_ + 1) startPos
    | none => none

/-- The conversion `(int)` of a 32-bit unsigned. -/
def toInt (x : Nat) : Int :=
  if x % 2 ^ 32 < 2 ^ 31 then ((x % 2 ^ 32 : Nat) : Int) else ((x % 2 ^ 32 : Nat) : Int) - 2 ^ 32

/-- The sum `length_ + delta` of an unsigned and an `int`, a 32-bit unsigned. -/
def addDelta (length : Nat) (delta : Int) : Nat :=
  (((length : Int) + delta) % 2 ^ 32).toNat

/-- The overload `String::ReplaceInPlace(unsigned pos, unsigned length, const char*
srcStart, unsigned srcLength)`; `srcStart` holds the cells from the source pointer to the
end of its buffer. -/
def Str.ReplaceInPlace (s : Str) (pos length : Nat) (srcStart : List (Option Nat))
    (srcLength : Nat) : Option Str :=
  match
    (if (pos + length) % 2 ^ 32 < s.length_ then
      if toInt srcLength - toInt length < 0 then
        match Str.MoveRange s ((pos + srcLength) % 2 ^ 32) ((pos + length) % 2 ^ 32)
            ((s.length_ + 2 * 2 ^ 32 - pos - length) % 2 ^ 32) with
        | some s => Str.Resize s (addDelta s.length_ (toInt srcLength - toInt length))
        | none => none
      else if toInt srcLength - toInt length > 0 then
        match Str.Resize s (addDelta s.length_ (toInt srcLength - toInt length)) with
        | some s =>
          Str.MoveRange s ((pos + srcLength) % 2 ^ 32) ((pos + length) % 2 ^ 32)
            ((s.length_ + 2 * 2 ^ 32 - pos - length) % 2 ^ 32)
        | none => none
      else some s
    else Str.Resize s (addDelta s.length_ (toInt srcLength - toInt length))) with
  | some s => Str.CopyChars s pos srcStart srcLength
  | none => none

/-- The overload `String::ReplaceInPlace(unsigned pos, unsigned length, const String&)`. -/
def Str.ReplaceInPlaceAt (s : Str) (pos length : Nat) (str : Str) : Option Str :=
  if (pos + length) % 2 ^ 32 > s.length_ then some s
  else Str.ReplaceInPlace s pos length str.buffer_ str.length_

/-- The loop `while (nextPos < length_)` of the overload
`String::ReplaceInPlace(const String&, const String&)`; `fuel` bounds the number of
rounds. -/
def Str.replaceFrom (replaceThis replaceWith : Str) : Nat → Nat → Str → Option Str
  | fuel, nextPos, s =>
    if nextPos < s.length_ then
      match fuel with
      | 0 => none
      | fuel + 1 =>
        match Str.Find s replaceThis nextPos with
        | none => none
        | some pos =>
          if pos = NPOS then some s
          else
            match Str.ReplaceInPlaceAt s pos replaceThis.length_ replaceWith with
            | none => none
            | some s =>
              Str.replaceFrom replaceThis replaceWith fuel
                ((pos + replaceWith.length_) % 2 ^ 32) s
    else some s

/-- The overload `String::ReplaceInPlace(const String&, const String&)`.  Every round
replaces one occurrence that lies behind the ones replaced before, so that `length_`
rounds are enough. -/
def Str.ReplaceInPlaceAll (s replaceThis replaceWith : Str) : Option Str :=
  Str.replaceFrom replaceThis replaceWith s.length_ 0 s

/-- The member `String::Replace(const String&, const String&)`. -/
def Str.Replace (s replaceThis replaceWith : Str) : Option Str :=
  match Str.copy s with
  | some ret => Str.ReplaceInPlaceAll ret replaceThis replaceWith
  | none => none

/-- The characters of a string, an indeterminate cell read as 0. -/
def Str.chars (s : Str) : List Nat :=
  (s.buffer_.take s.length_).map (fun cell => cell.getD 0)

/-- Modelled from the spec: `String::operator += (const String&)` (`String.h` is not among
the sources): resize to the sum of the lengths, then copy the characters of `rhs` behind
the old ones. -/
def Str.Append (s rhs : Str) : Option Str :=
  match Str.Resize s ((s.length_ + rhs.length_) % 2 ^ 32) with
  | some ret => Str.CopyChars ret s.length_ rhs.buffer_ rhs.length_
  | none => none

/-- Modelled from the spec: `String::operator += (char)` (`String.h` is not among the
sources): resize by one, then write the character at the old length. -/
def Str.AppendChar (s : Str) (rhs : Nat) : Option Str :=
  match Str.Resize s ((s.length_ + 1) % 2 ^ 32) with
  | some ret => Str.setChar ret s.length_ rhs
  | none => none

/-- The string object `s` has room for its length and holds the characters `cs`: the
members are 32-bit, a string of capacity 0 is empty, another one has a buffer of
`capacity_` cells with `length_ < capacity_`, and the first `length_` cells are the
characters.  The terminator `buffer_[length_]` is not constrained. -/
def Str.Holds (s : Str) (cs : List Nat) : Prop :=
  s.length_ = cs.length ∧ s.capacity_ < 2 ^ 32 ∧
  ((s.capacity_ = 0 ∧ cs = []) ∨ (cs.length < s.capacity_ ∧ s.buffer_.length = s.capacity_)) ∧
  s.buffer_.take cs.length = cs.map some

instance (s : Str) (cs : List Nat) : Decidable (Str.Holds s cs) := by
  unfold Str.Holds
  infer_instance

/-- The pattern `ps` occurs in the text `cs` at index `i`. -/
def OccursAt (cs ps : List Nat) (i : Nat) : Prop :=
  i + ps.length ≤ cs.length ∧ (cs.drop i).take ps.length = ps

instance (cs ps : List Nat) (i : Nat) : Decidable (OccursAt cs ps i) := by
  unfold OccursAt
  infer_instance

/-- The string "abc", as `String("abc")` builds it. -/
def Str.sampleAbc : Str :=
  { length_ := 3, capacity_ := 8
    buffer_ := [some 97, some 98, some 99, some 0, none, none, none, none] }

/-- The string "abcdefg", as `String("abcdefg")` builds it: 7 characters in a buffer of
`MIN_CAPACITY` cells. -/
def Str.sampleSeven : Str :=
  { length_ := 7, capacity_ := 8
    buffer_ := [some 97, some 98, some 99, some 100, some 101, some 102, some 103, some 0] }

/-- The string "hi". -/
def Str.sampleHi : Str :=
  { length_ := 2, capacity_ := 8
    buffer_ := [some 104, some 105, some 0, none, none, none, none, none] }

/-- The string "abcdefghi" after `String("abcdefg") += "hi"`: 9 characters in a buffer
grown from 8 to 12 cells. -/
def Str.sampleGrown : Str :=
  { length_ := 9, capacity_ := 12
    buffer_ := [some 97, some 98, some 99, some 100, some 101, some 102, some 103, some 104,
      some 105, some 0, none, none] }

/-- The string "abcd" after `String("abcdwxy").Resize(4)`: the cells behind the terminator
still hold the old characters. -/
def Str.sampleShrunk : Str :=
  { length_ := 4, capacity_ := 8
    buffer_ := [some 97, some 98, some 99, some 100, some 0, some 120, some 121, some 0] }

/-- The string "abcdefgh", as `String("abcdefgh")` builds it. -/
def Str.sampleEight : Str :=
  { length_ := 8, capacity_ := 9
    buffer_ := [some 97, some 98, some 99, some 100, some 101, some 102, some 103, some 104,
      some 0] }

/-- The string "a". -/
def Str.sampleA : Str :=
  { length_ := 1, capacity_ := 8
    buffer_ := [some 97, some 0, none, none, none, none, none, none] }

/-- The string "12345". -/
def Str.sampleDigits : Str :=
  { length_ := 5, capacity_ := 8
    buffer_ := [some 49, some 50, some 51, some 52, some 53, some 0, none, none] }

/-- The string ";a". -/
def Str.sampleLeading : Str :=
  { length_ := 2, capacity_ := 8
    buffer_ := [some 59, some 97, some 0, none, none, none, none, none] }

/-- The string "a;;b;". -/
def Str.sampleRuns : Str :=
  { length_ := 5, capacity_ := 8
    buffer_ := [some 97, some 59, some 59, some 98, some 59, some 0, none, none] }

/-- The string "aaab". -/
def Str.sampleText : Str :=
  { length_ := 4, capacity_ := 8
    buffer_ := [some 97, some 97, some 97, some 98, some 0, none, none, none] }

/-- The string "aab". -/
def Str.samplePattern : Str :=
  { length_ := 3, capacity_ := 8
    buffer_ := [some 97, some 97, some 98, some 0, none, none, none, none] }

/-- The characters of the strings `names` with the separator `sep` between two of them. -/
def joinWith (sep : Nat) : List (List Nat) → List Nat
  | [] => []
  | [c] => c
  | c :: rest => c ++ sep :: joinWith sep rest

/-- The characters of the strings `names` with the separator `sep` behind each of them. -/
def joinTrailing (sep : Nat) : List (List Nat) → List Nat
  | [] => []
  | c :: rest => c ++ sep :: joinTrailing sep rest

/-! ## The names of the scene variables -/

/-- The container `HashMap<ShortStringHash, String>` of the member `varNames_`, as an
association list in insertion order.  A stored string is the value that was assigned. -/
abbrev VarNameMap := List (Nat × Str)

/-- The lookup `HashMap::Find`: `none` stands for the iterator `End()`. -/
def VarNameMap.Find : VarNameMap → Nat → Option Str
  | [], _ => none
  | (k, v) :: rest, key => if k = key then some v else VarNameMap.Find rest key

/-- The assignment `map[key] = value`: overwrite the entry of `key`, or append a new one. -/
def VarNameMap.Assign : VarNameMap → Nat → Str → VarNameMap
  | [], key, value => [(key, value)]
  | (k, v) :: rest, key, value =>
    if k = key then (k, value) :: rest else (k, v) :: VarNameMap.Assign rest key value

/-- The removal `HashMap::Erase(key)`. -/
def VarNameMap.Erase (m : VarNameMap) (key : Nat) : VarNameMap :=
  m.filter (fun e => decide (e.1 ≠ key))

/-- The member `Scene::RegisterVar`.  The conversion `ShortStringHash(const String&)` is
not among the sources: `hash` stands for it, a function of the characters. -/
def Scene.RegisterVar (hash : List Nat → Nat) (varNames_ : VarNameMap) (name : Str) :
    VarNameMap :=
  VarNameMap.Assign varNames_ (hash name.chars) name

/-- The member `Scene::UnregisterVar`. -/
def Scene.UnregisterVar (hash : List Nat → Nat) (varNames_ : VarNameMap) (name : Str) :
    VarNameMap :=
  VarNameMap.Erase varNames_ (hash name.chars)

/-- The member `Scene::UnregisterAllVars`. -/
def Scene.UnregisterAllVars (_varNames_ : VarNameMap) : VarNameMap := []

/-- The member `Scene::GetVarName`; `String::EMPTY` is the empty string. -/
def Scene.GetVarName (varNames_ : VarNameMap) (hash : Nat) : Str :=
  match VarNameMap.Find varNames_ hash with
  | some name => name
  | none => Str.empty

/-- The loop of `Scene::SetVarNamesAttr` over the pieces of the attribute. -/
def Scene.assignVarNames (hash : List Nat → Nat) : List Str → VarNameMap → VarNameMap
  | [], varNames_ => varNames_
  | name :: rest, varNames_ =>
    Scene.assignVarNames hash rest (VarNameMap.Assign varNames_ (hash name.chars) name)

/-- The member `Scene::SetVarNamesAttr`: the table is cleared and filled from the pieces of
`value.Split(';')`. -/
def Scene.SetVarNamesAttr (hash : List Nat → Nat) (value : Str) : Option VarNameMap :=
  match Str.Split value 59 with
  | some varNames => some (Scene.assignVarNames hash varNames [])
  | none => none

/-- Modelled from the spec: `String::operator + (char)` (`String.h` is not among the
sources): a copy of the string with the character appended. -/
def Str.PlusChar (s : Str) (rhs : Nat) : Option Str :=
  match Str.copy s with
  | some ret => Str.AppendChar ret rhs
  | none => none

/-- The loop `ret += i->second_ + ';'` of `Scene::GetVarNamesAttr`. -/
def Scene.joinVarNames : VarNameMap → Str → Option Str
  | [], ret => some ret
  | (_, name) :: rest, ret =>
    match Str.PlusChar name 59 with
    | some piece =>
      match Str.Append ret piece with
      | some ret => Scene.joinVarNames rest ret
      | none => none
    | none => none

/-- The member `Scene::GetVarNamesAttr`. -/
def Scene.GetVarNamesAttr (varNames_ : VarNameMap) : Option Str :=
  if !varNames_.isEmpty then
    match Scene.joinVarNames varNames_ Str.empty with
    | some ret => Str.Resize ret ((ret.length_ + 2 ^ 32 - 1) % 2 ^ 32)
    | none => none
  else some Str.empty

/-- A table as `RegisterVar` and `UnregisterVar` build it from the empty one: one entry a
key, and each stored string is well formed and stored under the hash of its characters. -/
def VarNameMap.Registered (hash : List Nat → Nat) (t : VarNameMap) : Prop :=
  (t.map Prod.fst).Nodup ∧ ∀ e ∈ t, e.2.Holds e.2.chars ∧ e.1 = hash e.2.chars

/-- The number of characters of the names of a table, each with its separator. -/
def VarNameMap.attrLength (t : VarNameMap) : Nat :=
  (t.map (fun e => e.2.length_ + 1)).sum

/-- A table of two registered names, "hi" and "a", under the sum of the characters as
hash. -/
def VarNameMap.sample : VarNameMap := [(209, Str.sampleHi), (97, Str.sampleA)]

instance (hash : List Nat → Nat) (t : VarNameMap) : Decidable (VarNameMap.Registered hash t) := by
  unfold VarNameMap.Registered
  infer_instance

/-! ## Lemmas on the containers -/

theorem HashMap.Find_Assign_same (m : HashMap) (k : Nat) (v : Ptr) :
    HashMap.Find (HashMap.Assign m k v) k = some v := by
  induction m with
  | nil => simp [HashMap.Assign, HashMap.Find]
  | cons e rest ih =>
    obtain ⟨k0, v0⟩ := e
    by_cases h : k0 = k
    · simp [HashMap.Assign, HashMap.Find, h]
    · simp [HashMap.Assign, HashMap.Find, h, ih]

theorem HashMap.Find_Assign_other (m : HashMap) (k k1 : Nat) (v : Ptr) (h : k1 ≠ k) :
    HashMap.Find (HashMap.Assign m k v) k1 = HashMap.Find m k1 := by
  induction m with
  | nil => simp [HashMap.Assign, HashMap.Find, Ne.symm h]
  | cons e rest ih =>
    obtain ⟨k0, v0⟩ := e
    by_cases h0 : k0 = k
    · subst h0
      simp [HashMap.Assign, HashMap.Find, Ne.symm h]
    · by_cases h1 : k0 = k1
      · subst h1
        simp [HashMap.Assign, HashMap.Find, h]
      · simp [HashMap.Assign, HashMap.Find, h0, h1, ih]

theorem HashMap.Find_Erase_same (m : HashMap) (k : Nat) :
    HashMap.Find (HashMap.Erase m k) k = none := by
  induction m with
  | nil => simp [HashMap.Erase, HashMap.Find]
  | cons e rest ih =>
    obtain ⟨k0, v0⟩ := e
    by_cases h : k0 = k
    · simpa [HashMap.Erase, List.filter_cons, h] using ih
    · simpa [HashMap.Erase, List.filter_cons, h, HashMap.Find] using ih

theorem HashMap.Find_Erase_other (m : HashMap) (k k1 : Nat) (h : k1 ≠ k) :
    HashMap.Find (HashMap.Erase m k) k1 = HashMap.Find m k1 := by
  induction m with
  | nil => simp [HashMap.Erase, HashMap.Find]
  | cons e rest ih =>
    obtain ⟨k0, v0⟩ := e
    by_cases h0 : k0 = k
    · subst h0
      simpa [HashMap.Erase, List.filter_cons, HashMap.Find, Ne.symm h] using ih
    · by_cases h1 : k0 = k1
      · subst h1
        simp [HashMap.Erase, List.filter_cons, HashMap.Find, h]
      · simpa [HashMap.Erase, List.filter_cons, HashMap.Find, h0, h1] using ih

/-! ## Lemmas on the node hooks -/

theorem Scene.GetNode_NodeAdded (d : NodeDecl) (s : Scene) (node : Ptr) (h0 : node ≠ 0)
    (h1 : (s.nodeHeap node).scene_ = 0) (j : Nat) :
    Scene.GetNode d (Scene.NodeAdded d s node) j =
      if j = (s.nodeHeap node).id_ then node else Scene.GetNode d s j := by
  simp only [Scene.NodeAdded, h0, h1, false_or, ne_eq, not_true_eq_false, if_false,
    Node.SetScene, Function.update_same, Scene.MarkReplicationDirty, Scene.MarkNetworkUpdate]
  by_cases hlt : (s.nodeHeap node).id_ < d.FIRST_LOCAL_ID
  · simp only [hlt, if_true, Scene.GetNode]
    by_cases hj : j = (s.nodeHeap node).id_
    · subst hj
      simp [hlt, HashMap.Find_Assign_same]
    · cases hf : HashMap.Find s.replicatedNodes_ (s.nodeHeap node).id_ with
      | none => simp [hj, HashMap.Find_Assign_other]
      | some other =>
        by_cases ho : other = node
        · simp [hj, ho, HashMap.Find_Assign_other]
        · simp [hj, ho, HashMap.Find_Assign_other, Node.ResetScene, WriteToLog]
  · simp only [hlt, if_false, Scene.GetNode]
    by_cases hj : j = (s.nodeHeap node).id_
    · subst hj
      simp [hlt, HashMap.Find_Assign_same]
    · cases hf : HashMap.Find s.localNodes_ (s.nodeHeap node).id_ with
      | none => simp [hj, HashMap.Find_Assign_other]
      | some other =>
        by_cases ho : other = node
        · simp [hj, ho, HashMap.Find_Assign_other]
        · simp [hj, ho, HashMap.Find_Assign_other, Node.ResetScene, WriteToLog]

theorem Scene.nodeHeap_NodeAdded (d : NodeDecl) (s : Scene) (node : Ptr) (h0 : node ≠ 0)
    (h1 : (s.nodeHeap node).scene_ = 0) (p : Ptr) :
    (Scene.NodeAdded d s node).nodeHeap p =
      if p = node then { id_ := (s.nodeHeap node).id_, scene_ := s.self }
      else if HashMap.Find (Scene.nodeMapOf d s (s.nodeHeap node).id_) (s.nodeHeap node).id_
          = some p then
        { id_ := d.resetID (s.nodeHeap p).id_, scene_ := 0 }
      else s.nodeHeap p := by
  simp only [Scene.NodeAdded, h0, h1, false_or, ne_eq, not_true_eq_false, if_false,
    Node.SetScene, Function.update_same, Scene.MarkReplicationDirty, Scene.MarkNetworkUpdate,
    Scene.nodeMapOf]
  by_cases hlt : (s.nodeHeap node).id_ < d.FIRST_LOCAL_ID
  · simp only [hlt, if_true]
    cases hf : HashMap.Find s.replicatedNodes_ (s.nodeHeap node).id_ with
    | none =>
      by_cases hp : p = node
      · subst hp; simp
      · simp [hp, Function.update_noteq]
    | some other =>
      by_cases ho : other = node
      · by_cases hp : p = node
        · subst hp; simp [ho]
        · simp [hp, ho, Function.update_noteq, Ne.symm hp]
      · by_cases hp : p = node
        · subst hp
          simp [ho, Node.ResetScene, WriteToLog, Function.update_noteq (Ne.symm ho)]
        · by_cases hq : other = p
          · subst hq
            simp [hp, Node.ResetScene, WriteToLog, Function.update_noteq]
          · simp [hp, hq, ho, Node.ResetScene, WriteToLog, Function.update_noteq, Ne.symm hq]
  · simp only [hlt, if_false]
    cases hf : HashMap.Find s.localNodes_ (s.nodeHeap node).id_ with
    | none =>
      by_cases hp : p = node
      · subst hp; simp
      · simp [hp, Function.update_noteq]
    | some other =>
      by_cases ho : other = node
      · by_cases hp : p = node
        · subst hp; simp [ho]
        · simp [hp, ho, Function.update_noteq, Ne.symm hp]
      · by_cases hp : p = node
        · subst hp
          simp [ho, Node.ResetScene, WriteToLog, Function.update_noteq (Ne.symm ho)]
        · by_cases hq : other = p
          · subst hq
            simp [hp, Node.ResetScene, WriteToLog, Function.update_noteq]
          · simp [hp, hq, ho, Node.ResetScene, WriteToLog, Function.update_noteq, Ne.symm hq]

theorem Scene.GetNode_eq (d : NodeDecl) (s : Scene) (id : Nat) :
    Scene.GetNode d s id = (HashMap.Find (Scene.nodeMapOf d s id) id).getD 0 := by
  unfold Scene.GetNode Scene.nodeMapOf
  (repeat' split) <;> simp_all

theorem Scene.GetNode_NodeRemoved (d : NodeDecl) (s : Scene) (node : Ptr) (h0 : node ≠ 0)
    (h1 : (s.nodeHeap node).scene_ = s.self) (j : Nat) :
    Scene.GetNode d (Scene.NodeRemoved d s node) j =
      if j = (s.nodeHeap node).id_ then 0 else Scene.GetNode d s j := by
  simp only [Scene.NodeRemoved, h0, h1, false_or, ne_eq, not_true_eq_false, if_false,
    Node.SetScene, Node.SetID, Scene.MarkReplicationDirty]
  by_cases hlt : (s.nodeHeap node).id_ < d.FIRST_LOCAL_ID
  · simp only [hlt, if_true, Scene.GetNode]
    by_cases hj : j = (s.nodeHeap node).id_
    · subst hj
      simp [hlt, HashMap.Find_Erase_same]
    · simp [hj, HashMap.Find_Erase_other]
  · simp only [hlt, if_false, Scene.GetNode]
    by_cases hj : j = (s.nodeHeap node).id_
    · subst hj
      simp [hlt, HashMap.Find_Erase_same]
    · simp [hj, HashMap.Find_Erase_other]

theorem Scene.nodeHeap_NodeRemoved (d : NodeDecl) (s : Scene) (node : Ptr) (h0 : node ≠ 0)
    (h1 : (s.nodeHeap node).scene_ = s.self) (p : Ptr) :
    (Scene.NodeRemoved d s node).nodeHeap p =
      if p = node then { id_ := 0, scene_ := 0 } else s.nodeHeap p := by
  simp only [Scene.NodeRemoved, h0, h1, false_or, ne_eq, not_true_eq_false, if_false,
    Node.SetScene, Node.SetID, Scene.MarkReplicationDirty]
  by_cases hlt : (s.nodeHeap node).id_ < d.FIRST_LOCAL_ID
  · by_cases hp : p = node
    · subst hp; simp [hlt]
    · simp [hlt, hp, Function.update_noteq]
  · by_cases hp : p = node
    · subst hp; simp [hlt]
    · simp [hlt, hp, Function.update_noteq]

theorem Scene.NodeAdded_self (d : NodeDecl) (s : Scene) (node : Ptr) :
    (Scene.NodeAdded d s node).self = s.self := by
  by_cases hg : node = 0 ∨ (s.nodeHeap node).scene_ ≠ 0
  · simp [Scene.NodeAdded, hg]
  · simp only [Scene.NodeAdded, hg, if_false, Node.SetScene, Function.update_same,
      Scene.MarkReplicationDirty, Scene.MarkNetworkUpdate]
    by_cases hlt : (s.nodeHeap node).id_ < d.FIRST_LOCAL_ID
    · simp only [hlt, if_true]
      cases hf : HashMap.Find s.replicatedNodes_ (s.nodeHeap node).id_ with
      | none => rfl
      | some other =>
        by_cases ho : other = node
        · simp [ho]
        · simp [ho, Node.ResetScene, WriteToLog]
    · simp only [hlt, if_false]
      cases hf : HashMap.Find s.localNodes_ (s.nodeHeap node).id_ with
      | none => rfl
      | some other =>
        by_cases ho : other = node
        · simp [ho]
        · simp [ho, Node.ResetScene, WriteToLog]

theorem Scene.NodeRemoved_self (d : NodeDecl) (s : Scene) (node : Ptr) :
    (Scene.NodeRemoved d s node).self = s.self := by
  by_cases hg : node = 0 ∨ (s.nodeHeap node).scene_ ≠ s.self
  · simp [Scene.NodeRemoved, hg]
  · simp only [Scene.NodeRemoved, hg, if_false, Node.SetScene, Node.SetID,
      Scene.MarkReplicationDirty]
    by_cases hlt : (s.nodeHeap node).id_ < d.FIRST_LOCAL_ID
    · simp [hlt]
    · simp [hlt]

theorem Scene.MembersRegistered_NodeAdded (d : NodeDecl) (s : Scene) (node : Ptr)
    (hinv : Scene.MembersRegistered d s) (hself : s.self ≠ 0) :
    Scene.MembersRegistered d (Scene.NodeAdded d s node) := by
  by_cases hg : node = 0 ∨ (s.nodeHeap node).scene_ ≠ 0
  · simpa [Scene.NodeAdded, hg] using hinv
  · have h0 : node ≠ 0 := fun h => hg (Or.inl h)
    have h1 : (s.nodeHeap node).scene_ = 0 := by
      by_contra h; exact hg (Or.inr h)
    intro n hn hscene
    rw [Scene.NodeAdded_self] at hscene
    rw [Scene.nodeHeap_NodeAdded d s node h0 h1] at hscene ⊢
    rw [Scene.GetNode_NodeAdded d s node h0 h1]
    by_cases hp : n = node
    · simp [hp]
    · simp only [hp, if_false] at hscene ⊢
      by_cases hq : HashMap.Find (Scene.nodeMapOf d s (s.nodeHeap node).id_)
          (s.nodeHeap node).id_ = some n
      · simp only [hq, if_true] at hscene
        exact absurd hscene.symm hself
      · simp only [hq, if_false] at hscene ⊢
        have hreg := hinv n hn hscene
        by_cases hid : (s.nodeHeap n).id_ = (s.nodeHeap node).id_
        · exfalso
          apply hq
          rw [Scene.GetNode_eq, hid] at hreg
          cases hfind : HashMap.Find (Scene.nodeMapOf d s (s.nodeHeap node).id_)
              (s.nodeHeap node).id_ with
          | none => rw [hfind] at hreg; exact absurd hreg.symm hn
          | some v => rw [hfind] at hreg; simpa using hreg
        · simp only [hid, if_false]
          exact hreg

theorem Scene.MembersRegistered_NodeRemoved (d : NodeDecl) (s : Scene) (node : Ptr)
    (hinv : Scene.MembersRegistered d s) (hself : s.self ≠ 0) :
    Scene.MembersRegistered d (Scene.NodeRemoved d s node) := by
  by_cases hg : node = 0 ∨ (s.nodeHeap node).scene_ ≠ s.self
  · simpa [Scene.NodeRemoved, hg] using hinv
  · have h0 : node ≠ 0 := fun h => hg (Or.inl h)
    have h1 : (s.nodeHeap node).scene_ = s.self := by
      by_contra h; exact hg (Or.inr h)
    intro n hn hscene
    rw [Scene.NodeRemoved_self] at hscene
    rw [Scene.nodeHeap_NodeRemoved d s node h0 h1] at hscene ⊢
    rw [Scene.GetNode_NodeRemoved d s node h0 h1]
    by_cases hp : n = node
    · simp only [hp, if_true] at hscene
      exact absurd hscene.symm hself
    · simp only [hp, if_false] at hscene ⊢
      have hreg := hinv n hn hscene
      by_cases hid : (s.nodeHeap n).id_ = (s.nodeHeap node).id_
      · exfalso
        apply hp
        rw [← hreg, hid]
        exact hinv node h0 h1
      · simp only [hid, if_false]
        exact hreg

theorem Scene.applyCalls_self (d : NodeDecl) (calls : List RegistryCall) (s : Scene) :
    (Scene.applyCalls d s calls).self = s.self := by
  induction calls generalizing s with
  | nil => rfl
  | cons c rest ih =>
    cases c with
    | NodeAdded node => simp [Scene.applyCalls, ih, Scene.NodeAdded_self]
    | NodeRemoved node => simp [Scene.applyCalls, ih, Scene.NodeRemoved_self]

theorem Scene.MembersRegistered_applyCalls (d : NodeDecl) (calls : List RegistryCall) (s : Scene)
    (hinv : Scene.MembersRegistered d s) (hself : s.self ≠ 0) :
    Scene.MembersRegistered d (Scene.applyCalls d s calls) := by
  induction calls generalizing s with
  | nil => exact hinv
  | cons c rest ih =>
    cases c with
    | NodeAdded node =>
      exact ih _ (Scene.MembersRegistered_NodeAdded d s node hinv hself)
        (by rw [Scene.NodeAdded_self]; exact hself)
    | NodeRemoved node =>
      exact ih _ (Scene.MembersRegistered_NodeRemoved d s node hinv hself)
        (by rw [Scene.NodeRemoved_self]; exact hself)

theorem freeIDLoop_empty (first last fuel cursor : Nat) :
    freeIDLoop first last [] fuel cursor = some cursor := by
  cases fuel <;> simp [freeIDLoop, HashMap.Contains, HashMap.Find]

theorem Scene.construct_eq (d : NodeDecl) (fuel : Nat) (self : Ptr) (nodeHeap : Ptr → Node)
    (componentHeap : Ptr → Component) :
    Scene.construct d fuel self nodeHeap componentHeap =
      some (Scene.NodeAdded d (Node.SetID
        { Scene.initialised d self nodeHeap componentHeap with
          replicatedNodeID_ := d.FIRST_REPLICATED_ID } self d.FIRST_REPLICATED_ID) self) := by
  simp [Scene.construct, Scene.GetFreeNodeID, Scene.initialised, freeIDLoop_empty]

/-! ## Lemmas on the ID search loop -/

theorem freeIDLoop_fuel_succ (first last : Nat) (map : HashMap) (fuel cursor x : Nat)
    (h : freeIDLoop first last map fuel cursor = some x) :
    freeIDLoop first last map (fuel + 1) cursor = some x := by
  induction fuel generalizing cursor with
  | zero =>
    unfold freeIDLoop at h ⊢
    by_cases hc : HashMap.Contains map cursor = true
    · simp [hc] at h
    · simpa [hc] using h
  | succ n ih =>
    unfold freeIDLoop at h ⊢
    by_cases hc : HashMap.Contains map cursor = true
    · simp only [hc, Bool.not_true, Bool.false_eq_true, if_false] at h ⊢
      exact ih _ h
    · simpa [hc] using h

theorem freeIDLoop_fuel_mono (first last : Nat) (map : HashMap) (fuel fuel1 cursor x : Nat)
    (hle : fuel ≤ fuel1) (h : freeIDLoop first last map fuel cursor = some x) :
    freeIDLoop first last map fuel1 cursor = some x := by
  induction hle with
  | refl => exact h
  | step _ ih => exact freeIDLoop_fuel_succ _ _ _ _ _ _ ih

/-- Walking upwards: a free ID `cursor + k` not above `last` is reached within `k` steps. -/
theorem freeIDLoop_ascending (first last : Nat) (map : HashMap) (hlast : last < 2 ^ 32)
    (k : Nat) : ∀ cursor fuel : Nat, cursor + k ≤ last → HashMap.Contains map (cursor + k) = false →
      k ≤ fuel → ∃ x, freeIDLoop first last map fuel cursor = some x ∧ cursor ≤ x ∧
        x ≤ cursor + k ∧ HashMap.Contains map x = false := by
  induction k with
  | zero =>
    intro cursor fuel _ hfree _
    refine ⟨cursor, ?_, le_refl _, le_refl _, hfree⟩
    simp only [Nat.add_zero] at hfree
    unfold freeIDLoop
    simp [hfree]
  | succ k ih =>
    intro cursor fuel hle hfree hfuel
    by_cases hc : HashMap.Contains map cursor = true
    · obtain ⟨fuel1, rfl⟩ : ∃ f, fuel = f + 1 := ⟨fuel - 1, by omega⟩
      have hne : cursor ≠ last := by omega
      have hmod : (cursor + 1) % 2 ^ 32 = cursor + 1 := Nat.mod_eq_of_lt (by omega)
      obtain ⟨x, hx, h1, h2, h3⟩ := ih (cursor + 1) fuel1 (by omega)
        (by rw [show cursor + 1 + k = cursor + (k + 1) by omega]; exact hfree) (by omega)
      refine ⟨x, ?_, by omega, by omega, h3⟩
      unfold freeIDLoop
      simp only [hc, Bool.not_true, Bool.false_eq_true, if_false, ne_eq, hne, not_false_eq_true,
        if_true, hmod]
      exact hx
    · have hc1 : HashMap.Contains map cursor = false := by simpa using hc
      refine ⟨cursor, ?_, le_refl _, by omega, hc1⟩
      unfold freeIDLoop
      simp [hc1]

/-- Walking upwards to `last` and wrapping to `first`: a free ID below the cursor is reached. -/
theorem freeIDLoop_wrapping (first last : Nat) (map : HashMap) (hlast : last < 2 ^ 32)
    (f : Nat) (hf1 : first ≤ f) (hfree : HashMap.Contains map f = false)
    (m : Nat) : ∀ cursor fuel : Nat, cursor ≤ last → last - cursor = m → f < cursor →
      m + 1 + (f - first) ≤ fuel → ∃ x, freeIDLoop first last map fuel cursor = some x ∧
        first ≤ x ∧ x ≤ last ∧ HashMap.Contains map x = false := by
  induction m with
  | zero =>
    intro cursor fuel hle hm hlt hfuel
    have hcl : cursor = last := by omega
    by_cases hc : HashMap.Contains map cursor = true
    · obtain ⟨fuel1, rfl⟩ : ∃ g, fuel = g + 1 := ⟨fuel - 1, by omega⟩
      obtain ⟨x, hx, h1, h2, h3⟩ := freeIDLoop_ascending first last map hlast (f - first) first
        fuel1 (by omega) (by rw [show first + (f - first) = f by omega]; exact hfree) (by omega)
      refine ⟨x, ?_, h1, by omega, h3⟩
      unfold freeIDLoop
      rw [hcl] at hc
      rw [hcl]
      simp only [hc, Bool.not_true, Bool.false_eq_true, if_false, ne_eq, not_true_eq_false]
      exact hx
    · have hc1 : HashMap.Contains map cursor = false := by simpa using hc
      refine ⟨cursor, ?_, by omega, hle, hc1⟩
      unfold freeIDLoop
      simp [hc1]
  | succ m ih =>
    intro cursor fuel hle hm hlt hfuel
    by_cases hc : HashMap.Contains map cursor = true
    · obtain ⟨fuel1, rfl⟩ : ∃ g, fuel = g + 1 := ⟨fuel - 1, by omega⟩
      have hne : cursor ≠ last := by omega
      have hmod : (cursor + 1) % 2 ^ 32 = cursor + 1 := Nat.mod_eq_of_lt (by omega)
      obtain ⟨x, hx, h1, h2, h3⟩ := ih (cursor + 1) fuel1 (by omega) (by omega) (by omega)
        (by omega)
      refine ⟨x, ?_, h1, h2, h3⟩
      unfold freeIDLoop
      simp only [hc, Bool.not_true, Bool.false_eq_true, if_false, ne_eq, hne, not_false_eq_true,
        if_true, hmod]
      exact hx
    · have hc1 : HashMap.Contains map cursor = false := by simpa using hc
      refine ⟨cursor, ?_, by omega, hle, hc1⟩
      unfold freeIDLoop
      simp [hc1]

/-- The search loop returns a free ID of the range within `last - first` cursor steps. -/
theorem freeIDLoop_returns (first last : Nat) (map : HashMap) (hlast : last < 2 ^ 32)
    (cursor : Nat) (hc1 : first ≤ cursor) (hc2 : cursor ≤ last)
    (hex : ∃ f, first ≤ f ∧ f ≤ last ∧ HashMap.Contains map f = false) :
    ∃ x, first ≤ x ∧ x ≤ last ∧ HashMap.Contains map x = false ∧
      ∀ fuel, last - first ≤ fuel → freeIDLoop first last map fuel cursor = some x := by
  obtain ⟨f, hf1, hf2, hfree⟩ := hex
  by_cases hcf : cursor ≤ f
  · obtain ⟨x, hx, h1, h2, h3⟩ := freeIDLoop_ascending first last map hlast (f - cursor) cursor
      (last - first) (by omega) (by rw [show cursor + (f - cursor) = f by omega]; exact hfree)
      (by omega)
    exact ⟨x, by omega, by omega, h3, fun fuel hfuel =>
      freeIDLoop_fuel_mono _ _ _ _ _ _ _ hfuel hx⟩
  · obtain ⟨x, hx, h1, h2, h3⟩ := freeIDLoop_wrapping first last map hlast f hf1 hfree
      (last - cursor) cursor (last - first) hc2 rfl (by omega) (by omega)
    exact ⟨x, h1, h2, h3, fun fuel hfuel => freeIDLoop_fuel_mono _ _ _ _ _ _ _ hfuel hx⟩

/-! ## Lemmas on the component hooks and the log -/

theorem Scene.GetComponent_eq (d : NodeDecl) (s : Scene) (id : Nat) :
    Scene.GetComponent d s id = (HashMap.Find (Scene.componentMapOf d s id) id).getD 0 := by
  unfold Scene.GetComponent Scene.componentMapOf
  (repeat' split) <;> simp_all

theorem Scene.GetComponent_ComponentAdded (d : NodeDecl) (s : Scene) (c : Ptr) (h0 : c ≠ 0)
    (j : Nat) :
    Scene.GetComponent d (Scene.ComponentAdded d s c) j =
      if j = (s.componentHeap c).id_ then c else Scene.GetComponent d s j := by
  simp only [Scene.ComponentAdded, h0, if_false, ne_eq]
  by_cases hlt : (s.componentHeap c).id_ < d.FIRST_LOCAL_ID
  · simp only [hlt, if_true, Scene.GetComponent]
    by_cases hj : j = (s.componentHeap c).id_
    · subst hj
      simp [hlt, HashMap.Find_Assign_same]
    · cases hf : HashMap.Find s.replicatedComponents_ (s.componentHeap c).id_ with
      | none => simp [hj, HashMap.Find_Assign_other]
      | some other =>
        by_cases ho : other = c
        · simp [hj, ho, HashMap.Find_Assign_other]
        · simp [hj, ho, HashMap.Find_Assign_other, Component.SetID, WriteToLog]
  · simp only [hlt, if_false, Scene.GetComponent]
    by_cases hj : j = (s.componentHeap c).id_
    · subst hj
      simp [hlt, HashMap.Find_Assign_same]
    · cases hf : HashMap.Find s.localComponents_ (s.componentHeap c).id_ with
      | none => simp [hj, HashMap.Find_Assign_other]
      | some other =>
        by_cases ho : other = c
        · simp [hj, ho, HashMap.Find_Assign_other]
        · simp [hj, ho, HashMap.Find_Assign_other, Component.SetID, WriteToLog]

theorem Scene.componentHeap_ComponentAdded (d : NodeDecl) (s : Scene) (c : Ptr) (h0 : c ≠ 0)
    (p : Ptr) :
    (Scene.ComponentAdded d s c).componentHeap p =
      if p ≠ c ∧ HashMap.Find (Scene.componentMapOf d s (s.componentHeap c).id_)
          (s.componentHeap c).id_ = some p then
        { (s.componentHeap p) with id_ := 0 }
      else s.componentHeap p := by
  simp only [Scene.ComponentAdded, h0, if_false, ne_eq, Scene.componentMapOf]
  by_cases hlt : (s.componentHeap c).id_ < d.FIRST_LOCAL_ID
  · simp only [hlt, if_true]
    cases hf : HashMap.Find s.replicatedComponents_ (s.componentHeap c).id_ with
    | none => simp
    | some other =>
      by_cases ho : other = c
      · by_cases hp : p = c
        · simp [hp, ho]
        · simp [hp, ho, Ne.symm hp]
      · by_cases hq : other = p
        · subst hq
          simp [ho, Component.SetID, WriteToLog]
        · simp [ho, hq, Component.SetID, WriteToLog, Function.update_noteq (Ne.symm hq)]
  · simp only [hlt, if_false]
    cases hf : HashMap.Find s.localComponents_ (s.componentHeap c).id_ with
    | none => simp
    | some other =>
      by_cases ho : other = c
      · by_cases hp : p = c
        · simp [hp, ho]
        · simp [hp, ho, Ne.symm hp]
      · by_cases hq : other = p
        · subst hq
          simp [ho, Component.SetID, WriteToLog]
        · simp [ho, hq, Component.SetID, WriteToLog, Function.update_noteq (Ne.symm hq)]

theorem Scene.GetComponent_ComponentRemoved (d : NodeDecl) (s : Scene) (c : Ptr) (h0 : c ≠ 0)
    (j : Nat) :
    Scene.GetComponent d (Scene.ComponentRemoved d s c) j =
      if j = (s.componentHeap c).id_ then 0 else Scene.GetComponent d s j := by
  simp only [Scene.ComponentRemoved, h0, if_false, Component.SetID]
  by_cases hlt : (s.componentHeap c).id_ < d.FIRST_LOCAL_ID
  · simp only [hlt, if_true, Scene.GetComponent]
    by_cases hj : j = (s.componentHeap c).id_
    · subst hj
      simp [hlt, HashMap.Find_Erase_same]
    · simp [hj, HashMap.Find_Erase_other]
  · simp only [hlt, if_false, Scene.GetComponent]
    by_cases hj : j = (s.componentHeap c).id_
    · subst hj
      simp [hlt, HashMap.Find_Erase_same]
    · simp [hj, HashMap.Find_Erase_other]

theorem Scene.componentHeap_ComponentRemoved (d : NodeDecl) (s : Scene) (c : Ptr) (h0 : c ≠ 0)
    (p : Ptr) :
    (Scene.ComponentRemoved d s c).componentHeap p =
      if p = c then { (s.componentHeap c) with id_ := 0 } else s.componentHeap p := by
  simp only [Scene.ComponentRemoved, h0, if_false, Component.SetID]
  by_cases hlt : (s.componentHeap c).id_ < d.FIRST_LOCAL_ID
  · by_cases hp : p = c
    · subst hp; simp [hlt]
    · simp [hlt, hp, Function.update_noteq]
  · by_cases hp : p = c
    · subst hp; simp [hlt]
    · simp [hlt, hp, Function.update_noteq]

theorem Scene.log_NodeAdded (d : NodeDecl) (s : Scene) (node : Ptr) (h0 : node ≠ 0)
    (h1 : (s.nodeHeap node).scene_ = 0) :
    (Scene.NodeAdded d s node).log =
      match HashMap.Find (Scene.nodeMapOf d s (s.nodeHeap node).id_) (s.nodeHeap node).id_ with
      | some other =>
        if other ≠ node then
          s.log ++ [(LOG_WARNING,
            "Overwriting node with ID " ++ String.ofUnsigned (s.nodeHeap node).id_)]
        else s.log
      | none => s.log := by
  simp only [Scene.NodeAdded, h0, h1, false_or, ne_eq, not_true_eq_false, if_false,
    Node.SetScene, Function.update_same, Scene.MarkReplicationDirty, Scene.MarkNetworkUpdate,
    Scene.nodeMapOf]
  by_cases hlt : (s.nodeHeap node).id_ < d.FIRST_LOCAL_ID
  · simp only [hlt, if_true]
    cases hf : HashMap.Find s.replicatedNodes_ (s.nodeHeap node).id_ with
    | none => rfl
    | some other =>
      by_cases ho : other = node
      · simp [ho]
      · simp [ho, Node.ResetScene, WriteToLog]
  · simp only [hlt, if_false]
    cases hf : HashMap.Find s.localNodes_ (s.nodeHeap node).id_ with
    | none => rfl
    | some other =>
      by_cases ho : other = node
      · simp [ho]
      · simp [ho, Node.ResetScene, WriteToLog]

theorem Scene.Find_nodeMapOf_NodeAdded (d : NodeDecl) (s : Scene) (node : Ptr) (h0 : node ≠ 0)
    (h1 : (s.nodeHeap node).scene_ = 0) :
    HashMap.Find (Scene.nodeMapOf d (Scene.NodeAdded d s node) (s.nodeHeap node).id_)
      (s.nodeHeap node).id_ = some node := by
  simp only [Scene.NodeAdded, h0, h1, false_or, ne_eq, not_true_eq_false, if_false,
    Node.SetScene, Function.update_same, Scene.MarkReplicationDirty, Scene.MarkNetworkUpdate,
    Scene.nodeMapOf]
  by_cases hlt : (s.nodeHeap node).id_ < d.FIRST_LOCAL_ID
  · simp only [hlt, if_true]
    cases hf : HashMap.Find s.replicatedNodes_ (s.nodeHeap node).id_ with
    | none => simp [HashMap.Find_Assign_same]
    | some other =>
      by_cases ho : other = node
      · simp [ho, HashMap.Find_Assign_same]
      · simp [ho, Node.ResetScene, WriteToLog, HashMap.Find_Assign_same]
  · simp only [hlt, if_false]
    cases hf : HashMap.Find s.localNodes_ (s.nodeHeap node).id_ with
    | none => simp [HashMap.Find_Assign_same]
    | some other =>
      by_cases ho : other = node
      · simp [ho, HashMap.Find_Assign_same]
      · simp [ho, Node.ResetScene, WriteToLog, HashMap.Find_Assign_same]

/-! ## Claims on the identity registry -/

/-- C1: ID uniqueness is an invariant of the registry.  The constructor of a scene at a
non-null address, in a heap where no node yet claims membership of it, returns, and after
every sequence of `NodeAdded` and `NodeRemoved` calls every member node `n` of the scene
satisfies `GetNode(n.GetID()) == n` and no two distinct member nodes hold the same ID. -/
theorem C1_id_uniqueness (d : NodeDecl) (self : Ptr) (nodeHeap : Ptr → Node)
    (componentHeap : Ptr → Component) (hself : self ≠ 0)
    (hfresh : ∀ p : Ptr, p ≠ self → (nodeHeap p).scene_ ≠ self) (calls : List RegistryCall) :
    ∃ s0 : Scene, (∀ fuel : Nat, Scene.construct d fuel self nodeHeap componentHeap = some s0) ∧
      (Scene.applyCalls d s0 calls).self = self ∧
      Scene.MembersRegistered d (Scene.applyCalls d s0 calls) ∧
      Scene.UniqueIDs (Scene.applyCalls d s0 calls) := by
  refine ⟨_, fun fuel => Scene.construct_eq d fuel self nodeHeap componentHeap, ?_⟩
  set s0 := Scene.NodeAdded d (Node.SetID
        { Scene.initialised d self nodeHeap componentHeap with
          replicatedNodeID_ := d.FIRST_REPLICATED_ID } self d.FIRST_REPLICATED_ID) self with hs0
  have hs0self : s0.self = self := by
    rw [hs0, Scene.NodeAdded_self]; rfl
  have hinv0 : Scene.MembersRegistered d s0 := by
    have h1 : ((Node.SetID { Scene.initialised d self nodeHeap componentHeap with
          replicatedNodeID_ := d.FIRST_REPLICATED_ID } self d.FIRST_REPLICATED_ID).nodeHeap
          self).scene_ = 0 := by
      simp [Node.SetID, Scene.initialised, Node.constructed]
    intro n hn hscene
    rw [hs0self] at hscene
    rw [hs0, Scene.nodeHeap_NodeAdded d _ self hself h1] at hscene ⊢
    rw [Scene.GetNode_NodeAdded d _ self hself h1]
    by_cases hp : n = self
    · simp [hp]
    · exfalso
      simp only [hp, if_false] at hscene
      simp [Scene.nodeMapOf, Node.SetID, Scene.initialised, HashMap.Find,
        Function.update_noteq hp] at hscene
      exact hfresh n hp hscene
  have hinv : Scene.MembersRegistered d (Scene.applyCalls d s0 calls) :=
    Scene.MembersRegistered_applyCalls d calls s0 hinv0 (by rw [hs0self]; exact hself)
  have hsf : (Scene.applyCalls d s0 calls).self = self := by
    rw [Scene.applyCalls_self, hs0self]
  refine ⟨hsf, hinv, ?_⟩
  intro a b ha hb hab hsa hsb hid
  apply hab
  rw [← hinv a ha hsa, hid]
  exact hinv b hb hsb

/-- C1 at a concrete input: the scene at address 1, then two nodes of ID 5 added and one
removed. -/
theorem C1_id_uniqueness_witness :
    (1 : Ptr) ≠ 0 ∧ (∀ p : Ptr, p ≠ 1 → (Node.sampleHeap p).scene_ ≠ 1) ∧
    ∃ s0 : Scene,
      (∀ fuel : Nat, Scene.construct NodeDecl.sample fuel 1 Node.sampleHeap
        Component.sampleHeap = some s0) ∧
      (Scene.applyCalls NodeDecl.sample s0
        [RegistryCall.NodeAdded 2, RegistryCall.NodeAdded 3, RegistryCall.NodeRemoved 2]).self
          = 1 ∧
      Scene.MembersRegistered NodeDecl.sample (Scene.applyCalls NodeDecl.sample s0
        [RegistryCall.NodeAdded 2, RegistryCall.NodeAdded 3, RegistryCall.NodeRemoved 2]) ∧
      Scene.UniqueIDs (Scene.applyCalls NodeDecl.sample s0
        [RegistryCall.NodeAdded 2, RegistryCall.NodeAdded 3, RegistryCall.NodeRemoved 2]) :=
  ⟨by decide, by intro p _; simp [Node.sampleHeap, Node.constructed],
    C1_id_uniqueness NodeDecl.sample 1 Node.sampleHeap Component.sampleHeap (by decide)
      (by intro p _; simp [Node.sampleHeap, Node.constructed]) _⟩

/-- C2: with the last ID of the range a 32-bit unsigned, the cursor within the range of the
mode and some ID of the range absent from the live map, `GetFreeNodeID` returns (for every
bound of at least `last - first` cursor steps) an ID of the range that is not a key of the
live node map, leaves the cursor equal to that ID and changes nothing else, the maps
included; the same holds for `GetFreeComponentID` with the component maps and cursors. -/
theorem C2_allocate_free_id (d : NodeDecl) (s : Scene) (mode : CreateMode)
    (hlast : d.lastID mode < 2 ^ 32) :
    (d.firstID mode ≤ s.nodeCursor mode → s.nodeCursor mode ≤ d.lastID mode →
      (∃ f, d.firstID mode ≤ f ∧ f ≤ d.lastID mode ∧
        HashMap.Contains (s.nodeMap mode) f = false) →
      ∃ (id : Nat) (s1 : Scene),
        (∀ fuel, d.lastID mode - d.firstID mode ≤ fuel →
          Scene.GetFreeNodeID d fuel s mode = some (id, s1)) ∧
        d.firstID mode ≤ id ∧ id ≤ d.lastID mode ∧
        HashMap.Contains (s.nodeMap mode) id = false ∧
        s1.nodeCursor mode = id ∧ s1 = s.withNodeCursor mode id ∧
        s1.replicatedNodes_ = s.replicatedNodes_ ∧ s1.localNodes_ = s.localNodes_) ∧
    (d.firstID mode ≤ s.componentCursor mode → s.componentCursor mode ≤ d.lastID mode →
      (∃ f, d.firstID mode ≤ f ∧ f ≤ d.lastID mode ∧
        HashMap.Contains (s.componentMap mode) f = false) →
      ∃ (id : Nat) (s1 : Scene),
        (∀ fuel, d.lastID mode - d.firstID mode ≤ fuel →
          Scene.GetFreeComponentID d fuel s mode = some (id, s1)) ∧
        d.firstID mode ≤ id ∧ id ≤ d.lastID mode ∧
        HashMap.Contains (s.componentMap mode) id = false ∧
        s1.componentCursor mode = id ∧ s1 = s.withComponentCursor mode id ∧
        s1.replicatedComponents_ = s.replicatedComponents_ ∧
        s1.localComponents_ = s.localComponents_) := by
  constructor
  · intro h1 h2 hex
    cases mode with
    | REPLICATED =>
      obtain ⟨x, hx1, hx2, hx3, hx4⟩ := freeIDLoop_returns d.FIRST_REPLICATED_ID
        d.LAST_REPLICATED_ID s.replicatedNodes_ hlast s.replicatedNodeID_ h1 h2 hex
      refine ⟨x, s.withNodeCursor CreateMode.REPLICATED x, ?_, hx1, hx2, hx3, rfl, rfl, rfl, rfl⟩
      intro fuel hfuel
      simp [Scene.GetFreeNodeID, hx4 fuel hfuel, Scene.withNodeCursor]
    | LOCAL =>
      obtain ⟨x, hx1, hx2, hx3, hx4⟩ := freeIDLoop_returns d.FIRST_LOCAL_ID
        d.LAST_LOCAL_ID s.localNodes_ hlast s.localNodeID_ h1 h2 hex
      refine ⟨x, s.withNodeCursor CreateMode.LOCAL x, ?_, hx1, hx2, hx3, rfl, rfl, rfl, rfl⟩
      intro fuel hfuel
      simp [Scene.GetFreeNodeID, hx4 fuel hfuel, Scene.withNodeCursor]
  · intro h1 h2 hex
    cases mode with
    | REPLICATED =>
      obtain ⟨x, hx1, hx2, hx3, hx4⟩ := freeIDLoop_returns d.FIRST_REPLICATED_ID
        d.LAST_REPLICATED_ID s.replicatedComponents_ hlast s.replicatedComponentID_ h1 h2 hex
      refine ⟨x, s.withComponentCursor CreateMode.REPLICATED x, ?_, hx1, hx2, hx3, rfl, rfl,
        rfl, rfl⟩
      intro fuel hfuel
      simp [Scene.GetFreeComponentID, hx4 fuel hfuel, Scene.withComponentCursor]
    | LOCAL =>
      obtain ⟨x, hx1, hx2, hx3, hx4⟩ := freeIDLoop_returns d.FIRST_LOCAL_ID
        d.LAST_LOCAL_ID s.localComponents_ hlast s.localComponentID_ h1 h2 hex
      refine ⟨x, s.withComponentCursor CreateMode.LOCAL x, ?_, hx1, hx2, hx3, rfl, rfl,
        rfl, rfl⟩
      intro fuel hfuel
      simp [Scene.GetFreeComponentID, hx4 fuel hfuel, Scene.withComponentCursor]

/-- C2 at a concrete input: the sample scene, whose replicated cursor 1 is taken by the scene
itself while ID 2 is free, and whose replicated component cursor 1 is free. -/
theorem C2_allocate_free_id_witness :
    NodeDecl.sample.lastID CreateMode.REPLICATED < 2 ^ 32 ∧
    (∃ (id : Nat) (s1 : Scene),
        (∀ fuel, NodeDecl.sample.lastID CreateMode.REPLICATED -
            NodeDecl.sample.firstID CreateMode.REPLICATED ≤ fuel →
          Scene.GetFreeNodeID NodeDecl.sample fuel Scene.sample CreateMode.REPLICATED
            = some (id, s1)) ∧
        NodeDecl.sample.firstID CreateMode.REPLICATED ≤ id ∧
        id ≤ NodeDecl.sample.lastID CreateMode.REPLICATED ∧
        HashMap.Contains (Scene.sample.nodeMap CreateMode.REPLICATED) id = false ∧
        s1.nodeCursor CreateMode.REPLICATED = id ∧
        s1 = Scene.sample.withNodeCursor CreateMode.REPLICATED id ∧
        s1.replicatedNodes_ = Scene.sample.replicatedNodes_ ∧
        s1.localNodes_ = Scene.sample.localNodes_) ∧
    (∃ (id : Nat) (s1 : Scene),
        (∀ fuel, NodeDecl.sample.lastID CreateMode.REPLICATED -
            NodeDecl.sample.firstID CreateMode.REPLICATED ≤ fuel →
          Scene.GetFreeComponentID NodeDecl.sample fuel Scene.sample CreateMode.REPLICATED
            = some (id, s1)) ∧
        NodeDecl.sample.firstID CreateMode.REPLICATED ≤ id ∧
        id ≤ NodeDecl.sample.lastID CreateMode.REPLICATED ∧
        HashMap.Contains (Scene.sample.componentMap CreateMode.REPLICATED) id = false ∧
        s1.componentCursor CreateMode.REPLICATED = id ∧
        s1 = Scene.sample.withComponentCursor CreateMode.REPLICATED id ∧
        s1.replicatedComponents_ = Scene.sample.replicatedComponents_ ∧
        s1.localComponents_ = Scene.sample.localComponents_) :=
  ⟨by decide,
    (C2_allocate_free_id NodeDecl.sample Scene.sample CreateMode.REPLICATED (by decide)).1
      (by decide) (by decide) ⟨2, by decide, by decide, by decide⟩,
    (C2_allocate_free_id NodeDecl.sample Scene.sample CreateMode.REPLICATED (by decide)).2
      (by decide) (by decide) ⟨1, by decide, by decide, by decide⟩⟩

/-- C3: duplicate node ID.  On a scene whose registered nodes all belong to a scene, for two
distinct sceneless nodes `a` and `b` with the same ID `i`, after `NodeAdded(a)` and then
`NodeAdded(b)`: `GetNode(i)` is `b`, the scene of `b` is this scene, the scene of `a` is
null, and the second call has logged exactly one warning, `Overwriting node with ID i`. -/
theorem C3_duplicate_node_id (d : NodeDecl) (s : Scene) (a b : Ptr) (ha : a ≠ 0) (hb : b ≠ 0)
    (hab : a ≠ b) (hsa : (s.nodeHeap a).scene_ = 0) (hsb : (s.nodeHeap b).scene_ = 0)
    (hid : (s.nodeHeap b).id_ = (s.nodeHeap a).id_) (hreg : Scene.RegisteredHaveScene d s) :
    Scene.GetNode d (Scene.NodeAdded d (Scene.NodeAdded d s a) b) (s.nodeHeap a).id_ = b ∧
    ((Scene.NodeAdded d (Scene.NodeAdded d s a) b).nodeHeap b).scene_ = s.self ∧
    ((Scene.NodeAdded d (Scene.NodeAdded d s a) b).nodeHeap a).scene_ = 0 ∧
    (Scene.NodeAdded d (Scene.NodeAdded d s a) b).log =
      (Scene.NodeAdded d s a).log ++
        [(LOG_WARNING, "Overwriting node with ID " ++ String.ofUnsigned (s.nodeHeap a).id_)] := by
  have hnot : HashMap.Find (Scene.nodeMapOf d s (s.nodeHeap a).id_) (s.nodeHeap a).id_
      ≠ some b := fun h => hreg _ _ h hsb
  have hb1 : (Scene.NodeAdded d s a).nodeHeap b = s.nodeHeap b := by
    rw [Scene.nodeHeap_NodeAdded d s a ha hsa]
    simp [Ne.symm hab, hnot]
  have hsb1 : ((Scene.NodeAdded d s a).nodeHeap b).scene_ = 0 := by rw [hb1]; exact hsb
  have hid1 : ((Scene.NodeAdded d s a).nodeHeap b).id_ = (s.nodeHeap a).id_ := by
    rw [hb1]; exact hid
  have hfind : HashMap.Find (Scene.nodeMapOf d (Scene.NodeAdded d s a)
      ((Scene.NodeAdded d s a).nodeHeap b).id_) ((Scene.NodeAdded d s a).nodeHeap b).id_
      = some a := by
    rw [hid1]; exact Scene.Find_nodeMapOf_NodeAdded d s a ha hsa
  refine ⟨?_, ?_, ?_, ?_⟩
  · rw [Scene.GetNode_NodeAdded d _ b hb hsb1, hid1]; simp
  · rw [Scene.nodeHeap_NodeAdded d _ b hb hsb1]; simp [Scene.NodeAdded_self]
  · rw [Scene.nodeHeap_NodeAdded d _ b hb hsb1, hfind]; simp [hab]
  · rw [Scene.log_NodeAdded d _ b hb hsb1, hfind, hid1]; simp [hab]

/-- C3 at a concrete input: nodes 2 and 3, both with ID 5, added to the sample scene. -/
theorem C3_duplicate_node_id_witness :
    Scene.GetNode NodeDecl.sample (Scene.NodeAdded NodeDecl.sample (Scene.NodeAdded
      NodeDecl.sample (Node.SetID (Node.SetID Scene.sample 2 5) 3 5) 2) 3)
      ((Node.SetID (Node.SetID Scene.sample 2 5) 3 5).nodeHeap 2).id_ = 3 ∧
    ((Scene.NodeAdded NodeDecl.sample (Scene.NodeAdded NodeDecl.sample
      (Node.SetID (Node.SetID Scene.sample 2 5) 3 5) 2) 3).nodeHeap 3).scene_ =
      (Node.SetID (Node.SetID Scene.sample 2 5) 3 5).self ∧
    ((Scene.NodeAdded NodeDecl.sample (Scene.NodeAdded NodeDecl.sample
      (Node.SetID (Node.SetID Scene.sample 2 5) 3 5) 2) 3).nodeHeap 2).scene_ = 0 ∧
    (Scene.NodeAdded NodeDecl.sample (Scene.NodeAdded NodeDecl.sample
      (Node.SetID (Node.SetID Scene.sample 2 5) 3 5) 2) 3).log =
      (Scene.NodeAdded NodeDecl.sample (Node.SetID (Node.SetID Scene.sample 2 5) 3 5) 2).log ++
        [(LOG_WARNING, "Overwriting node with ID " ++ String.ofUnsigned
          ((Node.SetID (Node.SetID Scene.sample 2 5) 3 5).nodeHeap 2).id_)] :=
  C3_duplicate_node_id NodeDecl.sample (Node.SetID (Node.SetID Scene.sample 2 5) 3 5) 2 3
    (by decide) (by decide) (by decide) (by decide) (by decide) (by decide)
    (by
      intro k v h
      by_cases hk : k = 1
      · subst hk
        have hv : v = 1 := by
          have : HashMap.Find (Scene.nodeMapOf NodeDecl.sample
            (Node.SetID (Node.SetID Scene.sample 2 5) 3 5) 1) 1 = some 1 := by decide
          rw [this] at h
          exact (Option.some.inj h).symm
        subst hv
        decide
      · exfalso
        have hmap : ∀ k : Nat, Scene.nodeMapOf NodeDecl.sample
            (Node.SetID (Node.SetID Scene.sample 2 5) 3 5) k =
            if k < 0x1000000 then [(1, 1)] else [] := by
          intro k; rfl
        rw [hmap] at h
        split at h
        · simp [HashMap.Find, Ne.symm hk] at h
        · simp [HashMap.Find] at h)

theorem Scene.nodeMaps_NodeRemoved (d : NodeDecl) (s : Scene) (node : Ptr) (h0 : node ≠ 0)
    (h1 : (s.nodeHeap node).scene_ = s.self) :
    (Scene.NodeRemoved d s node).replicatedNodes_ =
      (if (s.nodeHeap node).id_ < d.FIRST_LOCAL_ID then
        HashMap.Erase s.replicatedNodes_ (s.nodeHeap node).id_ else s.replicatedNodes_) ∧
    (Scene.NodeRemoved d s node).localNodes_ =
      (if (s.nodeHeap node).id_ < d.FIRST_LOCAL_ID then s.localNodes_
        else HashMap.Erase s.localNodes_ (s.nodeHeap node).id_) ∧
    (Scene.NodeRemoved d s node).replicatedComponents_ = s.replicatedComponents_ ∧
    (Scene.NodeRemoved d s node).localComponents_ = s.localComponents_ := by
  simp only [Scene.NodeRemoved, h0, h1, false_or, ne_eq, not_true_eq_false, if_false,
    Node.SetScene, Node.SetID, Scene.MarkReplicationDirty]
  by_cases hlt : (s.nodeHeap node).id_ < d.FIRST_LOCAL_ID
  · simp [hlt]
  · simp [hlt]

theorem Scene.componentMaps_ComponentRemoved (d : NodeDecl) (s : Scene) (c : Ptr) (h0 : c ≠ 0) :
    (Scene.ComponentRemoved d s c).replicatedComponents_ =
      (if (s.componentHeap c).id_ < d.FIRST_LOCAL_ID then
        HashMap.Erase s.replicatedComponents_ (s.componentHeap c).id_
        else s.replicatedComponents_) ∧
    (Scene.ComponentRemoved d s c).localComponents_ =
      (if (s.componentHeap c).id_ < d.FIRST_LOCAL_ID then s.localComponents_
        else HashMap.Erase s.localComponents_ (s.componentHeap c).id_) ∧
    (Scene.ComponentRemoved d s c).replicatedNodes_ = s.replicatedNodes_ ∧
    (Scene.ComponentRemoved d s c).localNodes_ = s.localNodes_ := by
  simp only [Scene.ComponentRemoved, h0, if_false, Component.SetID]
  by_cases hlt : (s.componentHeap c).id_ < d.FIRST_LOCAL_ID
  · simp [hlt]
  · simp [hlt]

/-- C4: release.  For a member node `n` of the scene with ID `i`, `NodeRemoved(n)` removes
`i` from the live map of its range (`GetNode(i)` is null afterwards), sets the ID of `n` to 0
and its scene to null, and leaves the entry of every other ID in both node maps, and the
component maps, unchanged; for a null node or a node of another scene it changes nothing.
For a component `c` with ID `i`, `ComponentRemoved(c)` removes `i` from the component map of
its range, sets the ID of `c` to 0 and leaves the entries of the other IDs unchanged. -/
theorem C4_release (d : NodeDecl) (s : Scene) :
    (∀ n : Ptr, n ≠ 0 → (s.nodeHeap n).scene_ = s.self →
      HashMap.Find (Scene.nodeMapOf d (Scene.NodeRemoved d s n) (s.nodeHeap n).id_)
        (s.nodeHeap n).id_ = none ∧
      Scene.GetNode d (Scene.NodeRemoved d s n) (s.nodeHeap n).id_ = 0 ∧
      (Scene.NodeRemoved d s n).nodeHeap n = { id_ := 0, scene_ := 0 } ∧
      (∀ j : Nat, j ≠ (s.nodeHeap n).id_ →
        HashMap.Find (Scene.NodeRemoved d s n).replicatedNodes_ j
          = HashMap.Find s.replicatedNodes_ j ∧
        HashMap.Find (Scene.NodeRemoved d s n).localNodes_ j = HashMap.Find s.localNodes_ j ∧
        Scene.GetNode d (Scene.NodeRemoved d s n) j = Scene.GetNode d s j) ∧
      (Scene.NodeRemoved d s n).replicatedComponents_ = s.replicatedComponents_ ∧
      (Scene.NodeRemoved d s n).localComponents_ = s.localComponents_) ∧
    (∀ n : Ptr, n = 0 ∨ (s.nodeHeap n).scene_ ≠ s.self → Scene.NodeRemoved d s n = s) ∧
    (∀ c : Ptr, c ≠ 0 →
      HashMap.Find (Scene.componentMapOf d (Scene.ComponentRemoved d s c)
        (s.componentHeap c).id_) (s.componentHeap c).id_ = none ∧
      Scene.GetComponent d (Scene.ComponentRemoved d s c) (s.componentHeap c).id_ = 0 ∧
      ((Scene.ComponentRemoved d s c).componentHeap c).id_ = 0 ∧
      (∀ j : Nat, j ≠ (s.componentHeap c).id_ →
        HashMap.Find (Scene.ComponentRemoved d s c).replicatedComponents_ j
          = HashMap.Find s.replicatedComponents_ j ∧
        HashMap.Find (Scene.ComponentRemoved d s c).localComponents_ j
          = HashMap.Find s.localComponents_ j ∧
        Scene.GetComponent d (Scene.ComponentRemoved d s c) j = Scene.GetComponent d s j)) := by
  refine ⟨?_, ?_, ?_⟩
  · intro n hn hs
    obtain ⟨hr, hl, hrc, hlc⟩ := Scene.nodeMaps_NodeRemoved d s n hn hs
    refine ⟨?_, ?_, ?_, ?_, hrc, hlc⟩
    · unfold Scene.nodeMapOf
      rw [hr, hl]
      by_cases hlt : (s.nodeHeap n).id_ < d.FIRST_LOCAL_ID
      · simp [hlt, HashMap.Find_Erase_same]
      · simp [hlt, HashMap.Find_Erase_same]
    · rw [Scene.GetNode_NodeRemoved d s n hn hs]; simp
    · rw [Scene.nodeHeap_NodeRemoved d s n hn hs]; simp
    · intro j hj
      refine ⟨?_, ?_, ?_⟩
      · rw [hr]; split
        · exact HashMap.Find_Erase_other _ _ _ hj
        · rfl
      · rw [hl]; split
        · rfl
        · exact HashMap.Find_Erase_other _ _ _ hj
      · rw [Scene.GetNode_NodeRemoved d s n hn hs]; simp [hj]
  · intro n hn
    simp [Scene.NodeRemoved, hn]
  · intro c hc
    obtain ⟨hr, hl, _, _⟩ := Scene.componentMaps_ComponentRemoved d s c hc
    refine ⟨?_, ?_, ?_, ?_⟩
    · unfold Scene.componentMapOf
      rw [hr, hl]
      by_cases hlt : (s.componentHeap c).id_ < d.FIRST_LOCAL_ID
      · simp [hlt, HashMap.Find_Erase_same]
      · simp [hlt, HashMap.Find_Erase_same]
    · rw [Scene.GetComponent_ComponentRemoved d s c hc]; simp
    · rw [Scene.componentHeap_ComponentRemoved d s c hc]; simp
    · intro j hj
      refine ⟨?_, ?_, ?_⟩
      · rw [hr]; split
        · exact HashMap.Find_Erase_other _ _ _ hj
        · rfl
      · rw [hl]; split
        · rfl
        · exact HashMap.Find_Erase_other _ _ _ hj
      · rw [Scene.GetComponent_ComponentRemoved d s c hc]; simp [hj]

/-- C4 at a concrete input: the sample scene releases its own node (address 1, ID 1), and a
component of ID 0 at address 4 is released. -/
theorem C4_release_witness :
    (Scene.GetNode NodeDecl.sample (Scene.NodeRemoved NodeDecl.sample Scene.sample 1)
      (Scene.sample.nodeHeap 1).id_ = 0 ∧
     (Scene.NodeRemoved NodeDecl.sample Scene.sample 1).nodeHeap 1 = { id_ := 0, scene_ := 0 }) ∧
    Scene.NodeRemoved NodeDecl.sample Scene.sample 0 = Scene.sample ∧
    ((Scene.ComponentRemoved NodeDecl.sample Scene.sample 4).componentHeap 4).id_ = 0 :=
  ⟨⟨((C4_release NodeDecl.sample Scene.sample).1 1 (by decide) (by decide)).2.1,
    ((C4_release NodeDecl.sample Scene.sample).1 1 (by decide) (by decide)).2.2.1⟩,
   (C4_release NodeDecl.sample Scene.sample).2.1 0 (Or.inl rfl),
   ((C4_release NodeDecl.sample Scene.sample).2.2 4 (by decide)).2.2.1⟩

/-- C5: ID lookup returns what was registered.  After `NodeAdded(n)` of a sceneless node `n`,
`GetNode(n.GetID())` is `n`; after `ComponentAdded(c)`, `GetComponent(c.GetID())` is `c`;
`GetNode` and `GetComponent` are the entry of the ID in the replicated map exactly when the
ID is below `FIRST_LOCAL_ID` and in the local map otherwise, and null when the ID is not a
key of that map.  Both are functions of the registry that return a pointer only. -/
theorem C5_lookup_registered (d : NodeDecl) (s : Scene) :
    (∀ n : Ptr, n ≠ 0 → (s.nodeHeap n).scene_ = 0 →
      Scene.GetNode d (Scene.NodeAdded d s n) ((Scene.NodeAdded d s n).nodeHeap n).id_ = n) ∧
    (∀ c : Ptr, c ≠ 0 →
      Scene.GetComponent d (Scene.ComponentAdded d s c)
        ((Scene.ComponentAdded d s c).componentHeap c).id_ = c) ∧
    (∀ id : Nat,
      Scene.GetNode d s id =
        (HashMap.Find (if id < d.FIRST_LOCAL_ID then s.replicatedNodes_ else s.localNodes_)
          id).getD 0 ∧
      Scene.GetComponent d s id =
        (HashMap.Find (if id < d.FIRST_LOCAL_ID then s.replicatedComponents_
          else s.localComponents_) id).getD 0) ∧
    (∀ id : Nat,
      (HashMap.Contains (if id < d.FIRST_LOCAL_ID then s.replicatedNodes_ else s.localNodes_)
        id = false → Scene.GetNode d s id = 0) ∧
      (HashMap.Contains (if id < d.FIRST_LOCAL_ID then s.replicatedComponents_
        else s.localComponents_) id = false → Scene.GetComponent d s id = 0)) := by
  refine ⟨?_, ?_, ?_, ?_⟩
  · intro n hn hs
    rw [Scene.nodeHeap_NodeAdded d s n hn hs, Scene.GetNode_NodeAdded d s n hn hs]
    simp
  · intro c hc
    rw [Scene.componentHeap_ComponentAdded d s c hc, Scene.GetComponent_ComponentAdded d s c hc]
    simp
  · intro id
    exact ⟨Scene.GetNode_eq d s id, Scene.GetComponent_eq d s id⟩
  · intro id
    constructor
    · intro h
      rw [Scene.GetNode_eq]
      unfold Scene.nodeMapOf
      unfold HashMap.Contains at h
      cases hf : HashMap.Find (if id < d.FIRST_LOCAL_ID then s.replicatedNodes_
          else s.localNodes_) id with
      | none => rfl
      | some v => rw [hf] at h; simp at h
    · intro h
      rw [Scene.GetComponent_eq]
      unfold Scene.componentMapOf
      unfold HashMap.Contains at h
      cases hf : HashMap.Find (if id < d.FIRST_LOCAL_ID then s.replicatedComponents_
          else s.localComponents_) id with
      | none => rfl
      | some v => rw [hf] at h; simp at h

/-- C5 at a concrete input: node 2 is added to the sample scene and component 4 registered. -/
theorem C5_lookup_registered_witness :
    Scene.GetNode NodeDecl.sample (Scene.NodeAdded NodeDecl.sample Scene.sample 2)
      ((Scene.NodeAdded NodeDecl.sample Scene.sample 2).nodeHeap 2).id_ = 2 ∧
    Scene.GetComponent NodeDecl.sample (Scene.ComponentAdded NodeDecl.sample Scene.sample 4)
      ((Scene.ComponentAdded NodeDecl.sample Scene.sample 4).componentHeap 4).id_ = 4 ∧
    Scene.GetNode NodeDecl.sample Scene.sample 9 = 0 :=
  ⟨(C5_lookup_registered NodeDecl.sample Scene.sample).1 2 (by decide) (by decide),
   (C5_lookup_registered NodeDecl.sample Scene.sample).2.1 4 (by decide),
   ((C5_lookup_registered NodeDecl.sample Scene.sample).2.2.2 9).1 (by decide)⟩

/-! ## The registered nodes are members, in every reachable state -/

theorem Scene.Find_NodeAdded (d : NodeDecl) (s : Scene) (node : Ptr) (h0 : node ≠ 0)
    (h1 : (s.nodeHeap node).scene_ = 0) (k : Nat) :
    HashMap.Find (Scene.nodeMapOf d (Scene.NodeAdded d s node) k) k =
      if k = (s.nodeHeap node).id_ then some node
      else HashMap.Find (Scene.nodeMapOf d s k) k := by
  by_cases hk : k = (s.nodeHeap node).id_
  · subst hk
    simp [Scene.Find_nodeMapOf_NodeAdded d s node h0 h1]
  · simp only [hk, if_false]
    simp only [Scene.NodeAdded, h0, h1, false_or, ne_eq, not_true_eq_false, if_false,
      Node.SetScene, Function.update_same, Scene.MarkReplicationDirty, Scene.MarkNetworkUpdate,
      Scene.nodeMapOf]
    by_cases hlt : (s.nodeHeap node).id_ < d.FIRST_LOCAL_ID
    · simp only [hlt, if_true]
      cases hf : HashMap.Find s.replicatedNodes_ (s.nodeHeap node).id_ with
      | none =>
        by_cases hkl : k < d.FIRST_LOCAL_ID
        · simp [hkl, HashMap.Find_Assign_other _ _ _ _ hk]
        · simp [hkl]
      | some other =>
        by_cases ho : other = node
        · by_cases hkl : k < d.FIRST_LOCAL_ID
          · simp [ho, hkl, HashMap.Find_Assign_other _ _ _ _ hk]
          · simp [ho, hkl]
        · by_cases hkl : k < d.FIRST_LOCAL_ID
          · simp [ho, hkl, HashMap.Find_Assign_other _ _ _ _ hk, Node.ResetScene, WriteToLog]
          · simp [ho, hkl, Node.ResetScene, WriteToLog]
    · simp only [hlt, if_false]
      cases hf : HashMap.Find s.localNodes_ (s.nodeHeap node).id_ with
      | none =>
        by_cases hkl : k < d.FIRST_LOCAL_ID
        · simp [hkl]
        · simp [hkl, HashMap.Find_Assign_other _ _ _ _ hk]
      | some other =>
        by_cases ho : other = node
        · by_cases hkl : k < d.FIRST_LOCAL_ID
          · simp [ho, hkl]
          · simp [ho, hkl, HashMap.Find_Assign_other _ _ _ _ hk]
        · by_cases hkl : k < d.FIRST_LOCAL_ID
          · simp [ho, hkl, Node.ResetScene, WriteToLog]
          · simp [ho, hkl, HashMap.Find_Assign_other _ _ _ _ hk, Node.ResetScene, WriteToLog]

theorem Scene.Find_NodeRemoved (d : NodeDecl) (s : Scene) (node : Ptr) (h0 : node ≠ 0)
    (h1 : (s.nodeHeap node).scene_ = s.self) (k : Nat) :
    HashMap.Find (Scene.nodeMapOf d (Scene.NodeRemoved d s node) k) k =
      if k = (s.nodeHeap node).id_ then none
      else HashMap.Find (Scene.nodeMapOf d s k) k := by
  obtain ⟨hr, hl, _, _⟩ := Scene.nodeMaps_NodeRemoved d s node h0 h1
  unfold Scene.nodeMapOf
  rw [hr, hl]
  by_cases hk : k = (s.nodeHeap node).id_
  · subst hk
    by_cases hlt : (s.nodeHeap node).id_ < d.FIRST_LOCAL_ID
    · simp [hlt, HashMap.Find_Erase_same]
    · simp [hlt, HashMap.Find_Erase_same]
  · by_cases hlt : (s.nodeHeap node).id_ < d.FIRST_LOCAL_ID
    · by_cases hkl : k < d.FIRST_LOCAL_ID
      · simp [hk, hlt, hkl, HashMap.Find_Erase_other _ _ _ hk]
      · simp [hk, hlt, hkl]
    · by_cases hkl : k < d.FIRST_LOCAL_ID
      · simp [hk, hlt, hkl]
      · simp [hk, hlt, hkl, HashMap.Find_Erase_other _ _ _ hk]

theorem Scene.RegisteredAreMembers_NodeAdded (d : NodeDecl) (s : Scene) (node : Ptr)
    (hinv : Scene.RegisteredAreMembers d s) (hself : s.self ≠ 0) :
    Scene.RegisteredAreMembers d (Scene.NodeAdded d s node) := by
  by_cases hg : node = 0 ∨ (s.nodeHeap node).scene_ ≠ 0
  · simpa [Scene.NodeAdded, hg] using hinv
  · have h0 : node ≠ 0 := fun h => hg (Or.inl h)
    have h1 : (s.nodeHeap node).scene_ = 0 := by
      by_contra h; exact hg (Or.inr h)
    intro k v hfind
    rw [Scene.Find_NodeAdded d s node h0 h1] at hfind
    rw [Scene.NodeAdded_self, Scene.nodeHeap_NodeAdded d s node h0 h1]
    by_cases hk : k = (s.nodeHeap node).id_
    · simp only [hk, if_true, Option.some.injEq] at hfind
      subst hfind
      simp [hk]
    · simp only [hk, if_false] at hfind
      obtain ⟨hv1, hv2⟩ := hinv k v hfind
      have hvn : v ≠ node := by
        intro h; rw [h, h1] at hv1; exact hself hv1.symm
      have hvo : HashMap.Find (Scene.nodeMapOf d s (s.nodeHeap node).id_)
          (s.nodeHeap node).id_ ≠ some v := by
        intro h
        exact hk ((hinv _ v h).2.symm.trans hv2).symm
      simp only [hvn, if_false, hvo]
      exact ⟨hv1, hv2⟩

theorem Scene.RegisteredAreMembers_NodeRemoved (d : NodeDecl) (s : Scene) (node : Ptr)
    (hinv : Scene.RegisteredAreMembers d s) :
    Scene.RegisteredAreMembers d (Scene.NodeRemoved d s node) := by
  by_cases hg : node = 0 ∨ (s.nodeHeap node).scene_ ≠ s.self
  · simpa [Scene.NodeRemoved, hg] using hinv
  · have h0 : node ≠ 0 := fun h => hg (Or.inl h)
    have h1 : (s.nodeHeap node).scene_ = s.self := by
      by_contra h; exact hg (Or.inr h)
    intro k v hfind
    rw [Scene.Find_NodeRemoved d s node h0 h1] at hfind
    rw [Scene.NodeRemoved_self, Scene.nodeHeap_NodeRemoved d s node h0 h1]
    by_cases hk : k = (s.nodeHeap node).id_
    · simp [hk] at hfind
    · simp only [hk, if_false] at hfind
      obtain ⟨hv1, hv2⟩ := hinv k v hfind
      have hvn : v ≠ node := by
        intro h; rw [h] at hv2; exact hk hv2.symm
      simp only [hvn, if_false]
      exact ⟨hv1, hv2⟩

theorem Scene.RegisteredAreMembers_applyCalls (d : NodeDecl) (calls : List RegistryCall)
    (s : Scene) (hinv : Scene.RegisteredAreMembers d s) (hself : s.self ≠ 0) :
    Scene.RegisteredAreMembers d (Scene.applyCalls d s calls) := by
  induction calls generalizing s with
  | nil => exact hinv
  | cons c rest ih =>
    cases c with
    | NodeAdded node =>
      exact ih _ (Scene.RegisteredAreMembers_NodeAdded d s node hinv hself)
        (by rw [Scene.NodeAdded_self]; exact hself)
    | NodeRemoved node =>
      exact ih _ (Scene.RegisteredAreMembers_NodeRemoved d s node hinv)
        (by rw [Scene.NodeRemoved_self]; exact hself)

/-- In every state that `NodeAdded` and `NodeRemoved` calls reach from a constructed scene,
the nodes registered in the live maps belong to a scene. -/
theorem Scene.RegisteredHaveScene_reachable (d : NodeDecl) (fuel : Nat) (self : Ptr)
    (nodeHeap : Ptr → Node) (componentHeap : Ptr → Component) (hself : self ≠ 0)
    (calls : List RegistryCall) (s0 : Scene)
    (h : Scene.construct d fuel self nodeHeap componentHeap = some s0) :
    Scene.RegisteredHaveScene d (Scene.applyCalls d s0 calls) := by
  rw [Scene.construct_eq, Option.some.injEq] at h
  have h1 : ((Node.SetID { Scene.initialised d self nodeHeap componentHeap with
        replicatedNodeID_ := d.FIRST_REPLICATED_ID } self d.FIRST_REPLICATED_ID).nodeHeap
        self).scene_ = 0 := by
    simp [Node.SetID, Scene.initialised, Node.constructed]
  have hs0self : s0.self = self := by
    rw [← h, Scene.NodeAdded_self]; rfl
  have hinv0 : Scene.RegisteredAreMembers d s0 := by
    intro k v hfind
    rw [← h] at hfind ⊢
    rw [Scene.Find_NodeAdded d _ self hself h1] at hfind
    rw [Scene.NodeAdded_self, Scene.nodeHeap_NodeAdded d _ self hself h1]
    by_cases hk : k = d.FIRST_REPLICATED_ID
    · have hk2 : k = ((Node.SetID { Scene.initialised d self nodeHeap componentHeap with
          replicatedNodeID_ := d.FIRST_REPLICATED_ID } self d.FIRST_REPLICATED_ID).nodeHeap
          self).id_ := by
        simp [Node.SetID, hk]
      rw [if_pos hk2, Option.some.injEq] at hfind
      subst hfind
      simp [hk2]
    · exfalso
      simp [Node.SetID, hk, Scene.nodeMapOf, Scene.initialised, HashMap.Find] at hfind
  have hinv := Scene.RegisteredAreMembers_applyCalls d calls s0 hinv0
    (by rw [hs0self]; exact hself)
  intro k v hfind hz
  have := (hinv k v hfind).1
  rw [Scene.applyCalls_self, hs0self, hz] at this
  exact hself this.symm

/-! ## Round trip of the binary form -/

theorem decUInt_encUInt (v : Nat) (hv : v < 2 ^ 32) (rest : List Nat) :
    decUInt (encUInt v ++ rest) = some (v, rest) := by
  simp only [encUInt, List.cons_append, List.nil_append, decUInt, Option.some.injEq,
    Prod.mk.injEq, and_true]
  omega

theorem decVLE_encVLE (n : Nat) : ∀ rest : List Nat, decVLE (encVLE n ++ rest) = some (n, rest) := by
  induction n using Nat.strong_induction_on with
  | _ n ih =>
    intro rest
    unfold encVLE
    by_cases h : n < 128
    · simp [h, decVLE]
    · have hlt : n / 128 < n := by omega
      have hge : ¬ (n % 128 + 128 < 128) := by omega
      simp only [h, if_false, List.cons_append, decVLE, hge, ih (n / 128) hlt rest,
        Option.some.injEq, Prod.mk.injEq, and_true]
      omega

theorem decString_encString (name : List Nat) (h : ∀ b ∈ name, b ≠ 0) (rest : List Nat) :
    decString (encString name ++ rest) = some (name, rest) := by
  induction name with
  | nil => simp [encString, decString]
  | cons b bs ih =>
    have hb : b ≠ 0 := h b (List.mem_cons_self _ _)
    have ih1 := ih (fun x hx => h x (List.mem_cons_of_mem _ hx))
    rw [show encString (b :: bs) ++ rest = b :: (encString bs ++ rest) by simp [encString]]
    rw [decString, if_neg hb, ih1]

theorem decBuffer_encBuffer (bytes rest : List Nat) :
    decBuffer (encBuffer bytes ++ rest) = some (bytes, rest) := by
  simp [decBuffer, encBuffer, List.append_assoc, decVLE_encVLE]

theorem decVariant_encVariant (v : Variant) (hv : v.WF) (rest : List Nat) :
    decVariant v.type (encVariant v ++ rest) = some (v, rest) := by
  cases v with
  | int x =>
    simp only [Variant.WF] at hv
    simp [Variant.type, encVariant, decVariant, decUInt_encUInt x hv]
  | buffer b =>
    simp [Variant.type, encVariant, decVariant, decBuffer_encBuffer]

theorem decList_encList {α : Type} (enc : α → List Nat)
    (dec : List Nat → Option (α × List Nat)) (xs : List α)
    (h : ∀ x ∈ xs, ∀ rest, dec (enc x ++ rest) = some (x, rest)) (rest : List Nat) :
    decList dec xs.length (encList enc xs ++ rest) = some (xs, rest) := by
  induction xs with
  | nil => simp [encList, decList]
  | cons x xs ih =>
    have ih1 := ih (fun y hy => h y (List.mem_cons_of_mem _ hy))
    simp only [encList, List.append_assoc, List.length_cons, decList,
      h x (List.mem_cons_self _ _), ih1]

theorem decAttributes_encList (attributes : List Variant) (h : ∀ v ∈ attributes, v.WF)
    (rest : List Nat) :
    decAttributes (attributes.map Variant.type) (encList encVariant attributes ++ rest)
      = some (attributes, rest) := by
  induction attributes with
  | nil => simp [encList, decAttributes]
  | cons v vs ih =>
    have ih1 := ih (fun y hy => h y (List.mem_cons_of_mem _ hy))
    simp only [encList, List.append_assoc, List.map_cons, decAttributes,
      decVariant_encVariant v (h v (List.mem_cons_self _ _)), ih1]

theorem decComponent_encComponent (c : ComponentData) (hc : c.type < 2 ^ 32) (rest : List Nat) :
    decComponent (encComponent c ++ rest) = some (c, rest) := by
  simp [decComponent, encComponent, decBuffer_encBuffer, decUInt_encUInt c.type hc]

mutual
theorem decNode_encNode (schema : List VariantType) :
    ∀ (n : NodeData), NodeData.WF schema n → ∀ (fuel : Nat) (rest : List Nat),
      NodeData.depth n ≤ fuel → decNode schema fuel (encNode n ++ rest) = some (n, rest)
  | NodeData.mk id name transform attributes components children, hwf, fuel, rest, hfuel => by
    simp only [NodeData.WF] at hwf
    obtain ⟨hid, hname, htlen, htr, hattr, hattrwf, hcomp, hchildren⟩ := hwf
    simp only [NodeData.depth] at hfuel
    obtain ⟨fuel1, rfl⟩ : ∃ f, fuel = f + 1 := ⟨fuel - 1, by omega⟩
    have hkids := decNodes_encNodes schema children hchildren fuel1 rest (by omega)
    have htrans : ∀ r, decList decUInt 10 (encList encUInt transform ++ r)
        = some (transform, r) := by
      intro r
      rw [← htlen]
      exact decList_encList encUInt decUInt transform
        (fun w hw r1 => decUInt_encUInt w (htr w hw) r1) r
    have hattrs : ∀ r, decAttributes schema (encList encVariant attributes ++ r)
        = some (attributes, r) := by
      intro r
      rw [← hattr]
      exact decAttributes_encList attributes hattrwf r
    have hcomps : ∀ r, decList decComponent components.length
        (encList encComponent components ++ r) = some (components, r) := fun r =>
      decList_encList encComponent decComponent components
        (fun c hc r1 => decComponent_encComponent c (hcomp c hc) r1) r
    simp only [encNode, List.append_assoc, decNode, decUInt_encUInt id hid,
      decString_encString name hname, htrans, hattrs, decVLE_encVLE, hcomps, hkids]
theorem decNodes_encNodes (schema : List VariantType) :
    ∀ (ns : List NodeData), NodeData.WFs schema ns → ∀ (fuel : Nat) (rest : List Nat),
      NodeData.depths ns ≤ fuel →
      decList (decNode schema fuel) ns.length (encNodes ns ++ rest) = some (ns, rest)
  | [], _, fuel, rest, _ => by simp [encNodes, decList]
  | n :: ns, hwf, fuel, rest, hfuel => by
    simp only [NodeData.WFs] at hwf
    simp only [NodeData.depths] at hfuel
    have h1 := decNode_encNode schema n hwf.1 fuel (encNodes ns ++ rest)
      (le_trans (le_max_left _ _) hfuel)
    have h2 := decNodes_encNodes schema ns hwf.2 fuel rest (le_trans (le_max_right _ _) hfuel)
    simp only [encNodes, List.append_assoc, List.length_cons, decList, h1, h2]
end

mutual
theorem NodeData.depth_le_length : ∀ (n : NodeData), NodeData.depth n ≤ (encNode n).length
  | NodeData.mk id name transform attributes components children => by
    have h := NodeData.depths_le_length children
    simp only [NodeData.depth, encNode, encUInt, List.length_append, List.length_cons,
      List.length_nil]
    omega
theorem NodeData.depths_le_length : ∀ (ns : List NodeData),
    NodeData.depths ns ≤ (encNodes ns).length
  | [] => by simp [NodeData.depths]
  | n :: ns => by
    have h1 := NodeData.depth_le_length n
    have h2 := NodeData.depths_le_length ns
    simp only [NodeData.depths, encNodes, List.length_append]
    omega
end

theorem ReadFileID_fileIDBytes (name : String) (checksum : Nat) (rest : List Nat) :
    Deserializer.ReadFileID
      { name_ := name, checksum_ := checksum, data := fileIDBytes "USCN" ++ rest } =
      ("USCN", { name_ := name, checksum_ := checksum, data := rest }) := by
  have h : fileIDBytes "USCN" = [85, 83, 67, 78] := by decide
  rw [h]
  simp only [Deserializer.ReadFileID, List.cons_append, List.nil_append, List.take_succ_cons,
    List.take_zero, List.map_cons, List.map_nil, List.drop_succ_cons, List.drop_zero]

/-- C6: save/load round trip, on the model of the node stream.  For every well-formed graph,
`Scene::Save` into an empty stream with room for the tag and the graph returns true, and
`Scene::Load` of the bytes written, into any scene, returns true and leaves that scene with
a graph equal to the one saved: same structure, names, transforms, attribute values and
components. -/
theorem C6_save_load_round_trip (codec : NodeCodec) (ops : NodeOps)
    (hLoad : ops.Load = Node.Load codec) (hSave : ops.Save = Node.Save)
    (s t : Scene) (dest : Serializer) (name : String) (checksum : Nat)
    (hwf : NodeData.WF codec.schema s.graph) (hempty : dest.data = [])
    (hspace : 4 + (encNode s.graph).length ≤ dest.space) :
    (Scene.Save ops s dest).1 = true ∧
    (Scene.Load ops t
      { name_ := name, checksum_ := checksum, data := (Scene.Save ops s dest).2.1.data }).1
        = true ∧
    (Scene.Load ops t
      { name_ := name, checksum_ := checksum, data := (Scene.Save ops s dest).2.1.data }).2.graph
        = s.graph := by
  have htag : (fileIDBytes "USCN").length = 4 := by decide
  have hw1 : Serializer.WriteFileID dest "USCN" =
      (true, { dest with data := fileIDBytes "USCN", space := dest.space - 4 }) := by
    simp only [Serializer.WriteFileID, Serializer.Write, htag, hempty, List.nil_append]
    rw [if_pos (by omega)]
  have hsave : (Scene.Save ops s dest).1 = true ∧
      (Scene.Save ops s dest).2.1.data = fileIDBytes "USCN" ++ encNode s.graph := by
    simp only [Scene.Save, hw1, hSave]
    cases dest.name_ with
    | none =>
      simp only [Node.Save, Serializer.Write]
      rw [if_pos (by omega)]
      exact ⟨rfl, rfl⟩
    | some nm =>
      simp only [Node.Save, Serializer.Write, WriteToLog]
      rw [if_pos (by omega)]
      exact ⟨rfl, rfl⟩
  have hdec : decNode codec.schema (encNode s.graph).length (encNode s.graph)
      = some (s.graph, []) := by
    have := decNode_encNode codec.schema s.graph hwf (encNode s.graph).length []
      (NodeData.depth_le_length s.graph)
    simpa using this
  refine ⟨hsave.1, ?_⟩
  rw [hsave.2]
  simp only [Scene.Load, ReadFileID_fileIDBytes, ne_eq, not_true_eq_false, if_false, hLoad,
    Node.Load, hdec, WriteToLog, Scene.StopAsyncLoading, Scene.FinishLoading]
  exact ⟨trivial, trivial⟩

/-! ## Claims on loading -/

theorem Scene.StopAsyncLoading_idem (s : Scene) :
    Scene.StopAsyncLoading (Scene.StopAsyncLoading s) = Scene.StopAsyncLoading s := rfl

/-- C7, as stated, fails: `LoadAsync` and `LoadAsyncXML` called with a null file while an
asynchronous load is in flight return false without the stop/reset: the load is still in
flight, the stored file is kept and the resolver is not reset. -/
theorem C7_null_file_counterexample :
    Scene.sampleLoading.asyncLoading_ = true ∧
    (Scene.LoadAsync NodeDecl.sample NodeOps.sample Scene.sampleLoading none).1 = false ∧
    (Scene.LoadAsync NodeDecl.sample NodeOps.sample Scene.sampleLoading none).2.asyncLoading_
      = true ∧
    (Scene.LoadAsync NodeDecl.sample NodeOps.sample Scene.sampleLoading
      none).2.asyncProgress_.file_ ≠ none ∧
    (Scene.LoadAsync NodeDecl.sample NodeOps.sample Scene.sampleLoading none).2.resolver_
      ≠ SceneResolver.Reset Scene.sampleLoading.resolver_ ∧
    (Scene.LoadAsyncXML NodeDecl.sample NodeOps.sample Scene.sampleLoading none).1 = false ∧
    (Scene.LoadAsyncXML NodeDecl.sample NodeOps.sample Scene.sampleLoading none).2.asyncLoading_
      = true ∧
    Scene.LoadAsync NodeDecl.sample NodeOps.sample Scene.sampleLoading none ≠
      Scene.LoadAsync NodeDecl.sample NodeOps.sample
        (Scene.StopAsyncLoading Scene.sampleLoading) none := by
  refine ⟨by decide, by decide, by decide, by decide, by decide, by decide, by decide, ?_⟩
  intro h
  have h2 := congrArg (fun r : Bool × Scene => r.2.asyncLoading_) h
  revert h2
  decide

/-- C7, amended: `Load`, both overloads of `LoadXML`, and `LoadAsync` and `LoadAsyncXML` given
a non-null file perform the stop/reset of `StopAsyncLoading` first: what they read, do and
return is what they read, do and return on the scene in which the load in flight has
already been stopped and reset, whatever the collaborators.  Given a null file, `LoadAsync`
and `LoadAsyncXML` only log an error and return false; the load in flight is not stopped. -/
theorem C7_new_load_wins (d : NodeDecl) (ops : NodeOps) (s : Scene) :
    (∀ source : Deserializer,
      Scene.Load ops s source = Scene.Load ops (Scene.StopAsyncLoading s) source) ∧
    (∀ source : XMLElement,
      Scene.LoadXMLElement ops s source
        = Scene.LoadXMLElement ops (Scene.StopAsyncLoading s) source) ∧
    (∀ source : Deserializer,
      Scene.LoadXML ops s source = Scene.LoadXML ops (Scene.StopAsyncLoading s) source) ∧
    (∀ file : File,
      Scene.LoadAsync d ops s (some file)
        = Scene.LoadAsync d ops (Scene.StopAsyncLoading s) (some file)) ∧
    (∀ file : File,
      Scene.LoadAsyncXML d ops s (some file)
        = Scene.LoadAsyncXML d ops (Scene.StopAsyncLoading s) (some file)) ∧
    Scene.LoadAsync d ops s none
      = (false, WriteToLog s LOG_ERROR "Null file for async loading") ∧
    Scene.LoadAsyncXML d ops s none
      = (false, WriteToLog s LOG_ERROR "Null file for async loading") := by
  refine ⟨?_, ?_, ?_, ?_, ?_, rfl, rfl⟩
  · intro source
    simp only [Scene.Load, Scene.StopAsyncLoading_idem]
  · intro source
    simp only [Scene.LoadXMLElement, Scene.StopAsyncLoading_idem]
  · intro source
    simp only [Scene.LoadXML, Scene.StopAsyncLoading_idem]
  · intro file
    simp only [Scene.LoadAsync, Scene.StopAsyncLoading_idem]
  · intro file
    simp only [Scene.LoadAsyncXML, Scene.StopAsyncLoading_idem]

/-- C8: malformed stream.  When the file ID read from the source is not `USCN`, `Load`
returns false and leaves the scene with the load in flight stopped and one error logged,
whatever `Node::Load` is: heap, graph, ID maps and cursors are as before the call.
`LoadAsync` on such a file returns false and leaves the same scene, whatever `Clear` would
do, with `asyncLoading_` false.  `Load` returns true exactly when the tag is `USCN` and
`Node::Load`, run on the rest of the source, succeeds. -/
theorem C8_malformed_stream (d : NodeDecl) (ops : NodeOps) (s : Scene) (source : Deserializer) :
    ((Deserializer.ReadFileID source).1 ≠ "USCN" →
      Scene.Load ops s source =
        (false, WriteToLog (Scene.StopAsyncLoading s) LOG_ERROR
          (source.name_ ++ " is not a valid scene file")) ∧
      (Scene.Load ops s source).2.graph = s.graph ∧
      (Scene.Load ops s source).2.nodeHeap = s.nodeHeap ∧
      (Scene.Load ops s source).2.componentHeap = s.componentHeap ∧
      (Scene.Load ops s source).2.replicatedNodes_ = s.replicatedNodes_ ∧
      (Scene.Load ops s source).2.localNodes_ = s.localNodes_ ∧
      (Scene.Load ops s source).2.replicatedComponents_ = s.replicatedComponents_ ∧
      (Scene.Load ops s source).2.localComponents_ = s.localComponents_ ∧
      (Scene.Load ops s source).2.log =
        s.log ++ [(LOG_ERROR, source.name_ ++ " is not a valid scene file")] ∧
      Scene.LoadAsync d ops s (some source) =
        (false, WriteToLog (Scene.StopAsyncLoading s) LOG_ERROR
          (source.name_ ++ " is not a valid scene file")) ∧
      (Scene.LoadAsync d ops s (some source)).2.asyncLoading_ = false ∧
      (Scene.LoadAsync d ops s (some source)).2.graph = s.graph ∧
      (Scene.LoadAsync d ops s (some source)).2.replicatedNodes_ = s.replicatedNodes_ ∧
      (Scene.LoadAsync d ops s (some source)).2.localNodes_ = s.localNodes_ ∧
      (Scene.LoadAsync d ops s (some source)).2.fileName_ = s.fileName_ ∧
      (Scene.LoadAsync d ops s (some source)).2.replicatedNodeID_ = s.replicatedNodeID_) ∧
    ((Scene.Load ops s source).1 = true ↔
      ((Deserializer.ReadFileID source).1 = "USCN" ∧
        (ops.Load (Deserializer.ReadFileID source).2
          (WriteToLog (Scene.StopAsyncLoading s) LOG_INFO
            ("Loading scene from " ++ source.name_))).1 = true)) := by
  constructor
  · intro hbad
    have hload : Scene.Load ops s source =
        (false, WriteToLog (Scene.StopAsyncLoading s) LOG_ERROR
          (source.name_ ++ " is not a valid scene file")) := by
      simp only [Scene.Load, Deserializer.ReadFileID] at hbad ⊢
      rw [if_pos hbad]
    have hasync : Scene.LoadAsync d ops s (some source) =
        (false, WriteToLog (Scene.StopAsyncLoading s) LOG_ERROR
          (source.name_ ++ " is not a valid scene file")) := by
      simp only [Scene.LoadAsync, Deserializer.ReadFileID] at hbad ⊢
      rw [if_pos hbad]
    rw [hload, hasync]
    exact ⟨rfl, rfl, rfl, rfl, rfl, rfl, rfl, rfl, rfl, rfl, rfl, rfl, rfl, rfl, rfl, rfl⟩
  · by_cases htag : (Deserializer.ReadFileID source).1 = "USCN"
    · simp only [Scene.Load, Deserializer.ReadFileID] at htag ⊢
      simp only [htag, ne_eq, not_true_eq_false, if_false, true_and]
      rcases hres : ops.Load { source with data := List.drop 4 source.data }
        (WriteToLog (Scene.StopAsyncLoading s) LOG_INFO
          ("Loading scene from " ++ source.name_)) with ⟨ok, src1, s1⟩
      cases ok <;> simp
    · simp only [Scene.Load, Deserializer.ReadFileID] at htag ⊢
      rw [if_pos htag]
      simp only [Bool.false_eq_true, false_iff, not_and]
      intro h; exact absurd h htag

/-- C8 at a concrete input: a stream that starts with `UMDL` is given to the sample scene. -/
theorem C8_malformed_stream_witness :
    (Deserializer.ReadFileID Deserializer.sampleBad).1 ≠ "USCN" ∧
    Scene.Load NodeOps.sample Scene.sample Deserializer.sampleBad =
      (false, WriteToLog (Scene.StopAsyncLoading Scene.sample) LOG_ERROR
        (Deserializer.sampleBad.name_ ++ " is not a valid scene file")) ∧
    (Scene.LoadAsync NodeDecl.sample NodeOps.sample Scene.sample
      (some Deserializer.sampleBad)).2.asyncLoading_ = false ∧
    (Scene.Load NodeOps.sample Scene.sample Deserializer.sampleGood).1 = true :=
  ⟨by decide,
   ((C8_malformed_stream NodeDecl.sample NodeOps.sample Scene.sample Deserializer.sampleBad).1
      (by decide)).1,
   ((C8_malformed_stream NodeDecl.sample NodeOps.sample Scene.sample Deserializer.sampleBad).1
      (by decide)).2.2.2.2.2.2.2.2.2.2.1,
   (C8_malformed_stream NodeDecl.sample NodeOps.sample Scene.sample Deserializer.sampleGood).2.2
      ⟨by decide, by decide⟩⟩

/-! ## Claims on the frame update and on asynchronous loading -/

theorem Scene.readAsyncChild_keeps {α : Type} (d : NodeDecl) (ops : NodeOps) (f : Scene → α)
    (hops : ops.AsyncKeeps f)
    (hres : ∀ (s : Scene) (r : SceneResolver), f { s with resolver_ := r } = f s)
    (hprog : ∀ (s : Scene) (p : AsyncProgress), f { s with asyncProgress_ := p } = f s)
    (s s1 : Scene) (h : Scene.readAsyncChild d ops s = some s1) : f s1 = f s := by
  obtain ⟨hcreate, hload, hloadxml, _, _⟩ := hops
  unfold Scene.readAsyncChild at h
  cases hx : s.asyncProgress_.xmlFile_ with
  | none =>
    rw [hx] at h
    cases hfile : s.asyncProgress_.file_ with
    | none => rw [hfile] at h; simp at h
    | some file =>
      rw [hfile] at h
      simp only [Option.some.injEq] at h
      rw [← h, hprog, hload, hres, hcreate]
  | some xml =>
    rw [hx] at h
    simp only [Option.some.injEq] at h
    rw [← h, hprog, hloadxml, hres, hcreate]

theorem Scene.FinishAsyncLoading_events (ops : NodeOps)
    (hev : ops.AsyncKeeps (fun s => s.events)) (ht : ops.AsyncKeeps (fun s => s.elapsedTime_))
    (s : Scene) :
    (Scene.FinishAsyncLoading ops s).elapsedTime_ = s.elapsedTime_ ∧
    ∃ p, (Scene.FinishAsyncLoading ops s).events =
      s.events ++ [{ event := Event.E_ASYNCLOADFINISHED p, elapsedTime := s.elapsedTime_ }] := by
  obtain ⟨_, _, _, hres, happly⟩ := hev
  obtain ⟨_, _, _, hres2, happly2⟩ := ht
  have e1 : (ops.ApplyAttributes (ops.Resolve s)).events = s.events :=
    (happly _).trans (hres _)
  have e2 : (ops.ApplyAttributes (ops.Resolve s)).elapsedTime_ = s.elapsedTime_ :=
    (happly2 _).trans (hres2 _)
  unfold Scene.FinishAsyncLoading Scene.FinishLoading
  cases hfile : (ops.ApplyAttributes (ops.Resolve s)).asyncProgress_.file_ with
  | none =>
    simp only [hfile, SendEvent, Scene.StopAsyncLoading, e1, e2]
    exact ⟨trivial, _, rfl⟩
  | some file =>
    simp only [hfile, SendEvent, Scene.StopAsyncLoading, e1, e2]
    exact ⟨trivial, _, rfl⟩

theorem Scene.UpdateAsyncLoadingFrom_events (d : NodeDecl) (ops : NodeOps) (fl : FloatOps)
    (clock : Nat → Nat) (hev : ops.AsyncKeeps (fun s => s.events))
    (ht : ops.AsyncKeeps (fun s => s.elapsedTime_)) (fuel : Nat) :
    ∀ (k : Nat) (s s1 : Scene), Scene.UpdateAsyncLoadingFrom d ops fl clock fuel k s = some s1 →
      s1.elapsedTime_ = s.elapsedTime_ ∧
      ∃ e : SentEvent, s1.events = s.events ++ [e] ∧ e.event.isAsyncLoad = true := by
  induction fuel with
  | zero =>
    intro k s s1 h
    unfold Scene.UpdateAsyncLoadingFrom at h
    by_cases hdone : s.asyncProgress_.loadedNodes_ ≥ s.asyncProgress_.totalNodes_
    · simp only [hdone, if_true, Option.some.injEq] at h
      obtain ⟨h1, p, h2⟩ := Scene.FinishAsyncLoading_events ops hev ht s
      rw [← h]
      exact ⟨h1, _, h2, rfl⟩
    · simp [hdone] at h
  | succ fuel ih =>
    intro k s s1 h
    unfold Scene.UpdateAsyncLoadingFrom at h
    by_cases hdone : s.asyncProgress_.loadedNodes_ ≥ s.asyncProgress_.totalNodes_
    · simp only [hdone, if_true, Option.some.injEq] at h
      obtain ⟨h1, p, h2⟩ := Scene.FinishAsyncLoading_events ops hev ht s
      rw [← h]
      exact ⟨h1, _, h2, rfl⟩
    · simp only [hdone, if_false] at h
      cases hread : Scene.readAsyncChild d ops s with
      | none => rw [hread] at h; simp at h
      | some s2 =>
        rw [hread] at h
        have hev2 : s2.events = s.events :=
          Scene.readAsyncChild_keeps d ops (fun s => s.events) hev (fun _ _ => rfl)
            (fun _ _ => rfl) s s2 hread
        have ht2 : s2.elapsedTime_ = s.elapsedTime_ :=
          Scene.readAsyncChild_keeps d ops (fun s => s.elapsedTime_) ht (fun _ _ => rfl)
            (fun _ _ => rfl) s s2 hread
        by_cases hclock : clock k ≥ ASYNC_LOAD_MAX_MSEC
        · simp only [hclock, if_true, Option.some.injEq] at h
          rw [← h]
          simp only [Scene.sendAsyncProgress, SendEvent, hev2, ht2]
          exact ⟨trivial, _, rfl, rfl⟩
        · simp only [hclock, if_false] at h
          obtain ⟨h1, e, h2, h3⟩ := ih _ _ _ h
          exact ⟨by rw [h1]; exact ht2, e, by rw [h2]; simp [hev2], h3⟩

/-- C9: per-frame broadcast order.  When the scene is not async loading, `Update` returns,
having sent exactly the four notifications scene-update, scene-subsystem-update,
update-smoothing and scene-post-update in that order, the first, second and fourth carrying
`timeStep * timeScale_`, each sent while the elapsed time was still the old one; afterwards
the elapsed time is the old one plus `timeStep * timeScale_`.  When the scene is async
loading, `Update` is `UpdateAsyncLoading` and nothing more; with collaborators of the
asynchronous update that keep the event log and the elapsed time, an `Update` that returns
has sent one notification, of asynchronous loading, none of the four, and the elapsed time
is unchanged. -/
theorem C9_update_broadcast_order (d : NodeDecl) (ops : NodeOps) (fl : FloatOps)
    (clock : Nat → Nat) (fuel : Nat) (s : Scene) (timeStep : F32) :
    (s.asyncLoading_ = false →
      ∃ s1 : Scene, Scene.Update d ops fl clock fuel s timeStep = some s1 ∧
        s1.events = s.events ++
          [{ event := Event.E_SCENEUPDATE s.self (fl.mul timeStep s.timeScale_),
             elapsedTime := s.elapsedTime_ },
           { event := Event.E_SCENESUBSYSTEMUPDATE s.self (fl.mul timeStep s.timeScale_),
             elapsedTime := s.elapsedTime_ },
           { event := Event.E_UPDATESMOOTHING
               (fl.sub fl.one (fl.Clamp (fl.powf fl.two
                 (fl.mul (fl.neg (fl.mul timeStep s.timeScale_)) s.smoothingConstant_))
                 fl.zero fl.one))
               (fl.mul s.snapThreshold_ s.snapThreshold_),
             elapsedTime := s.elapsedTime_ },
           { event := Event.E_SCENEPOSTUPDATE s.self (fl.mul timeStep s.timeScale_),
             elapsedTime := s.elapsedTime_ }] ∧
        s1.elapsedTime_ = fl.add s.elapsedTime_ (fl.mul timeStep s.timeScale_)) ∧
    (s.asyncLoading_ = true →
      Scene.Update d ops fl clock fuel s timeStep
        = Scene.UpdateAsyncLoading d ops fl clock fuel s) ∧
    (s.asyncLoading_ = true → ops.AsyncKeeps (fun s => s.events) →
      ops.AsyncKeeps (fun s => s.elapsedTime_) →
      ∀ s1 : Scene, Scene.Update d ops fl clock fuel s timeStep = some s1 →
        s1.elapsedTime_ = s.elapsedTime_ ∧
        ∃ e : SentEvent, s1.events = s.events ++ [e] ∧ e.event.isAsyncLoad = true) := by
  refine ⟨?_, ?_, ?_⟩
  · intro hidle
    simp only [Scene.Update, hidle, Bool.false_eq_true, if_false]
    exact ⟨_, rfl, by simp [SendEvent], by simp [SendEvent]⟩
  · intro hloading
    simp only [Scene.Update, hloading, if_true]
  · intro hloading hev ht s1 h
    simp only [Scene.Update, hloading, if_true, Scene.UpdateAsyncLoading] at h
    exact Scene.UpdateAsyncLoadingFrom_events d ops fl clock hev ht fuel 0 s s1 h

theorem Scene.readAsyncChild_progress (d : NodeDecl) (ops : NodeOps)
    (hops : ops.AsyncKeeps (fun s => s.asyncProgress_)) (s : Scene)
    (hfile : s.asyncProgress_.xmlFile_ = none → s.asyncProgress_.file_ ≠ none) :
    ∃ s1 : Scene, Scene.readAsyncChild d ops s = some s1 ∧
      s1.asyncProgress_.loadedNodes_ = s.asyncProgress_.loadedNodes_ ∧
      s1.asyncProgress_.totalNodes_ = s.asyncProgress_.totalNodes_ ∧
      s1.asyncProgress_.xmlFile_ = s.asyncProgress_.xmlFile_ ∧
      (s1.asyncProgress_.file_ = none ↔ s.asyncProgress_.file_ = none) := by
  obtain ⟨hcreate, hload, hloadxml, _, _⟩ := hops
  unfold Scene.readAsyncChild
  cases hx : s.asyncProgress_.xmlFile_ with
  | none =>
    cases hf : s.asyncProgress_.file_ with
    | none => exact absurd hf (hfile hx)
    | some file =>
      refine ⟨_, rfl, ?_⟩
      have hp : ∀ (n : Nat) (f : Deserializer),
          (ops.ChildLoad (ops.CreateChild n (createModeOf d n) s).1 f
            { (ops.CreateChild n (createModeOf d n) s).2 with
              resolver_ := SceneResolver.AddNode (ops.CreateChild n (createModeOf d n) s).2.resolver_
                n (ops.CreateChild n (createModeOf d n) s).1 }).2.2.asyncProgress_
            = s.asyncProgress_ := by
        intro n f
        exact (hload _ _ _).trans (hcreate _ _ _)
      simp only [hp, hx, hf]
      simp
  | some xml =>
    refine ⟨_, rfl, ?_⟩
    have hc : ∀ (n : Nat), (ops.CreateChild n (createModeOf d n) s).2.asyncProgress_
        = s.asyncProgress_ := fun n => hcreate _ _ _
    have hp : ∀ (n : Nat) (e : XMLElement),
        (ops.ChildLoadXML (ops.CreateChild n (createModeOf d n) s).1 e
          { (ops.CreateChild n (createModeOf d n) s).2 with
            resolver_ := SceneResolver.AddNode (ops.CreateChild n (createModeOf d n) s).2.resolver_
              n (ops.CreateChild n (createModeOf d n) s).1 }).2.asyncProgress_
          = s.asyncProgress_ := by
      intro n e
      exact (hloadxml _ _ _).trans (hcreate _ _ _)
    simp only [hp, hx]
    simp

theorem Scene.FinishAsyncLoading_progress (ops : NodeOps)
    (hops : ops.AsyncKeeps (fun s => s.asyncProgress_)) (s : Scene) :
    (Scene.FinishAsyncLoading ops s).asyncProgress_.loadedNodes_
      = s.asyncProgress_.loadedNodes_ ∧
    (Scene.FinishAsyncLoading ops s).asyncProgress_.totalNodes_
      = s.asyncProgress_.totalNodes_ ∧
    (Scene.FinishAsyncLoading ops s).asyncLoading_ = false ∧
    ∃ (t : List SentEvent) (p : Ptr) (e : F32), (Scene.FinishAsyncLoading ops s).events =
      t ++ [{ event := Event.E_ASYNCLOADFINISHED p, elapsedTime := e }] := by
  obtain ⟨_, _, _, hres, happly⟩ := hops
  have e1 : (ops.ApplyAttributes (ops.Resolve s)).asyncProgress_ = s.asyncProgress_ :=
    (happly _).trans (hres _)
  unfold Scene.FinishAsyncLoading Scene.FinishLoading
  simp only [e1]
  cases hfile : s.asyncProgress_.file_ with
  | none =>
    simp only [SendEvent, Scene.StopAsyncLoading, e1]
    exact ⟨trivial, trivial, trivial, _, _, _, rfl⟩
  | some file =>
    simp only [SendEvent, Scene.StopAsyncLoading, e1]
    exact ⟨trivial, trivial, trivial, _, _, _, rfl⟩

theorem ratio_bounds (loaded total : Nat) (h1 : 1 ≤ loaded) (h2 : loaded ≤ total) :
    0 < (loaded : ℚ) / (total : ℚ) ∧ (loaded : ℚ) / (total : ℚ) ≤ 1 := by
  have hl : (0 : ℚ) < loaded := by exact_mod_cast h1
  have ht : (0 : ℚ) < total := by exact_mod_cast (by omega : 0 < total)
  refine ⟨div_pos hl ht, ?_⟩
  rw [div_le_one ht]
  exact_mod_cast h2

theorem Scene.UpdateAsyncLoadingFrom_step (d : NodeDecl) (ops : NodeOps) (fl : FloatOps)
    (clock : Nat → Nat) (hops : ops.AsyncKeeps (fun s => s.asyncProgress_)) (n : Nat) :
    ∀ (k : Nat) (s : Scene), s.AsyncProgressOk →
      s.asyncProgress_.totalNodes_ - s.asyncProgress_.loadedNodes_ = n →
      ∃ s1 : Scene,
        (∀ fuel, n ≤ fuel → Scene.UpdateAsyncLoadingFrom d ops fl clock fuel k s = some s1) ∧
        Scene.AsyncStep fl s s1 := by
  induction n with
  | zero =>
    intro k s hok hn
    obtain ⟨hle, hlt, hfile⟩ := hok
    have hdone : s.asyncProgress_.loadedNodes_ ≥ s.asyncProgress_.totalNodes_ := by omega
    obtain ⟨h1, h2, h3, h4⟩ := Scene.FinishAsyncLoading_progress ops hops s
    refine ⟨Scene.FinishAsyncLoading ops s, ?_, ?_⟩
    · intro fuel _
      unfold Scene.UpdateAsyncLoadingFrom
      simp [hdone]
    · exact ⟨h2, by omega, by omega, Or.inl ⟨h3, h4⟩⟩
  | succ n ih =>
    intro k s hok hn
    obtain ⟨hle, hlt, hfile⟩ := hok
    have hdone : ¬ (s.asyncProgress_.loadedNodes_ ≥ s.asyncProgress_.totalNodes_) := by omega
    obtain ⟨s2, hread, hl2, ht2, hx2, hf2⟩ := Scene.readAsyncChild_progress d ops hops s hfile
    have hmod : (s2.asyncProgress_.loadedNodes_ + 1) % 2 ^ 32
        = s.asyncProgress_.loadedNodes_ + 1 := by
      rw [hl2]; exact Nat.mod_eq_of_lt (by omega)
    by_cases hclock : clock k ≥ ASYNC_LOAD_MAX_MSEC
    · refine ⟨Scene.sendAsyncProgress fl { s2 with
        asyncProgress_ := { s2.asyncProgress_ with
          loadedNodes_ := (s2.asyncProgress_.loadedNodes_ + 1) % 2 ^ 32 } }, ?_, ?_⟩
      · intro fuel hfuel
        obtain ⟨fuel1, rfl⟩ : ∃ f, fuel = f + 1 := ⟨fuel - 1, by omega⟩
        unfold Scene.UpdateAsyncLoadingFrom
        simp only [hdone, if_false, hread, hclock, if_true]
      · simp only [Scene.AsyncStep, Scene.sendAsyncProgress, SendEvent, hmod, ht2,
          Scene.AsyncProgressOk, hx2]
        have hratio := ratio_bounds (s.asyncProgress_.loadedNodes_ + 1)
          s.asyncProgress_.totalNodes_ (by omega) (by omega)
        refine ⟨trivial, by omega, by omega, Or.inr ⟨by omega, by omega, by omega,
          hratio.1, hratio.2, ⟨by omega, hlt, ?_⟩, _, _, rfl⟩⟩
        intro hx
        rw [Ne, hf2]
        exact hfile hx
    · have hok3 : Scene.AsyncProgressOk { s2 with
          asyncProgress_ := { s2.asyncProgress_ with
            loadedNodes_ := (s2.asyncProgress_.loadedNodes_ + 1) % 2 ^ 32 } } := by
        simp only [Scene.AsyncProgressOk, hmod, ht2, hx2]
        refine ⟨by omega, hlt, ?_⟩
        intro hx
        rw [Ne, hf2]
        exact hfile hx
      obtain ⟨s1, hs1, hstep⟩ := ih (k + 1) _ hok3 (by simp only [hmod, ht2]; omega)
      refine ⟨s1, ?_, ?_⟩
      · intro fuel hfuel
        obtain ⟨fuel1, rfl⟩ : ∃ f, fuel = f + 1 := ⟨fuel - 1, by omega⟩
        unfold Scene.UpdateAsyncLoadingFrom
        simp only [hdone, if_false, hread, hclock]
        exact hs1 fuel1 (by omega)
      · obtain ⟨a1, a2, a3, a4⟩ := hstep
        simp only [hmod, ht2] at a1 a2 a4
        refine ⟨a1, by omega, a3, ?_⟩
        rcases a4 with a4 | ⟨b1, b2, b3, b4, b5, b6, b7⟩
        · exact Or.inl a4
        · exact Or.inr ⟨by omega, b2, b3, b4, b5, b6, b7⟩

theorem countChildNodes_lt (n : Nat) : ∀ (e : XMLElement) (total : Nat), e.length ≤ n →
    total < 2 ^ 32 → countChildNodes e total < 2 ^ 32 := by
  induction n with
  | zero =>
    intro e total hlen ht
    cases e with
    | nil => unfold countChildNodes; exact ht
    | cons x rest => simp at hlen
  | succ n ih =>
    intro e total hlen ht
    cases e with
    | nil => unfold countChildNodes; exact ht
    | cons x rest =>
      unfold countChildNodes
      apply ih
      · simp only [XMLElement.GetNext]
        have := List.Sublist.length_le (List.dropWhile_sublist
          (fun (c : XMLNode) => decide (c.name ≠ "node")) (l := rest))
        simp only [List.length_cons] at hlen
        omega
      · exact Nat.mod_lt _ (by norm_num)

/-- C10: progress monotonicity.  With collaborators that keep the progress record, a
successful `LoadAsync` or `LoadAsyncXML` leaves `loadedNodes_` at 0 with a consistent
progress record, and on every scene with a consistent progress record `UpdateAsyncLoading`
returns (for every bound of at least `totalNodes_ - loadedNodes_` nodes read) a scene with
the same total in which `loadedNodes_` has not decreased and does not exceed `totalNodes_`;
either the load was finished, or `loadedNodes_` has grown by at least 1 and the progress
notification sent last carries `1 <= loadedNodes_ <= totalNodes_` with `totalNodes_ > 0`,
the exact quotient lying in (0, 1], and the progress record is consistent again. -/
theorem C10_progress_monotone (d : NodeDecl) (ops : NodeOps) (fl : FloatOps)
    (clock : Nat → Nat) (hops : ops.AsyncKeeps (fun s => s.asyncProgress_)) :
    (∀ (s0 s : Scene) (file : File), Scene.LoadAsync d ops s0 (some file) = (true, s) →
      s.asyncProgress_.loadedNodes_ = 0 ∧ s.AsyncProgressOk) ∧
    (∀ (s0 s : Scene) (file : File), Scene.LoadAsyncXML d ops s0 (some file) = (true, s) →
      s.asyncProgress_.loadedNodes_ = 0 ∧ s.AsyncProgressOk) ∧
    (∀ s : Scene, s.AsyncProgressOk →
      ∃ s1 : Scene,
        (∀ fuel, s.asyncProgress_.totalNodes_ - s.asyncProgress_.loadedNodes_ ≤ fuel →
          Scene.UpdateAsyncLoading d ops fl clock fuel s = some s1) ∧
        Scene.AsyncStep fl s s1) := by
  refine ⟨?_, ?_, ?_⟩
  · intro s0 s file h
    simp only [Scene.LoadAsync, Deserializer.ReadFileID] at h
    split at h
    · simp at h
    · split at h
      · simp at h
      · simp only [Prod.mk.injEq, true_and] at h
        rw [← h]
        simp only [Scene.AsyncProgressOk, Deserializer.ReadVLE]
        exact ⟨trivial, Nat.zero_le _, Nat.mod_lt _ (by norm_num), fun _ => by simp⟩
  · intro s0 s file h
    simp only [Scene.LoadAsyncXML] at h
    split at h
    · simp at h
    · split at h
      · simp at h
      · simp only [Prod.mk.injEq, true_and] at h
        rw [← h]
        simp only [Scene.AsyncProgressOk]
        exact ⟨trivial, Nat.zero_le _, countChildNodes_lt _ _ _ (le_refl _) (by norm_num),
          fun hx => by simp at hx⟩
  · intro s hok
    exact Scene.UpdateAsyncLoadingFrom_step d ops fl clock hops _ 0 s hok rfl

/-! ## The claims at concrete inputs -/

theorem NodeData.sample_length : (encNode NodeData.sample).length = 112 := by
  simp [NodeData.sample, encNode, encNodes, encList, encUInt, encString, encVariant,
    encComponent, encBuffer, encVLE]

/-- C6 at a concrete input: the sample graph is saved into an empty stream and loaded into
the sample scene. -/
theorem C6_save_load_round_trip_witness :
    (Scene.Save NodeOps.sampleCodec { Scene.sample with graph := NodeData.sample }
      Serializer.sample).1 = true ∧
    (Scene.Load NodeOps.sampleCodec Scene.sample
      { name_ := "scene.bin", checksum_ := 0,
        data := (Scene.Save NodeOps.sampleCodec { Scene.sample with graph := NodeData.sample }
          Serializer.sample).2.1.data }).1 = true ∧
    (Scene.Load NodeOps.sampleCodec Scene.sample
      { name_ := "scene.bin", checksum_ := 0,
        data := (Scene.Save NodeOps.sampleCodec { Scene.sample with graph := NodeData.sample }
          Serializer.sample).2.1.data }).2.graph = NodeData.sample :=
  C6_save_load_round_trip NodeCodec.sample NodeOps.sampleCodec rfl rfl
    { Scene.sample with graph := NodeData.sample } Scene.sample Serializer.sample "scene.bin" 0
    (by
      simp [NodeData.sample, NodeData.WF, NodeData.WFs, Variant.WF, Variant.type,
        NodeCodec.sample, FLOAT_ONE])
    rfl
    (by
      show 4 + (encNode NodeData.sample).length ≤ 1000
      rw [NodeData.sample_length]
      norm_num)

theorem NodeOps.sample_keeps {α : Type} (f : Scene → α) : NodeOps.sample.AsyncKeeps f :=
  ⟨fun _ _ _ => rfl, fun _ _ _ => rfl, fun _ _ _ => rfl, fun _ => rfl, fun _ => rfl⟩

/-- C9 at a concrete input: an idle frame of the sample scene, and a frame of the sample
scene with a load in flight. -/
theorem C9_update_broadcast_order_witness :
    (∃ s1 : Scene, Scene.Update NodeDecl.sample NodeOps.sample FloatOps.sample (fun _ => 0) 5
        Scene.sample 3 = some s1 ∧
      s1.events = Scene.sample.events ++
        [{ event := Event.E_SCENEUPDATE Scene.sample.self
             (FloatOps.sample.mul 3 Scene.sample.timeScale_),
           elapsedTime := Scene.sample.elapsedTime_ },
         { event := Event.E_SCENESUBSYSTEMUPDATE Scene.sample.self
             (FloatOps.sample.mul 3 Scene.sample.timeScale_),
           elapsedTime := Scene.sample.elapsedTime_ },
         { event := Event.E_UPDATESMOOTHING
             (FloatOps.sample.sub FloatOps.sample.one (FloatOps.sample.Clamp
               (FloatOps.sample.powf FloatOps.sample.two
                 (FloatOps.sample.mul (FloatOps.sample.neg
                   (FloatOps.sample.mul 3 Scene.sample.timeScale_))
                   Scene.sample.smoothingConstant_))
               FloatOps.sample.zero FloatOps.sample.one))
             (FloatOps.sample.mul Scene.sample.snapThreshold_ Scene.sample.snapThreshold_),
           elapsedTime := Scene.sample.elapsedTime_ },
         { event := Event.E_SCENEPOSTUPDATE Scene.sample.self
             (FloatOps.sample.mul 3 Scene.sample.timeScale_),
           elapsedTime := Scene.sample.elapsedTime_ }] ∧
      s1.elapsedTime_ = FloatOps.sample.add Scene.sample.elapsedTime_
        (FloatOps.sample.mul 3 Scene.sample.timeScale_)) ∧
    (∀ s1 : Scene, Scene.Update NodeDecl.sample NodeOps.sample FloatOps.sample (fun _ => 0) 5
        Scene.sampleLoading 3 = some s1 →
      s1.elapsedTime_ = Scene.sampleLoading.elapsedTime_ ∧
      ∃ e : SentEvent, s1.events = Scene.sampleLoading.events ++ [e] ∧
        e.event.isAsyncLoad = true) :=
  ⟨(C9_update_broadcast_order NodeDecl.sample NodeOps.sample FloatOps.sample (fun _ => 0) 5
      Scene.sample 3).1 (by decide),
   (C9_update_broadcast_order NodeDecl.sample NodeOps.sample FloatOps.sample (fun _ => 0) 5
      Scene.sampleLoading 3).2.2 (by decide) (NodeOps.sample_keeps _) (NodeOps.sample_keeps _)⟩

theorem Scene.sampleLoading_ok : Scene.sampleLoading.AsyncProgressOk :=
  ⟨by decide, by decide, fun _ => by simp [Scene.sampleLoading]⟩

/-- C10 at a concrete input: one asynchronous update of the sample scene with a load of two
nodes in flight, the time limit being exceeded after the first node. -/
theorem C10_progress_monotone_witness :
    ∃ s1 : Scene,
      (∀ fuel, Scene.sampleLoading.asyncProgress_.totalNodes_ -
          Scene.sampleLoading.asyncProgress_.loadedNodes_ ≤ fuel →
        Scene.UpdateAsyncLoading NodeDecl.sample NodeOps.sample FloatOps.sample (fun _ => 40)
          fuel Scene.sampleLoading = some s1) ∧
      Scene.AsyncStep FloatOps.sample Scene.sampleLoading s1 :=
  (C10_progress_monotone NodeDecl.sample NodeOps.sample FloatOps.sample (fun _ => 40)
    (NodeOps.sample_keeps _)).2.2 Scene.sampleLoading Scene.sampleLoading_ok

/-! ## Lemmas on the advances of the cursor -/

theorem freeIDLoop_succ_used (first last : Nat) (map : HashMap) (fuel cursor : Nat)
    (h : HashMap.Contains map cursor = true) :
    freeIDLoop first last map (fuel + 1) cursor =
      freeIDLoop first last map fuel (advanceCursor first last cursor) := by
  rw [freeIDLoop]
  simp only [h, Bool.not_true, Bool.false_eq_true, if_false, advanceCursor]

theorem freeIDLoop_free (first last : Nat) (map : HashMap) (fuel cursor : Nat)
    (h : HashMap.Contains map cursor = false) :
    freeIDLoop first last map fuel cursor = some cursor := by
  unfold freeIDLoop
  simp [h]

theorem freeIDLoop_zero_used (first last : Nat) (map : HashMap) (cursor : Nat)
    (h : HashMap.Contains map cursor = true) :
    freeIDLoop first last map 0 cursor = none := by
  unfold freeIDLoop
  simp [h]

/-- The loop returns exactly when the cursor reaches a free ID: after `n` advances over
used IDs, it returns for every bound of at least `n` advances and for no smaller bound. -/
theorem freeIDLoop_steps (first last : Nat) (map : HashMap) (n : Nat) :
    ∀ cursor : Nat, HashMap.Contains map (cursorAfter first last n cursor) = false →
      (∀ j, j < n → HashMap.Contains map (cursorAfter first last j cursor) = true) →
      ∀ fuel, (n ≤ fuel →
          freeIDLoop first last map fuel cursor = some (cursorAfter first last n cursor)) ∧
        (fuel < n → freeIDLoop first last map fuel cursor = none) := by
  induction n with
  | zero =>
    intro cursor hfree _ fuel
    exact ⟨fun _ => freeIDLoop_free _ _ _ _ _ hfree, fun h => absurd h (Nat.not_lt_zero _)⟩
  | succ n ih =>
    intro cursor hfree hused fuel
    have h0 : HashMap.Contains map cursor = true := hused 0 (Nat.succ_pos _)
    have ih1 := ih (advanceCursor first last cursor)
      (by simpa [cursorAfter, Function.iterate_succ_apply] using hfree)
      (fun j hj => by
        have := hused (j + 1) (by omega)
        simpa [cursorAfter, Function.iterate_succ_apply] using this)
    cases fuel with
    | zero =>
      exact ⟨fun h => absurd h (by omega), fun _ => freeIDLoop_zero_used _ _ _ _ h0⟩
    | succ fuel =>
      rw [freeIDLoop_succ_used _ _ _ _ _ h0]
      refine ⟨fun h => ?_, fun h => (ih1 fuel).2 (by omega)⟩
      rw [(ih1 fuel).1 (by omega)]
      simp [cursorAfter, Function.iterate_succ_apply]

/-- A returned ID is reached by advancing over used IDs only. -/
theorem freeIDLoop_some (first last : Nat) (map : HashMap) (fuel : Nat) :
    ∀ cursor x : Nat, freeIDLoop first last map fuel cursor = some x →
      ∃ n, n ≤ fuel ∧ cursorAfter first last n cursor = x ∧ HashMap.Contains map x = false ∧
        ∀ j, j < n → HashMap.Contains map (cursorAfter first last j cursor) = true := by
  induction fuel with
  | zero =>
    intro cursor x h
    by_cases hc : HashMap.Contains map cursor = true
    · rw [freeIDLoop_zero_used _ _ _ _ hc] at h; simp at h
    · have hc1 : HashMap.Contains map cursor = false := by simpa using hc
      rw [freeIDLoop_free _ _ _ _ _ hc1, Option.some.injEq] at h
      subst h
      exact ⟨0, le_refl _, rfl, hc1, fun j hj => absurd hj (Nat.not_lt_zero _)⟩
  | succ fuel ih =>
    intro cursor x h
    by_cases hc : HashMap.Contains map cursor = true
    · rw [freeIDLoop_succ_used _ _ _ _ _ hc] at h
      obtain ⟨n, hn, hx, hfree, hused⟩ := ih _ _ h
      refine ⟨n + 1, by omega, by simpa [cursorAfter, Function.iterate_succ_apply] using hx,
        hfree, ?_⟩
      intro j hj
      cases j with
      | zero => simpa [cursorAfter] using hc
      | succ j =>
        have := hused j (by omega)
        simpa [cursorAfter, Function.iterate_succ_apply] using this
    · have hc1 : HashMap.Contains map cursor = false := by simpa using hc
      rw [freeIDLoop_free _ _ _ _ _ hc1, Option.some.injEq] at h
      subst h
      exact ⟨0, Nat.zero_le _, rfl, hc1, fun j hj => absurd hj (Nat.not_lt_zero _)⟩

/-- Within the range an advance goes to the next ID, and from the last ID to the first. -/
theorem advanceCursor_in_range (first last cursor : Nat) (hlast : last < 2 ^ 32)
    (h1 : first ≤ cursor) (h2 : cursor ≤ last) :
    advanceCursor first last cursor = (if cursor = last then first else cursor + 1) ∧
    first ≤ advanceCursor first last cursor ∧ advanceCursor first last cursor ≤ last := by
  unfold advanceCursor
  by_cases hc : cursor = last
  · subst hc
    simp only [ne_eq, not_true_eq_false, if_false, if_true, true_and]
    exact ⟨le_refl _, h1⟩
  · have hmod : (cursor + 1) % 2 ^ 32 = cursor + 1 := Nat.mod_eq_of_lt (by omega)
    simp only [ne_eq, hc, not_false_eq_true, if_true, hmod, if_false, true_and]
    constructor <;> omega

/-- The position of the cursor after `j` advances, over one lap and a wrap. -/
theorem cursorAfter_eq (first last cursor : Nat) (hlast : last < 2 ^ 32)
    (h1 : first ≤ cursor) (h2 : cursor ≤ last) (j : Nat)
    (hj : j ≤ (last - cursor) + 1 + (last - first)) :
    cursorAfter first last j cursor =
      if j ≤ last - cursor then cursor + j else first + (j - (last - cursor) - 1) := by
  induction j with
  | zero => simp [cursorAfter]
  | succ j ih =>
    have ih1 := ih (by omega)
    unfold cursorAfter at ih1 ⊢
    rw [Function.iterate_succ_apply', ih1]
    by_cases hle : j ≤ last - cursor
    · simp only [hle, if_true]
      have hr := (advanceCursor_in_range first last (cursor + j) hlast (by omega) (by omega)).1
      rw [hr]
      by_cases heq : cursor + j = last
      · have : ¬ (j + 1 ≤ last - cursor) := by omega
        simp only [heq, if_true, this, if_false]
        omega
      · have : j + 1 ≤ last - cursor := by omega
        simp only [heq, if_false, this, if_true]
        omega
    · simp only [hle, if_false]
      have hr := (advanceCursor_in_range first last (first + (j - (last - cursor) - 1)) hlast
        (by omega) (by omega)).1
      rw [hr]
      have hne : ¬ (first + (j - (last - cursor) - 1) = last) := by omega
      have : ¬ (j + 1 ≤ last - cursor) := by omega
      simp only [hne, if_false, this]
      omega

theorem cursorAfter_in_range (first last cursor : Nat) (hlast : last < 2 ^ 32)
    (h1 : first ≤ cursor) (h2 : cursor ≤ last) (j : Nat) :
    first ≤ cursorAfter first last j cursor ∧ cursorAfter first last j cursor ≤ last := by
  induction j with
  | zero => simpa [cursorAfter] using ⟨h1, h2⟩
  | succ j ih =>
    unfold cursorAfter at ih ⊢
    rw [Function.iterate_succ_apply']
    exact (advanceCursor_in_range first last _ hlast ih.1 ih.2).2

/-- With every ID of the range in use, the loop returns for no bound on the advances. -/
theorem freeIDLoop_never (first last : Nat) (map : HashMap) (hlast : last < 2 ^ 32)
    (hfull : ∀ id, first ≤ id → id ≤ last → HashMap.Contains map id = true) (fuel : Nat) :
    ∀ cursor, first ≤ cursor → cursor ≤ last → freeIDLoop first last map fuel cursor = none := by
  induction fuel with
  | zero =>
    intro cursor h1 h2
    exact freeIDLoop_zero_used _ _ _ _ (hfull cursor h1 h2)
  | succ fuel ih =>
    intro cursor h1 h2
    rw [freeIDLoop_succ_used _ _ _ _ _ (hfull cursor h1 h2)]
    have hr := (advanceCursor_in_range first last cursor hlast h1 h2).2
    exact ih _ hr.1 hr.2

/-- With the cursor in the range and a free ID in the range, the loop returns after a
number `n` of advances that is at most `last - first`, for no smaller bound, and the
cursor never leaves the range. -/
theorem freeIDLoop_terminates (first last : Nat) (map : HashMap) (hlast : last < 2 ^ 32)
    (cursor : Nat) (h1 : first ≤ cursor) (h2 : cursor ≤ last)
    (hex : ∃ f, first ≤ f ∧ f ≤ last ∧ HashMap.Contains map f = false) :
    ∃ n, n ≤ last - first ∧
      HashMap.Contains map (cursorAfter first last n cursor) = false ∧
      (∀ j, j < n → HashMap.Contains map (cursorAfter first last j cursor) = true) ∧
      (∀ fuel, (n ≤ fuel →
          freeIDLoop first last map fuel cursor = some (cursorAfter first last n cursor)) ∧
        (fuel < n → freeIDLoop first last map fuel cursor = none)) := by
  obtain ⟨x, _, _, _, hx⟩ := freeIDLoop_returns first last map hlast cursor h1 h2 hex
  obtain ⟨n, hn, hxn, hfree, hused⟩ := freeIDLoop_some first last map (last - first) cursor x
    (hx _ (le_refl _))
  rw [← hxn] at hfree
  exact ⟨n, hn, hfree, hused, freeIDLoop_steps first last map n cursor hfree hused⟩

/-- The ID the loop stops at is the smallest free ID from the cursor upwards, or, when
there is none up to the last ID of the range, the smallest free ID of the range. -/
theorem cursorAfter_least (first last : Nat) (map : HashMap) (hlast : last < 2 ^ 32)
    (cursor : Nat) (h1 : first ≤ cursor) (h2 : cursor ≤ last) (n : Nat)
    (hn : n ≤ last - first)
    (hfree : HashMap.Contains map (cursorAfter first last n cursor) = false)
    (hused : ∀ j, j < n → HashMap.Contains map (cursorAfter first last j cursor) = true) :
    (∀ f, cursor ≤ f → f ≤ last → HashMap.Contains map f = false →
      cursor ≤ cursorAfter first last n cursor ∧ cursorAfter first last n cursor ≤ f) ∧
    ((∀ f, cursor ≤ f → f ≤ last → HashMap.Contains map f = true) →
      ∀ f, first ≤ f → f ≤ last → HashMap.Contains map f = false →
        cursorAfter first last n cursor ≤ f) := by
  have hx := cursorAfter_eq first last cursor hlast h1 h2 n (by omega)
  constructor
  · intro f hf1 hf2 hff
    have hfj := cursorAfter_eq first last cursor hlast h1 h2 (f - cursor) (by omega)
    rw [if_pos (by omega), show cursor + (f - cursor) = f by omega] at hfj
    have hnf : n ≤ f - cursor := by
      by_contra hlt
      have := hused (f - cursor) (by omega)
      rw [hfj, hff] at this
      exact Bool.noConfusion this
    rw [hx, if_pos (by omega)]
    omega
  · intro hall f hf1 hf2 hff
    have hfc : f < cursor := by
      by_contra hge
      have := hall f (by omega) hf2
      rw [hff] at this
      exact Bool.noConfusion this
    have hfj := cursorAfter_eq first last cursor hlast h1 h2
      ((last - cursor) + 1 + (f - first)) (by omega)
    rw [if_neg (by omega),
      show first + ((last - cursor) + 1 + (f - first) - (last - cursor) - 1) = f by omega]
      at hfj
    have hnf : n ≤ (last - cursor) + 1 + (f - first) := by
      by_contra hlt
      have := hused _ (by omega : (last - cursor) + 1 + (f - first) < n)
      rw [hfj, hff] at this
      exact Bool.noConfusion this
    by_cases hle : n ≤ last - cursor
    · exfalso
      rw [hx, if_pos hle] at hfree
      have := hall (cursor + n) (by omega) (by omega)
      rw [hfree] at this
      exact Bool.noConfusion this
    · rw [hx, if_neg hle]
      omega

theorem Scene.GetFreeNodeID_eq (d : NodeDecl) (fuel : Nat) (s : Scene) (mode : CreateMode) :
    Scene.GetFreeNodeID d fuel s mode =
      (freeIDLoop (d.firstID mode) (d.lastID mode) (s.nodeMap mode) fuel
        (s.nodeCursor mode)).map (fun id => (id, s.withNodeCursor mode id)) := by
  cases mode <;> rfl

theorem Scene.GetFreeComponentID_eq (d : NodeDecl) (fuel : Nat) (s : Scene)
    (mode : CreateMode) :
    Scene.GetFreeComponentID d fuel s mode =
      (freeIDLoop (d.firstID mode) (d.lastID mode) (s.componentMap mode) fuel
        (s.componentCursor mode)).map (fun id => (id, s.withComponentCursor mode id)) := by
  cases mode <;> rfl

/-! ## Claims on the allocation of IDs -/

/-- C19, as stated, fails: after the IDs 2 and 3 have been allocated and ID 2 released, the
cursor stands at 3 and `GetFreeNodeID` returns 4, although 2 is a free ID of the range and
smaller. -/
theorem C19_lowest_id_counterexample :
    (Scene.GetFreeNodeID NodeDecl.sample 10 Scene.sample CreateMode.REPLICATED).map Prod.fst
      = some 2 ∧
    (Scene.GetFreeNodeID NodeDecl.sample 10
      (Scene.NodeAdded NodeDecl.sample
        (Node.SetID (Scene.sample.withNodeCursor CreateMode.REPLICATED 2) 2 2) 2)
      CreateMode.REPLICATED).map Prod.fst = some 3 ∧
    (Scene.GetFreeNodeID NodeDecl.sample 10 Scene.sampleReleased CreateMode.REPLICATED).map
      Prod.fst = some 4 ∧
    NodeDecl.sample.firstID CreateMode.REPLICATED ≤ 2 ∧
    2 ≤ NodeDecl.sample.lastID CreateMode.REPLICATED ∧
    HashMap.Contains (Scene.sampleReleased.nodeMap CreateMode.REPLICATED) 2 = false ∧
    2 < 4 := by
  decide

/-- C19, amended: with the last ID of the range a 32-bit unsigned, the cursor within the range
and a free ID in the range, `GetFreeNodeID` returns the smallest free ID of the range that is
not below the cursor, and, when every ID from the cursor to the last ID of the range is in
use, the smallest free ID of the range; the same holds for `GetFreeComponentID`. -/
theorem C19_first_free_from_cursor (d : NodeDecl) (s : Scene) (mode : CreateMode)
    (hlast : d.lastID mode < 2 ^ 32) :
    (d.firstID mode ≤ s.nodeCursor mode → s.nodeCursor mode ≤ d.lastID mode →
      (∃ f, d.firstID mode ≤ f ∧ f ≤ d.lastID mode ∧
        HashMap.Contains (s.nodeMap mode) f = false) →
      ∃ id : Nat,
        (∀ fuel, d.lastID mode - d.firstID mode ≤ fuel →
          Scene.GetFreeNodeID d fuel s mode = some (id, s.withNodeCursor mode id)) ∧
        HashMap.Contains (s.nodeMap mode) id = false ∧
        (∀ f, s.nodeCursor mode ≤ f → f ≤ d.lastID mode →
          HashMap.Contains (s.nodeMap mode) f = false → s.nodeCursor mode ≤ id ∧ id ≤ f) ∧
        ((∀ f, s.nodeCursor mode ≤ f → f ≤ d.lastID mode →
            HashMap.Contains (s.nodeMap mode) f = true) →
          ∀ f, d.firstID mode ≤ f → f ≤ d.lastID mode →
            HashMap.Contains (s.nodeMap mode) f = false → id ≤ f)) ∧
    (d.firstID mode ≤ s.componentCursor mode → s.componentCursor mode ≤ d.lastID mode →
      (∃ f, d.firstID mode ≤ f ∧ f ≤ d.lastID mode ∧
        HashMap.Contains (s.componentMap mode) f = false) →
      ∃ id : Nat,
        (∀ fuel, d.lastID mode - d.firstID mode ≤ fuel →
          Scene.GetFreeComponentID d fuel s mode
            = some (id, s.withComponentCursor mode id)) ∧
        HashMap.Contains (s.componentMap mode) id = false ∧
        (∀ f, s.componentCursor mode ≤ f → f ≤ d.lastID mode →
          HashMap.Contains (s.componentMap mode) f = false →
          s.componentCursor mode ≤ id ∧ id ≤ f) ∧
        ((∀ f, s.componentCursor mode ≤ f → f ≤ d.lastID mode →
            HashMap.Contains (s.componentMap mode) f = true) →
          ∀ f, d.firstID mode ≤ f → f ≤ d.lastID mode →
            HashMap.Contains (s.componentMap mode) f = false → id ≤ f)) := by
  constructor
  · intro h1 h2 hex
    obtain ⟨n, hn, hfree, hused, hloop⟩ := freeIDLoop_terminates (d.firstID mode)
      (d.lastID mode) (s.nodeMap mode) hlast (s.nodeCursor mode) h1 h2 hex
    obtain ⟨hleast1, hleast2⟩ := cursorAfter_least (d.firstID mode) (d.lastID mode)
      (s.nodeMap mode) hlast (s.nodeCursor mode) h1 h2 n hn hfree hused
    refine ⟨_, ?_, hfree, hleast1, hleast2⟩
    intro fuel hfuel
    rw [Scene.GetFreeNodeID_eq, (hloop fuel).1 (by omega)]
    rfl
  · intro h1 h2 hex
    obtain ⟨n, hn, hfree, hused, hloop⟩ := freeIDLoop_terminates (d.firstID mode)
      (d.lastID mode) (s.componentMap mode) hlast (s.componentCursor mode) h1 h2 hex
    obtain ⟨hleast1, hleast2⟩ := cursorAfter_least (d.firstID mode) (d.lastID mode)
      (s.componentMap mode) hlast (s.componentCursor mode) h1 h2 n hn hfree hused
    refine ⟨_, ?_, hfree, hleast1, hleast2⟩
    intro fuel hfuel
    rw [Scene.GetFreeComponentID_eq, (hloop fuel).1 (by omega)]
    rfl

/-- C19 at a concrete input: the scene in which ID 2 was released while the cursor stands
at 3. -/
theorem C19_first_free_from_cursor_witness :
    ∃ id : Nat,
      (∀ fuel, NodeDecl.sample.lastID CreateMode.REPLICATED -
          NodeDecl.sample.firstID CreateMode.REPLICATED ≤ fuel →
        Scene.GetFreeNodeID NodeDecl.sample fuel Scene.sampleReleased CreateMode.REPLICATED
          = some (id, Scene.sampleReleased.withNodeCursor CreateMode.REPLICATED id)) ∧
      HashMap.Contains (Scene.sampleReleased.nodeMap CreateMode.REPLICATED) id = false ∧
      (∀ f, Scene.sampleReleased.nodeCursor CreateMode.REPLICATED ≤ f →
        f ≤ NodeDecl.sample.lastID CreateMode.REPLICATED →
        HashMap.Contains (Scene.sampleReleased.nodeMap CreateMode.REPLICATED) f = false →
        Scene.sampleReleased.nodeCursor CreateMode.REPLICATED ≤ id ∧ id ≤ f) ∧
      ((∀ f, Scene.sampleReleased.nodeCursor CreateMode.REPLICATED ≤ f →
          f ≤ NodeDecl.sample.lastID CreateMode.REPLICATED →
          HashMap.Contains (Scene.sampleReleased.nodeMap CreateMode.REPLICATED) f = true) →
        ∀ f, NodeDecl.sample.firstID CreateMode.REPLICATED ≤ f →
          f ≤ NodeDecl.sample.lastID CreateMode.REPLICATED →
          HashMap.Contains (Scene.sampleReleased.nodeMap CreateMode.REPLICATED) f = false →
          id ≤ f) :=
  (C19_first_free_from_cursor NodeDecl.sample Scene.sampleReleased CreateMode.REPLICATED
    (by decide)).1 (by decide) (by decide) ⟨2, by decide, by decide, by decide⟩

/-- C20: termination and wrap-around.  With the last ID of the range a 32-bit unsigned and
the cursor within the range: when some ID of the range is free, `GetFreeNodeID` returns after
a number `n` of advances of the cursor that is at most `last - first` (the range size minus
one), and for no smaller bound; when every ID of the range is in use it returns for no bound
at all.  The same holds for `GetFreeComponentID`.  Every advance made from within the range
goes to the next ID, from the last ID to the first, and stays within the range. -/
theorem C20_allocate_terminates (d : NodeDecl) (s : Scene) (mode : CreateMode)
    (hlast : d.lastID mode < 2 ^ 32) :
    (d.firstID mode ≤ s.nodeCursor mode → s.nodeCursor mode ≤ d.lastID mode →
      ((∃ f, d.firstID mode ≤ f ∧ f ≤ d.lastID mode ∧
          HashMap.Contains (s.nodeMap mode) f = false) →
        ∃ n, n ≤ d.lastID mode - d.firstID mode ∧
          ∀ fuel,
            (n ≤ fuel → Scene.GetFreeNodeID d fuel s mode =
              some (cursorAfter (d.firstID mode) (d.lastID mode) n (s.nodeCursor mode),
                s.withNodeCursor mode
                  (cursorAfter (d.firstID mode) (d.lastID mode) n (s.nodeCursor mode)))) ∧
            (fuel < n → Scene.GetFreeNodeID d fuel s mode = none)) ∧
      ((∀ id, d.firstID mode ≤ id → id ≤ d.lastID mode →
          HashMap.Contains (s.nodeMap mode) id = true) →
        ∀ fuel, Scene.GetFreeNodeID d fuel s mode = none)) ∧
    (d.firstID mode ≤ s.componentCursor mode → s.componentCursor mode ≤ d.lastID mode →
      ((∃ f, d.firstID mode ≤ f ∧ f ≤ d.lastID mode ∧
          HashMap.Contains (s.componentMap mode) f = false) →
        ∃ n, n ≤ d.lastID mode - d.firstID mode ∧
          ∀ fuel,
            (n ≤ fuel → Scene.GetFreeComponentID d fuel s mode =
              some (cursorAfter (d.firstID mode) (d.lastID mode) n (s.componentCursor mode),
                s.withComponentCursor mode
                  (cursorAfter (d.firstID mode) (d.lastID mode) n
                    (s.componentCursor mode)))) ∧
            (fuel < n → Scene.GetFreeComponentID d fuel s mode = none)) ∧
      ((∀ id, d.firstID mode ≤ id → id ≤ d.lastID mode →
          HashMap.Contains (s.componentMap mode) id = true) →
        ∀ fuel, Scene.GetFreeComponentID d fuel s mode = none)) ∧
    (∀ cursor, d.firstID mode ≤ cursor → cursor ≤ d.lastID mode →
      advanceCursor (d.firstID mode) (d.lastID mode) cursor =
        (if cursor = d.lastID mode then d.firstID mode else cursor + 1) ∧
      ∀ j, d.firstID mode ≤ cursorAfter (d.firstID mode) (d.lastID mode) j cursor ∧
        cursorAfter (d.firstID mode) (d.lastID mode) j cursor ≤ d.lastID mode) := by
  refine ⟨?_, ?_, ?_⟩
  · intro h1 h2
    constructor
    · intro hex
      obtain ⟨n, hn, _, _, hloop⟩ := freeIDLoop_terminates (d.firstID mode)
        (d.lastID mode) (s.nodeMap mode) hlast (s.nodeCursor mode) h1 h2 hex
      refine ⟨n, hn, fun fuel => ⟨fun h => ?_, fun h => ?_⟩⟩
      · rw [Scene.GetFreeNodeID_eq, (hloop fuel).1 h]; rfl
      · rw [Scene.GetFreeNodeID_eq, (hloop fuel).2 h]; rfl
    · intro hfull fuel
      rw [Scene.GetFreeNodeID_eq, freeIDLoop_never _ _ _ hlast hfull fuel _ h1 h2]
      rfl
  · intro h1 h2
    constructor
    · intro hex
      obtain ⟨n, hn, _, _, hloop⟩ := freeIDLoop_terminates (d.firstID mode)
        (d.lastID mode) (s.componentMap mode) hlast (s.componentCursor mode) h1 h2 hex
      refine ⟨n, hn, fun fuel => ⟨fun h => ?_, fun h => ?_⟩⟩
      · rw [Scene.GetFreeComponentID_eq, (hloop fuel).1 h]; rfl
      · rw [Scene.GetFreeComponentID_eq, (hloop fuel).2 h]; rfl
    · intro hfull fuel
      rw [Scene.GetFreeComponentID_eq, freeIDLoop_never _ _ _ hlast hfull fuel _ h1 h2]
      rfl
  · intro cursor h1 h2
    exact ⟨(advanceCursor_in_range _ _ cursor hlast h1 h2).1,
      fun j => cursorAfter_in_range _ _ cursor hlast h1 h2 j⟩

/-- C20 at concrete inputs, over the range of the IDs 1 and 2: with ID 2 in use and the cursor
on it the search wraps to ID 1, and with both IDs in use it never returns. -/
theorem C20_allocate_terminates_witness :
    (∃ n, n ≤ NodeDecl.tiny.lastID CreateMode.REPLICATED -
        NodeDecl.tiny.firstID CreateMode.REPLICATED ∧
      ∀ fuel,
        (n ≤ fuel → Scene.GetFreeNodeID NodeDecl.tiny fuel Scene.sampleWrap
          CreateMode.REPLICATED =
          some (cursorAfter (NodeDecl.tiny.firstID CreateMode.REPLICATED)
              (NodeDecl.tiny.lastID CreateMode.REPLICATED) n
              (Scene.sampleWrap.nodeCursor CreateMode.REPLICATED),
            Scene.sampleWrap.withNodeCursor CreateMode.REPLICATED
              (cursorAfter (NodeDecl.tiny.firstID CreateMode.REPLICATED)
                (NodeDecl.tiny.lastID CreateMode.REPLICATED) n
                (Scene.sampleWrap.nodeCursor CreateMode.REPLICATED)))) ∧
        (fuel < n → Scene.GetFreeNodeID NodeDecl.tiny fuel Scene.sampleWrap
          CreateMode.REPLICATED = none)) ∧
    (∀ fuel, Scene.GetFreeNodeID NodeDecl.tiny fuel Scene.sampleFull CreateMode.REPLICATED
      = none) ∧
    (Scene.GetFreeNodeID NodeDecl.tiny 1 Scene.sampleWrap CreateMode.REPLICATED).map Prod.fst
      = some 1 :=
  ⟨((C20_allocate_terminates NodeDecl.tiny Scene.sampleWrap CreateMode.REPLICATED
      (by decide)).1 (by decide) (by decide)).1 ⟨1, by decide, by decide, by decide⟩,
   ((C20_allocate_terminates NodeDecl.tiny Scene.sampleFull CreateMode.REPLICATED
      (by decide)).1 (by decide) (by decide)).2
      (by
        intro id h1 h2
        have hid : id = 1 ∨ id = 2 := by
          simp only [NodeDecl.firstID, NodeDecl.lastID, NodeDecl.tiny] at h1 h2
          omega
        rcases hid with rfl | rfl <;> decide),
   by decide⟩

/-! ## Lemmas on the sets of dirty IDs -/

theorem HashSet.mem_Insert (s : HashSet) (k x : Nat) :
    x ∈ HashSet.Insert s k ↔ x ∈ s ∨ x = k := by
  unfold HashSet.Insert
  by_cases h : k ∈ s
  · rw [if_pos h]
    constructor
    · intro hx; exact Or.inl hx
    · rintro (hx | hx)
      · exact hx
      · rw [hx]; exact h
  · rw [if_neg h]; simp

theorem HashSet.Insert_of_mem (s : HashSet) (k : Nat) (h : k ∈ s) : HashSet.Insert s k = s := by
  unfold HashSet.Insert
  rw [if_pos h]

theorem HashSet.Insert_nodup (s : HashSet) (k : Nat) (h : s.Nodup) :
    (HashSet.Insert s k).Nodup := by
  unfold HashSet.Insert
  by_cases hk : k ∈ s
  · rw [if_pos hk]; exact h
  · rw [if_neg hk]
    rw [List.nodup_append]
    refine ⟨h, List.nodup_singleton k, ?_⟩
    intro a ha hb
    rw [List.mem_singleton] at hb
    rw [hb] at ha
    exact hk ha

theorem HashSet.count_Insert (s : HashSet) (k : Nat) (h : s.Nodup) :
    (HashSet.Insert s k).count k = 1 :=
  List.count_eq_one_of_mem (HashSet.Insert_nodup s k h)
    ((HashSet.mem_Insert s k k).2 (Or.inr rfl))

theorem HashSet.map_Insert_of_mem (states : List HashSet) (k : Nat)
    (h : ∀ set ∈ states, k ∈ set) :
    states.map (fun dirtyNodes => HashSet.Insert dirtyNodes k) = states := by
  induction states with
  | nil => rfl
  | cons a rest ih =>
    rw [List.map_cons, HashSet.Insert_of_mem a k (h a (List.mem_cons_self _ _)),
      ih (fun set hset => h set (List.mem_cons_of_mem _ hset))]

theorem Scene.dirtyNodeSets_MarkReplicationDirty (d : NodeDecl) (s : Scene) (node : Ptr) :
    (Scene.MarkReplicationDirty d s node).dirtyNodeSets =
      if (s.nodeHeap node).id_ < d.FIRST_LOCAL_ID then
        s.dirtyNodeSets.map (fun dirtyNodes => HashSet.Insert dirtyNodes (s.nodeHeap node).id_)
      else s.dirtyNodeSets := by
  simp only [Scene.MarkReplicationDirty, Scene.dirtyNodeSets]
  cases hs : s.networkState_ with
  | none => simp
  | some states =>
    by_cases hlt : (s.nodeHeap node).id_ < d.FIRST_LOCAL_ID
    · simp [hlt]
    · simp [hlt]

theorem Scene.networkState_eta (s : Scene) (states : Option (List HashSet))
    (h : states = s.networkState_) : { s with networkState_ := states } = s := by
  subst h
  rfl

theorem Scene.MarkReplicationDirty_self (d : NodeDecl) (s : Scene) (node : Ptr)
    (h : d.FIRST_LOCAL_ID ≤ (s.nodeHeap node).id_ ∨
      ∀ set ∈ s.dirtyNodeSets, (s.nodeHeap node).id_ ∈ set) :
    Scene.MarkReplicationDirty d s node = s := by
  simp only [Scene.MarkReplicationDirty]
  apply Scene.networkState_eta
  cases hs : s.networkState_ with
  | none => rfl
  | some states =>
    by_cases hlt : (s.nodeHeap node).id_ < d.FIRST_LOCAL_ID
    · rcases h with h | h
      · omega
      · simp only [hlt, if_true]
        rw [HashSet.map_Insert_of_mem]
        intro set hset
        apply h
        simp only [Scene.dirtyNodeSets, hs]
        exact hset
    · simp only [hlt, if_false]

theorem Scene.network_NodeAdded (d : NodeDecl) (s : Scene) (node : Ptr) (h0 : node ≠ 0)
    (h1 : (s.nodeHeap node).scene_ = 0) :
    (Scene.NodeAdded d s node).dirtyNodeSets =
      (if (s.nodeHeap node).id_ < d.FIRST_LOCAL_ID then
        s.dirtyNodeSets.map (fun dirtyNodes => HashSet.Insert dirtyNodes (s.nodeHeap node).id_)
      else s.dirtyNodeSets) ∧
    (Scene.NodeAdded d s node).networkUpdateNodes_ =
      (if (s.nodeHeap node).id_ < d.FIRST_LOCAL_ID then
        HashSet.Insert s.networkUpdateNodes_ (s.nodeHeap node).id_
      else s.networkUpdateNodes_) ∧
    ((Scene.NodeAdded d s node).nodeHeap node).id_ = (s.nodeHeap node).id_ := by
  simp only [Scene.NodeAdded, h0, h1, false_or, ne_eq, not_true_eq_false, if_false,
    Node.SetScene, Function.update_same, Scene.MarkReplicationDirty, Scene.MarkNetworkUpdate,
    Scene.dirtyNodeSets]
  by_cases hlt : (s.nodeHeap node).id_ < d.FIRST_LOCAL_ID
  · simp only [hlt, if_true]
    cases hf : HashMap.Find s.replicatedNodes_ (s.nodeHeap node).id_ with
    | none =>
      cases hs : s.networkState_ with
      | none => simp [hs, hlt, h0]
      | some states => simp [hs, hlt, h0]
    | some other =>
      by_cases ho : other = node
      · cases hs : s.networkState_ with
        | none => simp [ho, hs, hlt, h0]
        | some states => simp [ho, hs, hlt, h0]
      · have ho2 : node ≠ other := fun h => ho h.symm
        cases hs : s.networkState_ with
        | none => simp [ho, ho2, hs, hlt, h0, Node.ResetScene, WriteToLog]
        | some states => simp [ho, ho2, hs, hlt, h0, Node.ResetScene, WriteToLog]
  · simp only [hlt, if_false]
    cases hf : HashMap.Find s.localNodes_ (s.nodeHeap node).id_ with
    | none => simp
    | some other =>
      by_cases ho : other = node
      · simp [ho]
      · have ho2 : node ≠ other := fun h => ho h.symm
        simp [ho, ho2, Node.ResetScene, WriteToLog]

theorem Scene.network_NodeRemoved (d : NodeDecl) (s : Scene) (node : Ptr) (h0 : node ≠ 0)
    (h1 : (s.nodeHeap node).scene_ = s.self) :
    (Scene.NodeRemoved d s node).dirtyNodeSets =
      (if (s.nodeHeap node).id_ < d.FIRST_LOCAL_ID then
        s.dirtyNodeSets.map (fun dirtyNodes => HashSet.Insert dirtyNodes (s.nodeHeap node).id_)
      else s.dirtyNodeSets) ∧
    (Scene.NodeRemoved d s node).networkUpdateNodes_ = s.networkUpdateNodes_ ∧
    ((Scene.NodeRemoved d s node).nodeHeap node).id_ = 0 := by
  simp only [Scene.NodeRemoved, h0, h1, false_or, ne_eq, not_true_eq_false, if_false,
    Node.SetScene, Node.SetID, Scene.MarkReplicationDirty, Scene.dirtyNodeSets]
  by_cases hlt : (s.nodeHeap node).id_ < d.FIRST_LOCAL_ID
  · cases hs : s.networkState_ with
    | none => simp [hlt, hs]
    | some states => simp [hlt, hs]
  · simp [hlt]

theorem Scene.NodeAdded_skip (d : NodeDecl) (s : Scene) (node : Ptr)
    (h : node = 0 ∨ (s.nodeHeap node).scene_ ≠ 0) : Scene.NodeAdded d s node = s := by
  simp only [Scene.NodeAdded]
  rw [if_pos h]

theorem Scene.NodeRemoved_skip (d : NodeDecl) (s : Scene) (node : Ptr)
    (h : node = 0 ∨ (s.nodeHeap node).scene_ ≠ s.self) : Scene.NodeRemoved d s node = s := by
  simp only [Scene.NodeRemoved]
  rw [if_pos h]

/-! ## Lemmas on the keys of the replicated map -/

theorem HashMap.Contains_iff (m : HashMap) (x : Nat) :
    HashMap.Contains m x = true ↔ ∃ e ∈ m, e.1 = x := by
  induction m with
  | nil => simp [HashMap.Contains, HashMap.Find]
  | cons e rest ih =>
    obtain ⟨k, v⟩ := e
    by_cases h : k = x
    · simp [HashMap.Contains, HashMap.Find, h]
    · simp only [HashMap.Contains, HashMap.Find, h, if_false] at ih ⊢
      rw [ih]
      simp [h]

theorem HashMap.Contains_Assign (m : HashMap) (k x : Nat) (v : Ptr)
    (h : HashMap.Contains (HashMap.Assign m k v) x = true) :
    x = k ∨ HashMap.Contains m x = true := by
  by_cases hx : x = k
  · exact Or.inl hx
  · right
    simp only [HashMap.Contains] at h ⊢
    rw [HashMap.Find_Assign_other m k x v hx] at h
    exact h

theorem HashMap.Contains_Erase (m : HashMap) (k x : Nat)
    (h : HashMap.Contains (HashMap.Erase m k) x = true) : HashMap.Contains m x = true := by
  by_cases hx : x = k
  · simp only [HashMap.Contains] at h
    rw [hx, HashMap.Find_Erase_same] at h
    simp at h
  · simp only [HashMap.Contains] at h ⊢
    rw [HashMap.Find_Erase_other m k x hx] at h
    exact h

theorem HashSet.mem_foldl_Insert (m : HashMap) (state : HashSet) (x : Nat) :
    x ∈ m.foldl (fun dirtyNodes i => HashSet.Insert dirtyNodes i.1) state ↔
      x ∈ state ∨ ∃ e ∈ m, e.1 = x := by
  induction m generalizing state with
  | nil => simp
  | cons e rest ih =>
    rw [List.foldl_cons, ih, HashSet.mem_Insert]
    constructor
    · rintro ((h | h) | ⟨e1, he1, h⟩)
      · exact Or.inl h
      · exact Or.inr ⟨e, List.mem_cons_self _ _, h.symm⟩
      · exact Or.inr ⟨e1, List.mem_cons_of_mem _ he1, h⟩
    · rintro (h | ⟨e1, he1, h⟩)
      · exact Or.inl (Or.inl h)
      · rcases List.mem_cons.1 he1 with he | he
        · subst he
          exact Or.inl (Or.inr h.symm)
        · exact Or.inr ⟨e1, he, h⟩

theorem HashSet.nodup_foldl_Insert (m : HashMap) (state : HashSet) (h : state.Nodup) :
    (m.foldl (fun dirtyNodes i => HashSet.Insert dirtyNodes i.1) state).Nodup := by
  induction m generalizing state with
  | nil => exact h
  | cons e rest ih =>
    rw [List.foldl_cons]
    exact ih _ (HashSet.Insert_nodup state e.1 h)

theorem Scene.replicatedNodes_NodeAdded (d : NodeDecl) (s : Scene) (node : Ptr) (h0 : node ≠ 0)
    (h1 : (s.nodeHeap node).scene_ = 0) :
    (Scene.NodeAdded d s node).replicatedNodes_ =
      if (s.nodeHeap node).id_ < d.FIRST_LOCAL_ID then
        HashMap.Assign s.replicatedNodes_ (s.nodeHeap node).id_ node
      else s.replicatedNodes_ := by
  simp only [Scene.NodeAdded, h0, h1, false_or, ne_eq, not_true_eq_false, if_false,
    Node.SetScene, Function.update_same, Scene.MarkReplicationDirty, Scene.MarkNetworkUpdate]
  by_cases hlt : (s.nodeHeap node).id_ < d.FIRST_LOCAL_ID
  · simp only [hlt, if_true]
    cases hf : HashMap.Find s.replicatedNodes_ (s.nodeHeap node).id_ with
    | none => rfl
    | some other =>
      by_cases ho : other = node
      · simp [ho]
      · simp [ho, Node.ResetScene, WriteToLog]
  · simp only [hlt, if_false]
    cases hf : HashMap.Find s.localNodes_ (s.nodeHeap node).id_ with
    | none => rfl
    | some other =>
      by_cases ho : other = node
      · simp [ho]
      · simp [ho, Node.ResetScene, WriteToLog]

theorem Scene.ReplicatedKeys_NodeAdded (d : NodeDecl) (s : Scene) (node : Ptr)
    (h : Scene.ReplicatedKeys d s) : Scene.ReplicatedKeys d (Scene.NodeAdded d s node) := by
  by_cases hg : node = 0 ∨ (s.nodeHeap node).scene_ ≠ 0
  · rw [Scene.NodeAdded_skip d s node hg]; exact h
  · have h0 : node ≠ 0 := fun e => hg (Or.inl e)
    have h1 : (s.nodeHeap node).scene_ = 0 := by
      by_contra e; exact hg (Or.inr e)
    intro id hid
    rw [Scene.replicatedNodes_NodeAdded d s node h0 h1] at hid
    by_cases hlt : (s.nodeHeap node).id_ < d.FIRST_LOCAL_ID
    · rw [if_pos hlt] at hid
      rcases HashMap.Contains_Assign _ _ _ _ hid with e | e
      · rw [e]; exact hlt
      · exact h id e
    · rw [if_neg hlt] at hid
      exact h id hid

theorem Scene.ReplicatedKeys_NodeRemoved (d : NodeDecl) (s : Scene) (node : Ptr)
    (h : Scene.ReplicatedKeys d s) : Scene.ReplicatedKeys d (Scene.NodeRemoved d s node) := by
  by_cases hg : node = 0 ∨ (s.nodeHeap node).scene_ ≠ s.self
  · rw [Scene.NodeRemoved_skip d s node hg]; exact h
  · have h0 : node ≠ 0 := fun e => hg (Or.inl e)
    have h1 : (s.nodeHeap node).scene_ = s.self := by
      by_contra e; exact hg (Or.inr e)
    intro id hid
    rw [(Scene.nodeMaps_NodeRemoved d s node h0 h1).1] at hid
    by_cases hlt : (s.nodeHeap node).id_ < d.FIRST_LOCAL_ID
    · rw [if_pos hlt] at hid
      exact h id (HashMap.Contains_Erase _ _ _ hid)
    · rw [if_neg hlt] at hid
      exact h id hid

theorem Scene.ReplicatedKeys_applyCalls (d : NodeDecl) (calls : List RegistryCall) (s : Scene)
    (h : Scene.ReplicatedKeys d s) : Scene.ReplicatedKeys d (Scene.applyCalls d s calls) := by
  induction calls generalizing s with
  | nil => exact h
  | cons c rest ih =>
    cases c with
    | NodeAdded node => exact ih _ (Scene.ReplicatedKeys_NodeAdded d s node h)
    | NodeRemoved node => exact ih _ (Scene.ReplicatedKeys_NodeRemoved d s node h)

/-- In every state that the two node hooks reach from a constructed scene the keys of the
replicated node map are replicated IDs. -/
theorem Scene.ReplicatedKeys_reachable (d : NodeDecl) (fuel : Nat) (self : Ptr)
    (nodeHeap : Ptr → Node) (componentHeap : Ptr → Component)
    (calls : List RegistryCall) (s0 : Scene)
    (h : Scene.construct d fuel self nodeHeap componentHeap = some s0) :
    Scene.ReplicatedKeys d (Scene.applyCalls d s0 calls) := by
  rw [Scene.construct_eq, Option.some.injEq] at h
  apply Scene.ReplicatedKeys_applyCalls
  rw [← h]
  apply Scene.ReplicatedKeys_NodeAdded
  intro id hid
  simp [Node.SetID, Scene.initialised, HashMap.Contains, HashMap.Find] at hid

/-! ## Claims on the replication dirty sets -/

/-- C14, counterexample to the claim as stated: with two replication states tracking the
sample scene, node 2 is added under the replicated ID 2 and removed again.  Both dirty sets
hold ID 2 after the removal, and a further `MarkReplicationDirty` of node 2, which carries
ID 0 by then, changes both sets by inserting 0. -/
theorem C14_marked_after_removal_counterexample :
    (((Scene.NodeAdded NodeDecl.sample (Node.SetID Scene.sampleTracked 2 2) 2).nodeHeap 2).id_ = 2 ∧
      ((Scene.NodeAdded NodeDecl.sample (Node.SetID Scene.sampleTracked 2 2) 2).nodeHeap 2).scene_ =
        (Scene.NodeAdded NodeDecl.sample (Node.SetID Scene.sampleTracked 2 2) 2).self) ∧
    (Scene.NodeRemoved NodeDecl.sample
      (Scene.NodeAdded NodeDecl.sample (Node.SetID Scene.sampleTracked 2 2) 2) 2).dirtyNodeSets =
        [[5, 2], [2]] ∧
    (Scene.MarkReplicationDirty NodeDecl.sample (Scene.NodeRemoved NodeDecl.sample
      (Scene.NodeAdded NodeDecl.sample (Node.SetID Scene.sampleTracked 2 2) 2) 2) 2).dirtyNodeSets =
        [[5, 2, 0], [2, 0]] := by
  decide

/-- C14, amended: for every node `n` with a replicated ID `i`, after `NodeAdded(n)` (`n`
without a scene before) and after `NodeRemoved(n)` (`n` of the scene) the dirty set of every
replication state tracked by the scene is the earlier one with `i` inserted: `i` is a
member and occurs exactly once.  Any number of further `MarkReplicationDirty` calls for a
node that carries ID `i`, as `n` does after `NodeAdded`, leave the whole scene unchanged;
after `NodeRemoved` node `n` carries ID 0 and `MarkReplicationDirty(n)` inserts 0. -/
theorem C14_replication_dirtying (d : NodeDecl) (s : Scene) (n : Ptr) (hn : n ≠ 0)
    (hid : (s.nodeHeap n).id_ < d.FIRST_LOCAL_ID)
    (hnodup : ∀ set ∈ s.dirtyNodeSets, set.Nodup) :
    ((s.nodeHeap n).scene_ = 0 →
      (Scene.NodeAdded d s n).dirtyNodeSets =
        s.dirtyNodeSets.map (fun dirtyNodes => HashSet.Insert dirtyNodes (s.nodeHeap n).id_) ∧
      (∀ set ∈ (Scene.NodeAdded d s n).dirtyNodeSets,
        (s.nodeHeap n).id_ ∈ set ∧ set.count (s.nodeHeap n).id_ = 1) ∧
      ((Scene.NodeAdded d s n).nodeHeap n).id_ = (s.nodeHeap n).id_ ∧
      ∀ k, (fun t => Scene.MarkReplicationDirty d t n)^[k] (Scene.NodeAdded d s n) =
        Scene.NodeAdded d s n) ∧
    ((s.nodeHeap n).scene_ = s.self →
      (Scene.NodeRemoved d s n).dirtyNodeSets =
        s.dirtyNodeSets.map (fun dirtyNodes => HashSet.Insert dirtyNodes (s.nodeHeap n).id_) ∧
      (∀ set ∈ (Scene.NodeRemoved d s n).dirtyNodeSets,
        (s.nodeHeap n).id_ ∈ set ∧ set.count (s.nodeHeap n).id_ = 1) ∧
      ((Scene.NodeRemoved d s n).nodeHeap n).id_ = 0 ∧
      (Scene.MarkReplicationDirty d (Scene.NodeRemoved d s n) n).dirtyNodeSets =
        (Scene.NodeRemoved d s n).dirtyNodeSets.map
          (fun dirtyNodes => HashSet.Insert dirtyNodes 0)) ∧
    (∀ (t : Scene) (m : Ptr) (k : Nat), (t.nodeHeap m).id_ = (s.nodeHeap n).id_ →
      (∀ set ∈ t.dirtyNodeSets, (s.nodeHeap n).id_ ∈ set) →
      (fun t => Scene.MarkReplicationDirty d t m)^[k] t = t) := by
  have hsets : ∀ set ∈ s.dirtyNodeSets.map
      (fun dirtyNodes => HashSet.Insert dirtyNodes (s.nodeHeap n).id_),
      (s.nodeHeap n).id_ ∈ set ∧ set.count (s.nodeHeap n).id_ = 1 := by
    intro set hset
    rw [List.mem_map] at hset
    obtain ⟨a, ha, rfl⟩ := hset
    exact ⟨(HashSet.mem_Insert a _ _).2 (Or.inr rfl), HashSet.count_Insert a _ (hnodup a ha)⟩
  have hfix : ∀ (t : Scene) (m : Ptr) (k : Nat), (t.nodeHeap m).id_ = (s.nodeHeap n).id_ →
      (∀ set ∈ t.dirtyNodeSets, (s.nodeHeap n).id_ ∈ set) →
      (fun t => Scene.MarkReplicationDirty d t m)^[k] t = t := by
    intro t m k hm hall
    apply Function.iterate_fixed
    apply Scene.MarkReplicationDirty_self
    right
    rw [hm]
    exact hall
  refine ⟨?_, ?_, hfix⟩
  · intro h1
    obtain ⟨ha, _, hc⟩ := Scene.network_NodeAdded d s n hn h1
    rw [if_pos hid] at ha
    refine ⟨ha, ?_, hc, ?_⟩
    · rw [ha]; exact hsets
    · intro k
      apply hfix _ n k hc
      rw [ha]
      exact fun set hset => (hsets set hset).1
  · intro h1
    obtain ⟨ha, _, hc⟩ := Scene.network_NodeRemoved d s n hn h1
    rw [if_pos hid] at ha
    refine ⟨ha, ?_, hc, ?_⟩
    · rw [ha]; exact hsets
    · rw [Scene.dirtyNodeSets_MarkReplicationDirty, hc, if_pos (by omega)]

/-- C14 at a concrete input: node 2 enters the tracked sample scene under the replicated
ID 5, which the first dirty set holds already. -/
theorem C14_replication_dirtying_witness :
    (∀ set ∈ (Scene.NodeAdded NodeDecl.sample (Node.SetID Scene.sampleTracked 2 5) 2).dirtyNodeSets,
      5 ∈ set ∧ set.count 5 = 1) ∧
    Scene.MarkReplicationDirty NodeDecl.sample
      (Scene.NodeAdded NodeDecl.sample (Node.SetID Scene.sampleTracked 2 5) 2) 2 =
        Scene.NodeAdded NodeDecl.sample (Node.SetID Scene.sampleTracked 2 5) 2 :=
  have h := (C14_replication_dirtying NodeDecl.sample (Node.SetID Scene.sampleTracked 2 5) 2
    (by decide) (by decide) (by decide)).1 (by decide)
  ⟨h.2.1, h.2.2.2 1⟩

/-! ## Lemmas on nodes with a local ID -/

theorem Scene.network_local_NodeAdded (d : NodeDecl) (s : Scene) (node : Ptr)
    (hid : d.FIRST_LOCAL_ID ≤ (s.nodeHeap node).id_) :
    (Scene.NodeAdded d s node).networkState_ = s.networkState_ ∧
    (Scene.NodeAdded d s node).networkUpdateNodes_ = s.networkUpdateNodes_ := by
  by_cases hg : node = 0 ∨ (s.nodeHeap node).scene_ ≠ 0
  · rw [Scene.NodeAdded_skip d s node hg]; exact ⟨rfl, rfl⟩
  · have h0 : node ≠ 0 := fun e => hg (Or.inl e)
    have h1 : (s.nodeHeap node).scene_ = 0 := by
      by_contra e; exact hg (Or.inr e)
    have hlt : ¬ (s.nodeHeap node).id_ < d.FIRST_LOCAL_ID := by omega
    simp only [Scene.NodeAdded, h0, h1, false_or, ne_eq, not_true_eq_false, if_false,
      Node.SetScene, Function.update_same, hlt]
    cases hf : HashMap.Find s.localNodes_ (s.nodeHeap node).id_ with
    | none => exact ⟨rfl, rfl⟩
    | some other =>
      by_cases ho : other = node
      · simp [ho]
      · simp [ho, Node.ResetScene, WriteToLog]

theorem Scene.network_local_NodeRemoved (d : NodeDecl) (s : Scene) (node : Ptr)
    (hid : d.FIRST_LOCAL_ID ≤ (s.nodeHeap node).id_) :
    (Scene.NodeRemoved d s node).networkState_ = s.networkState_ ∧
    (Scene.NodeRemoved d s node).networkUpdateNodes_ = s.networkUpdateNodes_ := by
  by_cases hg : node = 0 ∨ (s.nodeHeap node).scene_ ≠ s.self
  · rw [Scene.NodeRemoved_skip d s node hg]; exact ⟨rfl, rfl⟩
  · have h0 : node ≠ 0 := fun e => hg (Or.inl e)
    have h1 : (s.nodeHeap node).scene_ = s.self := by
      by_contra e; exact hg (Or.inr e)
    have hlt : ¬ (s.nodeHeap node).id_ < d.FIRST_LOCAL_ID := by omega
    simp [Scene.NodeRemoved, h0, h1, Node.SetScene, Node.SetID, hlt]

theorem Scene.network_LocalCalls (d : NodeDecl) (calls : List NetworkCall) (s : Scene)
    (h : Scene.LocalCalls d s calls) :
    (Scene.applyNetworkCalls d s calls).networkState_ = s.networkState_ ∧
    (Scene.applyNetworkCalls d s calls).networkUpdateNodes_ = s.networkUpdateNodes_ := by
  induction calls generalizing s with
  | nil => exact ⟨rfl, rfl⟩
  | cons c rest ih =>
    obtain ⟨hc, hrest⟩ := h
    have hstep : (Scene.applyNetworkCall d s c).networkState_ = s.networkState_ ∧
        (Scene.applyNetworkCall d s c).networkUpdateNodes_ = s.networkUpdateNodes_ := by
      cases c with
      | NodeAdded node => exact Scene.network_local_NodeAdded d s node hc
      | NodeRemoved node => exact Scene.network_local_NodeRemoved d s node hc
      | MarkReplicationDirty node =>
        simp only [Scene.applyNetworkCall]
        rw [Scene.MarkReplicationDirty_self d s node (Or.inl hc)]
        exact ⟨rfl, rfl⟩
    have := ih _ hrest
    simp only [Scene.applyNetworkCalls]
    exact ⟨this.1.trans hstep.1, this.2.trans hstep.2⟩

/-! ## Claims on the seeding of a replication state and on local nodes -/

/-- C15: after `Scene::AddReplicationState(state)` the `dirtyNodes_` set of the scene state
of `state` holds every key of the replicated node map, so the ID of every node that
`GetNode` finds under a replicated ID, the scene included when it is registered; every
member of the set was a member before or is a key of the replicated map, so that, the keys
of that map being replicated IDs, no local ID is inserted.  Earlier members stay, no ID is
held twice, and the scene tracks the state. -/
theorem C15_full_resync_seeding (d : NodeDecl) (s : Scene) (state : HashSet)
    (hkeys : Scene.ReplicatedKeys d s) :
    (∀ id, HashMap.Contains s.replicatedNodes_ id = true →
      id ∈ (Scene.AddReplicationState s state).2) ∧
    (∀ id, id < d.FIRST_LOCAL_ID → Scene.GetNode d s id ≠ 0 →
      id ∈ (Scene.AddReplicationState s state).2) ∧
    (HashMap.Find s.replicatedNodes_ (s.nodeHeap s.self).id_ = some s.self →
      (s.nodeHeap s.self).id_ ∈ (Scene.AddReplicationState s state).2) ∧
    (∀ id ∈ (Scene.AddReplicationState s state).2,
      id ∈ state ∨ HashMap.Contains s.replicatedNodes_ id = true) ∧
    (∀ id ∈ state, id ∈ (Scene.AddReplicationState s state).2) ∧
    (∀ id ∈ (Scene.AddReplicationState s state).2, d.FIRST_LOCAL_ID ≤ id → id ∈ state) ∧
    (state.Nodup → (Scene.AddReplicationState s state).2.Nodup) ∧
    (Scene.AddReplicationState s state).1.dirtyNodeSets =
      s.dirtyNodeSets ++ [(Scene.AddReplicationState s state).2] ∧
    (Scene.AddReplicationState s state).1.replicatedNodes_ = s.replicatedNodes_ := by
  have hmem : ∀ id, id ∈ (Scene.AddReplicationState s state).2 ↔
      id ∈ state ∨ HashMap.Contains s.replicatedNodes_ id = true := by
    intro id
    rw [HashMap.Contains_iff]
    exact HashSet.mem_foldl_Insert s.replicatedNodes_ state id
  refine ⟨?_, ?_, ?_, ?_, ?_, ?_, ?_, ?_, ?_⟩
  · intro id hid
    exact (hmem id).2 (Or.inr hid)
  · intro id hlt hget
    apply (hmem id).2
    right
    simp only [Scene.GetNode, hlt, if_true] at hget
    cases hf : HashMap.Find s.replicatedNodes_ id with
    | none => rw [hf] at hget; exact absurd rfl hget
    | some p => simp [HashMap.Contains, hf]
  · intro hf
    apply (hmem _).2
    right
    simp [HashMap.Contains, hf]
  · intro id hid
    exact (hmem id).1 hid
  · intro id hid
    exact (hmem id).2 (Or.inl hid)
  · intro id hid hge
    rcases (hmem id).1 hid with h | h
    · exact h
    · have := hkeys id h
      omega
  · intro hn
    exact HashSet.nodup_foldl_Insert s.replicatedNodes_ state hn
  · simp [Scene.AddReplicationState, Node.AddReplicationState, Scene.dirtyNodeSets]
  · rfl

/-- C15 at a concrete input: a state with ID 7 dirty is added to the sample scene, whose
replicated map holds the scene under ID 1. -/
theorem C15_full_resync_seeding_witness :
    1 ∈ (Scene.AddReplicationState Scene.sample [7]).2 ∧
    (∀ id ∈ (Scene.AddReplicationState Scene.sample [7]).2,
      NodeDecl.sample.FIRST_LOCAL_ID ≤ id → id ∈ [7]) :=
  have h := C15_full_resync_seeding NodeDecl.sample Scene.sample [7]
    (Scene.ReplicatedKeys_reachable NodeDecl.sample 0 1 Node.sampleHeap Component.sampleHeap []
      Scene.sample (by rw [Scene.construct_eq]; rfl))
  ⟨h.1 1 (by decide), h.2.2.2.2.2.1⟩

/-- C17: for every node whose ID is at least `FIRST_LOCAL_ID`, each of `NodeAdded`,
`NodeRemoved` and `MarkReplicationDirty` leaves the replication states with their dirty
sets and the set `networkUpdateNodes_` of the scene as they were, and so does every
sequence of such calls: a run with these calls and a run without them end with the same
dirty sets. -/
theorem C17_local_not_networked (d : NodeDecl) (s : Scene) (n : Ptr)
    (hid : d.FIRST_LOCAL_ID ≤ (s.nodeHeap n).id_) :
    ((Scene.NodeAdded d s n).networkState_ = s.networkState_ ∧
      (Scene.NodeAdded d s n).networkUpdateNodes_ = s.networkUpdateNodes_) ∧
    ((Scene.NodeRemoved d s n).networkState_ = s.networkState_ ∧
      (Scene.NodeRemoved d s n).networkUpdateNodes_ = s.networkUpdateNodes_) ∧
    Scene.MarkReplicationDirty d s n = s ∧
    (∀ calls, Scene.LocalCalls d s calls →
      (Scene.applyNetworkCalls d s calls).networkState_ = s.networkState_ ∧
      (Scene.applyNetworkCalls d s calls).dirtyNodeSets = s.dirtyNodeSets ∧
      (Scene.applyNetworkCalls d s calls).networkUpdateNodes_ = s.networkUpdateNodes_) :=
  ⟨Scene.network_local_NodeAdded d s n hid, Scene.network_local_NodeRemoved d s n hid,
    Scene.MarkReplicationDirty_self d s n (Or.inl hid),
    fun calls h =>
      ⟨(Scene.network_LocalCalls d calls s h).1,
        by simp only [Scene.dirtyNodeSets, (Scene.network_LocalCalls d calls s h).1],
        (Scene.network_LocalCalls d calls s h).2⟩⟩

/-- C17 at a concrete input: node 2 carries the first local ID and is added, marked and
removed. -/
theorem C17_local_not_networked_witness :
    (Scene.NodeAdded NodeDecl.sample (Node.SetID Scene.sampleTracked 2 0x1000000) 2).networkState_ =
      some [[5], []] ∧
    (Scene.applyNetworkCalls NodeDecl.sample (Node.SetID Scene.sampleTracked 2 0x1000000)
      [NetworkCall.NodeAdded 2, NetworkCall.MarkReplicationDirty 2,
        NetworkCall.NodeRemoved 2]).networkUpdateNodes_ = [1] :=
  have h := C17_local_not_networked NodeDecl.sample (Node.SetID Scene.sampleTracked 2 0x1000000) 2
    (by decide)
  ⟨h.1.1, (h.2.2.2
    [NetworkCall.NodeAdded 2, NetworkCall.MarkReplicationDirty 2, NetworkCall.NodeRemoved 2]
    (show _ ∧ _ ∧ _ ∧ True from ⟨by decide, by decide, by decide, trivial⟩)).2.2⟩

/-! ## Lemmas on the network update -/

theorem Scene.GetNode_congr (d : NodeDecl) (s t : Scene)
    (h1 : t.replicatedNodes_ = s.replicatedNodes_) (h2 : t.localNodes_ = s.localNodes_) :
    Scene.GetNode d t = Scene.GetNode d s := by
  funext id
  simp only [Scene.GetNode, h1, h2]

theorem Scene.GetComponent_congr (d : NodeDecl) (s t : Scene)
    (h1 : t.replicatedComponents_ = s.replicatedComponents_)
    (h2 : t.localComponents_ = s.localComponents_) :
    Scene.GetComponent d t = Scene.GetComponent d s := by
  funext id
  simp only [Scene.GetComponent, h1, h2]

theorem Scene.prepareNodes_skip (d : NodeDecl) (net : NetworkOps) (id : Nat) (rest : List Nat)
    (s : Scene) (h : Scene.GetNode d s id = 0) :
    Scene.prepareNodes d net (id :: rest) s = Scene.prepareNodes d net rest s := by
  simp only [Scene.prepareNodes, h, ne_eq, not_true_eq_false, if_false]

theorem Scene.prepareComponents_skip (d : NodeDecl) (net : NetworkOps) (id : Nat)
    (rest : List Nat) (s : Scene) (h : Scene.GetComponent d s id = 0) :
    Scene.prepareComponents d net (id :: rest) s = Scene.prepareComponents d net rest s := by
  simp only [Scene.prepareComponents, h, ne_eq, not_true_eq_false, if_false]

theorem Scene.prepareNodes_none (d : NodeDecl) (net : NetworkOps) (ids : List Nat) (s : Scene)
    (h : ∀ id ∈ ids, Scene.GetNode d s id = 0) : Scene.prepareNodes d net ids s = s := by
  induction ids with
  | nil => rfl
  | cons id rest ih =>
    rw [Scene.prepareNodes_skip d net id rest s (h id (List.mem_cons_self _ _))]
    exact ih (fun i hi => h i (List.mem_cons_of_mem _ hi))

theorem Scene.prepareComponents_none (d : NodeDecl) (net : NetworkOps) (ids : List Nat)
    (s : Scene) (h : ∀ id ∈ ids, Scene.GetComponent d s id = 0) :
    Scene.prepareComponents d net ids s = s := by
  induction ids with
  | nil => rfl
  | cons id rest ih =>
    rw [Scene.prepareComponents_skip d net id rest s (h id (List.mem_cons_self _ _))]
    exact ih (fun i hi => h i (List.mem_cons_of_mem _ hi))

theorem Scene.prepareNodes_calls (d : NodeDecl) (net : NetworkOps) (hk : net.KeepsRegistry)
    (ids : List Nat) (s : Scene) :
    (Scene.prepareNodes d net ids s).prepared = s.prepared ++
      (ids.filter (fun id => Scene.GetNode d s id ≠ 0)).map
        (fun id => PrepareCall.Node (Scene.GetNode d s id)) ∧
    (Scene.prepareNodes d net ids s).replicatedNodes_ = s.replicatedNodes_ ∧
    (Scene.prepareNodes d net ids s).localNodes_ = s.localNodes_ ∧
    (Scene.prepareNodes d net ids s).replicatedComponents_ = s.replicatedComponents_ ∧
    (Scene.prepareNodes d net ids s).localComponents_ = s.localComponents_ ∧
    (Scene.prepareNodes d net ids s).networkUpdateComponents_ = s.networkUpdateComponents_ := by
  induction ids generalizing s with
  | nil => simp [Scene.prepareNodes]
  | cons id rest ih =>
    by_cases h : Scene.GetNode d s id = 0
    · rw [Scene.prepareNodes_skip d net id rest s h]
      obtain ⟨i1, i2⟩ := ih s
      refine ⟨?_, i2⟩
      rw [i1, List.filter_cons]
      simp [h]
    · obtain ⟨k1, k2, k3, k4, k5⟩ := hk.1 (Scene.GetNode d s id) s
      simp only [Scene.prepareNodes, ne_eq, h, not_false_eq_true, if_true]
      obtain ⟨i1, i2, i3, i4, i5, i6⟩ := ih
        { net.NodePrepareNetworkUpdate (Scene.GetNode d s id) s with
          prepared := s.prepared ++ [PrepareCall.Node (Scene.GetNode d s id)] }
      have hg := Scene.GetNode_congr d s
        { net.NodePrepareNetworkUpdate (Scene.GetNode d s id) s with
          prepared := s.prepared ++ [PrepareCall.Node (Scene.GetNode d s id)] } k1 k2
      refine ⟨?_, i2.trans k1, i3.trans k2, i4.trans k3, i5.trans k4, i6.trans k5⟩
      rw [i1, hg, List.filter_cons]
      simp [h]

theorem Scene.prepareComponents_calls (d : NodeDecl) (net : NetworkOps)
    (hk : net.KeepsRegistry) (ids : List Nat) (s : Scene) :
    (Scene.prepareComponents d net ids s).prepared = s.prepared ++
      (ids.filter (fun id => Scene.GetComponent d s id ≠ 0)).map
        (fun id => PrepareCall.Component (Scene.GetComponent d s id)) := by
  induction ids generalizing s with
  | nil => simp [Scene.prepareComponents]
  | cons id rest ih =>
    by_cases h : Scene.GetComponent d s id = 0
    · rw [Scene.prepareComponents_skip d net id rest s h, ih s, List.filter_cons]
      simp [h]
    · obtain ⟨k1, k2⟩ := hk.2 (Scene.GetComponent d s id) s
      simp only [Scene.prepareComponents, ne_eq, h, not_false_eq_true, if_true]
      have hg := Scene.GetComponent_congr d s
        { net.ComponentPrepareNetworkUpdate (Scene.GetComponent d s id) s with
          prepared := s.prepared ++ [PrepareCall.Component (Scene.GetComponent d s id)] } k1 k2
      rw [ih, hg, List.filter_cons]
      simp [h]

theorem NetworkOps.sample_keepsRegistry : NetworkOps.sample.KeepsRegistry :=
  ⟨fun _ _ => ⟨rfl, rfl, rfl, rfl, rfl⟩, fun _ _ => ⟨rfl, rfl⟩⟩

/-! ## Lemmas on the threaded update -/

theorem Scene.markDelayedDirty_returns (net : NetworkOps) (queue : List Ptr) (s : Scene)
    (hq : ∀ c ∈ queue, c ≠ 0) :
    ∃ s1 calls, Scene.markDelayedDirty net queue s = some s1 ∧
      s1.markedDirty = s.markedDirty ++ calls ∧ calls.map Prod.fst = queue ∧
      ((∀ c n t, (net.OnMarkedDirty c n t).componentHeap = t.componentHeap) →
        calls = queue.map (fun c => (c, (s.componentHeap c).node_)) ∧
        s1.componentHeap = s.componentHeap) := by
  induction queue generalizing s with
  | nil => exact ⟨s, [], rfl, by simp, rfl, fun _ => ⟨rfl, rfl⟩⟩
  | cons c rest ih =>
    have hc : c ≠ 0 := hq c (List.mem_cons_self _ _)
    obtain ⟨s1, calls, h1, h2, h3, h4⟩ := ih
      { net.OnMarkedDirty c (s.componentHeap c).node_ s with
        markedDirty := s.markedDirty ++ [(c, (s.componentHeap c).node_)] }
      (fun x hx => hq x (List.mem_cons_of_mem _ hx))
    refine ⟨s1, (c, (s.componentHeap c).node_) :: calls, ?_, ?_, ?_, ?_⟩
    · simp only [Scene.markDelayedDirty, hc, if_false]
      exact h1
    · rw [h2]
      simp
    · simp [h3]
    · intro hkeep
      obtain ⟨h5, h6⟩ := h4 hkeep
      have hheap : (net.OnMarkedDirty c (s.componentHeap c).node_ s).componentHeap =
          s.componentHeap := hkeep _ _ _
      simp only [hheap] at h5 h6
      exact ⟨by rw [h5]; rfl, h6⟩

/-! ## Claims on the network update and on the threaded update -/

/-- C16: after `PrepareNetworkUpdate` both `networkUpdateNodes_` and
`networkUpdateComponents_` are empty.  An ID that `GetNode` or `GetComponent` does not
resolve is skipped: the loop goes on from the same state, and when no ID resolves the call
only empties the two sets.  When the prepare steps of nodes and components keep the
registry, the calls made are one `Node::PrepareNetworkUpdate` for each ID of the node set
that `GetNode` resolves, on the node found, followed by one
`Component::PrepareNetworkUpdate` for each ID of the component set that `GetComponent`
resolves, on the component found, in the order of the sets. -/
theorem C16_prepare_network_update (d : NodeDecl) (net : NetworkOps) (s : Scene) :
    ((Scene.PrepareNetworkUpdate d net s).networkUpdateNodes_ = [] ∧
      (Scene.PrepareNetworkUpdate d net s).networkUpdateComponents_ = []) ∧
    (∀ id rest t, Scene.GetNode d t id = 0 →
      Scene.prepareNodes d net (id :: rest) t = Scene.prepareNodes d net rest t) ∧
    (∀ id rest t, Scene.GetComponent d t id = 0 →
      Scene.prepareComponents d net (id :: rest) t = Scene.prepareComponents d net rest t) ∧
    ((∀ id ∈ s.networkUpdateNodes_, Scene.GetNode d s id = 0) →
      (∀ id ∈ s.networkUpdateComponents_, Scene.GetComponent d s id = 0) →
      Scene.PrepareNetworkUpdate d net s =
        { s with networkUpdateNodes_ := [], networkUpdateComponents_ := [] }) ∧
    (net.KeepsRegistry →
      (Scene.PrepareNetworkUpdate d net s).prepared = s.prepared ++
        (s.networkUpdateNodes_.filter (fun id => Scene.GetNode d s id ≠ 0)).map
          (fun id => PrepareCall.Node (Scene.GetNode d s id)) ++
        (s.networkUpdateComponents_.filter (fun id => Scene.GetComponent d s id ≠ 0)).map
          (fun id => PrepareCall.Component (Scene.GetComponent d s id))) := by
  refine ⟨⟨rfl, rfl⟩, fun id rest t h => Scene.prepareNodes_skip d net id rest t h,
    fun id rest t h => Scene.prepareComponents_skip d net id rest t h, ?_, ?_⟩
  · intro h1 h2
    simp only [Scene.PrepareNetworkUpdate]
    rw [Scene.prepareNodes_none d net _ s h1, Scene.prepareComponents_none d net _ s h2]
  · intro hk
    obtain ⟨i1, i2, i3, i4, i5, i6⟩ := Scene.prepareNodes_calls d net hk s.networkUpdateNodes_ s
    have hg := Scene.GetComponent_congr d s
      (Scene.prepareNodes d net s.networkUpdateNodes_ s) i4 i5
    simp only [Scene.PrepareNetworkUpdate]
    rw [Scene.prepareComponents_calls d net hk, hg, i1, i6]

/-- C16 at a concrete input: of the node IDs 1 and 7 only 1 resolves, of the component IDs
8 and 3 only 3. -/
theorem C16_prepare_network_update_witness :
    (Scene.PrepareNetworkUpdate NodeDecl.sample NetworkOps.sample Scene.sampleDirty).prepared =
      [PrepareCall.Node 1, PrepareCall.Component 4] ∧
    (Scene.PrepareNetworkUpdate NodeDecl.sample NetworkOps.sample
      Scene.sampleDirty).networkUpdateNodes_ = [] :=
  have h := C16_prepare_network_update NodeDecl.sample NetworkOps.sample Scene.sampleDirty
  ⟨(h.2.2.2.2 NetworkOps.sample_keepsRegistry).trans (by decide), h.1.1⟩

/-- C18, counterexample to the claim as stated: the work queue has no worker threads, so
`BeginThreadedUpdate` does not enter threaded mode; component 4 is queued, and
`EndThreadedUpdate` returns with the component still queued and no `OnMarkedDirty` call
made. -/
theorem C18_not_threaded_counterexample :
    ((Scene.EndThreadedUpdate NetworkOps.sample
      (Scene.DelayedMarkedDirty (Scene.BeginThreadedUpdate Scene.sampleDirty 0) 4)).map
        (fun s => (s.delayedDirtyComponents_, s.markedDirty))) = some ([4], []) := by
  decide

/-- C18, amended: when `BeginThreadedUpdate` enters threaded mode (the work queue has worker
threads) or the scene is in threaded mode already, then for every sequence of
`DelayedMarkedDirty` calls with non-null components `EndThreadedUpdate` returns, the queue
is empty afterwards, and the `OnMarkedDirty` calls made are one per queue entry on the
queued component, in queue order, each with the node of that component (the node at the
start, when `OnMarkedDirty` leaves the components alone).  When the work queue has no
worker threads and the scene is not in threaded mode, `EndThreadedUpdate` returns without
a call and leaves the queue as it is. -/
theorem C18_threaded_drain (net : NetworkOps) (s : Scene) (numThreads : Nat)
    (components : List Ptr) :
    ((numThreads ≠ 0 ∨ s.threadedUpdate_ = true) →
      (∀ c ∈ s.delayedDirtyComponents_ ++ components, c ≠ 0) →
      ∃ s1 calls, Scene.EndThreadedUpdate net (components.foldl Scene.DelayedMarkedDirty
          (Scene.BeginThreadedUpdate s numThreads)) = some s1 ∧
        s1.delayedDirtyComponents_ = [] ∧
        s1.markedDirty = s.markedDirty ++ calls ∧
        calls.map Prod.fst = s.delayedDirtyComponents_ ++ components ∧
        ((∀ c n t, (net.OnMarkedDirty c n t).componentHeap = t.componentHeap) →
          calls = (s.delayedDirtyComponents_ ++ components).map
            (fun c => (c, (s.componentHeap c).node_)))) ∧
    (numThreads = 0 → s.threadedUpdate_ = false →
      Scene.EndThreadedUpdate net (components.foldl Scene.DelayedMarkedDirty
          (Scene.BeginThreadedUpdate s numThreads)) =
        some { s with delayedDirtyComponents_ := s.delayedDirtyComponents_ ++ components }) := by
  have hfold : ∀ (cs : List Ptr) (t : Scene), cs.foldl Scene.DelayedMarkedDirty t =
      { t with delayedDirtyComponents_ := t.delayedDirtyComponents_ ++ cs } := by
    intro cs
    induction cs with
    | nil => intro t; simp
    | cons c rest ih =>
      intro t
      rw [List.foldl_cons, ih]
      simp [Scene.DelayedMarkedDirty]
  constructor
  · intro hmode hq
    have hthr : (if numThreads ≠ 0 then true else s.threadedUpdate_) = true := by
      rcases hmode with h | h
      · rw [if_pos h]
      · rw [h]; simp
    rw [hfold]
    simp only [Scene.EndThreadedUpdate, Scene.BeginThreadedUpdate, hthr, Bool.not_true,
      Bool.false_eq_true, if_false]
    by_cases hempty : s.delayedDirtyComponents_ ++ components = []
    · rw [if_neg (by simpa using hempty)]
      exact ⟨_, [], rfl, hempty, by simp, by rw [hempty]; rfl, fun _ => by rw [hempty]; rfl⟩
    · rw [if_pos hempty]
      obtain ⟨s1, calls, h1, h2, h3, h4⟩ := Scene.markDelayedDirty_returns net
        (s.delayedDirtyComponents_ ++ components)
        { { s with
            threadedUpdate_ := true
            delayedDirtyComponents_ := s.delayedDirtyComponents_ ++ components } with
          threadedUpdate_ := false } hq
      exact ⟨{ s1 with delayedDirtyComponents_ := [] }, calls,
        congrArg (Option.map (fun s => { s with delayedDirtyComponents_ := [] })) h1, rfl, h2, h3,
        fun hkeep => (h4 hkeep).1⟩
  · intro h0 hthr
    rw [hfold]
    simp [Scene.EndThreadedUpdate, Scene.BeginThreadedUpdate, h0, hthr]

/-- C18 at a concrete input: a work queue with two threads, and the components 4, 5 and 4
queued in that order. -/
theorem C18_threaded_drain_witness :
    ∃ s1 calls, Scene.EndThreadedUpdate NetworkOps.sample ([4, 5, 4].foldl Scene.DelayedMarkedDirty
        (Scene.BeginThreadedUpdate Scene.sampleDirty 2)) = some s1 ∧
      s1.delayedDirtyComponents_ = [] ∧
      s1.markedDirty = Scene.sampleDirty.markedDirty ++ calls ∧
      calls.map Prod.fst = Scene.sampleDirty.delayedDirtyComponents_ ++ [4, 5, 4] ∧
      ((∀ c n t, (NetworkOps.sample.OnMarkedDirty c n t).componentHeap = t.componentHeap) →
        calls = (Scene.sampleDirty.delayedDirtyComponents_ ++ [4, 5, 4]).map
          (fun c => (c, (Scene.sampleDirty.componentHeap c).node_))) :=
  (C18_threaded_drain NetworkOps.sample Scene.sampleDirty 2 [4, 5, 4]).1 (Or.inl (by decide))
    (by decide)

/-! ## Lemmas on the progress of an asynchronous load -/

theorem Scene.asyncProgressRatio_bounds (s : Scene) (h : s.AsyncLoadingOk) :
    0 ≤ s.asyncProgressRatio ∧ s.asyncProgressRatio ≤ 1 := by
  unfold Scene.asyncProgressRatio Scene.GetAsyncProgressIn
  by_cases hc : s.asyncLoading_ = false ∨ s.asyncProgress_.totalNodes_ = 0
  · rw [if_pos hc]
    norm_num
  · rw [if_neg hc]
    have hl : s.asyncLoading_ = true := by
      cases hb : s.asyncLoading_ with
      | true => rfl
      | false => exact absurd (Or.inl hb) hc
    have ht : s.asyncProgress_.totalNodes_ ≠ 0 := fun e => hc (Or.inr e)
    obtain ⟨hle, _, _⟩ := h hl
    have ht0 : (0 : ℚ) < s.asyncProgress_.totalNodes_ := by
      exact_mod_cast Nat.pos_of_ne_zero ht
    show (0 : ℚ) ≤ (s.asyncProgress_.loadedNodes_ : ℚ) / (s.asyncProgress_.totalNodes_ : ℚ) ∧
      (s.asyncProgress_.loadedNodes_ : ℚ) / (s.asyncProgress_.totalNodes_ : ℚ) ≤ 1
    refine ⟨div_nonneg (Nat.cast_nonneg _) (le_of_lt ht0), ?_⟩
    rw [div_le_one ht0]
    exact_mod_cast hle

theorem Scene.UpdateAsyncLoadingFrom_succ (d : NodeDecl) (ops : NodeOps) (fl : FloatOps)
    (clock : Nat → Nat) (fuel : Nat) :
    ∀ (k : Nat) (s s1 : Scene), Scene.UpdateAsyncLoadingFrom d ops fl clock fuel k s = some s1 →
      Scene.UpdateAsyncLoadingFrom d ops fl clock (fuel + 1) k s = some s1 := by
  induction fuel with
  | zero =>
    intro k s s1 h
    unfold Scene.UpdateAsyncLoadingFrom at h ⊢
    by_cases hdone : s.asyncProgress_.loadedNodes_ ≥ s.asyncProgress_.totalNodes_
    · simp only [hdone, if_true] at h ⊢
      exact h
    · simp [hdone] at h
  | succ fuel ih =>
    intro k s s1 h
    unfold Scene.UpdateAsyncLoadingFrom at h
    unfold Scene.UpdateAsyncLoadingFrom
    by_cases hdone : s.asyncProgress_.loadedNodes_ ≥ s.asyncProgress_.totalNodes_
    · simp only [hdone, if_true] at h ⊢
      exact h
    · simp only [hdone, if_false] at h ⊢
      cases hread : Scene.readAsyncChild d ops s with
      | none => rw [hread] at h; simp at h
      | some s2 =>
        rw [hread] at h
        by_cases hclock : clock k ≥ ASYNC_LOAD_MAX_MSEC
        · simp only [hclock, if_true] at h ⊢
          exact h
        · simp only [hclock, if_false] at h ⊢
          exact ih _ _ _ h

theorem Scene.UpdateAsyncLoadingFrom_mono (d : NodeDecl) (ops : NodeOps) (fl : FloatOps)
    (clock : Nat → Nat) (fuel more k : Nat) (s s1 : Scene)
    (h : Scene.UpdateAsyncLoadingFrom d ops fl clock fuel k s = some s1) :
    Scene.UpdateAsyncLoadingFrom d ops fl clock (fuel + more) k s = some s1 := by
  induction more with
  | zero => exact h
  | succ m ih => exact Scene.UpdateAsyncLoadingFrom_succ d ops fl clock (fuel + m) k s s1 ih

theorem Scene.Update_ok (d : NodeDecl) (ops : NodeOps) (fl : FloatOps) (clock : Nat → Nat)
    (hops : ops.AsyncKeeps (fun s => s.asyncProgress_)) (fuel : Nat) (s s1 : Scene)
    (timeStep : F32) (hinv : s.AsyncLoadingOk)
    (h : Scene.Update d ops fl clock fuel s timeStep = some s1) : s1.AsyncLoadingOk := by
  cases hl : s.asyncLoading_ with
  | false =>
    simp only [Scene.Update, hl, Bool.false_eq_true, if_false, SendEvent,
      Option.some.injEq] at h
    intro h1
    rw [← h] at h1
    simp only [hl] at h1
    exact absurd h1 (by decide)
  | true =>
    simp only [Scene.Update, hl, if_true, Scene.UpdateAsyncLoading] at h
    obtain ⟨s2, hs2, hstep⟩ := Scene.UpdateAsyncLoadingFrom_step d ops fl clock hops _ 0 s
      (hinv hl) rfl
    have e1 := Scene.UpdateAsyncLoadingFrom_mono d ops fl clock fuel
      (s.asyncProgress_.totalNodes_ - s.asyncProgress_.loadedNodes_) 0 s s1 h
    have e2 := hs2 (fuel + (s.asyncProgress_.totalNodes_ - s.asyncProgress_.loadedNodes_))
      (by omega)
    rw [e1, Option.some.injEq] at e2
    subst e2
    intro h1
    obtain ⟨_, _, _, hcase⟩ := hstep
    rcases hcase with ⟨h2, _⟩ | ⟨_, _, _, _, _, hok, _⟩
    · rw [h2] at h1
      exact absurd h1 (by decide)
    · exact hok

theorem Scene.LoadAsync_ok (d : NodeDecl) (ops : NodeOps)
    (hload : ops.LoadKeeps (fun s => s.asyncLoading_)) (s : Scene) (file : Option File)
    (hinv : s.AsyncLoadingOk) : (Scene.LoadAsync d ops s file).2.AsyncLoadingOk := by
  have k1 : ∀ s, (ops.RemoveAllChildren s).asyncLoading_ = s.asyncLoading_ := hload.1
  have k2 : ∀ s, (ops.RemoveAllComponents s).asyncLoading_ = s.asyncLoading_ := hload.2.1
  have k3 : ∀ file s, (ops.LoadRoot file s).2.2.asyncLoading_ = s.asyncLoading_ := hload.2.2.1
  cases file with
  | none => exact fun h => hinv h
  | some file =>
    simp only [Scene.LoadAsync, Deserializer.ReadFileID]
    split
    · intro h
      simp [WriteToLog, Scene.StopAsyncLoading] at h
    · split
      · next heq =>
        intro h
        have hk := congrArg (fun r => r.2.2.asyncLoading_) heq
        simp only [k3, Scene.Clear, k1, k2, Scene.StopAsyncLoading, WriteToLog] at hk
        simp only [] at h
        rw [← hk] at h
        exact absurd h (by decide)
      · intro _
        simp only [Scene.AsyncProgressOk, Deserializer.ReadVLE]
        exact ⟨Nat.zero_le _, Nat.mod_lt _ (by norm_num), fun _ => by simp⟩

theorem Scene.LoadAsyncXML_ok (d : NodeDecl) (ops : NodeOps)
    (hload : ops.LoadKeeps (fun s => s.asyncLoading_)) (s : Scene) (file : Option File)
    (hinv : s.AsyncLoadingOk) : (Scene.LoadAsyncXML d ops s file).2.AsyncLoadingOk := by
  have k1 : ∀ s, (ops.RemoveAllChildren s).asyncLoading_ = s.asyncLoading_ := hload.1
  have k2 : ∀ s, (ops.RemoveAllComponents s).asyncLoading_ = s.asyncLoading_ := hload.2.1
  have k4 : ∀ e s, (ops.LoadXMLRoot e s).2.asyncLoading_ = s.asyncLoading_ := hload.2.2.2
  cases file with
  | none => exact fun h => hinv h
  | some file =>
    simp only [Scene.LoadAsyncXML]
    split
    · intro h
      simp [Scene.StopAsyncLoading] at h
    · split
      · next heq =>
        intro h
        have hk := congrArg (fun r => r.2.asyncLoading_) heq
        simp only [k4, Scene.Clear, k1, k2, Scene.StopAsyncLoading, WriteToLog] at hk
        simp only [] at h
        rw [← hk] at h
        exact absurd h (by decide)
      · intro _
        simp only [Scene.AsyncProgressOk]
        exact ⟨Nat.zero_le _, countChildNodes_lt _ _ _ (le_refl _) (by norm_num),
          fun hx => by simp at hx⟩

theorem Scene.applyAsyncCalls_ok (d : NodeDecl) (ops : NodeOps) (fl : FloatOps)
    (hops : ops.AsyncKeeps (fun s => s.asyncProgress_))
    (hload : ops.LoadKeeps (fun s => s.asyncLoading_)) (calls : List AsyncCall) :
    ∀ (s s1 : Scene), s.AsyncLoadingOk → Scene.applyAsyncCalls d ops fl s calls = some s1 →
      s1.AsyncLoadingOk := by
  induction calls with
  | nil =>
    intro s s1 hinv h
    simp only [Scene.applyAsyncCalls, Option.some.injEq] at h
    rw [← h]; exact hinv
  | cons c rest ih =>
    intro s s1 hinv h
    simp only [Scene.applyAsyncCalls] at h
    cases hc : Scene.applyAsyncCall d ops fl s c with
    | none => rw [hc] at h; simp at h
    | some s2 =>
      rw [hc] at h
      refine ih s2 s1 ?_ h
      cases c with
      | LoadAsync file =>
        simp only [Scene.applyAsyncCall, Option.some.injEq] at hc
        rw [← hc]; exact Scene.LoadAsync_ok d ops hload s file hinv
      | LoadAsyncXML file =>
        simp only [Scene.applyAsyncCall, Option.some.injEq] at hc
        rw [← hc]; exact Scene.LoadAsyncXML_ok d ops hload s file hinv
      | Update clock fuel timeStep =>
        exact Scene.Update_ok d ops fl clock hops fuel s s2 timeStep hinv hc
      | StopAsyncLoading =>
        simp only [Scene.applyAsyncCall, Option.some.injEq] at hc
        rw [← hc]
        intro h1
        simp [Scene.StopAsyncLoading] at h1

/-! ## Lemmas on the completion of an asynchronous load -/

theorem NodeOps.sample_loadKeeps {α : Type} (f : Scene → α) : NodeOps.sample.LoadKeeps f :=
  ⟨fun _ => rfl, fun _ => rfl, fun _ _ => rfl, fun _ _ => rfl⟩

theorem Scene.FinishAsyncLoading_state (ops : NodeOps)
    (hops : ops.AsyncKeeps (fun s => s.asyncProgress_)) (s : Scene) :
    (Scene.FinishAsyncLoading ops s).asyncLoading_ = false ∧
    (Scene.FinishAsyncLoading ops s).resolver_ = { nodes_ := [], components_ := [] } ∧
    (Scene.FinishAsyncLoading ops s).asyncProgress_.file_ = none ∧
    (Scene.FinishAsyncLoading ops s).asyncProgress_.xmlFile_ = none ∧
    (∀ file, s.asyncProgress_.file_ = some file →
      (Scene.FinishAsyncLoading ops s).fileName_ = file.name_ ∧
      (Scene.FinishAsyncLoading ops s).checksum_ = file.checksum_) := by
  obtain ⟨_, _, _, hres, happly⟩ := hops
  have e1 : (ops.ApplyAttributes (ops.Resolve s)).asyncProgress_ = s.asyncProgress_ :=
    (happly _).trans (hres _)
  unfold Scene.FinishAsyncLoading Scene.FinishLoading
  simp only [e1]
  cases hfile : s.asyncProgress_.file_ with
  | none => simp [SendEvent, Scene.StopAsyncLoading, SceneResolver.Reset]
  | some file => simp [SendEvent, Scene.StopAsyncLoading, SceneResolver.Reset]

theorem Scene.UpdateAsyncLoadingFrom_done (d : NodeDecl) (ops : NodeOps) (fl : FloatOps)
    (clock : Nat → Nat) (fuel k : Nat) (s : Scene)
    (h : s.asyncProgress_.totalNodes_ ≤ s.asyncProgress_.loadedNodes_) :
    Scene.UpdateAsyncLoadingFrom d ops fl clock fuel k s =
      some (Scene.FinishAsyncLoading ops s) := by
  have hdone : s.asyncProgress_.loadedNodes_ ≥ s.asyncProgress_.totalNodes_ := h
  unfold Scene.UpdateAsyncLoadingFrom
  simp only [hdone, if_true]

theorem Scene.UpdateAsyncLoadingFrom_finish (d : NodeDecl) (ops : NodeOps) (fl : FloatOps)
    (clock : Nat → Nat) (hops : ops.AsyncKeeps (fun s => s.asyncProgress_))
    (hev : ops.AsyncKeeps (fun s => s.events)) (ht : ops.AsyncKeeps (fun s => s.elapsedTime_))
    (n : Nat) :
    ∀ (k : Nat) (s : Scene), s.AsyncProgressOk →
      s.asyncProgress_.totalNodes_ - s.asyncProgress_.loadedNodes_ = n →
      (∀ j, j < n → clock (k + j) < ASYNC_LOAD_MAX_MSEC) →
      ∃ s2 : Scene,
        (∀ fuel, n ≤ fuel → Scene.UpdateAsyncLoadingFrom d ops fl clock fuel k s =
          some (Scene.FinishAsyncLoading ops s2)) ∧
        s2.asyncProgress_.loadedNodes_ = s.asyncProgress_.totalNodes_ ∧
        s2.asyncProgress_.totalNodes_ = s.asyncProgress_.totalNodes_ ∧
        s2.events = s.events ∧ s2.elapsedTime_ = s.elapsedTime_ := by
  induction n with
  | zero =>
    intro k s hok hn _
    obtain ⟨hle, _, _⟩ := hok
    exact ⟨s, fun fuel _ => Scene.UpdateAsyncLoadingFrom_done d ops fl clock fuel k s (by omega),
      by omega, rfl, rfl, rfl⟩
  | succ n ih =>
    intro k s hok hn hbudget
    obtain ⟨hle, hlt, hfile⟩ := hok
    have hdone : ¬ (s.asyncProgress_.loadedNodes_ ≥ s.asyncProgress_.totalNodes_) := by omega
    obtain ⟨s2, hread, hl2, ht2, hx2, hf2⟩ := Scene.readAsyncChild_progress d ops hops s hfile
    have hev2 : s2.events = s.events :=
      Scene.readAsyncChild_keeps d ops (fun s => s.events) hev (fun _ _ => rfl)
        (fun _ _ => rfl) s s2 hread
    have htime2 : s2.elapsedTime_ = s.elapsedTime_ :=
      Scene.readAsyncChild_keeps d ops (fun s => s.elapsedTime_) ht (fun _ _ => rfl)
        (fun _ _ => rfl) s s2 hread
    have hmod : (s2.asyncProgress_.loadedNodes_ + 1) % 2 ^ 32
        = s.asyncProgress_.loadedNodes_ + 1 := by
      rw [hl2]; exact Nat.mod_eq_of_lt (by omega)
    have hclock : ¬ (clock k ≥ ASYNC_LOAD_MAX_MSEC) := by
      have := hbudget 0 (by omega)
      simp only [Nat.add_zero] at this
      omega
    have hok3 : Scene.AsyncProgressOk { s2 with
        asyncProgress_ := { s2.asyncProgress_ with
          loadedNodes_ := (s2.asyncProgress_.loadedNodes_ + 1) % 2 ^ 32 } } := by
      simp only [Scene.AsyncProgressOk, hmod, ht2, hx2]
      refine ⟨by omega, hlt, ?_⟩
      intro hx
      rw [Ne, hf2]
      exact hfile hx
    obtain ⟨s3, hs3, a1, a2, a3, a4⟩ := ih (k + 1) _ hok3 (by simp only [hmod, ht2]; omega)
      (fun j hj => by
        have := hbudget (j + 1) (by omega)
        rw [show k + (j + 1) = k + 1 + j by omega] at this
        exact this)
    simp only [ht2] at a1 a2
    refine ⟨s3, ?_, a1, a2, a3.trans hev2, a4.trans htime2⟩
    intro fuel hfuel
    obtain ⟨fuel1, rfl⟩ : ∃ f, fuel = f + 1 := ⟨fuel - 1, by omega⟩
    unfold Scene.UpdateAsyncLoadingFrom
    simp only [hdone, if_false, hread, hclock]
    exact hs3 fuel1 (by omega)

theorem Scene.readAsyncChild_withChildLoadResult (d : NodeDecl) (ops : NodeOps) (flag : Bool)
    (s : Scene) :
    Scene.readAsyncChild d (ops.withChildLoadResult flag) s = Scene.readAsyncChild d ops s := by
  rfl

theorem Scene.UpdateAsyncLoadingFrom_withChildLoadResult (d : NodeDecl) (ops : NodeOps)
    (fl : FloatOps) (clock : Nat → Nat) (flag : Bool) (fuel : Nat) :
    ∀ (k : Nat) (s : Scene),
      Scene.UpdateAsyncLoadingFrom d (ops.withChildLoadResult flag) fl clock fuel k s =
        Scene.UpdateAsyncLoadingFrom d ops fl clock fuel k s := by
  induction fuel with
  | zero =>
    intro k s
    unfold Scene.UpdateAsyncLoadingFrom
    rfl
  | succ fuel ih =>
    intro k s
    unfold Scene.UpdateAsyncLoadingFrom
    rw [Scene.readAsyncChild_withChildLoadResult]
    by_cases hdone : s.asyncProgress_.loadedNodes_ ≥ s.asyncProgress_.totalNodes_
    · simp only [hdone, if_true]
      rfl
    · simp only [hdone, if_false]
      cases hread : Scene.readAsyncChild d ops s with
      | none => rfl
      | some s2 =>
        simp only []
        by_cases hclock : clock k ≥ ASYNC_LOAD_MAX_MSEC
        · simp only [hclock, if_true]
        · simp only [hclock, if_false]
          exact ih _ _

/-! ## Claims on the progress and the completion of an asynchronous load -/

/-- C11: `GetAsyncProgress` returns `1.0f` whenever the scene is not async loading or
`totalNodes_` is 0, and the quotient of `loadedNodes_` by `totalNodes_` otherwise; its
result does not depend on what the division yields for a zero total.  In every state
reached through `LoadAsync`, `LoadAsyncXML`, `Update` and `StopAsyncLoading` from a state
that is not loading (or is loading with a consistent progress record) the exact value lies
between 0 and 1, the loaded count not exceeding the total, and it is 1 when no load is in
flight; an `Update` that finds all nodes loaded returns, leaves the loading state, and
`GetAsyncProgress` is `1.0f` afterwards. -/
theorem C11_async_progress (d : NodeDecl) (ops : NodeOps) (fl : FloatOps)
    (hops : ops.AsyncKeeps (fun s => s.asyncProgress_))
    (hload : ops.LoadKeeps (fun s => s.asyncLoading_)) :
    (∀ s : Scene, (s.asyncLoading_ = false ∨ s.asyncProgress_.totalNodes_ = 0) →
      Scene.GetAsyncProgress fl s = fl.one) ∧
    (∀ s : Scene, s.asyncLoading_ = true → s.asyncProgress_.totalNodes_ ≠ 0 →
      Scene.GetAsyncProgress fl s = fl.div (fl.ofUnsigned s.asyncProgress_.loadedNodes_)
        (fl.ofUnsigned s.asyncProgress_.totalNodes_)) ∧
    (∀ (s : Scene) (div : F32 → F32 → F32),
      (∀ a n, n ≠ 0 → div a (fl.ofUnsigned n) = fl.div a (fl.ofUnsigned n)) →
      Scene.GetAsyncProgressIn fl.one fl.ofUnsigned div s = Scene.GetAsyncProgress fl s) ∧
    (∀ (s0 s : Scene) (calls : List AsyncCall), s0.AsyncLoadingOk →
      Scene.applyAsyncCalls d ops fl s0 calls = some s →
      0 ≤ s.asyncProgressRatio ∧ s.asyncProgressRatio ≤ 1 ∧
      (s.asyncLoading_ = true → s.asyncProgress_.totalNodes_ ≠ 0 →
        s.asyncProgress_.loadedNodes_ ≤ s.asyncProgress_.totalNodes_ ∧
        s.asyncProgressRatio =
          (s.asyncProgress_.loadedNodes_ : ℚ) / (s.asyncProgress_.totalNodes_ : ℚ)) ∧
      (s.asyncLoading_ = false →
        Scene.GetAsyncProgress fl s = fl.one ∧ s.asyncProgressRatio = 1)) ∧
    (∀ (s : Scene) (clock : Nat → Nat) (fuel : Nat) (timeStep : F32),
      s.asyncLoading_ = true →
      s.asyncProgress_.totalNodes_ ≤ s.asyncProgress_.loadedNodes_ →
      ∃ s1, Scene.Update d ops fl clock fuel s timeStep = some s1 ∧
        s1.asyncLoading_ = false ∧ Scene.GetAsyncProgress fl s1 = fl.one) := by
  have hone : ∀ {α : Type} (one : α) (ofUnsigned : Nat → α) (div : α → α → α) (s : Scene),
      (s.asyncLoading_ = false ∨ s.asyncProgress_.totalNodes_ = 0) →
      Scene.GetAsyncProgressIn one ofUnsigned div s = one := by
    intro α one ofUnsigned div s h
    unfold Scene.GetAsyncProgressIn
    rw [if_pos h]
  have hdiv : ∀ {α : Type} (one : α) (ofUnsigned : Nat → α) (div : α → α → α) (s : Scene),
      s.asyncLoading_ = true → s.asyncProgress_.totalNodes_ ≠ 0 →
      Scene.GetAsyncProgressIn one ofUnsigned div s =
        div (ofUnsigned s.asyncProgress_.loadedNodes_)
          (ofUnsigned s.asyncProgress_.totalNodes_) := by
    intro α one ofUnsigned div s h1 h2
    unfold Scene.GetAsyncProgressIn
    rw [if_neg]
    rintro (h | h)
    · rw [h1] at h; exact absurd h (by decide)
    · exact h2 h
  refine ⟨fun s h => hone _ _ _ s h, fun s h1 h2 => hdiv _ _ _ s h1 h2, ?_, ?_, ?_⟩
  · intro s div hsame
    by_cases hc : s.asyncLoading_ = false ∨ s.asyncProgress_.totalNodes_ = 0
    · rw [hone _ _ _ s hc]
      exact (hone _ _ _ s hc).symm
    · have hl : s.asyncLoading_ = true := by
        cases hb : s.asyncLoading_ with
        | true => rfl
        | false => exact absurd (Or.inl hb) hc
      have ht : s.asyncProgress_.totalNodes_ ≠ 0 := fun e => hc (Or.inr e)
      rw [hdiv _ _ _ s hl ht, hsame _ _ ht]
      exact (hdiv _ _ _ s hl ht).symm
  · intro s0 s calls h0 hrun
    have hok := Scene.applyAsyncCalls_ok d ops fl hops hload calls s0 s h0 hrun
    obtain ⟨b1, b2⟩ := Scene.asyncProgressRatio_bounds s hok
    refine ⟨b1, b2, ?_, ?_⟩
    · intro hl ht
      exact ⟨(hok hl).1, hdiv _ _ _ s hl ht⟩
    · intro hl
      exact ⟨hone _ _ _ s (Or.inl hl), hone _ _ _ s (Or.inl hl)⟩
  · intro s clock fuel timeStep hl hdone
    refine ⟨Scene.FinishAsyncLoading ops s, ?_, ?_, ?_⟩
    · simp only [Scene.Update, hl, if_true, Scene.UpdateAsyncLoading]
      exact Scene.UpdateAsyncLoadingFrom_done d ops fl clock fuel 0 s hdone
    · exact (Scene.FinishAsyncLoading_state ops hops s).1
    · exact hone _ _ _ _ (Or.inl (Scene.FinishAsyncLoading_state ops hops s).1)

/-- C11 at a concrete input: one update of the sample scene with a load of two nodes in
flight. -/
theorem C11_async_progress_witness :
    ∃ s : Scene,
      Scene.applyAsyncCalls NodeDecl.sample NodeOps.sample FloatOps.sample Scene.sampleLoading
        [AsyncCall.Update (fun _ => 40) 5 3] = some s ∧
      0 ≤ s.asyncProgressRatio ∧ s.asyncProgressRatio ≤ 1 := by
  obtain ⟨s1, h1, _⟩ := Scene.UpdateAsyncLoadingFrom_step NodeDecl.sample NodeOps.sample
    FloatOps.sample (fun _ => 40) (NodeOps.sample_keeps _) _ 0 Scene.sampleLoading
    Scene.sampleLoading_ok rfl
  have hrun : Scene.applyAsyncCalls NodeDecl.sample NodeOps.sample FloatOps.sample
      Scene.sampleLoading [AsyncCall.Update (fun _ => 40) 5 3] = some s1 := by
    have h2 := h1 5 (by decide)
    simp only [Scene.applyAsyncCalls, Scene.applyAsyncCall, Scene.Update,
      Scene.UpdateAsyncLoading]
    rw [if_pos (by decide), h2]
  have h := (C11_async_progress NodeDecl.sample NodeOps.sample FloatOps.sample
    (NodeOps.sample_keeps _) (NodeOps.sample_loadKeeps _)).2.2.2.1 Scene.sampleLoading s1
    [AsyncCall.Update (fun _ => 40) 5 3] (fun _ => Scene.sampleLoading_ok) hrun
  exact ⟨s1, hrun, h.1, h.2.1⟩

/-- C12: async completion.  When `UpdateAsyncLoading` finds `loadedNodes_ >= totalNodes_`
on entry it returns the scene that `FinishAsyncLoading` leaves; when the remaining nodes
are all read within the time budget it returns the scene that `FinishAsyncLoading` leaves
from the state with all nodes loaded.  `FinishAsyncLoading` resolves the references,
applies the attributes, records name and checksum of the stored file, stops the load
(`asyncLoading_` false, file dropped, resolver reset) and sends the finished notification,
in that order; the call has then sent this one notification and no other.  After a
`LoadAsync` or `LoadAsyncXML` that found no child node the first `Update` finishes the
load. -/
theorem C12_async_completion (d : NodeDecl) (ops : NodeOps) (fl : FloatOps)
    (clock : Nat → Nat) (hops : ops.AsyncKeeps (fun s => s.asyncProgress_))
    (hev : ops.AsyncKeeps (fun s => s.events)) (ht : ops.AsyncKeeps (fun s => s.elapsedTime_)) :
    (∀ (s : Scene) (fuel : Nat),
      s.asyncProgress_.totalNodes_ ≤ s.asyncProgress_.loadedNodes_ →
      Scene.UpdateAsyncLoading d ops fl clock fuel s = some (Scene.FinishAsyncLoading ops s)) ∧
    (∀ s : Scene, s.AsyncProgressOk →
      (∀ j, j < s.asyncProgress_.totalNodes_ - s.asyncProgress_.loadedNodes_ →
        clock j < ASYNC_LOAD_MAX_MSEC) →
      ∃ s2 : Scene,
        (∀ fuel, s.asyncProgress_.totalNodes_ - s.asyncProgress_.loadedNodes_ ≤ fuel →
          Scene.UpdateAsyncLoading d ops fl clock fuel s =
            some (Scene.FinishAsyncLoading ops s2)) ∧
        s2.asyncProgress_.loadedNodes_ = s.asyncProgress_.totalNodes_ ∧
        s2.asyncProgress_.totalNodes_ = s.asyncProgress_.totalNodes_ ∧
        s2.events = s.events ∧ s2.elapsedTime_ = s.elapsedTime_) ∧
    (∀ s : Scene,
      Scene.FinishAsyncLoading ops s =
        SendEvent (Scene.StopAsyncLoading (Scene.FinishLoading
            (ops.ApplyAttributes (ops.Resolve s))
            (ops.ApplyAttributes (ops.Resolve s)).asyncProgress_.file_))
          (Event.E_ASYNCLOADFINISHED (Scene.StopAsyncLoading (Scene.FinishLoading
            (ops.ApplyAttributes (ops.Resolve s))
            (ops.ApplyAttributes (ops.Resolve s)).asyncProgress_.file_)).self) ∧
      (Scene.FinishAsyncLoading ops s).asyncLoading_ = false ∧
      (Scene.FinishAsyncLoading ops s).resolver_ = { nodes_ := [], components_ := [] } ∧
      (Scene.FinishAsyncLoading ops s).asyncProgress_.file_ = none ∧
      (Scene.FinishAsyncLoading ops s).asyncProgress_.xmlFile_ = none ∧
      (∀ file, s.asyncProgress_.file_ = some file →
        (Scene.FinishAsyncLoading ops s).fileName_ = file.name_ ∧
        (Scene.FinishAsyncLoading ops s).checksum_ = file.checksum_) ∧
      ∃ p, (Scene.FinishAsyncLoading ops s).events = s.events ++
        [{ event := Event.E_ASYNCLOADFINISHED p, elapsedTime := s.elapsedTime_ }]) ∧
    (∀ (s0 s : Scene) (file : File) (fuel : Nat) (timeStep : F32),
      (Scene.LoadAsync d ops s0 (some file) = (true, s) ∨
        Scene.LoadAsyncXML d ops s0 (some file) = (true, s)) →
      s.asyncProgress_.totalNodes_ = 0 →
      Scene.Update d ops fl clock fuel s timeStep = some (Scene.FinishAsyncLoading ops s)) := by
  refine ⟨?_, ?_, ?_, ?_⟩
  · intro s fuel h
    exact Scene.UpdateAsyncLoadingFrom_done d ops fl clock fuel 0 s h
  · intro s hok hbudget
    obtain ⟨s2, h1, h2⟩ := Scene.UpdateAsyncLoadingFrom_finish d ops fl clock hops hev ht _ 0 s
      hok rfl (fun j hj => by rw [Nat.zero_add]; exact hbudget j hj)
    exact ⟨s2, h1, h2⟩
  · intro s
    obtain ⟨a1, a2, a3, a4, a5⟩ := Scene.FinishAsyncLoading_state ops hops s
    obtain ⟨_, p, hp⟩ := Scene.FinishAsyncLoading_events ops hev ht s
    exact ⟨rfl, a1, a2, a3, a4, a5, p, hp⟩
  · intro s0 s file fuel timeStep hloaded htotal
    have hl : s.asyncLoading_ = true ∧ s.asyncProgress_.loadedNodes_ = 0 := by
      rcases hloaded with h | h
      · simp only [Scene.LoadAsync, Deserializer.ReadFileID] at h
        split at h
        · simp at h
        · split at h
          · simp at h
          · simp only [Prod.mk.injEq, true_and] at h
            rw [← h]
            exact ⟨rfl, rfl⟩
      · simp only [Scene.LoadAsyncXML] at h
        split at h
        · simp at h
        · split at h
          · simp at h
          · simp only [Prod.mk.injEq, true_and] at h
            rw [← h]
            exact ⟨rfl, rfl⟩
    simp only [Scene.Update, hl.1, if_true, Scene.UpdateAsyncLoading]
    exact Scene.UpdateAsyncLoadingFrom_done d ops fl clock fuel 0 s (by omega)

/-- C12 at a concrete input: the sample scene with a load of two nodes in flight, both read
within the time budget. -/
theorem C12_async_completion_witness :
    ∃ s2 : Scene,
      (∀ fuel, Scene.sampleLoading.asyncProgress_.totalNodes_ -
          Scene.sampleLoading.asyncProgress_.loadedNodes_ ≤ fuel →
        Scene.UpdateAsyncLoading NodeDecl.sample NodeOps.sample FloatOps.sample (fun _ => 0)
          fuel Scene.sampleLoading = some (Scene.FinishAsyncLoading NodeOps.sample s2)) ∧
      s2.asyncProgress_.loadedNodes_ = Scene.sampleLoading.asyncProgress_.totalNodes_ ∧
      s2.asyncProgress_.totalNodes_ = Scene.sampleLoading.asyncProgress_.totalNodes_ ∧
      s2.events = Scene.sampleLoading.events ∧
      s2.elapsedTime_ = Scene.sampleLoading.elapsedTime_ :=
  (C12_async_completion NodeDecl.sample NodeOps.sample FloatOps.sample (fun _ => 0)
    (NodeOps.sample_keeps _) (NodeOps.sample_keeps _) (NodeOps.sample_keeps _)).2.1
    Scene.sampleLoading Scene.sampleLoading_ok (fun _ _ => by decide)

/-! ## The asynchronous update with a child node that fails to load -/

theorem NodeOps.sampleFailing_keeps {α : Type} (f : Scene → α) :
    NodeOps.sampleFailing.AsyncKeeps f :=
  ⟨fun _ _ _ => rfl, fun _ _ _ => rfl, fun _ _ _ => rfl, fun _ => rfl, fun _ => rfl⟩

/-- C13, the code at a failing input: the flag that `Node::Load` and `Node::LoadXML` of a
child node return does not enter the result of `UpdateAsyncLoading`.  With a load of two
child nodes in flight and a child load that fails every time, an update whose time limit
is exceeded after each node counts the failed node as loaded, stays in the loading state
and sends the progress notification; the next update reads the second child node from the
stream; the update after that leaves the loading state and sends the finished
notification. -/
theorem C13_failed_child_load_ignored :
    (∀ (d : NodeDecl) (ops : NodeOps) (fl : FloatOps) (clock : Nat → Nat) (flag : Bool)
        (fuel : Nat) (s : Scene),
      Scene.UpdateAsyncLoading d (ops.withChildLoadResult flag) fl clock fuel s =
        Scene.UpdateAsyncLoading d ops fl clock fuel s) ∧
    (Scene.UpdateAsyncLoading NodeDecl.sample NodeOps.sampleFailing FloatOps.sample
        (fun _ => 40) 5 Scene.sampleLoading).map
      (fun s => (s.asyncLoading_, s.asyncProgress_.loadedNodes_, s.resolver_.nodes_,
        s.events.map (fun e => e.event))) =
      some (true, 1, [(1, 1), (7, 9)], [Event.E_ASYNCLOADPROGRESS 1 0 1 2]) ∧
    (((Scene.UpdateAsyncLoading NodeDecl.sample NodeOps.sampleFailing FloatOps.sample
        (fun _ => 40) 5 Scene.sampleLoading).bind
      (Scene.UpdateAsyncLoading NodeDecl.sample NodeOps.sampleFailing FloatOps.sample
        (fun _ => 40) 5)).map
      (fun s => (s.asyncLoading_, s.asyncProgress_.loadedNodes_, s.resolver_.nodes_,
        s.events.map (fun e => e.event)))) =
      some (true, 2, [(1, 1), (7, 9), (8, 9)],
        [Event.E_ASYNCLOADPROGRESS 1 0 1 2, Event.E_ASYNCLOADPROGRESS 1 1 2 2]) ∧
    (∀ s2 : Scene,
      (Scene.UpdateAsyncLoading NodeDecl.sample NodeOps.sampleFailing FloatOps.sample
          (fun _ => 40) 5 Scene.sampleLoading).bind
        (Scene.UpdateAsyncLoading NodeDecl.sample NodeOps.sampleFailing FloatOps.sample
          (fun _ => 40) 5) = some s2 →
      ∃ s3 : Scene,
        Scene.UpdateAsyncLoading NodeDecl.sample NodeOps.sampleFailing FloatOps.sample
          (fun _ => 40) 5 s2 = some s3 ∧
        s3.asyncLoading_ = false ∧
        ∃ p, s3.events = s2.events ++
          [{ event := Event.E_ASYNCLOADFINISHED p, elapsedTime := s2.elapsedTime_ }]) := by
  refine ⟨fun d ops fl clock flag fuel s =>
      Scene.UpdateAsyncLoadingFrom_withChildLoadResult d ops fl clock flag fuel 0 s,
    rfl, rfl, ?_⟩
  intro s2 h
  have hval : ((Scene.UpdateAsyncLoading NodeDecl.sample NodeOps.sampleFailing FloatOps.sample
        (fun _ => 40) 5 Scene.sampleLoading).bind
      (Scene.UpdateAsyncLoading NodeDecl.sample NodeOps.sampleFailing FloatOps.sample
        (fun _ => 40) 5)).map
      (fun s => (s.asyncProgress_.loadedNodes_, s.asyncProgress_.totalNodes_)) =
      some (2, 2) := rfl
  rw [h] at hval
  simp only [Option.map_some', Option.some.injEq, Prod.mk.injEq] at hval
  refine ⟨Scene.FinishAsyncLoading NodeOps.sampleFailing s2,
    Scene.UpdateAsyncLoadingFrom_done _ _ _ _ _ 0 s2 (by omega),
    (Scene.FinishAsyncLoading_state _ (NodeOps.sampleFailing_keeps _) s2).1, ?_⟩
  exact (Scene.FinishAsyncLoading_events _ (NodeOps.sampleFailing_keeps _)
    (NodeOps.sampleFailing_keeps _) s2).2

/-! ## Lemmas on the component hooks and the replication states -/



theorem Scene.Find_ComponentAdded (d : NodeDecl) (s : Scene) (c : Ptr) (h0 : c ≠ 0) (k : Nat) :
    HashMap.Find (Scene.componentMapOf d (Scene.ComponentAdded d s c) k) k =
      if k = (s.componentHeap c).id_ then some c
      else HashMap.Find (Scene.componentMapOf d s k) k := by
  simp only [Scene.ComponentAdded, h0, if_false, ne_eq, Scene.componentMapOf]
  by_cases hlt : (s.componentHeap c).id_ < d.FIRST_LOCAL_ID
  · simp only [hlt, if_true]
    by_cases hj : k = (s.componentHeap c).id_
    · subst hj
      simp [hlt, HashMap.Find_Assign_same]
    · cases hf : HashMap.Find s.replicatedComponents_ (s.componentHeap c).id_ with
      | none =>
        by_cases hk : k < d.FIRST_LOCAL_ID
        · simp [hj, hk, HashMap.Find_Assign_other]
        · simp [hj, hk]
      | some other =>
        by_cases ho : other = c
        · by_cases hk : k < d.FIRST_LOCAL_ID
          · simp [hj, hk, ho, HashMap.Find_Assign_other]
          · simp [hj, hk, ho]
        · by_cases hk : k < d.FIRST_LOCAL_ID
          · simp [hj, hk, ho, HashMap.Find_Assign_other, Component.SetID, WriteToLog]
          · simp [hj, hk, ho, Component.SetID, WriteToLog]
  · simp only [hlt, if_false]
    by_cases hj : k = (s.componentHeap c).id_
    · subst hj
      simp [hlt, HashMap.Find_Assign_same]
    · cases hf : HashMap.Find s.localComponents_ (s.componentHeap c).id_ with
      | none =>
        by_cases hk : k < d.FIRST_LOCAL_ID
        · simp [hj, hk]
        · simp [hj, hk, HashMap.Find_Assign_other]
      | some other =>
        by_cases ho : other = c
        · by_cases hk : k < d.FIRST_LOCAL_ID
          · simp [hj, hk, ho]
          · simp [hj, hk, ho, HashMap.Find_Assign_other]
        · by_cases hk : k < d.FIRST_LOCAL_ID
          · simp [hj, hk, ho, Component.SetID, WriteToLog]
          · simp [hj, hk, ho, HashMap.Find_Assign_other, Component.SetID, WriteToLog]

theorem Scene.Find_ComponentRemoved (d : NodeDecl) (s : Scene) (c : Ptr) (h0 : c ≠ 0)
    (k : Nat) :
    HashMap.Find (Scene.componentMapOf d (Scene.ComponentRemoved d s c) k) k =
      if k = (s.componentHeap c).id_ then none
      else HashMap.Find (Scene.componentMapOf d s k) k := by
  obtain ⟨hr, hl, _, _⟩ := Scene.componentMaps_ComponentRemoved d s c h0
  unfold Scene.componentMapOf
  rw [hr, hl]
  by_cases hk : k = (s.componentHeap c).id_
  · subst hk
    by_cases hlt : (s.componentHeap c).id_ < d.FIRST_LOCAL_ID
    · simp [hlt, HashMap.Find_Erase_same]
    · simp [hlt, HashMap.Find_Erase_same]
  · by_cases hlt : (s.componentHeap c).id_ < d.FIRST_LOCAL_ID
    · by_cases hk2 : k < d.FIRST_LOCAL_ID
      · simp [hk, hlt, hk2, HashMap.Find_Erase_other]
      · simp [hk, hlt, hk2]
    · by_cases hk2 : k < d.FIRST_LOCAL_ID
      · simp [hk, hlt, hk2]
      · simp [hk, hlt, hk2, HashMap.Find_Erase_other]

theorem Scene.log_ComponentAdded (d : NodeDecl) (s : Scene) (c : Ptr) (h0 : c ≠ 0) :
    (Scene.ComponentAdded d s c).log =
      match HashMap.Find (Scene.componentMapOf d s (s.componentHeap c).id_)
          (s.componentHeap c).id_ with
      | some other =>
        if other ≠ c then
          s.log ++ [(LOG_WARNING,
            "Overwriting component with ID " ++ String.ofUnsigned (s.componentHeap c).id_)]
        else s.log
      | none => s.log := by
  simp only [Scene.ComponentAdded, h0, if_false, ne_eq, Scene.componentMapOf]
  by_cases hlt : (s.componentHeap c).id_ < d.FIRST_LOCAL_ID
  · simp only [hlt, if_true]
    cases hf : HashMap.Find s.replicatedComponents_ (s.componentHeap c).id_ with
    | none => rfl
    | some other =>
      by_cases ho : other = c
      · simp [ho]
      · simp [ho, Component.SetID, WriteToLog]
  · simp only [hlt, if_false]
    cases hf : HashMap.Find s.localComponents_ (s.componentHeap c).id_ with
    | none => rfl
    | some other =>
      by_cases ho : other = c
      · simp [ho]
      · simp [ho, Component.SetID, WriteToLog]

theorem Scene.network_ComponentAdded (d : NodeDecl) (s : Scene) (c : Ptr) :
    (Scene.ComponentAdded d s c).networkState_ = s.networkState_ ∧
    (Scene.ComponentAdded d s c).networkUpdateNodes_ = s.networkUpdateNodes_ ∧
    (Scene.ComponentAdded d s c).networkUpdateComponents_ = s.networkUpdateComponents_ ∧
    (Scene.ComponentAdded d s c).nodeHeap = s.nodeHeap := by
  by_cases h0 : c = 0
  · simp [Scene.ComponentAdded, h0]
  · simp only [Scene.ComponentAdded, h0, if_false, ne_eq]
    by_cases hlt : (s.componentHeap c).id_ < d.FIRST_LOCAL_ID
    · simp only [hlt, if_true]
      cases hf : HashMap.Find s.replicatedComponents_ (s.componentHeap c).id_ with
      | none => simp
      | some other =>
        by_cases ho : other = c
        · simp [ho]
        · simp [ho, Component.SetID, WriteToLog]
    · simp only [hlt, if_false]
      cases hf : HashMap.Find s.localComponents_ (s.componentHeap c).id_ with
      | none => simp
      | some other =>
        by_cases ho : other = c
        · simp [ho]
        · simp [ho, Component.SetID, WriteToLog]

theorem Scene.network_ComponentRemoved (d : NodeDecl) (s : Scene) (c : Ptr) :
    (Scene.ComponentRemoved d s c).networkState_ = s.networkState_ ∧
    (Scene.ComponentRemoved d s c).networkUpdateNodes_ = s.networkUpdateNodes_ ∧
    (Scene.ComponentRemoved d s c).networkUpdateComponents_ = s.networkUpdateComponents_ ∧
    (Scene.ComponentRemoved d s c).nodeHeap = s.nodeHeap := by
  by_cases h0 : c = 0
  · simp [Scene.ComponentRemoved, h0]
  · simp only [Scene.ComponentRemoved, h0, if_false, Component.SetID]
    by_cases hlt : (s.componentHeap c).id_ < d.FIRST_LOCAL_ID
    · simp [hlt]
    · simp [hlt]

theorem Scene.ComponentsByID_ComponentAdded (d : NodeDecl) (s : Scene) (c : Ptr)
    (h : Scene.ComponentsByID d s) : Scene.ComponentsByID d (Scene.ComponentAdded d s c) := by
  by_cases h0 : c = 0
  · simpa [Scene.ComponentAdded, h0] using h
  · intro k v hfind
    rw [Scene.Find_ComponentAdded d s c h0] at hfind
    rw [Scene.componentHeap_ComponentAdded d s c h0]
    by_cases hk : k = (s.componentHeap c).id_
    · rw [if_pos hk, Option.some.injEq] at hfind
      subst hfind
      simp [hk]
    · rw [if_neg hk] at hfind
      have hv := h k v hfind
      rw [if_neg]
      · exact hv
      · rintro ⟨_, hf⟩
        exact hk ((h _ v hf).symm.trans hv).symm

theorem Scene.ComponentsByID_ComponentRemoved (d : NodeDecl) (s : Scene) (c : Ptr)
    (h : Scene.ComponentsByID d s) : Scene.ComponentsByID d (Scene.ComponentRemoved d s c) := by
  by_cases h0 : c = 0
  · simpa [Scene.ComponentRemoved, h0] using h
  · intro k v hfind
    rw [Scene.Find_ComponentRemoved d s c h0] at hfind
    rw [Scene.componentHeap_ComponentRemoved d s c h0]
    by_cases hk : k = (s.componentHeap c).id_
    · rw [if_pos hk] at hfind
      exact absurd hfind (by simp)
    · rw [if_neg hk] at hfind
      have hv := h k v hfind
      rw [if_neg]
      · exact hv
      · intro hvc
        rw [hvc] at hv
        exact hk hv.symm

theorem Scene.components_NodeAdded (d : NodeDecl) (s : Scene) (node : Ptr) :
    (Scene.NodeAdded d s node).replicatedComponents_ = s.replicatedComponents_ ∧
    (Scene.NodeAdded d s node).localComponents_ = s.localComponents_ ∧
    (Scene.NodeAdded d s node).componentHeap = s.componentHeap := by
  by_cases hg : node = 0 ∨ (s.nodeHeap node).scene_ ≠ 0
  · rw [Scene.NodeAdded_skip d s node hg]; exact ⟨rfl, rfl, rfl⟩
  · have h0 : node ≠ 0 := fun e => hg (Or.inl e)
    have h1 : (s.nodeHeap node).scene_ = 0 := by
      by_contra e; exact hg (Or.inr e)
    simp only [Scene.NodeAdded, h0, h1, false_or, ne_eq, not_true_eq_false, if_false,
      Node.SetScene, Function.update_same, Scene.MarkReplicationDirty, Scene.MarkNetworkUpdate]
    by_cases hlt : (s.nodeHeap node).id_ < d.FIRST_LOCAL_ID
    · simp only [hlt, if_true]
      cases hf : HashMap.Find s.replicatedNodes_ (s.nodeHeap node).id_ with
      | none => exact ⟨rfl, rfl, rfl⟩
      | some other =>
        by_cases ho : other = node
        · simp [ho]
        · simp [ho, Node.ResetScene, WriteToLog]
    · simp only [hlt, if_false]
      cases hf : HashMap.Find s.localNodes_ (s.nodeHeap node).id_ with
      | none => exact ⟨rfl, rfl, rfl⟩
      | some other =>
        by_cases ho : other = node
        · simp [ho]
        · simp [ho, Node.ResetScene, WriteToLog]

theorem Scene.components_NodeRemoved (d : NodeDecl) (s : Scene) (node : Ptr) :
    (Scene.NodeRemoved d s node).replicatedComponents_ = s.replicatedComponents_ ∧
    (Scene.NodeRemoved d s node).localComponents_ = s.localComponents_ ∧
    (Scene.NodeRemoved d s node).componentHeap = s.componentHeap := by
  by_cases hg : node = 0 ∨ (s.nodeHeap node).scene_ ≠ s.self
  · rw [Scene.NodeRemoved_skip d s node hg]; exact ⟨rfl, rfl, rfl⟩
  · have h0 : node ≠ 0 := fun e => hg (Or.inl e)
    have h1 : (s.nodeHeap node).scene_ = s.self := by
      by_contra e; exact hg (Or.inr e)
    simp only [Scene.NodeRemoved, h0, h1, false_or, ne_eq, not_true_eq_false, if_false,
      Node.SetScene, Node.SetID, Scene.MarkReplicationDirty]
    by_cases hlt : (s.nodeHeap node).id_ < d.FIRST_LOCAL_ID
    · simp [hlt]
    · simp [hlt]

theorem Scene.ComponentsByID_congr (d : NodeDecl) (s t : Scene)
    (h1 : t.replicatedComponents_ = s.replicatedComponents_)
    (h2 : t.localComponents_ = s.localComponents_) (h3 : t.componentHeap = s.componentHeap)
    (h : Scene.ComponentsByID d s) : Scene.ComponentsByID d t := by
  intro k v hfind
  simp only [Scene.componentMapOf, h1, h2] at hfind
  rw [h3]
  exact h k v hfind

theorem Scene.ComponentsByID_applyHooks (d : NodeDecl) (calls : List HookCall) (s : Scene)
    (h : Scene.ComponentsByID d s) : Scene.ComponentsByID d (Scene.applyHooks d s calls) := by
  induction calls generalizing s with
  | nil => exact h
  | cons c rest ih =>
    cases c with
    | NodeAdded node =>
      obtain ⟨a1, a2, a3⟩ := Scene.components_NodeAdded d s node
      exact ih _ (Scene.ComponentsByID_congr d s _ a1 a2 a3 h)
    | NodeRemoved node =>
      obtain ⟨a1, a2, a3⟩ := Scene.components_NodeRemoved d s node
      exact ih _ (Scene.ComponentsByID_congr d s _ a1 a2 a3 h)
    | ComponentAdded c => exact ih _ (Scene.ComponentsByID_ComponentAdded d s c h)
    | ComponentRemoved c => exact ih _ (Scene.ComponentsByID_ComponentRemoved d s c h)

/-- In every state that the four hooks reach from a constructed scene, every registered
component is registered under the ID it carries. -/
theorem Scene.ComponentsByID_reachable (d : NodeDecl) (fuel : Nat) (self : Ptr)
    (nodeHeap : Ptr → Node) (componentHeap : Ptr → Component)
    (calls : List HookCall) (s0 : Scene)
    (h : Scene.construct d fuel self nodeHeap componentHeap = some s0) :
    Scene.ComponentsByID d (Scene.applyHooks d s0 calls) := by
  rw [Scene.construct_eq, Option.some.injEq] at h
  apply Scene.ComponentsByID_applyHooks
  rw [← h]
  obtain ⟨a1, a2, a3⟩ := Scene.components_NodeAdded d (Node.SetID
    { Scene.initialised d self nodeHeap componentHeap with
      replicatedNodeID_ := d.FIRST_REPLICATED_ID } self d.FIRST_REPLICATED_ID) self
  refine Scene.ComponentsByID_congr d _ _ a1 a2 a3 ?_
  intro k v hfind
  simp [Node.SetID, Scene.initialised, Scene.componentMapOf, HashMap.Find] at hfind

/-! ## Claims on the component hooks -/

/-- C21, counterexample to the claim as stated: two replication states track the sample
scene, and component 4 carries the replicated ID 3 and is attached to node 1, whose ID is 1.
After `ComponentAdded`, and after `ComponentRemoved` that follows, the dirty sets are the
ones from before, and ID 1 is in neither. -/
theorem C21_component_hooks_counterexample :
    (Scene.sampleAttached.componentHeap 4).id_ = 3 ∧
    (Scene.sampleAttached.componentHeap 4).node_ = 1 ∧
    (Scene.sampleAttached.nodeHeap 1).id_ = 1 ∧
    Scene.sampleAttached.dirtyNodeSets = [[5], []] ∧
    (Scene.ComponentAdded NodeDecl.sample Scene.sampleAttached 4).dirtyNodeSets = [[5], []] ∧
    Scene.GetComponent NodeDecl.sample
      (Scene.ComponentAdded NodeDecl.sample Scene.sampleAttached 4) 3 = 4 ∧
    (Scene.ComponentRemoved NodeDecl.sample
      (Scene.ComponentAdded NodeDecl.sample Scene.sampleAttached 4) 4).dirtyNodeSets =
        [[5], []] := by
  decide

/-- C21, amended: `ComponentAdded` and `ComponentRemoved` keep the component maps, the
warning log and the component IDs only.  For every component, whatever its ID and its
node, the replication states tracked by the scene with their dirty sets, the sets
`networkUpdateNodes_` and `networkUpdateComponents_` and the nodes are after the call what
they were before. -/
theorem C21_component_hooks_keep_dirty_sets (d : NodeDecl) (s : Scene) (c : Ptr) :
    ((Scene.ComponentAdded d s c).networkState_ = s.networkState_ ∧
      (Scene.ComponentAdded d s c).dirtyNodeSets = s.dirtyNodeSets ∧
      (Scene.ComponentAdded d s c).networkUpdateNodes_ = s.networkUpdateNodes_ ∧
      (Scene.ComponentAdded d s c).networkUpdateComponents_ = s.networkUpdateComponents_ ∧
      (Scene.ComponentAdded d s c).nodeHeap = s.nodeHeap) ∧
    ((Scene.ComponentRemoved d s c).networkState_ = s.networkState_ ∧
      (Scene.ComponentRemoved d s c).dirtyNodeSets = s.dirtyNodeSets ∧
      (Scene.ComponentRemoved d s c).networkUpdateNodes_ = s.networkUpdateNodes_ ∧
      (Scene.ComponentRemoved d s c).networkUpdateComponents_ = s.networkUpdateComponents_ ∧
      (Scene.ComponentRemoved d s c).nodeHeap = s.nodeHeap) := by
  obtain ⟨a1, a2, a3, a4⟩ := Scene.network_ComponentAdded d s c
  obtain ⟨b1, b2, b3, b4⟩ := Scene.network_ComponentRemoved d s c
  exact ⟨⟨a1, by simp only [Scene.dirtyNodeSets, a1], a2, a3, a4⟩,
    ⟨b1, by simp only [Scene.dirtyNodeSets, b1], b2, b3, b4⟩⟩

/-- C22 fails on the code in two cases.  (1) The components 4 and 5 both carry ID 0:
after `ComponentAdded(4)` and `ComponentAdded(5)` the lookup of 0 returns 5, and the later
`ComponentRemoved(4)` erases the entry of key 0, which is that of 5: the lookup of 0 is
null.  (2) The components 4 and 5 both carry ID 3 and 5 is registered under 3 already:
`ComponentAdded(4)` resets the ID of 5 to 0, and after `ComponentAdded(5)` the lookup of 3
returns 4, not 5, whose ID is 0. -/
theorem C22_duplicate_component_id_counterexample :
    ((Component.SetID (Component.SetID Scene.sample 4 0) 5 0).componentHeap 4).id_ = 0 ∧
    ((Component.SetID (Component.SetID Scene.sample 4 0) 5 0).componentHeap 5).id_ = 0 ∧
    Scene.GetComponent NodeDecl.sample (Scene.ComponentAdded NodeDecl.sample
      (Scene.ComponentAdded NodeDecl.sample
        (Component.SetID (Component.SetID Scene.sample 4 0) 5 0) 4) 5) 0 = 5 ∧
    Scene.GetComponent NodeDecl.sample (Scene.ComponentRemoved NodeDecl.sample
      (Scene.ComponentAdded NodeDecl.sample (Scene.ComponentAdded NodeDecl.sample
        (Component.SetID (Component.SetID Scene.sample 4 0) 5 0) 4) 5) 4) 0 = 0 ∧
    ((Scene.ComponentAdded NodeDecl.sample
      (Component.SetID (Component.SetID Scene.sample 4 3) 5 3) 5).componentHeap 4).id_ = 3 ∧
    ((Scene.ComponentAdded NodeDecl.sample
      (Component.SetID (Component.SetID Scene.sample 4 3) 5 3) 5).componentHeap 5).id_ = 3 ∧
    Scene.GetComponent NodeDecl.sample (Scene.ComponentAdded NodeDecl.sample
      (Component.SetID (Component.SetID Scene.sample 4 3) 5 3) 5) 3 = 5 ∧
    Scene.GetComponent NodeDecl.sample (Scene.ComponentAdded NodeDecl.sample
      (Scene.ComponentAdded NodeDecl.sample (Scene.ComponentAdded NodeDecl.sample
        (Component.SetID (Component.SetID Scene.sample 4 3) 5 3) 5) 4) 5) 3 = 4 ∧
    ((Scene.ComponentAdded NodeDecl.sample
      (Scene.ComponentAdded NodeDecl.sample (Scene.ComponentAdded NodeDecl.sample
        (Component.SetID (Component.SetID Scene.sample 4 3) 5 3) 5) 4) 5).componentHeap 5).id_
      = 0 := by
  decide

/-- C22, amended: duplicate component ID.  Let `c1` and `c2` be distinct components that
carry the same ID `i`, `c2` not being registered under `i` yet.  After `ComponentAdded(c1)`
followed by `ComponentAdded(c2)`, `GetComponent(i)` returns `c2`, the second call has
logged one warning and nothing else, the ID of `c1` is 0 and `c2` keeps `i`; where every
registered component was registered under its own ID, `c1` is registered under no ID.
After a later `ComponentRemoved(c1)`, `c2` still carries `i`; when `i` is not 0,
`GetComponent(i)` still returns `c2`; when `i` is 0, the call has erased the entry of key
0 and `GetComponent(0)` is null. -/
theorem C22_duplicate_component_id (d : NodeDecl) (s : Scene) (c1 c2 : Ptr) (h1 : c1 ≠ 0)
    (h2 : c2 ≠ 0) (h12 : c1 ≠ c2)
    (hid : (s.componentHeap c2).id_ = (s.componentHeap c1).id_)
    (hnew : Scene.GetComponent d s (s.componentHeap c1).id_ ≠ c2)
    (hreg : Scene.ComponentsByID d s) :
    Scene.GetComponent d (Scene.ComponentAdded d (Scene.ComponentAdded d s c1) c2)
      (s.componentHeap c1).id_ = c2 ∧
    (Scene.ComponentAdded d (Scene.ComponentAdded d s c1) c2).log =
      (Scene.ComponentAdded d s c1).log ++ [(LOG_WARNING,
        "Overwriting component with ID " ++ String.ofUnsigned (s.componentHeap c1).id_)] ∧
    ((Scene.ComponentAdded d (Scene.ComponentAdded d s c1) c2).componentHeap c1).id_ = 0 ∧
    ((Scene.ComponentAdded d (Scene.ComponentAdded d s c1) c2).componentHeap c2).id_ =
      (s.componentHeap c1).id_ ∧
    (∀ k, Scene.GetComponent d (Scene.ComponentAdded d (Scene.ComponentAdded d s c1) c2) k
      ≠ c1) ∧
    ((s.componentHeap c1).id_ ≠ 0 →
      Scene.GetComponent d (Scene.ComponentRemoved d
        (Scene.ComponentAdded d (Scene.ComponentAdded d s c1) c2) c1)
        (s.componentHeap c1).id_ = c2) ∧
    ((s.componentHeap c1).id_ = 0 →
      Scene.GetComponent d (Scene.ComponentRemoved d
        (Scene.ComponentAdded d (Scene.ComponentAdded d s c1) c2) c1) 0 = 0) ∧
    ((Scene.ComponentRemoved d
      (Scene.ComponentAdded d (Scene.ComponentAdded d s c1) c2) c1).componentHeap c2).id_ =
      (s.componentHeap c1).id_ := by
  have hfind2 : HashMap.Find (Scene.componentMapOf d s (s.componentHeap c1).id_)
      (s.componentHeap c1).id_ ≠ some c2 := by
    intro hf
    apply hnew
    rw [Scene.GetComponent_eq, hf]
    rfl
  -- the first call leaves `c2` as it was
  have hc2 : (Scene.ComponentAdded d s c1).componentHeap c2 = s.componentHeap c2 := by
    rw [Scene.componentHeap_ComponentAdded d s c1 h1, if_neg]
    rintro ⟨_, hf⟩
    exact hfind2 hf
  have hc1 : (Scene.ComponentAdded d s c1).componentHeap c1 = s.componentHeap c1 := by
    rw [Scene.componentHeap_ComponentAdded d s c1 h1, if_neg]
    rintro ⟨hne, _⟩
    exact hne rfl
  have hid2 : ((Scene.ComponentAdded d s c1).componentHeap c2).id_ =
      (s.componentHeap c1).id_ := by rw [hc2, hid]
  have hfind1 : HashMap.Find (Scene.componentMapOf d (Scene.ComponentAdded d s c1)
      (s.componentHeap c1).id_) (s.componentHeap c1).id_ = some c1 := by
    rw [Scene.Find_ComponentAdded d s c1 h1, if_pos rfl]
  -- the heap after the second call
  have hheap1 : (Scene.ComponentAdded d (Scene.ComponentAdded d s c1) c2).componentHeap c1 =
      { (s.componentHeap c1) with id_ := 0 } := by
    rw [Scene.componentHeap_ComponentAdded d _ c2 h2, hid2, if_pos ⟨h12, hfind1⟩, hc1]
  have hheap2 : (Scene.ComponentAdded d (Scene.ComponentAdded d s c1) c2).componentHeap c2 =
      s.componentHeap c2 := by
    rw [Scene.componentHeap_ComponentAdded d _ c2 h2, if_neg, hc2]
    rintro ⟨hne, _⟩
    exact hne rfl
  have hget : ∀ k, Scene.GetComponent d
      (Scene.ComponentAdded d (Scene.ComponentAdded d s c1) c2) k =
      if k = (s.componentHeap c1).id_ then c2 else Scene.GetComponent d s k := by
    intro k
    rw [Scene.GetComponent_ComponentAdded d _ c2 h2, hid2,
      Scene.GetComponent_ComponentAdded d s c1 h1]
    by_cases hk : k = (s.componentHeap c1).id_
    · simp [hk]
    · simp [hk]
  have hid1 : ((Scene.ComponentAdded d (Scene.ComponentAdded d s c1) c2).componentHeap c1).id_
      = 0 := by rw [hheap1]
  refine ⟨?_, ?_, hid1, by rw [hheap2, hid], ?_, ?_, ?_, ?_⟩
  · rw [hget, if_pos rfl]
  · rw [Scene.log_ComponentAdded d _ c2 h2, hid2, hfind1]
    simp [h12]
  · intro k hk
    rw [hget] at hk
    by_cases hki : k = (s.componentHeap c1).id_
    · rw [if_pos hki] at hk
      exact h12 hk.symm
    · rw [if_neg hki, Scene.GetComponent_eq] at hk
      cases hf : HashMap.Find (Scene.componentMapOf d s k) k with
      | none =>
        rw [hf] at hk
        exact h1 hk.symm
      | some v =>
        rw [hf] at hk
        have hv : v = c1 := hk
        have := hreg k v hf
        rw [hv] at this
        exact hki this.symm
  · intro hi
    rw [Scene.GetComponent_ComponentRemoved d _ c1 h1, hid1, if_neg hi, hget, if_pos rfl]
  · intro _
    rw [Scene.GetComponent_ComponentRemoved d _ c1 h1, hid1, if_pos rfl]
  · rw [Scene.componentHeap_ComponentRemoved d _ c1 h1, if_neg (fun e => h12 e.symm), hheap2,
      hid]

/-- C22 at a concrete input: the components 4 and 5 both carry ID 3 and are added to the
sample scene, whose component maps are empty, in that order; then 4 is removed. -/
theorem C22_duplicate_component_id_witness :
    Scene.GetComponent NodeDecl.sample (Scene.ComponentAdded NodeDecl.sample
      (Scene.ComponentAdded NodeDecl.sample
        (Component.SetID (Component.SetID Scene.sample 4 3) 5 3) 4) 5) 3 = 5 ∧
    ((Scene.ComponentAdded NodeDecl.sample (Scene.ComponentAdded NodeDecl.sample
        (Component.SetID (Component.SetID Scene.sample 4 3) 5 3) 4) 5).componentHeap 4).id_ =
      0 ∧
    Scene.GetComponent NodeDecl.sample (Scene.ComponentRemoved NodeDecl.sample
      (Scene.ComponentAdded NodeDecl.sample (Scene.ComponentAdded NodeDecl.sample
        (Component.SetID (Component.SetID Scene.sample 4 3) 5 3) 4) 5) 4) 3 = 5 :=
  have h := C22_duplicate_component_id NodeDecl.sample
    (Component.SetID (Component.SetID Scene.sample 4 3) 5 3) 4 5 (by decide) (by decide)
    (by decide) (by decide) (by decide)
    (fun k v hf => by
      simp [Scene.componentMapOf, Component.SetID, Scene.sample, Scene.NodeAdded,
        Node.SetID, Node.SetScene, Scene.initialised, Scene.MarkReplicationDirty,
        Scene.MarkNetworkUpdate, HashMap.Find, Node.constructed, NodeDecl.sample] at hf)
  ⟨h.1, h.2.2.1, h.2.2.2.2.2.1 (by decide)⟩



/-! ## Claims on collision shapes and script instances -/

theorem CollisionShape.OnSetAttribute_recreates (fabs : F32 → F32) (c : CollisionShape)
    (attr : AttributeWrite) (h : attr.recreates = true) :
    (CollisionShape.OnSetAttribute fabs c attr).recreateGeometry_ = true ∧
    (CollisionShape.OnSetAttribute fabs c attr).createGeometryCalls = c.createGeometryCalls ∧
    (CollisionShape.OnSetAttribute fabs c attr).geometry_ = c.geometry_ ∧
    (CollisionShape.OnSetAttribute fabs c attr).log = c.log := by
  cases attr with
  | IsPhantom src => exact absurd h (by simp [AttributeWrite.recreates])
  | ShapeType src => exact ⟨rfl, rfl, rfl, rfl⟩
  | Size src => exact ⟨rfl, rfl, rfl, rfl⟩
  | LODLevel src => exact ⟨rfl, rfl, rfl, rfl⟩
  | HullThickness src => exact ⟨rfl, rfl, rfl, rfl⟩

theorem CollisionShape.OnSetAttribute_sequence (fabs : F32 → F32) (attrs : List AttributeWrite)
    (c : CollisionShape) (h : ∀ attr ∈ attrs, attr.recreates = true) :
    (attrs ≠ [] → (attrs.foldl (CollisionShape.OnSetAttribute fabs) c).recreateGeometry_ = true) ∧
    (attrs.foldl (CollisionShape.OnSetAttribute fabs) c).createGeometryCalls =
      c.createGeometryCalls ∧
    (attrs.foldl (CollisionShape.OnSetAttribute fabs) c).geometry_ = c.geometry_ := by
  induction attrs using List.reverseRecOn with
  | nil => exact ⟨fun h => absurd rfl h, rfl, rfl⟩
  | append_singleton rest attr ih =>
    obtain ⟨_, i2, i3⟩ := ih (fun a ha => h a (List.mem_append_left _ ha))
    obtain ⟨a1, a2, a3, _⟩ := CollisionShape.OnSetAttribute_recreates fabs
      (rest.foldl (CollisionShape.OnSetAttribute fabs) c) attr
      (h attr (List.mem_append_right _ (List.mem_singleton_self _)))
    rw [List.foldl_append, List.foldl_cons, List.foldl_nil]
    exact ⟨fun _ => a1, a2.trans i2, a3.trans i3⟩

/-- C23: deferred rebuild.  Each `OnSetAttribute` call on the size, the shape type, the
hull thickness or the LOD level sets `recreateGeometry_` and neither calls `CreateGeometry`
nor changes the geometry; so does every non-empty sequence of such calls.  The
`ApplyAttributes` that follows calls `CreateGeometry` once and clears the flag, and a second
`ApplyAttributes` changes nothing, so calls it no more.  A size written through
`OnSetAttribute` is stored as its component-wise absolute value. -/
theorem C23_deferred_rebuild (fabs : F32 → F32) (build : CollisionShape → CollisionShape)
    (c : CollisionShape) (attrs : List AttributeWrite) (hne : attrs ≠ [])
    (hattrs : ∀ attr ∈ attrs, attr.recreates = true) :
    (∀ (c1 : CollisionShape) (attr : AttributeWrite), attr.recreates = true →
      (CollisionShape.OnSetAttribute fabs c1 attr).recreateGeometry_ = true ∧
      (CollisionShape.OnSetAttribute fabs c1 attr).createGeometryCalls =
        c1.createGeometryCalls ∧
      (CollisionShape.OnSetAttribute fabs c1 attr).geometry_ = c1.geometry_) ∧
    (attrs.foldl (CollisionShape.OnSetAttribute fabs) c).recreateGeometry_ = true ∧
    (attrs.foldl (CollisionShape.OnSetAttribute fabs) c).createGeometryCalls =
      c.createGeometryCalls ∧
    (attrs.foldl (CollisionShape.OnSetAttribute fabs) c).geometry_ = c.geometry_ ∧
    (CollisionShape.ApplyAttributes build
      (attrs.foldl (CollisionShape.OnSetAttribute fabs) c)).createGeometryCalls =
      c.createGeometryCalls + 1 ∧
    (CollisionShape.ApplyAttributes build
      (attrs.foldl (CollisionShape.OnSetAttribute fabs) c)).recreateGeometry_ = false ∧
    CollisionShape.ApplyAttributes build (CollisionShape.ApplyAttributes build
      (attrs.foldl (CollisionShape.OnSetAttribute fabs) c)) =
      CollisionShape.ApplyAttributes build
        (attrs.foldl (CollisionShape.OnSetAttribute fabs) c) ∧
    (∀ (c1 : CollisionShape) (src : Vector3),
      (CollisionShape.OnSetAttribute fabs c1 (AttributeWrite.Size src)).size_ =
        Vector3.Abs fabs src) := by
  obtain ⟨s1, s2, s3⟩ := CollisionShape.OnSetAttribute_sequence fabs attrs c hattrs
  have hflag := s1 hne
  have happly : ∀ c1 : CollisionShape, c1.recreateGeometry_ = true →
      (CollisionShape.ApplyAttributes build c1).createGeometryCalls =
        c1.createGeometryCalls + 1 ∧
      (CollisionShape.ApplyAttributes build c1).recreateGeometry_ = false := by
    intro c1 h1
    simp only [CollisionShape.ApplyAttributes, h1, if_true, CollisionShape.CreateGeometry]
    by_cases hw : c1.physicsWorld_ = 0
    · simp [hw]
    · simp [hw]
  obtain ⟨a1, a2⟩ := happly _ hflag
  refine ⟨fun c1 attr h => ?_, hflag, s2, s3, by rw [a1, s2], a2, ?_, fun _ _ => rfl⟩
  · obtain ⟨b1, b2, b3, _⟩ := CollisionShape.OnSetAttribute_recreates fabs c1 attr h
    exact ⟨b1, b2, b3⟩
  · generalize CollisionShape.ApplyAttributes build
      (attrs.foldl (CollisionShape.OnSetAttribute fabs) c) = c2 at a2
    simp only [CollisionShape.ApplyAttributes, a2, Bool.false_eq_true, if_false]

/-- C23 at a concrete input: a negative-looking size and a shape type are written to the
sample shape, then the attributes are applied twice. -/
theorem C23_deferred_rebuild_witness :
    (CollisionShape.ApplyAttributes CollisionShape.sampleBuild
      ([AttributeWrite.Size { x_ := 5, y_ := 6, z_ := 7 }, AttributeWrite.ShapeType 1].foldl
        (CollisionShape.OnSetAttribute (fun x => x + 1)) CollisionShape.sample)).createGeometryCalls
      = CollisionShape.sample.createGeometryCalls + 1 ∧
    CollisionShape.ApplyAttributes CollisionShape.sampleBuild
      (CollisionShape.ApplyAttributes CollisionShape.sampleBuild
        ([AttributeWrite.Size { x_ := 5, y_ := 6, z_ := 7 }, AttributeWrite.ShapeType 1].foldl
          (CollisionShape.OnSetAttribute (fun x => x + 1)) CollisionShape.sample)) =
      CollisionShape.ApplyAttributes CollisionShape.sampleBuild
        ([AttributeWrite.Size { x_ := 5, y_ := 6, z_ := 7 }, AttributeWrite.ShapeType 1].foldl
          (CollisionShape.OnSetAttribute (fun x => x + 1)) CollisionShape.sample) :=
  have h := C23_deferred_rebuild (fun x => x + 1) CollisionShape.sampleBuild
    CollisionShape.sample
    [AttributeWrite.Size { x_ := 5, y_ := 6, z_ := 7 }, AttributeWrite.ShapeType 1]
    (by decide) (by decide)
  ⟨h.2.2.2.2.1, h.2.2.2.2.2.2.1⟩

/-- C30, the code at a failing input: `ReleaseObject` sets `scriptObject_` to null before it
erases the entry of `scriptObject_` from the object map, so the key erased is the null
pointer and the entry of the released object stays.  For every instance that holds a
script object the object map after the call is the one the `Stop` script left, without
the entry of the null pointer; the methods and the delayed calls are cleared and
`scriptObject_` is null.  In the sample, `CreateObject` registers instance 30 for the
object 40, and after `ReleaseObject` the lookup of object 40 still returns instance 30. -/
theorem C30_release_keeps_map_entry :
    (∀ (ops : ScriptFileOps) (s : ScriptInstance), s.scriptObject_ ≠ 0 →
      (ScriptInstance.ReleaseObject ops s).scriptObject_ = 0 ∧
      (ScriptInstance.ReleaseObject ops s).methods_ = List.replicate MAX_SCRIPT_METHODS 0 ∧
      (ScriptInstance.ReleaseObject ops s).delayedMethodCalls_ = [] ∧
      (ScriptInstance.ReleaseObject ops s).objectMap =
        HashMap.Erase
          (if s.methods_.getD METHOD_STOP 0 ≠ 0 then
            ScriptInstance.Execute ops s s.scriptObject_ (s.methods_.getD METHOD_STOP 0)
          else s).objectMap 0 ∧
      ((∀ object method t, (ops.Execute object method t).objectMap = t.objectMap) →
        HashMap.Find (ScriptInstance.ReleaseObject ops s).objectMap s.scriptObject_ =
          HashMap.Find s.objectMap s.scriptObject_)) ∧
    (ScriptInstance.CreateObject ScriptFileOps.sample ScriptInstance.sample).scriptObject_ = 40 ∧
    (ScriptInstance.CreateObject ScriptFileOps.sample ScriptInstance.sample).objectMap =
      [(41, 31), (40, 30)] ∧
    (ScriptInstance.ReleaseObject ScriptFileOps.sample
      (ScriptInstance.CreateObject ScriptFileOps.sample ScriptInstance.sample)).scriptObject_
      = 0 ∧
    (ScriptInstance.ReleaseObject ScriptFileOps.sample
      (ScriptInstance.CreateObject ScriptFileOps.sample ScriptInstance.sample)).released
      = [40] ∧
    (ScriptInstance.ReleaseObject ScriptFileOps.sample
      (ScriptInstance.CreateObject ScriptFileOps.sample ScriptInstance.sample)).objectMap =
      [(41, 31), (40, 30)] ∧
    GetScriptContextInstance (ScriptInstance.ReleaseObject ScriptFileOps.sample
      (ScriptInstance.CreateObject ScriptFileOps.sample ScriptInstance.sample)) 40 = 30 := by
  refine ⟨?_, by decide, by decide, by decide, by decide, by decide, by decide⟩
  intro ops s h
  by_cases hm : s.methods_.getD METHOD_STOP 0 ≠ 0
  · simp only [ScriptInstance.ReleaseObject, h, hm, ne_eq, not_false_eq_true, if_true,
      ScriptInstance.UnsubscribeFromAllEvents, ScriptInstance.ClearMethods,
      ScriptInstance.ClearDelayedExecute, ScriptInstance.Execute]
    refine ⟨trivial, trivial, trivial, trivial, ?_⟩
    intro hkeep
    rw [HashMap.Find_Erase_other _ _ _ h, hkeep]
  · simp only [ScriptInstance.ReleaseObject, h, hm, ne_eq, not_false_eq_true, if_true,
      if_false, ScriptInstance.UnsubscribeFromAllEvents, ScriptInstance.ClearMethods,
      ScriptInstance.ClearDelayedExecute]
    refine ⟨trivial, trivial, trivial, trivial, ?_⟩
    intro _
    rw [HashMap.Find_Erase_other _ _ _ h]



/-! ## The class `String`: runs on samples -/

theorem Str.samples_built :
    Str.ofChars [97, 98, 99] = some Str.sampleAbc ∧
    Str.ofChars [97, 98, 99, 100, 101, 102, 103] = some Str.sampleSeven ∧
    Str.ofChars [104, 105] = some Str.sampleHi ∧
    Str.Append Str.sampleSeven Str.sampleHi = some Str.sampleGrown ∧
    (Str.ofChars [97, 98, 99, 100, 119, 120, 121]).bind (fun s => Str.Resize s 4) =
      some Str.sampleShrunk ∧
    Str.ofChars [97, 98, 99, 100, 101, 102, 103, 104] = some Str.sampleEight ∧
    Str.ofChars [97] = some Str.sampleA ∧
    Str.ofChars [49, 50, 51, 52, 53] = some Str.sampleDigits ∧
    Str.ofChars [59, 97] = some Str.sampleLeading ∧
    Str.ofChars [97, 59, 59, 98, 59] = some Str.sampleRuns := by
  decide

/-- C28: the code takes the sum `pos + length` in 32 bits.  On "abc" with `pos = 1` and
`length = 0xFFFFFFFF` the sum wraps to 0, the test `pos + length > length_` fails and the
length is not clamped: `Resize(0xFFFFFFFF)` allocates `MIN_CAPACITY` cells and writes the
terminator at index `0xFFFFFFFF`, outside the buffer.  With `length = 0xFFFFFFFE` the sum
does not wrap and the result is "bc". -/
theorem C28_substring_length_wraps :
    Str.ofChars [97, 98, 99] = some Str.sampleAbc ∧
    (1 + 0xFFFFFFFF) % 2 ^ 32 = 0 ∧
    Str.Substring Str.sampleAbc 1 0xFFFFFFFF = none ∧
    Str.Resize Str.empty 0xFFFFFFFF = none ∧
    Str.setChar
      { Str.empty with capacity_ := MIN_CAPACITY, buffer_ := List.replicate MIN_CAPACITY none }
      0xFFFFFFFF 0 = none ∧
    (Str.Substring Str.sampleAbc 1 0xFFFFFFFE).map Str.chars = some [98, 99] := by
  decide

/-- C25: after `Resize` the member `length_` is the new length, and the code passes
`length_ - pos - length` to `MoveRange`, which is the length of the tail plus the growth.
(1) On "abcdefghi" in a buffer of 12 cells, replacing 1 character at 0 by "XYZ" moves 10
cells to index 3, beyond the buffer.  (2) On "abcdefg" in a buffer of 8 cells, replacing
1 character at 0 by "XY" gives "XYbcdefg" in a new buffer whose cell 8, the terminator
that `Resize` wrote, is overwritten by the indeterminate cell 7.  (3) On "abcd" in a buffer
of 8 cells, replacing 1 character at 1 by "XYZ" gives "aXYZcd" with length 6, and cell 7,
which held 0, holds 120 afterwards. -/
theorem C25_splice_moves_too_much :
    Str.Append Str.sampleSeven Str.sampleHi = some Str.sampleGrown ∧
    Str.ReplaceInPlace Str.sampleGrown 0 1 [some 88, some 89, some 90, some 0] 3 = none ∧
    Str.ReplaceInPlace Str.sampleSeven 0 1 [some 88, some 89, some 0] 2 =
      some { length_ := 8, capacity_ := 12
             buffer_ := [some 88, some 89, some 98, some 99, some 100, some 101, some 102,
               some 103, none, none, none, none] } ∧
    Str.ReplaceInPlace Str.sampleShrunk 1 1 [some 88, some 89, some 90, some 0] 3 =
      some { length_ := 6, capacity_ := 8
             buffer_ := [some 97, some 88, some 89, some 90, some 99, some 100, some 0,
               some 120] } ∧
    Str.sampleShrunk.buffer_.getD 7 none = some 0 := by
  decide

/-- C29: `Replace` runs the splice of `ReplaceInPlace` on a copy.  On "abcdefgh", replacing
"a" by "12345" finds "a" at 0, resizes the copy to length 12 in a new buffer of 14 cells
and moves 11 cells to index 5, beyond the buffer.  Replacing "a" by "a" or by a string
that does not grow the text returns the expected text. -/
theorem C29_replace_overruns_buffer :
    Str.copy Str.sampleEight = some Str.sampleEight ∧
    Str.Find Str.sampleEight Str.sampleA 0 = some 0 ∧
    Str.ReplaceInPlaceAt Str.sampleEight 0 1 Str.sampleDigits = none ∧
    Str.Replace Str.sampleEight Str.sampleA Str.sampleDigits = none ∧
    (Str.Replace Str.sampleEight Str.sampleA Str.sampleA).map Str.chars =
      some [97, 98, 99, 100, 101, 102, 103, 104] ∧
    (Str.Replace Str.sampleDigits Str.sampleA Str.sampleHi).map Str.chars =
      some [49, 50, 51, 52, 53] := by
  decide

/-- C26: a separator at the start of the string yields an empty first element: ";a" splits
at `;` into "" and "a", while "a;;b;" splits into "a" and "b", the empty pieces between
two separators and behind the last one left out. -/
theorem C26_split_leading_separator :
    (Str.Split Str.sampleLeading 59).map (fun pieces => pieces.map Str.chars) =
      some [[], [97]] ∧
    (Str.Split Str.sampleRuns 59).map (fun pieces => pieces.map Str.chars) =
      some [[97], [98]] := by
  decide

/-! ## Lemmas on the characters of a string -/

theorem Str.charAt_of_holds (s : Str) (cs : List Nat) (h : s.Holds cs) (i : Nat) :
    s.charAt i = cs[i]? := by
  obtain ⟨hl, _, _, hb⟩ := h
  unfold Str.charAt
  by_cases hi : i < cs.length
  · have h1 := congrArg (fun l => l[i]?) hb
    simp only [List.getElem?_take, hi, if_true, List.getElem?_map] at h1
    rw [List.getD_eq_getElem?_getD, h1]
    simp [hl, hi]
  · have h2 : cs[i]? = none := List.getElem?_eq_none (by omega)
    simp [hl, hi, h2]

theorem Str.length_lt_of_holds (s : Str) (cs : List Nat) (h : s.Holds cs) :
    cs.length < 2 ^ 32 - 1 := by
  obtain ⟨_, hc, hshape, _⟩ := h
  rcases hshape with ⟨_, rfl⟩ | ⟨h1, _⟩
  · simp
  · omega

theorem OccursAt_iff (cs ps : List Nat) (i : Nat) :
    OccursAt cs ps i ↔
      i + ps.length ≤ cs.length ∧ ∀ k, k < ps.length → cs[i + k]? = ps[k]? := by
  unfold OccursAt
  constructor
  · rintro ⟨h1, h2⟩
    refine ⟨h1, fun k hk => ?_⟩
    have h3 := congrArg (fun l => l[k]?) h2
    simp only [List.getElem?_take, hk, if_true, List.getElem?_drop] at h3
    exact h3
  · rintro ⟨h1, h2⟩
    refine ⟨h1, List.ext_getElem? (fun k => ?_)⟩
    by_cases hk : k < ps.length
    · simp only [List.getElem?_take, hk, if_true, List.getElem?_drop]
      exact h2 k hk
    · simp only [List.getElem?_take, hk, if_false]
      exact (List.getElem?_eq_none (by omega)).symm

theorem OccursAt_first (cs ps : List Nat) (i first : Nat) (hfirst : ps[0]? = some first)
    (h : OccursAt cs ps i) : cs[i]? = some first := by
  have hpos : 0 < ps.length := by
    rcases ps with _ | ⟨a, l⟩
    · simp at hfirst
    · simp
  have := ((OccursAt_iff cs ps i).1 h).2 0 hpos
  rw [Nat.add_zero] at this
  rw [this, hfirst]

theorem Str.findInner_spec (s p : Str) (cs ps : List Nat) (hs : s.Holds cs) (hp : p.Holds ps)
    (first i : Nat) (hi : i + ps.length ≤ cs.length) :
    ∀ (n j skip : Nat), j + n = ps.length → 1 ≤ j →
      (∀ k, k < j → cs[i + k]? = ps[k]?) →
      (skip = NPOS → ∀ k, 1 ≤ k → k < j → cs[i + k]? ≠ some first) →
      (skip ≠ NPOS → i ≤ skip ∧ skip < i + j ∧
        ∀ k, i < k → k ≤ skip → cs[k]? ≠ some first) →
      (∀ k, OccursAt cs ps k → cs[k]? = some first) →
      ∃ found i2, Str.findInner s p first i n j skip = some (found, i2) ∧
        (found = true → i2 = i ∧ OccursAt cs ps i) ∧
        (found = false → i ≤ i2 ∧ i2 < cs.length ∧
          ∀ k, i ≤ k → k ≤ i2 → ¬ OccursAt cs ps k) := by
  have hlen := Str.length_lt_of_holds s cs hs
  intro n
  induction n with
  | zero =>
    intro j skip hj _ hmatch _ _ _
    refine ⟨true, i, rfl, fun _ => ⟨rfl, ?_⟩, fun h => by simp at h⟩
    rw [OccursAt_iff]
    exact ⟨hi, fun k hk => hmatch k (by omega)⟩
  | succ n ih =>
    intro j skip hj hj1 hmatch hnone hskip hocc
    have hjlt : j < ps.length := by omega
    have hij : i + j < cs.length := by omega
    have hmod : (i + j) % 2 ^ 32 = i + j := Nat.mod_eq_of_lt (by omega)
    have hmod1 : (i + j - 1) % 2 ^ 32 = i + j - 1 := Nat.mod_eq_of_lt (by omega)
    have hc : s.charAt (i + j) = some cs[i + j] := by
      rw [Str.charAt_of_holds s cs hs, List.getElem?_eq_getElem hij]
    have hq : p.charAt j = some ps[j] := by
      rw [Str.charAt_of_holds p ps hp, List.getElem?_eq_getElem hjlt]
    have hcs : cs[i + j]? = some cs[i + j] := List.getElem?_eq_getElem hij
    have hps : ps[j]? = some ps[j] := List.getElem?_eq_getElem hjlt
    rw [Str.findInner, hmod, hmod1, hc, hq]
    simp only []
    -- the value of `skip` after this round
    have hskip2 : ∀ skip2, skip2 = (if skip = NPOS ∧ cs[i + j] = first then i + j - 1 else skip) →
        (skip2 ≠ NPOS → i ≤ skip2 ∧ skip2 < i + (j + 1) ∧
          ∀ k, i < k → k ≤ skip2 → cs[k]? ≠ some first) ∧
        (skip2 = NPOS → ∀ k, 1 ≤ k → k < j + 1 → cs[i + k]? ≠ some first) := by
      intro skip2 h2
      by_cases hA : skip = NPOS ∧ cs[i + j] = first
      · rw [if_pos hA] at h2
        subst h2
        refine ⟨fun _ => ⟨by omega, by omega, fun k hk1 hk2 => ?_⟩, fun h => ?_⟩
        · have := hnone hA.1 (k - i) (by omega) (by omega)
          rwa [show i + (k - i) = k by omega] at this
        · exfalso
          unfold NPOS at h
          omega
      · rw [if_neg hA] at h2
        subst h2
        refine ⟨fun h => ?_, fun h k hk1 hk2 => ?_⟩
        · obtain ⟨a, b, c⟩ := hskip h
          exact ⟨a, by omega, c⟩
        · by_cases hk : k < j
          · exact hnone h k hk1 hk
          · have hkj : k = j := by omega
            subst hkj
            rw [hcs]
            intro heq
            exact hA ⟨h, Option.some.inj heq⟩
    obtain ⟨hs2a, hs2b⟩ := hskip2 _ rfl
    by_cases hcp : cs[i + j] = ps[j]
    · simp only [hcp, ne_eq, not_true_eq_false, if_false]
      rw [← hcp]
      refine ih (j + 1) _ (by omega) (by omega) (fun k hk => ?_) hs2b hs2a hocc
      by_cases hk2 : k < j
      · exact hmatch k hk2
      · have hkj : k = j := by omega
        subst hkj
        rw [hcs, hps, hcp]
    · simp only [ne_eq, hcp, not_false_eq_true, if_true]
      have hnot : ¬ OccursAt cs ps i := by
        intro h
        have := ((OccursAt_iff cs ps i).1 h).2 j hjlt
        rw [hcs, hps] at this
        exact hcp (Option.some.inj this)
      refine ⟨false, _, rfl, fun h => by simp at h, fun _ => ?_⟩
      by_cases hn : (if skip = NPOS ∧ cs[i + j] = first then i + j - 1 else skip) = NPOS
      · rw [if_neg (by simpa using hn)]
        refine ⟨le_refl _, by omega, fun k hk1 hk2 => ?_⟩
        have : k = i := by omega
        subst this
        exact hnot
      · rw [if_pos (by simpa using hn)]
        obtain ⟨a, b, c⟩ := hs2a hn
        refine ⟨a, by omega, fun k hk1 hk2 hk => ?_⟩
        by_cases hki : k = i
        · subst hki
          exact hnot hk
        · exact c k (by omega) hk2 (hocc k hk)

theorem Str.findFrom_spec (s p : Str) (cs ps : List Nat) (hs : s.Holds cs) (hp : p.Holds ps)
    (first : Nat) (hfirst : ps[0]? = some first) (hle : ps.length ≤ cs.length) :
    ∀ (fuel i : Nat), cs.length - ps.length + 1 - i ≤ fuel →
      ∃ r, Str.findFrom s p first fuel i = some r ∧
        ((r = NPOS ∧ ∀ k, i ≤ k → ¬ OccursAt cs ps k) ∨
          (i ≤ r ∧ OccursAt cs ps r ∧ ∀ k, i ≤ k → k < r → ¬ OccursAt cs ps k)) := by
  have hlen := Str.length_lt_of_holds s cs hs
  have hpos : 0 < ps.length := by
    rcases ps with _ | ⟨a, l⟩
    · simp at hfirst
    · simp
  have hocc : ∀ k, OccursAt cs ps k → cs[k]? = some first :=
    fun k hk => OccursAt_first cs ps k first hfirst hk
  have hbeyond : ∀ i, ¬ i ≤ cs.length - ps.length → ∀ k, i ≤ k → ¬ OccursAt cs ps k := by
    intro i h k hk hoc
    have := hoc.1
    omega
  intro fuel
  induction fuel with
  | zero =>
    intro i hfuel
    have h : ¬ i ≤ s.length_ - p.length_ := by
      rw [hs.1, hp.1]
      omega
    rw [Str.findFrom, if_neg h]
    exact ⟨NPOS, rfl, Or.inl ⟨rfl, hbeyond i (by rw [hs.1, hp.1] at h; exact h)⟩⟩
  | succ fuel ih =>
    intro i hfuel
    by_cases h : i ≤ cs.length - ps.length
    · have h2 : i ≤ s.length_ - p.length_ := by
        rw [hs.1, hp.1]
        exact h
      have hil : i < cs.length := by omega
      have hc : s.charAt i = some cs[i] := by
        rw [Str.charAt_of_holds s cs hs, List.getElem?_eq_getElem hil]
      have hcs : cs[i]? = some cs[i] := List.getElem?_eq_getElem hil
      have hmod : (i + 1) % 2 ^ 32 = i + 1 := Nat.mod_eq_of_lt (by omega)
      rw [Str.findFrom, if_pos h2, hc]
      simp only []
      by_cases hf : cs[i] = first
      · rw [if_pos hf]
        obtain ⟨found, i2, hrun, htrue, hfalse⟩ :=
          Str.findInner_spec s p cs ps hs hp first i (by omega) (ps.length - 1) 1 NPOS
            (by omega) (le_refl 1)
            (fun k hk => by
              have : k = 0 := by omega
              subst this
              rw [Nat.add_zero, hcs, hf, hfirst])
            (fun _ k hk1 hk2 => by omega)
            (fun h => absurd rfl h) hocc
        rw [hp.1, hrun]
        cases found with
        | true =>
          obtain ⟨rfl, hoc⟩ := htrue rfl
          exact ⟨i2, rfl, Or.inr ⟨le_refl _, hoc, fun k hk1 hk2 => by omega⟩⟩
        | false =>
          obtain ⟨a, b, c⟩ := hfalse rfl
          have hmod2 : (i2 + 1) % 2 ^ 32 = i2 + 1 := Nat.mod_eq_of_lt (by omega)
          simp only [hmod2]
          obtain ⟨r, hr, hres⟩ := ih (i2 + 1) (by omega)
          refine ⟨r, hr, ?_⟩
          rcases hres with ⟨h1, h2⟩ | ⟨h1, h2, h3⟩
          · refine Or.inl ⟨h1, fun k hk => ?_⟩
            by_cases hk2 : k ≤ i2
            · exact c k hk hk2
            · exact h2 k (by omega)
          · refine Or.inr ⟨by omega, h2, fun k hk hkr => ?_⟩
            by_cases hk2 : k ≤ i2
            · exact c k hk hk2
            · exact h3 k (by omega) hkr
      · rw [if_neg hf, hmod]
        have hnot : ¬ OccursAt cs ps i := by
          intro hoc
          have := hocc i hoc
          rw [hcs] at this
          exact hf (Option.some.inj this)
        obtain ⟨r, hr, hres⟩ := ih (i + 1) (by omega)
        refine ⟨r, hr, ?_⟩
        rcases hres with ⟨h1, h2⟩ | ⟨h1, h2, h3⟩
        · refine Or.inl ⟨h1, fun k hk => ?_⟩
          by_cases hk2 : k = i
          · subst hk2
            exact hnot
          · exact h2 k (by omega)
        · refine Or.inr ⟨by omega, h2, fun k hk hkr => ?_⟩
          by_cases hk2 : k = i
          · subst hk2
            exact hnot
          · exact h3 k (by omega) hkr
    · have h2 : ¬ i ≤ s.length_ - p.length_ := by
        rw [hs.1, hp.1]
        exact h
      rw [Str.findFrom, if_neg h2]
      exact ⟨NPOS, rfl, Or.inl ⟨rfl, hbeyond i h⟩⟩

theorem Str.Find_spec (s p : Str) (cs ps : List Nat) (hs : s.Holds cs) (hp : p.Holds ps)
    (startPos : Nat) :
    ∃ r, Str.Find s p startPos = some r ∧
      (ps = [] ∨ cs.length < ps.length → r = NPOS) ∧
      ((r = NPOS ∧ ∀ k, startPos ≤ k → ¬ (ps ≠ [] ∧ OccursAt cs ps k)) ∨
        (startPos ≤ r ∧ r + ps.length ≤ cs.length ∧ ps ≠ [] ∧ OccursAt cs ps r ∧
          ∀ k, startPos ≤ k → k < r → ¬ OccursAt cs ps k)) := by
  by_cases h : p.length_ = 0 ∨ p.length_ > s.length_
  · refine ⟨NPOS, by rw [Str.Find, if_pos h], fun _ => rfl, Or.inl ⟨rfl, ?_⟩⟩
    rintro k _ ⟨hne, hoc⟩
    rw [hp.1, hs.1] at h
    rcases h with h | h
    · exact hne (List.length_eq_zero.1 h)
    · have := hoc.1
      omega
  · rw [hp.1, hs.1] at h
    have hpos : 0 < ps.length := by omega
    have hle : ps.length ≤ cs.length := by omega
    have hne : ps ≠ [] := fun h0 => by simp [h0] at hpos
    have hfirst : ps[0]? = some ps[0] := List.getElem?_eq_getElem hpos
    have hq : p.charAt 0 = some ps[0] := by
      rw [Str.charAt_of_holds p ps hp, hfirst]
    obtain ⟨r, hr, hres⟩ := Str.findFrom_spec s p cs ps hs hp ps[0] hfirst hle
      (s.length_ + 1) startPos (by rw [hs.1]; omega)
    refine ⟨r, ?_, ?_, ?_⟩
    · rw [Str.Find, if_neg (by rw [hp.1, hs.1]; exact h), hq]
      exact hr
    · rintro (h0 | h0)
      · exact absurd h0 hne
      · omega
    · rcases hres with ⟨h1, h2⟩ | ⟨h1, h2, h3⟩
      · exact Or.inl ⟨h1, fun k hk hh => h2 k hk hh.2⟩
      · exact Or.inr ⟨h1, h2.1, hne, h2, h3⟩

/-- C24: on a string `s` holding the characters `cs` and a pattern `p` holding `ps`,
`Find(p, startPos)` returns: `NPOS` when `ps` is empty or longer than `cs`; for a
non-empty pattern the smallest index from `startPos` on at which `ps` occurs in `cs`, or
`NPOS` when there is none.  The run reads no cell outside the characters of the two
strings, since such a read has no value in the model. -/
theorem C24_find_first_occurrence (s p : Str) (cs ps : List Nat) (startPos : Nat)
    (hs : s.Holds cs) (hp : p.Holds ps) :
    ∃ r, Str.Find s p startPos = some r ∧
      (ps = [] ∨ cs.length < ps.length → r = NPOS) ∧
      (ps ≠ [] →
        (r = NPOS ∧ ∀ k, startPos ≤ k → ¬ OccursAt cs ps k) ∨
        (r ≠ NPOS ∧ startPos ≤ r ∧ OccursAt cs ps r ∧
          ∀ k, startPos ≤ k → k < r → ¬ OccursAt cs ps k)) := by
  obtain ⟨r, hr, h1, h2⟩ := Str.Find_spec s p cs ps hs hp startPos
  refine ⟨r, hr, h1, fun hne => ?_⟩
  rcases h2 with ⟨a, b⟩ | ⟨a, b, _, c, d⟩
  · exact Or.inl ⟨a, fun k hk hoc => b k hk ⟨hne, hoc⟩⟩
  · refine Or.inr ⟨?_, a, c, d⟩
    have := Str.length_lt_of_holds s cs hs
    unfold NPOS
    omega

theorem C24_find_first_occurrence_witness :
    Str.sampleText.Holds [97, 97, 97, 98] ∧ Str.samplePattern.Holds [97, 97, 98] ∧
    Str.Find Str.sampleText Str.samplePattern 0 = some 1 ∧
    ∃ r, Str.Find Str.sampleText Str.samplePattern 0 = some r ∧
      (([97, 97, 98] : List Nat) = [] ∨
        ([97, 97, 97, 98] : List Nat).length < ([97, 97, 98] : List Nat).length → r = NPOS) ∧
      (([97, 97, 98] : List Nat) ≠ [] →
        (r = NPOS ∧ ∀ k, 0 ≤ k → ¬ OccursAt [97, 97, 97, 98] [97, 97, 98] k) ∨
        (r ≠ NPOS ∧ 0 ≤ r ∧ OccursAt [97, 97, 97, 98] [97, 97, 98] r ∧
          ∀ k, 0 ≤ k → k < r → ¬ OccursAt [97, 97, 97, 98] [97, 97, 98] k)) :=
  ⟨by decide, by decide, by decide,
    C24_find_first_occurrence Str.sampleText Str.samplePattern [97, 97, 97, 98] [97, 97, 98] 0
      (by decide) (by decide)⟩

/-! ## Lemmas on the buffer of a string -/

theorem List.take_set_le {α : Type} (l : List α) (a : α) (n m : Nat) (h : m ≤ n) :
    (l.set n a).take m = l.take m :=
  List.ext_getElem? fun i => by
    rw [List.getElem?_take, List.getElem?_take]
    split
    · rw [List.getElem?_set_ne (by omega)]
    · rfl

theorem Str.grow_spec (n : Nat) (hn : n < 2 ^ 31) :
    ∀ (fuel capacity : Nat), 0 < capacity → capacity < 2 ^ 32 → n + 1 - capacity ≤ fuel →
      ∃ c, Str.grow fuel capacity n = some c ∧ n + 1 ≤ c ∧ capacity ≤ c ∧ c < 2 ^ 32 := by
  have hmod : (n + 1) % 2 ^ 32 = n + 1 := Nat.mod_eq_of_lt (by omega)
  intro fuel
  induction fuel with
  | zero =>
    intro capacity _ hc hfuel
    have h : ¬ capacity < n + 1 := by omega
    rw [Str.grow, hmod, if_neg h]
    exact ⟨capacity, rfl, by omega, le_refl _, hc⟩
  | succ fuel ih =>
    intro capacity hpos hc hfuel
    by_cases h : capacity < n + 1
    · have hm2 : (capacity + (capacity + 1) / 2) % 2 ^ 32 = capacity + (capacity + 1) / 2 :=
        Nat.mod_eq_of_lt (by omega)
      rw [Str.grow, hmod, if_pos h, hm2]
      obtain ⟨c, h1, h2, h3, h4⟩ := ih (capacity + (capacity + 1) / 2) (by omega) (by omega)
        (by omega)
      exact ⟨c, h1, h2, by omega, h4⟩
    · rw [Str.grow, hmod, if_neg h]
      exact ⟨capacity, rfl, by omega, le_refl _, hc⟩

/-- What `Resize` leaves behind: the new length, a buffer with room for it, and the old
characters below the smaller of the two lengths. -/
theorem Str.Resize_spec (s : Str) (cs : List Nat) (hs : s.Holds cs) (n : Nat)
    (hn : n < 2 ^ 31) :
    ∃ r, Str.Resize s n = some r ∧ r.length_ = n ∧ r.capacity_ < 2 ^ 32 ∧
      ((r.capacity_ = 0 ∧ n = 0) ∨ (n < r.capacity_ ∧ r.buffer_.length = r.capacity_)) ∧
      r.buffer_.take (min n cs.length) = (cs.take n).map some := by
  obtain ⟨hl, hc, hshape, hb⟩ := hs
  have hmod : (n + 1) % 2 ^ 32 = n + 1 := Nat.mod_eq_of_lt (by omega)
  have hmod2 : (n + 1) % 4294967296 = n + 1 := hmod
  by_cases hsame : n = s.length_
  · refine ⟨s, by rw [Str.Resize, if_pos hsame], hsame.symm, hc, ?_, ?_⟩
    · rcases hshape with ⟨a, b⟩ | ⟨a, b⟩
      · exact Or.inl ⟨a, by rw [hsame, hl, b]; rfl⟩
      · exact Or.inr ⟨by omega, b⟩
    · rw [hsame, hl, Nat.min_self, List.take_length, hb]
  · by_cases hzero : s.capacity_ = 0
    · have hcs : cs = [] := by
        rcases hshape with ⟨_, b⟩ | ⟨a, _⟩
        · exact b
        · omega
      subst hcs
      by_cases h8 : n + 1 < MIN_CAPACITY
      · refine ⟨{ s with
            length_ := n, capacity_ := MIN_CAPACITY
            buffer_ := (List.replicate MIN_CAPACITY none).set n (some 0) }, ?_, rfl, by simp [MIN_CAPACITY],
          Or.inr ⟨by simp only []; omega, by simp⟩, by simp⟩
        simp [Str.Resize, hsame, hzero, hmod, hmod2, h8, Str.setChar]
        omega
      · refine ⟨{ s with
            length_ := n, capacity_ := n + 1
            buffer_ := (List.replicate (n + 1) none).set n (some 0) }, ?_, rfl,
          by simp only []; omega, Or.inr ⟨by simp only []; omega, by simp⟩, by simp⟩
        simp [Str.Resize, hsame, hzero, hmod, hmod2, h8, Str.setChar]
    · have hshape2 : cs.length < s.capacity_ ∧ s.buffer_.length = s.capacity_ := by
        rcases hshape with ⟨a, _⟩ | h
        · exact absurd a hzero
        · exact h
      by_cases hsmall : s.capacity_ < n + 1
      · obtain ⟨c, hg, hc1, hc2, hc3⟩ := Str.grow_spec n hn (n + 1) s.capacity_ (by omega) hc
          (by omega)
        by_cases hlen0 : s.length_ = 0
        · have hcs : cs = [] := List.length_eq_zero.1 (by omega)
          subst hcs
          refine ⟨{ s with
              length_ := n, capacity_ := c
              buffer_ := (List.replicate c none).set n (some 0) }, ?_, rfl, hc3,
            Or.inr ⟨by simp only []; omega, by simp⟩, by simp⟩
          have hn0 : ¬ n = 0 := by omega
          have hfit : n < c := by omega
          simp [Str.Resize, hzero, hmod, hmod2, hsmall, hg, Str.CopyChars, hlen0, Str.setChar,
            hn0, hfit]
        · refine ⟨{ s with
              length_ := n, capacity_ := c
              buffer_ := (s.buffer_.take s.length_ ++
                (List.replicate c none).drop s.length_).set n (some 0) }, ?_, rfl, hc3,
            Or.inr ⟨by simp only []; omega, ?_⟩, ?_⟩
          · have hfit : s.length_ ≤ c ∧ s.length_ ≤ s.buffer_.length := by omega
            simp [Str.Resize, hsame, hzero, hmod, hmod2, hsmall, hg, Str.CopyChars, hlen0, Str.setChar,
              hfit]
            omega
          · simp only [List.length_set, List.length_append, List.length_take, List.length_drop,
              List.length_replicate]
            omega
          · have hmin : min n cs.length = cs.length := by omega
            have htake : cs.take n = cs := List.take_of_length_le (by omega)
            rw [hmin, htake, List.take_set_le _ _ _ _ (by omega), hl, hb, List.take_append_of_le_length
              (by simp)]
            simp
      · refine ⟨{ s with length_ := n, buffer_ := s.buffer_.set n (some 0) }, ?_, rfl, hc,
          Or.inr ⟨by simp only []; omega, by simp [hshape2.2]⟩, ?_⟩
        · have hfit : n < s.capacity_ := by omega
          simp [Str.Resize, hsame, hzero, hmod, hmod2, hsmall, Str.setChar, hfit]
        · simp only []
          rw [List.take_set_le _ _ _ _ (by omega)]
          have := congrArg (List.take (min n cs.length)) hb
          rw [List.take_take, Nat.min_eq_left (by omega)] at this
          rw [this, ← List.map_take]
          congr 1
          by_cases hnl : n ≤ cs.length
          · rw [Nat.min_eq_left hnl]
          · rw [Nat.min_eq_right (by omega), List.take_length,
              List.take_of_length_le (by omega)]

theorem Str.Resize_empty_spec (n : Nat) (hn : n + 1 < 2 ^ 32) :
    ∃ r, Str.Resize Str.empty n = some r ∧ r.length_ = n ∧ r.capacity_ < 2 ^ 32 ∧
      ((r.capacity_ = 0 ∧ n = 0) ∨ (n < r.capacity_ ∧ r.buffer_.length = r.capacity_)) := by
  have hmod : (n + 1) % 2 ^ 32 = n + 1 := Nat.mod_eq_of_lt hn
  have hmod2 : (n + 1) % 4294967296 = n + 1 := hmod
  by_cases hsame : n = 0
  · subst hsame
    exact ⟨Str.empty, rfl, rfl, by decide, Or.inl ⟨rfl, rfl⟩⟩
  · by_cases h8 : n + 1 < MIN_CAPACITY
    · refine ⟨{ length_ := n, capacity_ := MIN_CAPACITY
                buffer_ := (List.replicate MIN_CAPACITY none).set n (some 0) }, ?_, rfl,
        by simp [MIN_CAPACITY], Or.inr ⟨by simp only []; omega, by simp⟩⟩
      have hfit : n < MIN_CAPACITY := by omega
      simp [Str.Resize, Str.empty, hsame, hmod, hmod2, h8, Str.setChar, hfit]
    · refine ⟨{ length_ := n, capacity_ := n + 1
                buffer_ := (List.replicate (n + 1) none).set n (some 0) }, ?_, rfl,
        by simp only []; omega, Or.inr ⟨by simp only []; omega, by simp⟩⟩
      simp [Str.Resize, Str.empty, hsame, hmod, hmod2, h8, Str.setChar]

/-- A string built by `Resize` on an empty string and `CopyChars` from cells that start
with the characters `cs` holds `cs`. -/
theorem Str.fresh_holds (src : List (Option Nat)) (cs : List Nat)
    (hsrc : src.take cs.length = cs.map some) (hn : cs.length + 1 < 2 ^ 32) :
    ∃ ret, Str.Resize Str.empty cs.length = some ret ∧ ret.length_ = cs.length ∧
      ∃ r, Str.CopyChars ret 0 src cs.length = some r ∧ r.Holds cs := by
  obtain ⟨ret, h1, h2, h3, h4⟩ := Str.Resize_empty_spec cs.length hn
  refine ⟨ret, h1, h2, ?_⟩
  by_cases h0 : cs.length = 0
  · have hcs : cs = [] := List.length_eq_zero.1 h0
    subst hcs
    have hret : ret = Str.empty := by
      have : Str.Resize Str.empty 0 = some Str.empty := rfl
      rw [show ([] : List Nat).length = 0 from rfl, this] at h1
      exact (Option.some.inj h1).symm
    subst hret
    exact ⟨Str.empty, rfl, by decide⟩
  · have h5 : cs.length < ret.capacity_ ∧ ret.buffer_.length = ret.capacity_ := by
      rcases h4 with ⟨_, b⟩ | h
      · exact absurd b h0
      · exact h
    have hlen : cs.length ≤ src.length := by
      have := congrArg List.length hsrc
      simp only [List.length_take, List.length_map] at this
      omega
    refine ⟨{ ret with
        buffer_ := ret.buffer_.take 0 ++ src.take cs.length ++ ret.buffer_.drop (0 + cs.length) },
      ?_, h2, h3, Or.inr ⟨h5.1, ?_⟩, ?_⟩
    · have hfit : 0 + cs.length ≤ ret.capacity_ ∧ cs.length ≤ src.length := ⟨by omega, hlen⟩
      rw [Str.CopyChars, if_neg h0, if_pos hfit]
    · simp only [List.take_zero, List.nil_append, List.length_append, List.length_take,
        List.length_drop]
      omega
    · simp only [List.take_zero, List.nil_append]
      rw [List.take_append_of_le_length (by simp [hlen]), List.take_take, Nat.min_self, hsrc]

theorem Str.ofChars_holds (cs : List Nat) (hn : cs.length + 1 < 2 ^ 32) :
    ∃ r, Str.ofChars cs = some r ∧ r.Holds cs := by
  obtain ⟨ret, h1, h2, r, h3, h4⟩ := Str.fresh_holds (cs.map some) cs
    (by rw [← List.map_take, List.take_length]) hn
  exact ⟨r, by rw [Str.ofChars, h1]; simp only [h2]; exact h3, h4⟩

theorem Str.copy_holds (s : Str) (cs : List Nat) (hs : s.Holds cs) :
    ∃ r, Str.copy s = some r ∧ r.Holds cs := by
  have hlen := Str.length_lt_of_holds s cs hs
  obtain ⟨ret, h1, h2, r, h3, h4⟩ := Str.fresh_holds s.buffer_ cs hs.2.2.2 (by omega)
  exact ⟨r, by rw [Str.copy, hs.1, h1]; simp only [h2]; exact h3, h4⟩

theorem Str.SubstringFrom_holds (s : Str) (cs : List Nat) (hs : s.Holds cs) (pos : Nat) :
    ∃ r, Str.SubstringFrom s pos = some r ∧ r.Holds (cs.drop pos) := by
  have hlen := Str.length_lt_of_holds s cs hs
  by_cases h : pos ≥ s.length_
  · refine ⟨Str.empty, by rw [Str.SubstringFrom, if_pos h], ?_⟩
    rw [List.drop_of_length_le (by rw [← hs.1]; exact h)]
    decide
  · have hsrc : (s.buffer_.drop pos).take (cs.drop pos).length = (cs.drop pos).map some := by
      rw [List.length_drop, List.take_drop,
        show pos + (cs.length - pos) = cs.length by rw [hs.1] at h; omega, hs.2.2.2,
        List.map_drop]
    obtain ⟨ret, h1, h2, r, h3, h4⟩ := Str.fresh_holds (s.buffer_.drop pos) (cs.drop pos) hsrc
      (by rw [List.length_drop]; omega)
    rw [List.length_drop] at h1 h2 h3
    exact ⟨r, by rw [Str.SubstringFrom, if_neg h, hs.1, h1]; simp only [h2]; exact h3, h4⟩

theorem Str.Substring_holds (s : Str) (cs : List Nat) (hs : s.Holds cs) (pos length : Nat)
    (hsum : pos + length < 2 ^ 32) :
    ∃ r, Str.Substring s pos length = some r ∧ r.Holds ((cs.drop pos).take length) := by
  have hlen := Str.length_lt_of_holds s cs hs
  by_cases h : pos ≥ s.length_
  · refine ⟨Str.empty, by rw [Str.Substring, if_pos h], ?_⟩
    rw [List.drop_of_length_le (by rw [← hs.1]; exact h), List.take_nil]
    decide
  · have hmod : (pos + length) % 2 ^ 32 = pos + length := Nat.mod_eq_of_lt hsum
    have hl2 : ((cs.drop pos).take length).length =
        (if pos + length > s.length_ then s.length_ - pos else length) := by
      rw [List.length_take, List.length_drop, hs.1]
      split <;> omega
    have hsrc : (s.buffer_.drop pos).take ((cs.drop pos).take length).length =
        ((cs.drop pos).take length).map some := by
      rw [List.length_take, List.length_drop, List.map_take, List.map_drop, ← hs.2.2.2,
        List.drop_take, List.take_take]
    obtain ⟨ret, h1, h2, r, h3, h4⟩ := Str.fresh_holds (s.buffer_.drop pos)
      ((cs.drop pos).take length) hsrc (by rw [List.length_take, List.length_drop]; omega)
    rw [hl2] at h1 h2 h3
    exact ⟨r, by rw [Str.Substring, if_neg h, hmod, h1]; simp only [h2]; exact h3, h4⟩

/-! ## Lemmas on appending to a string -/

theorem List.getElem?_append_cons_length {α : Type} (pre : List α) (x : α) (rest : List α) :
    (pre ++ x :: rest)[pre.length]? = some x := by
  induction pre with
  | nil => simp
  | cons a l ih => simpa using ih

theorem List.getElem?_append_cons_succ {α : Type} (pre : List α) (x y : α) (rest : List α) :
    (pre ++ x :: y :: rest)[pre.length + 1]? = some y := by
  have := List.getElem?_append_cons_length (pre ++ [x]) y rest
  simpa using this

theorem Str.chars_of_holds (s : Str) (cs : List Nat) (hs : s.Holds cs) : s.chars = cs := by
  have hid : ((fun cell : Option Nat => cell.getD 0) ∘ some) = id := rfl
  unfold Str.chars
  rw [hs.1, hs.2.2.2, List.map_map, hid, List.map_id]

theorem Str.Resize_shrink_holds (s : Str) (cs : List Nat) (hs : s.Holds cs) (n : Nat)
    (hn : n < 2 ^ 31) (hle : n ≤ cs.length) :
    ∃ r, Str.Resize s n = some r ∧ r.Holds (cs.take n) := by
  obtain ⟨r, h1, h2, h3, h4, h5⟩ := Str.Resize_spec s cs hs n hn
  have hlen : (cs.take n).length = n := by rw [List.length_take]; omega
  refine ⟨r, h1, by rw [hlen]; exact h2, h3, ?_, ?_⟩
  · rw [hlen]
    rcases h4 with ⟨a, b⟩ | h
    · refine Or.inl ⟨a, ?_⟩
      subst b
      rfl
    · exact Or.inr h
  · rw [hlen, ← h5, Nat.min_eq_left hle]

theorem Str.AppendChar_holds (s : Str) (cs : List Nat) (hs : s.Holds cs) (c : Nat)
    (hn : cs.length + 1 < 2 ^ 31) :
    ∃ r, Str.AppendChar s c = some r ∧ r.Holds (cs ++ [c]) := by
  obtain ⟨ret, h1, h2, h3, h4, h5⟩ := Str.Resize_spec s cs hs (cs.length + 1) hn
  have hmod : (s.length_ + 1) % 2 ^ 32 = cs.length + 1 := by
    rw [hs.1]
    exact Nat.mod_eq_of_lt (by omega)
  have h6 : cs.length + 1 < ret.capacity_ ∧ ret.buffer_.length = ret.capacity_ := by
    rcases h4 with ⟨_, b⟩ | h
    · omega
    · exact h
  have htk : cs.take (cs.length + 1) = cs := List.take_of_length_le (by omega)
  rw [Nat.min_eq_right (by omega), htk] at h5
  have hfit : s.length_ < ret.capacity_ := by rw [hs.1]; omega
  refine ⟨{ ret with buffer_ := ret.buffer_.set s.length_ (some c) }, ?_, ?_, h3, Or.inr ?_, ?_⟩
  · rw [Str.AppendChar, hmod, h1]
    simp only [Str.setChar, hfit, if_true]
  · simp only [List.length_append, List.length_singleton]
    exact h2
  · simp only [List.length_append, List.length_singleton, List.length_set]
    exact h6
  · simp only [List.length_append, List.length_singleton, hs.1]
    apply List.ext_getElem?
    intro i
    rw [List.getElem?_take, List.getElem?_set, List.map_append, List.getElem?_append]
    have h7 := congrArg (fun l => l[i]?) h5
    simp only [List.getElem?_take] at h7
    by_cases hi : i < cs.length
    · simp only [hi, if_true] at h7
      have hne : ¬ cs.length = i := by omega
      have hi1 : i < cs.length + 1 := by omega
      simp only [hi1, if_true, hne, if_false, List.length_map, hi, h7]
    · by_cases hi2 : i = cs.length
      · subst hi2
        have hlt : cs.length < ret.buffer_.length := by omega
        simp [hlt]
      · have hi3 : ¬ i < cs.length + 1 := by omega
        simp only [hi3, if_false, List.length_map, hi]
        rw [List.getElem?_eq_none]
        simp only [List.map_cons, List.map_nil, List.length_singleton]
        omega

theorem Str.Append_holds (s rhs : Str) (cs ct : List Nat) (hs : s.Holds cs)
    (ht : rhs.Holds ct) (hn : cs.length + ct.length < 2 ^ 31) :
    ∃ r, Str.Append s rhs = some r ∧ r.Holds (cs ++ ct) := by
  obtain ⟨ret, h1, h2, h3, h4, h5⟩ := Str.Resize_spec s cs hs (cs.length + ct.length) hn
  have hmod : (s.length_ + rhs.length_) % 2 ^ 32 = cs.length + ct.length := by
    rw [hs.1, ht.1]
    exact Nat.mod_eq_of_lt (by omega)
  have htk : cs.take (cs.length + ct.length) = cs := List.take_of_length_le (by omega)
  rw [Nat.min_eq_right (by omega), htk] at h5
  by_cases h0 : ct.length = 0
  · have hct : ct = [] := List.length_eq_zero.1 h0
    subst hct
    refine ⟨ret, ?_, ?_⟩
    · rw [Str.Append, hmod, h1]
      simp only [Str.CopyChars, ht.1, List.length_nil, if_true]
    · rw [List.append_nil]
      simp only [List.length_nil, Nat.add_zero] at h2 h4
      refine ⟨h2, h3, ?_, h5⟩
      rcases h4 with ⟨a, b⟩ | h
      · exact Or.inl ⟨a, List.length_eq_zero.1 b⟩
      · exact Or.inr h
  · have h6 : cs.length + ct.length < ret.capacity_ ∧ ret.buffer_.length = ret.capacity_ := by
      rcases h4 with ⟨_, b⟩ | h
      · omega
      · exact h
    have h7 : ct.length < rhs.capacity_ ∧ rhs.buffer_.length = rhs.capacity_ := by
      rcases ht.2.2.1 with ⟨_, b⟩ | h
      · subst b
        exact absurd rfl h0
      · exact h
    have hfit : s.length_ + rhs.length_ ≤ ret.capacity_ ∧ rhs.length_ ≤ rhs.buffer_.length := by
      rw [hs.1, ht.1]
      omega
    refine ⟨{ ret with
        buffer_ := ret.buffer_.take s.length_ ++ rhs.buffer_.take rhs.length_ ++
          ret.buffer_.drop (s.length_ + rhs.length_) }, ?_, ?_, h3, Or.inr ?_, ?_⟩
    · rw [Str.Append, hmod, h1]
      simp only []
      unfold Str.CopyChars
      rw [if_neg (by rw [ht.1]; exact h0), if_pos hfit]
    · simp only [List.length_append]
      exact h2
    · simp only [List.length_append, List.length_take, List.length_drop, hs.1, ht.1]
      omega
    · simp only [hs.1, ht.1, h5, ht.2.2.2, List.length_append]
      rw [List.take_append_of_le_length (by simp), List.take_of_length_le (by simp),
        List.map_append]

/-! ## Lemmas on splitting a string -/

theorem Str.scanTo_spec (s : Str) (cs : List Nat) (hs : s.Holds cs) (sep : Nat)
    (tail : List Nat) (htail : tail = [] ∨ ∃ t, tail = sep :: t) :
    ∀ (c pre : List Nat), cs = pre ++ c ++ tail → sep ∉ c →
      Str.scanTo s sep (s.length_ - pre.length) pre.length = some (pre.length + c.length) := by
  intro c
  induction c with
  | nil =>
    intro pre hcs _
    rcases htail with h | ⟨t, h⟩
    · subst h
      have hm : s.length_ - pre.length = 0 := by
        rw [hs.1, hcs]
        simp
      rw [hm, Str.scanTo]
      rfl
    · subst h
      have hm : s.length_ - pre.length = t.length + 1 := by
        rw [hs.1, hcs]
        simp
      have hc : s.charAt pre.length = some sep := by
        rw [Str.charAt_of_holds s cs hs, hcs, List.append_nil]
        exact List.getElem?_append_cons_length _ _ _
      rw [hm, Str.scanTo, hc]
      try simp
  | cons x c ih =>
    intro pre hcs hsep
    have hm : s.length_ - pre.length = (c.length + tail.length) + 1 := by
      rw [hs.1, hcs]
      simp only [List.length_append, List.length_cons, List.length_nil]
      omega
    have hc : s.charAt pre.length = some x := by
      rw [Str.charAt_of_holds s cs hs, hcs, List.append_assoc, List.cons_append]
      exact List.getElem?_append_cons_length _ _ _
    have hx : ¬ x = sep := fun h => hsep (by rw [h]; exact List.mem_cons_self _ _)
    rw [hm, Str.scanTo, hc]
    simp only [hx, if_false]
    have := ih (pre ++ [x]) (by rw [hcs]; simp) (fun h => hsep (List.mem_cons_of_mem _ h))
    have hm2 : s.length_ - (pre ++ [x]).length = c.length + tail.length := by
      rw [hs.1, hcs]
      simp only [List.length_append, List.length_cons, List.length_nil]
      omega
    rw [hm2] at this
    rw [List.length_append, List.length_singleton] at this
    rw [this, List.length_cons]
    congr 1
    omega

theorem Str.scanPast_spec (s : Str) (cs : List Nat) (hs : s.Holds cs) (sep y : Nat)
    (pre rest : List Nat) (hcs : cs = pre ++ sep :: y :: rest) (hy : y ≠ sep) :
    Str.scanPast s sep (s.length_ - pre.length) pre.length = some (pre.length + 1) := by
  have hm : s.length_ - pre.length = rest.length + 1 + 1 := by
    rw [hs.1, hcs]
    simp
  have hc : s.charAt pre.length = some sep := by
    rw [Str.charAt_of_holds s cs hs, hcs]
    exact List.getElem?_append_cons_length _ _ _
  have hc2 : s.charAt (pre.length + 1) = some y := by
    rw [Str.charAt_of_holds s cs hs, hcs]
    exact List.getElem?_append_cons_succ _ _ _ _
  rw [hm, Str.scanPast, hc]
  simp only [ne_eq, not_true_eq_false, if_false]
  rw [Str.scanPast, hc2]
  simp [hy]

theorem joinWith_cons_cons (sep : Nat) (c c2 : List Nat) (rest : List (List Nat)) :
    joinWith sep (c :: c2 :: rest) = c ++ sep :: joinWith sep (c2 :: rest) := rfl

theorem joinWith_length (sep : Nat) (names : List (List Nat))
    (hne : ∀ c ∈ names, c ≠ [] ∧ sep ∉ c) : names.length ≤ (joinWith sep names).length := by
  induction names with
  | nil => simp
  | cons c rest ih =>
    have hc : 0 < c.length := List.length_pos.2 (hne c (List.mem_cons_self _ _)).1
    cases rest with
    | nil =>
      simp only [joinWith, List.length_singleton]
      omega
    | cons c2 rest =>
      have := ih (fun x hx => hne x (List.mem_cons_of_mem _ hx))
      rw [joinWith_cons_cons, List.length_append, List.length_cons]
      simp only [List.length_cons] at this ⊢
      omega

theorem Str.splitFrom_joined (s : Str) (cs : List Nat) (hs : s.Holds cs) (sep : Nat) :
    ∀ (names : List (List Nat)) (pre : List Nat) (ret : List Str) (fuel : Nat),
      cs = pre ++ joinWith sep names → (∀ c ∈ names, c ≠ [] ∧ sep ∉ c) →
      names.length ≤ fuel →
      ∃ pieces, Str.splitFrom s sep fuel pre.length ret = some (ret ++ pieces) ∧
        List.Forall₂ Str.Holds pieces names := by
  have hlen := Str.length_lt_of_holds s cs hs
  intro names
  induction names with
  | nil =>
    intro pre ret fuel hcs _ _
    have h : ¬ pre.length < s.length_ := by
      rw [hs.1, hcs]
      simp [joinWith]
    refine ⟨[], ?_, List.Forall₂.nil⟩
    rw [Str.splitFrom.eq_def]
    simp only [h, if_false, List.append_nil]
  | cons c rest ih =>
    intro pre ret fuel hcs hne hfuel
    obtain ⟨hc0, hcsep⟩ := hne c (List.mem_cons_self _ _)
    have hcpos : 0 < c.length := List.length_pos.2 hc0
    obtain ⟨fuel, rfl⟩ : ∃ f, fuel = f + 1 := ⟨fuel - 1, by simp at hfuel; omega⟩
    cases rest with
    | nil =>
      have hcs2 : cs = pre ++ c ++ [] := by rw [hcs]; simp [joinWith]
      have h : pre.length < s.length_ := by
        rw [hs.1, hcs2]
        simp only [List.length_append, List.length_cons, List.length_nil]
        omega
      have hscan := Str.scanTo_spec s cs hs sep [] (Or.inl rfl) c pre hcs2 hcsep
      have hend : pre.length + c.length = s.length_ := by
        rw [hs.1, hcs2]
        simp
      obtain ⟨piece, hp1, hp2⟩ := Str.SubstringFrom_holds s cs hs pre.length
      have hdrop : cs.drop pre.length = c := by
        rw [hcs2]
        simp
      rw [hdrop] at hp2
      refine ⟨[piece], ?_, List.Forall₂.cons hp2 List.Forall₂.nil⟩
      rw [Str.splitFrom.eq_def]
      simp only [h, if_true, hscan]
      simp only [hend, if_true, hp1, Option.map_some']
    | cons c2 rest =>
      obtain ⟨hc20, hc2sep⟩ := hne c2 (List.mem_cons_of_mem _ (List.mem_cons_self _ _))
      obtain ⟨y, c2t, hc2⟩ : ∃ y t, c2 = y :: t := by
        cases c2 with
        | nil => exact absurd rfl hc20
        | cons y t => exact ⟨y, t, rfl⟩
      have hy : y ≠ sep := fun h => hc2sep (by rw [hc2, h]; exact List.mem_cons_self _ _)
      obtain ⟨tl, htl⟩ : ∃ tl, joinWith sep (c2 :: rest) = y :: tl := by
        cases rest with
        | nil => exact ⟨c2t, by simp [joinWith, hc2]⟩
        | cons c3 rest => exact ⟨c2t ++ sep :: joinWith sep (c3 :: rest), by
            rw [joinWith_cons_cons, hc2]; rfl⟩
      have hcs2 : cs = pre ++ c ++ (sep :: joinWith sep (c2 :: rest)) := by
        rw [hcs, joinWith_cons_cons]
        simp
      have h : pre.length < s.length_ := by
        rw [hs.1, hcs2]
        simp only [List.length_append, List.length_cons, List.length_nil]
        omega
      have hscan := Str.scanTo_spec s cs hs sep (sep :: joinWith sep (c2 :: rest))
        (Or.inr ⟨_, rfl⟩) c pre hcs2 hcsep
      have hend : ¬ pre.length + c.length = s.length_ := by
        rw [hs.1, hcs2]
        simp
      have hcs3 : cs = (pre ++ c) ++ sep :: y :: tl := by rw [hcs2, htl]
      have hpast := Str.scanPast_spec s cs hs sep y (pre ++ c) tl hcs3 hy
      rw [List.length_append] at hpast
      have hsum : pre.length + c.length < 2 ^ 32 := by
        have : pre.length + c.length < cs.length := by
          rw [hcs3]
          simp
        omega
      obtain ⟨piece, hp1, hp2⟩ := Str.Substring_holds s cs hs pre.length c.length hsum
      have hdrop : (cs.drop pre.length).take c.length = c := by
        rw [hcs2]
        simp
      rw [hdrop] at hp2
      obtain ⟨pieces, hq1, hq2⟩ := ih (pre ++ c ++ [sep]) (ret ++ [piece]) fuel
        (by rw [hcs2]; simp) (fun x hx => hne x (List.mem_cons_of_mem _ hx))
        (by simp at hfuel ⊢; omega)
      refine ⟨piece :: pieces, ?_, List.Forall₂.cons hp2 hq2⟩
      rw [Str.splitFrom.eq_def]
      simp only [h, if_true, hscan]
      simp only [hend, if_false, hpast, Nat.add_sub_cancel_left, hp1]
      have hl : (pre ++ c ++ [sep]).length = pre.length + c.length + 1 := by
        simp only [List.length_append, List.length_singleton]
      rw [hl] at hq1
      rw [hq1]
      simp

theorem Str.Split_joined (s : Str) (sep : Nat) (names : List (List Nat))
    (hs : s.Holds (joinWith sep names)) (hne : ∀ c ∈ names, c ≠ [] ∧ sep ∉ c) :
    ∃ pieces, Str.Split s sep = some pieces ∧ List.Forall₂ Str.Holds pieces names := by
  obtain ⟨pieces, h1, h2⟩ := Str.splitFrom_joined s _ hs sep names [] [] s.length_
    (by simp) hne (by rw [hs.1]; exact joinWith_length sep names hne)
  exact ⟨pieces, by rw [Str.Split]; simpa using h1, h2⟩



/-! ## Lemmas on the names of the scene variables -/

theorem Str.PlusChar_holds (s : Str) (cs : List Nat) (hs : s.Holds cs) (c : Nat)
    (hn : cs.length + 1 < 2 ^ 31) :
    ∃ r, Str.PlusChar s c = some r ∧ r.Holds (cs ++ [c]) := by
  obtain ⟨ret, h1, h2⟩ := Str.copy_holds s cs hs
  obtain ⟨r, h3, h4⟩ := Str.AppendChar_holds ret cs h2 c hn
  exact ⟨r, by rw [Str.PlusChar, h1]; exact h3, h4⟩

theorem joinTrailing_length (sep : Nat) (names : List (List Nat)) :
    (joinTrailing sep names).length = (names.map (fun c => c.length + 1)).sum := by
  induction names with
  | nil => rfl
  | cons c rest ih =>
    simp only [joinTrailing, List.length_append, List.length_cons, ih, List.map_cons,
      List.sum_cons]
    omega

theorem joinTrailing_take (sep : Nat) (names : List (List Nat)) (hne : names ≠ []) :
    (joinTrailing sep names).take ((joinTrailing sep names).length - 1) =
      joinWith sep names := by
  induction names with
  | nil => exact absurd rfl hne
  | cons c rest ih =>
    cases rest with
    | nil =>
      simp only [joinTrailing, joinWith, List.length_append, List.length_cons, List.length_nil]
      rw [show c.length + (0 + 1) - 1 = c.length by omega]
      exact List.take_left _ _
    | cons c2 rest =>
      have h := ih (by simp)
      have hpos : 0 < (joinTrailing sep (c2 :: rest)).length := by
        simp [joinTrailing]
      rw [joinWith_cons_cons, ← h]
      rw [show joinTrailing sep (c :: c2 :: rest) = c ++ sep :: joinTrailing sep (c2 :: rest)
        from rfl]
      rw [List.length_append, List.length_cons,
        show c.length + ((joinTrailing sep (c2 :: rest)).length + 1) - 1 =
          c.length + ((joinTrailing sep (c2 :: rest)).length - 1 + 1) by omega,
        List.take_append, List.take_succ_cons]

theorem Scene.joinVarNames_holds :
    ∀ (t : VarNameMap) (ret : Str) (acc : List Nat), ret.Holds acc →
      (∀ e ∈ t, e.2.Holds e.2.chars) → acc.length + VarNameMap.attrLength t < 2 ^ 31 →
      ∃ r, Scene.joinVarNames t ret = some r ∧
        r.Holds (acc ++ joinTrailing 59 (t.map (fun e => e.2.chars))) := by
  intro t
  induction t with
  | nil =>
    intro ret acc hret _ _
    exact ⟨ret, rfl, by simpa [joinTrailing] using hret⟩
  | cons e rest ih =>
    intro ret acc hret hvalid hsize
    obtain ⟨key, name⟩ := e
    have hname : name.Holds name.chars := hvalid (key, name) (List.mem_cons_self _ _)
    have hlen : name.length_ = name.chars.length := hname.1
    simp only [VarNameMap.attrLength, List.map_cons, List.sum_cons] at hsize
    have hsize2 : acc.length + (name.chars.length + 1) +
        VarNameMap.attrLength rest < 2 ^ 31 := by
      simp only [VarNameMap.attrLength]
      omega
    obtain ⟨piece, h1, h2⟩ := Str.PlusChar_holds name name.chars hname 59 (by omega)
    obtain ⟨ret2, h3, h4⟩ := Str.Append_holds ret piece acc (name.chars ++ [59]) hret h2
      (by simp only [List.length_append, List.length_singleton]; omega)
    obtain ⟨r, h5, h6⟩ := ih ret2 (acc ++ (name.chars ++ [59])) h4
      (fun x hx => hvalid x (List.mem_cons_of_mem _ hx))
      (by simp only [List.length_append, List.length_singleton]; omega)
    refine ⟨r, ?_, ?_⟩
    · simp only [Scene.joinVarNames, h1, h3]
      exact h5
    · simpa [joinTrailing] using h6

theorem Scene.GetVarNamesAttr_holds (t : VarNameMap) (hne : t ≠ [])
    (hvalid : ∀ e ∈ t, e.2.Holds e.2.chars) (hsize : VarNameMap.attrLength t < 2 ^ 31) :
    ∃ value, Scene.GetVarNamesAttr t = some value ∧
      value.Holds (joinWith 59 (t.map (fun e => e.2.chars))) := by
  obtain ⟨ret, h1, h2⟩ := Scene.joinVarNames_holds t Str.empty [] (by decide) hvalid
    (by simpa using hsize)
  rw [List.nil_append] at h2
  have hnames : t.map (fun e => e.2.chars) ≠ [] := by
    cases t with
    | nil => exact absurd rfl hne
    | cons e rest => simp
  have hlen : (joinTrailing 59 (t.map (fun e => e.2.chars))).length =
      VarNameMap.attrLength t := by
    rw [joinTrailing_length, VarNameMap.attrLength, List.map_map]
    congr 1
    apply List.map_congr_left
    intro e he
    simp only [Function.comp, (hvalid e he).1]
  have hpos : 0 < (joinTrailing 59 (t.map (fun e => e.2.chars))).length := by
    cases t with
    | nil => exact absurd rfl hne
    | cons e rest => simp [joinTrailing]
  have hmod : (ret.length_ + 2 ^ 32 - 1) % 2 ^ 32 =
      (joinTrailing 59 (t.map (fun e => e.2.chars))).length - 1 := by
    rw [h2.1]
    omega
  obtain ⟨r, h3, h4⟩ := Str.Resize_shrink_holds ret _ h2
    ((joinTrailing 59 (t.map (fun e => e.2.chars))).length - 1) (by omega) (by omega)
  rw [joinTrailing_take 59 _ hnames] at h4
  refine ⟨r, ?_, h4⟩
  have hemp : t.isEmpty = false := by
    cases t with
    | nil => exact absurd rfl hne
    | cons e rest => rfl
  simp only [Scene.GetVarNamesAttr, hemp, Bool.not_false, if_true, h1, hmod]
  exact h3

theorem VarNameMap.Assign_fresh (m : VarNameMap) (key : Nat) (value : Str)
    (h : key ∉ m.map Prod.fst) : VarNameMap.Assign m key value = m ++ [(key, value)] := by
  induction m with
  | nil => rfl
  | cons e rest ih =>
    obtain ⟨k, v⟩ := e
    have hk : ¬ k = key := fun hk => h (by simp [hk])
    simp only [VarNameMap.Assign, hk, if_false, List.cons_append]
    rw [ih (fun hm => h (by simp only [List.map_cons, List.mem_cons]; exact Or.inr hm))]

theorem Scene.assignVarNames_fresh (hash : List Nat → Nat) :
    ∀ (pieces : List Str) (m : VarNameMap),
      (m.map Prod.fst ++ pieces.map (fun p => hash p.chars)).Nodup →
      Scene.assignVarNames hash pieces m = m ++ pieces.map (fun p => (hash p.chars, p)) := by
  intro pieces
  induction pieces with
  | nil =>
    intro m _
    simp [Scene.assignVarNames]
  | cons p rest ih =>
    intro m hnd
    have hfresh : hash p.chars ∉ m.map Prod.fst := by
      intro hm
      rw [List.nodup_append] at hnd
      exact hnd.2.2 hm (by simp)
    rw [Scene.assignVarNames, VarNameMap.Assign_fresh m _ _ hfresh, ih]
    · simp
    · simpa [List.nodup_append, List.nodup_cons] using hnd

theorem Str.chars_of_forall₂ (pieces : List Str) (names : List (List Nat))
    (h : List.Forall₂ Str.Holds pieces names) : pieces.map Str.chars = names := by
  induction h with
  | nil => rfl
  | cons h1 _ ih => rw [List.map_cons, ih, Str.chars_of_holds _ _ h1]

theorem VarNameMap.Find_Assign_self (m : VarNameMap) (key : Nat) (value : Str) :
    VarNameMap.Find (VarNameMap.Assign m key value) key = some value := by
  induction m with
  | nil => simp [VarNameMap.Assign, VarNameMap.Find]
  | cons e rest ih =>
    obtain ⟨k, v⟩ := e
    by_cases hk : k = key
    · simp [VarNameMap.Assign, VarNameMap.Find, hk]
    · simp [VarNameMap.Assign, VarNameMap.Find, hk, ih]

theorem VarNameMap.Find_none (m : VarNameMap) (key : Nat) (h : key ∉ m.map Prod.fst) :
    VarNameMap.Find m key = none := by
  induction m with
  | nil => rfl
  | cons e rest ih =>
    obtain ⟨k, v⟩ := e
    have hk : ¬ k = key := fun hk => h (by simp [hk])
    simp only [VarNameMap.Find, hk, if_false]
    exact ih (fun hm => h (by simp only [List.map_cons, List.mem_cons]; exact Or.inr hm))

theorem Scene.var_names_round_trip (hash : List Nat → Nat) (t : VarNameMap)
    (hreg : VarNameMap.Registered hash t)
    (hnames : ∀ e ∈ t, e.2.chars ≠ [] ∧ 59 ∉ e.2.chars)
    (hsize : VarNameMap.attrLength t < 2 ^ 31) :
    ∃ value t2, Scene.GetVarNamesAttr t = some value ∧
      Scene.SetVarNamesAttr hash value = some t2 ∧
      t2.map (fun e => (e.1, e.2.chars)) = t.map (fun e => (e.1, e.2.chars)) := by
  obtain ⟨hnd, hvalid⟩ := hreg
  by_cases hne : t = []
  · subst hne
    exact ⟨Str.empty, [], rfl, rfl, rfl⟩
  · obtain ⟨value, h1, h2⟩ := Scene.GetVarNamesAttr_holds t hne (fun e he => (hvalid e he).1)
      hsize
    obtain ⟨pieces, h3, h4⟩ := Str.Split_joined value 59 (t.map (fun e => e.2.chars)) h2
      (by
        intro c hc
        obtain ⟨e, he, rfl⟩ := List.mem_map.1 hc
        exact hnames e he)
    have hchars := Str.chars_of_forall₂ pieces _ h4
    have hkeys : pieces.map (fun p => hash p.chars) = t.map Prod.fst := by
      have := congrArg (List.map hash) hchars
      rw [List.map_map, List.map_map] at this
      rw [show (fun p : Str => hash p.chars) = hash ∘ Str.chars from rfl, this]
      apply List.map_congr_left
      intro e he
      exact ((hvalid e he).2).symm
    refine ⟨value, Scene.assignVarNames hash pieces [], h1, ?_, ?_⟩
    · rw [Scene.SetVarNamesAttr, h3]
    · rw [Scene.assignVarNames_fresh hash pieces [] (by simpa [hkeys] using hnd)]
      simp only [List.nil_append, List.map_map]
      have e1 : pieces.map ((fun e : Nat × Str => (e.1, e.2.chars)) ∘
          (fun p => (hash p.chars, p))) =
          (pieces.map Str.chars).map (fun c => (hash c, c)) := by
        rw [List.map_map]
        rfl
      rw [e1, hchars, List.map_map]
      apply List.map_congr_left
      intro e he
      simp only [Function.comp, ← (hvalid e he).2]

theorem VarNameMap.Assign_keeps (Q : Nat × Str → Prop) (key : Nat) (value : Str)
    (hq : Q (key, value)) :
    ∀ (m : VarNameMap), (m.map Prod.fst).Nodup → (∀ e ∈ m, Q e) →
      ((VarNameMap.Assign m key value).map Prod.fst).Nodup ∧
      (∀ e ∈ VarNameMap.Assign m key value, Q e) ∧
      (∀ k ∈ (VarNameMap.Assign m key value).map Prod.fst, k = key ∨ k ∈ m.map Prod.fst) := by
  intro m
  induction m with
  | nil =>
    intro _ _
    refine ⟨by simp [VarNameMap.Assign], ?_, ?_⟩
    · intro e he
      simp only [VarNameMap.Assign, List.mem_singleton] at he
      rw [he]
      exact hq
    · intro k hk
      simp only [VarNameMap.Assign, List.map_cons, List.map_nil, List.mem_singleton] at hk
      exact Or.inl hk
  | cons e rest ih =>
    intro hnd hall
    obtain ⟨k0, v0⟩ := e
    simp only [List.map_cons, List.nodup_cons] at hnd
    by_cases hk : k0 = key
    · simp only [VarNameMap.Assign, hk, if_true]
      refine ⟨?_, ?_, ?_⟩
      · simp only [List.map_cons, List.nodup_cons]
        exact ⟨by rw [← hk]; exact hnd.1, hnd.2⟩
      · intro e he
        rcases List.mem_cons.1 he with h | h
        · rw [h]
          exact hq
        · exact hall e (List.mem_cons_of_mem _ h)
      · intro k hk2
        simp only [List.map_cons, List.mem_cons] at hk2 ⊢
        rcases hk2 with h | h
        · exact Or.inl h
        · exact Or.inr (Or.inr h)
    · obtain ⟨i1, i2, i3⟩ := ih hnd.2 (fun e he => hall e (List.mem_cons_of_mem _ he))
      simp only [VarNameMap.Assign, hk, if_false]
      refine ⟨?_, ?_, ?_⟩
      · simp only [List.map_cons, List.nodup_cons]
        refine ⟨fun hmem => ?_, i1⟩
        rcases i3 k0 hmem with h | h
        · exact hk h
        · exact hnd.1 h
      · intro e he
        rcases List.mem_cons.1 he with h | h
        · rw [h]
          exact hall _ (List.mem_cons_self _ _)
        · exact i2 e h
      · intro k hk2
        simp only [List.map_cons, List.mem_cons] at hk2 ⊢
        rcases hk2 with h | h
        · exact Or.inr (Or.inl h)
        · rcases i3 k h with h2 | h2
          · exact Or.inl h2
          · exact Or.inr (Or.inr h2)

/-- The empty table is a table of registered names, and `RegisterVar` of a well-formed
name and `UnregisterVar` keep a table one. -/
theorem VarNameMap.Registered_steps (hash : List Nat → Nat) :
    VarNameMap.Registered hash [] ∧
    (∀ (t : VarNameMap) (name : Str), VarNameMap.Registered hash t → name.Holds name.chars →
      VarNameMap.Registered hash (Scene.RegisterVar hash t name)) ∧
    (∀ (t : VarNameMap) (name : Str), VarNameMap.Registered hash t →
      VarNameMap.Registered hash (Scene.UnregisterVar hash t name)) := by
  refine ⟨⟨by simp, by simp⟩, ?_, ?_⟩
  · intro t name hreg hname
    obtain ⟨h1, h2, _⟩ := VarNameMap.Assign_keeps
      (fun e => e.2.Holds e.2.chars ∧ e.1 = hash e.2.chars) (hash name.chars) name
      ⟨hname, rfl⟩ t hreg.1 hreg.2
    exact ⟨h1, h2⟩
  · intro t name hreg
    refine ⟨?_, fun e he => hreg.2 e (List.mem_of_mem_filter he)⟩
    unfold Scene.UnregisterVar VarNameMap.Erase
    exact (List.Nodup.sublist ((List.filter_sublist _).map Prod.fst) hreg.1)

/-- C27: on a table of registered names (one entry a key, each name well formed and stored
under the hash of its characters) in which no name is empty or contains `;`, with an
attribute of fewer than `2 ^ 31` characters, `GetVarNamesAttr` returns a string on which
`SetVarNamesAttr` rebuilds the same keys with the same characters in the same order;
`GetVarNamesAttr` of the empty table is the empty string; after `RegisterVar(name)` the
lookup of the hash of `name` returns `name`; and the lookup of a hash that has no entry
returns the empty string. -/
theorem C27_var_names_round_trip (hash : List Nat → Nat) (t : VarNameMap)
    (hreg : VarNameMap.Registered hash t)
    (hnames : ∀ e ∈ t, e.2.chars ≠ [] ∧ 59 ∉ e.2.chars)
    (hsize : VarNameMap.attrLength t < 2 ^ 31) :
    (∃ value t2, Scene.GetVarNamesAttr t = some value ∧
      Scene.SetVarNamesAttr hash value = some t2 ∧
      t2.map (fun e => (e.1, e.2.chars)) = t.map (fun e => (e.1, e.2.chars))) ∧
    Scene.GetVarNamesAttr [] = some Str.empty ∧
    (∀ name : Str,
      Scene.GetVarName (Scene.RegisterVar hash t name) (hash name.chars) = name) ∧
    (∀ key, key ∉ t.map Prod.fst → Scene.GetVarName t key = Str.empty) := by
  refine ⟨Scene.var_names_round_trip hash t hreg hnames hsize, rfl, fun name => ?_,
    fun key hkey => ?_⟩
  · rw [Scene.GetVarName, Scene.RegisterVar, VarNameMap.Find_Assign_self]
  · rw [Scene.GetVarName, VarNameMap.Find_none t key hkey]

theorem C27_var_names_round_trip_witness :
    VarNameMap.Registered (fun cs => cs.sum) VarNameMap.sample ∧
    (Scene.GetVarNamesAttr VarNameMap.sample).map Str.chars = some [104, 105, 59, 97] ∧
    ((∃ value t2, Scene.GetVarNamesAttr VarNameMap.sample = some value ∧
      Scene.SetVarNamesAttr (fun cs => cs.sum) value = some t2 ∧
      t2.map (fun e => (e.1, e.2.chars)) =
        VarNameMap.sample.map (fun e => (e.1, e.2.chars))) ∧
    Scene.GetVarNamesAttr [] = some Str.empty ∧
    (∀ name : Str,
      Scene.GetVarName (Scene.RegisterVar (fun cs => cs.sum) VarNameMap.sample name)
        ((fun cs : List Nat => cs.sum) name.chars) = name) ∧
    (∀ key, key ∉ VarNameMap.sample.map Prod.fst →
      Scene.GetVarName VarNameMap.sample key = Str.empty)) :=
  ⟨by decide, by decide,
    C27_var_names_round_trip (fun cs => cs.sum) VarNameMap.sample (by decide) (by decide)
      (by decide)⟩

/-- When the sum `pos + length` wraps, `Substring` does not clamp the length: it resizes the
result to `length` and then writes the terminator outside the new buffer (for the length
`0xFFFFFFFF`) or copies `length` cells, more than the source buffer has behind `pos`. -/
theorem Str.Substring_wraps (s : Str) (cs : List Nat) (hs : s.Holds cs) (pos length : Nat)
    (hpos : pos < cs.length) (hlength : length < 2 ^ 32) (hsum : 2 ^ 32 ≤ pos + length) :
    Str.Substring s pos length = none := by
  obtain ⟨hl, hc, hshape, _⟩ := hs
  have hcap : cs.length < s.capacity_ ∧ s.buffer_.length = s.capacity_ := by
    rcases hshape with ⟨_, b⟩ | h
    · subst b
      simp at hpos
    · exact h
  have h1 : ¬ pos ≥ s.length_ := by omega
  have hmod : (pos + length) % 2 ^ 32 = pos + length - 2 ^ 32 := by omega
  have h2 : ¬ (pos + length - 2 ^ 32 > s.length_) := by omega
  rw [Str.Substring, if_neg h1, hmod, if_neg h2]
  by_cases hmax : length = 2 ^ 32 - 1
  · subst hmax
    rfl
  · obtain ⟨ret, h3, h4, _, _⟩ := Str.Resize_empty_spec length (by omega)
    rw [h3]
    have h0 : ¬ length = 0 := by omega
    have hfit : ¬ (0 + length ≤ ret.capacity_ ∧ length ≤ (s.buffer_.drop pos).length) := by
      rw [List.length_drop]
      omega
    simp only [h4]
    rw [Str.CopyChars, if_neg h0, if_neg hfit]

end Urho3D
